import Mathlib

/-!
ImageMagick pixel core: compositing and kernel construction

A shallow embedding of `MagickCore/composite.c` and `MagickCore/effect.c`.

Conventions of the embedding
* The configuration is the default one of `magick-type.h`:
  `MAGICKCORE_QUANTUM_DEPTH` 16 without HDRI, so `Quantum` is `unsigned short`
  and `QuantumRange` is 65535.
* `MagickRealType` and `double` are read as exact numbers (`ℚ`, or an ordered
  field where a transcendental function is involved); rounding of the
  machine arithmetic is outside the model.
* A pixel pointer (`p`, `q`) is a pixel index into its row, and a pixel is the
  map from sample offset to sample.
-/

namespace ImageMagick

/-! ## Samples (magick-type.h) -/

/-- The value of `QuantumRange` for quantum depth 16 without HDRI. -/
def QuantumRange : ℕ := 65535

/-- The type `Quantum` (`unsigned short`): the samples `0 .. QuantumRange`. -/
abbrev Quantum := Fin (QuantumRange + 1)

/-- The type `MagickRealType`, read as exact rationals. -/
abbrev MagickRealType := ℚ

/-- The constant `QuantumScale`, `1.0/QuantumRange`. -/
def QuantumScale : ℚ := 1 / (QuantumRange : ℚ)

/-- The constant `MagickEpsilon` for quantum depth 16, `1.0e-10`. -/
def MagickEpsilon : ℚ := 1 / 10000000000

/-- The sample of a fully opaque alpha channel. -/
def OpaqueAlpha : Quantum := Fin.last QuantumRange

/-- The sample of a fully transparent alpha channel. -/
def TransparentAlpha : Quantum := 0

/-- The real value of a sample, the cast `(MagickRealType) q`. -/
def Quantum.toReal (q : Quantum) : ℚ := (q.val : ℚ)

/-- Modelled from the spec: `ClampToQuantum` of quantum.h (a header that is not
among the sources), for the build without HDRI: values at or below 0 give 0,
values at or above `QuantumRange` give `QuantumRange`, every other value is
rounded by the cast `(Quantum) (value+0.5)`. -/
def ClampToQuantum (value : ℚ) : Quantum :=
  if value ≤ 0 then 0
  else if (QuantumRange : ℚ) ≤ value then Fin.last QuantumRange
  else Fin.ofNat (Int.toNat ⌊value + 1 / 2⌋)

/-! ## Channels and images (pixel accessors) -/

/-- The pixel channels an image can carry. -/
inductive PixelChannel
  | Red | Green | Blue | Black | Alpha | Index | Mask
  deriving DecidableEq, Repr

/-- A `PixelTrait` is a bit set. -/
abbrev PixelTrait := ℕ

/-- The empty trait: the channel is not part of the image. -/
def UndefinedPixelTrait : PixelTrait := 0
/-- The trait bit of a channel that is copied through. -/
def CopyPixelTrait : PixelTrait := 1
/-- The trait bit of a channel that is updated. -/
def UpdatePixelTrait : PixelTrait := 2
/-- The trait bit of a channel that is blended with alpha. -/
def BlendPixelTrait : PixelTrait := 4

/-- A pixel: the sample stored at each offset `0 .. number_channels-1`. -/
abbrev Pixel := ℕ → Quantum

/-- A row of pixels, indexed by column. -/
abbrev PixelRow := ℕ → Pixel

/-- Modelled from the spec: the `Image` record (image.h is not among the
sources), reduced to what the loops read: the extent, the channel count, the
channel map (`channel_at` is read by offset, `traits` and `offset` by
channel) and the pixel store `pixels y x i`. -/
structure Image where
  columns : ℕ
  rows : ℕ
  number_channels : ℕ
  channel_at : ℕ → PixelChannel
  traits : PixelChannel → PixelTrait
  offset : PixelChannel → ℕ
  pixels : ℕ → PixelRow

/-- The accessor `GetPixelChannels`. -/
def GetPixelChannels (image : Image) : ℕ := image.number_channels

/-- The accessor `GetPixelChannelMapChannel`. -/
def GetPixelChannelMapChannel (image : Image) (i : ℕ) : PixelChannel :=
  image.channel_at i

/-- The accessor `GetPixelChannelMapTraits`. -/
def GetPixelChannelMapTraits (image : Image) (channel : PixelChannel) : PixelTrait :=
  image.traits channel

/-- Modelled from the spec: `GetPixelChannel` of pixel-accessor.h (not among
the sources): the sample of `channel` in the pixel, 0 when the image has no
such channel. -/
def GetPixelChannel (image : Image) (channel : PixelChannel) (p : Pixel) : Quantum :=
  if image.traits channel = UndefinedPixelTrait then 0 else p (image.offset channel)

/-- Modelled from the spec: `GetPixelAlpha` of pixel-accessor.h (not among the
sources): the alpha sample of the pixel, opaque when the image has no alpha
channel. -/
def GetPixelAlpha (image : Image) (p : Pixel) : Quantum :=
  if image.traits PixelChannel.Alpha = UndefinedPixelTrait then OpaqueAlpha
  else p (image.offset PixelChannel.Alpha)

/-- Modelled from the spec: `GetPixelMask` of pixel-accessor.h (not among the
sources): the mask sample of the pixel, 0 when the image has no mask
channel. -/
def GetPixelMask (image : Image) (p : Pixel) : Quantum :=
  if image.traits PixelChannel.Mask = UndefinedPixelTrait then 0
  else p (image.offset PixelChannel.Mask)

/-! ## The pixel cache as seen by a row loop -/

/-- One access of a row loop to the pixel cache, tagged with the destination
row `y` being processed. -/
inductive CacheAccess
  | virtualRow (y : ℕ)
  | authenticRow (y : ℕ)
  | syncRow (y : ℕ)
  deriving DecidableEq, Repr

/-- The destination row an access belongs to. -/
def CacheAccess.row : CacheAccess → ℕ
  | .virtualRow y => y
  | .authenticRow y => y
  | .syncRow y => y

/-- Modelled from the spec: the pixel cache and the progress monitor (cache.c
and monitor.c are not among the sources) as an oracle. For the destination
row `y`: whether `GetCacheViewVirtualPixels` on the source returns a row,
whether `GetCacheViewAuthenticPixels` on the destination returns a row,
whether `SyncCacheViewAuthenticPixels` commits it (a failed sync leaves the
stored row as it was); `progress_monitor` is the callback of the image, if
any, applied to the progress counter; `oneVirtualPixel x y` is the pixel
`GetOneVirtualPixel` delivers for the source at `(x, y)`, read by channel. -/
structure CacheOracle where
  getVirtualPixels : ℕ → Bool
  getAuthenticPixels : ℕ → Bool
  syncAuthenticPixels : ℕ → Bool
  progress_monitor : Option (ℕ → Bool)
  oneVirtualPixel : ℤ → ℤ → PixelChannel → Quantum

/-! ## CompositeOverImage (composite.c) -/

/-- One turn of the channel loop of the authentic composite in
`CompositeOverImage`: the sample at offset `i` of the destination pixel `q`
from the source pixel `p`, with `Sa`, `Da` and `alpha` computed before the
loop. -/
def CompositeOverChannel (image composite_image : Image) (Sa Da alpha : ℚ)
    (p : Pixel) (q : Pixel) (i : ℕ) : Pixel :=
  let channel := GetPixelChannelMapChannel image i
  let traits := GetPixelChannelMapTraits image channel
  let composite_traits := GetPixelChannelMapTraits composite_image channel
  if traits = UndefinedPixelTrait ∨ composite_traits = UndefinedPixelTrait then q
  else if traits &&& CopyPixelTrait ≠ 0 then
    if channel ≠ PixelChannel.Alpha then
      Function.update q i (GetPixelChannel composite_image channel p)
    else
      Function.update q i (ClampToQuantum ((QuantumRange : ℚ) * alpha))
  else
    let Sc : ℚ := (GetPixelChannel composite_image channel p).toReal
    let Dc : ℚ := (q i).toReal
    let gamma : ℚ := 1 / (if |alpha| ≤ MagickEpsilon then 1 else alpha)
    Function.update q i (ClampToQuantum (gamma * (Sa * Sc - Sa * Da * Dc + Da * Dc)))

/-- The authentic composite of `CompositeOverImage` for one pixel whose source
pixel `p` is not masked: `Sa`, `Da`, `alpha`, then the channel loop. -/
def CompositeOverPixel (image composite_image : Image) (p : Pixel) (q : Pixel) : Pixel :=
  let Sa : ℚ := QuantumScale * (GetPixelAlpha composite_image p).toReal
  let Da : ℚ := QuantumScale * (GetPixelAlpha image q).toReal
  let alpha : ℚ := Sa * (-Da) + Sa + Da
  (List.range (GetPixelChannels image)).foldl
    (CompositeOverChannel image composite_image Sa Da alpha p) q

/-- One turn of the channel loop of the virtual composite in
`CompositeOverImage`: `q[i]=source[channel]` for the channels both images
define. -/
def VirtualOverChannel (image composite_image : Image) (source : PixelChannel → Quantum)
    (q : Pixel) (i : ℕ) : Pixel :=
  let channel := GetPixelChannelMapChannel image i
  let traits := GetPixelChannelMapTraits image channel
  let composite_traits := GetPixelChannelMapTraits composite_image channel
  if traits = UndefinedPixelTrait ∨ composite_traits = UndefinedPixelTrait then q
  else Function.update q i (source channel)

/-- The virtual composite of `CompositeOverImage` for one destination pixel
that is not masked. -/
def VirtualOverPixel (image composite_image : Image) (source : PixelChannel → Quantum)
    (q : Pixel) : Pixel :=
  (List.range (GetPixelChannels image)).foldl
    (VirtualOverChannel image composite_image source) q

/-- The column loop of `CompositeOverImage` for the destination row `y`:
`pixels` is the source row (`none` when `y` is outside the overlay), `p` the
index of the current source pixel, `x` the current column, which is also the
position of `q` (every path advances `q` by one pixel), and the first
argument counts the columns left, `image->columns - x`. -/
def CompositeOverColumns (cache : CacheOracle) (image composite_image : Image)
    (clip_to_self : Bool) (x_offset y_offset : ℤ) (y : ℕ) (pixels : Option PixelRow) :
    ℕ → ℕ → ℕ → PixelRow → PixelRow
  | 0, _, _, q => q
  | n + 1, x, p, q =>
    if clip_to_self = true ∧ (x : ℤ) < x_offset then
      CompositeOverColumns cache image composite_image clip_to_self x_offset y_offset y
        pixels n (x + 1) p q
    else if clip_to_self = true ∧ (composite_image.columns : ℤ) ≤ (x : ℤ) - x_offset then
      q
    else
      match pixels with
      | some src =>
        if (x : ℤ) < x_offset ∨ (composite_image.columns : ℤ) ≤ (x : ℤ) - x_offset then
          CompositeOverColumns cache image composite_image clip_to_self x_offset y_offset y
            pixels n (x + 1) p
            (if GetPixelMask image (q x) ≠ 0 then q
             else Function.update q x (VirtualOverPixel image composite_image
               (cache.oneVirtualPixel ((x : ℤ) - x_offset) ((y : ℤ) - y_offset)) (q x)))
        else
          CompositeOverColumns cache image composite_image clip_to_self x_offset y_offset y
            pixels n (x + 1)
            (if composite_image.columns ≤ p + 1 then 0 else p + 1)
            (if GetPixelMask composite_image (src p) ≠ 0 then q
             else Function.update q x (CompositeOverPixel image composite_image (src p) (q x)))
      | none =>
        CompositeOverColumns cache image composite_image clip_to_self x_offset y_offset y
          pixels n (x + 1) p
          (if GetPixelMask image (q x) ≠ 0 then q
           else Function.update q x (VirtualOverPixel image composite_image
             (cache.oneVirtualPixel ((x : ℤ) - x_offset) ((y : ℤ) - y_offset)) (q x)))

/-- What the column loop of `CompositeOverImage` does to the pixel of column
`k`, read off the loop body: skipped under `clip_to_self` outside the source
columns, a virtual composite outside the overlay, an authentic composite
with the source pixel of column `k - x_offset` inside it. -/
def CompositeOverColumn (cache : CacheOracle) (image composite_image : Image)
    (clip_to_self : Bool) (x_offset y_offset : ℤ) (y : ℕ) (pixels : Option PixelRow)
    (q : PixelRow) (k : ℕ) : Pixel :=
  if clip_to_self = true ∧
      ((k : ℤ) < x_offset ∨ (composite_image.columns : ℤ) ≤ (k : ℤ) - x_offset) then q k
  else
    match pixels with
    | some src =>
      if (k : ℤ) < x_offset ∨ (composite_image.columns : ℤ) ≤ (k : ℤ) - x_offset then
        (if GetPixelMask image (q k) ≠ 0 then q k
         else VirtualOverPixel image composite_image
           (cache.oneVirtualPixel ((k : ℤ) - x_offset) ((y : ℤ) - y_offset)) (q k))
      else
        (if GetPixelMask composite_image (src (Int.toNat ((k : ℤ) - x_offset))) ≠ 0 then q k
         else CompositeOverPixel image composite_image
           (src (Int.toNat ((k : ℤ) - x_offset))) (q k))
    | none =>
      (if GetPixelMask image (q k) ≠ 0 then q k
       else VirtualOverPixel image composite_image
         (cache.oneVirtualPixel ((k : ℤ) - x_offset) ((y : ℤ) - y_offset)) (q k))

/-- The state the row loop of a composite carries from one row to the next:
`status`, the `progress` counter, the destination pixel store and the trace
of cache accesses made so far. -/
structure CompositeState where
  status : Bool
  progress : ℕ
  pixels : ℕ → PixelRow
  trace : List CacheAccess

/-- The end of a row in the composite loops: `SyncCacheViewAuthenticPixels`
on the row buffer `q` of the destination row `y` (a failure clears
`status`), then the progress monitor, if the image has one (it is given the
progress counter, which is incremented, and a refusal clears `status`). -/
def CompositeSyncRow (cache : CacheOracle) (s : CompositeState) (y : ℕ)
    (trace : List CacheAccess) (q : PixelRow) : CompositeState :=
  let synced := cache.syncAuthenticPixels y
  { status := match cache.progress_monitor with
              | none => synced
              | some monitor => synced && monitor s.progress
    progress := match cache.progress_monitor with
                | none => s.progress
                | some _ => s.progress + 1
    pixels := if synced = true then Function.update s.pixels y q else s.pixels
    trace := trace ++ [CacheAccess.syncRow y] }

/-- The body of the row loop of `CompositeOverImage` for the destination row
`y`. The source row is acquired only when `y` lies in the overlay
(`y_offset <= y < y_offset + composite_image->rows`), and then `p` starts at
the source column `-x_offset` when `x_offset` is negative. -/
def CompositeOverRow (cache : CacheOracle) (image composite_image : Image)
    (clip_to_self : Bool) (x_offset y_offset : ℤ) (s : CompositeState) (y : ℕ) :
    CompositeState :=
  if s.status = false then s
  else if clip_to_self = true ∧
      ((y : ℤ) < y_offset ∨ (composite_image.rows : ℤ) ≤ (y : ℤ) - y_offset) then s
  else if (y_offset ≤ (y : ℤ) ∧ (y : ℤ) - y_offset < (composite_image.rows : ℤ)) ∧
      cache.getVirtualPixels y = false then
    { s with status := false, trace := s.trace ++ [CacheAccess.virtualRow y] }
  else
    let trace :=
      if y_offset ≤ (y : ℤ) ∧ (y : ℤ) - y_offset < (composite_image.rows : ℤ) then
        s.trace ++ [CacheAccess.virtualRow y]
      else s.trace
    let pixels : Option PixelRow :=
      if y_offset ≤ (y : ℤ) ∧ (y : ℤ) - y_offset < (composite_image.rows : ℤ) then
        some (composite_image.pixels (Int.toNat ((y : ℤ) - y_offset)))
      else none
    let p : ℕ :=
      if (y_offset ≤ (y : ℤ) ∧ (y : ℤ) - y_offset < (composite_image.rows : ℤ)) ∧
          x_offset < 0 then Int.toNat (-x_offset)
      else 0
    if cache.getAuthenticPixels y = false then
      { s with status := false, trace := trace ++ [CacheAccess.authenticRow y] }
    else
      CompositeSyncRow cache s y (trace ++ [CacheAccess.authenticRow y])
        (CompositeOverColumns cache image composite_image clip_to_self x_offset y_offset y
          pixels image.columns 0 p (s.pixels y))

/-- What the row loop of `CompositeOverImage` does to the destination row
`y` when the row is acquired and committed, read off the loop body: the row
is skipped under `clip_to_self` outside the source rows; otherwise each of
its `image->columns` pixels is composited, against the source row
`y - y_offset` inside the overlay and against virtual pixels outside it. -/
def CompositeOverRowPixels (cache : CacheOracle) (image composite_image : Image)
    (clip_to_self : Bool) (x_offset y_offset : ℤ) (y : ℕ) (row : PixelRow) : PixelRow :=
  if clip_to_self = true ∧
      ((y : ℤ) < y_offset ∨ (composite_image.rows : ℤ) ≤ (y : ℤ) - y_offset) then row
  else fun k =>
    if k < image.columns then
      CompositeOverColumn cache image composite_image clip_to_self x_offset y_offset y
        (if y_offset ≤ (y : ℤ) ∧ (y : ℤ) - y_offset < (composite_image.rows : ℤ) then
          some (composite_image.pixels (Int.toNat ((y : ℤ) - y_offset))) else none)
        row k
    else row k

/-- The cache accesses of the row `y` do not fail: the rows are acquired, the
sync commits, and the progress monitor, if there is one, lets the loop
proceed at the progress count `c`. -/
def RowSucceeds (cache : CacheOracle) (y c : ℕ) : Prop :=
  cache.getVirtualPixels y = true ∧ cache.getAuthenticPixels y = true ∧
    cache.syncAuthenticPixels y = true ∧
    ∀ monitor, cache.progress_monitor = some monitor → monitor c = true

/-- No acquisition, sync or progress callback fails during a composite onto
an image of `rows` rows. -/
def NoFailure (cache : CacheOracle) (rows : ℕ) : Prop :=
  ∀ y, y < rows → ∀ c, c < rows → RowSucceeds cache y c

/-- An acquisition of the row `y` that `CompositeOverImage` attempts fails:
the row is not skipped by `clip_to_self`, and either it lies inside the
overlay and the source row is not delivered, or the destination row is not
delivered. -/
def AcquisitionFails (cache : CacheOracle) (composite_image : Image)
    (clip_to_self : Bool) (y_offset : ℤ) (y : ℕ) : Prop :=
  ¬ (clip_to_self = true ∧
      ((y : ℤ) < y_offset ∨ (composite_image.rows : ℤ) ≤ (y : ℤ) - y_offset)) ∧
  (((y_offset ≤ (y : ℤ) ∧ (y : ℤ) - y_offset < (composite_image.rows : ℤ)) ∧
      cache.getVirtualPixels y = false) ∨
    cache.getAuthenticPixels y = false)

/-- The function `CompositeOverImage`: the rows `0 .. image->rows-1` in
ascending order, from `status=MagickTrue` and `progress=0`. -/
def CompositeOverImage (cache : CacheOracle) (image composite_image : Image)
    (clip_to_self : Bool) (x_offset y_offset : ℤ) : CompositeState :=
  (List.range image.rows).foldl
    (CompositeOverRow cache image composite_image clip_to_self x_offset y_offset)
    { status := true, progress := 0, pixels := image.pixels, trace := [] }

/-! ## The general loop of CompositeImage (composite.c) -/

/-- The composite operators named in composite.c and in the `ComposeOptions`
table of option.c. -/
inductive CompositeOperator
  | UndefinedCompositeOp | AlphaCompositeOp | AtopCompositeOp | BlendCompositeOp
  | BlurCompositeOp | BumpmapCompositeOp | ChangeMaskCompositeOp | ClearCompositeOp
  | ColorBurnCompositeOp | ColorDodgeCompositeOp | ColorizeCompositeOp
  | CopyAlphaCompositeOp | CopyBlackCompositeOp | CopyBlueCompositeOp | CopyCompositeOp
  | CopyCyanCompositeOp | CopyGreenCompositeOp | CopyMagentaCompositeOp | CopyRedCompositeOp
  | CopyYellowCompositeOp | DarkenCompositeOp | DarkenIntensityCompositeOp
  | DifferenceCompositeOp | DisplaceCompositeOp | DissolveCompositeOp | DistortCompositeOp
  | DivideDstCompositeOp | DivideSrcCompositeOp | DstAtopCompositeOp | DstCompositeOp
  | DstInCompositeOp | DstOutCompositeOp | DstOverCompositeOp | ExclusionCompositeOp
  | HardLightCompositeOp | HueCompositeOp | InCompositeOp | IntensityCompositeOp
  | LightenCompositeOp | LightenIntensityCompositeOp | LinearBurnCompositeOp
  | LinearDodgeCompositeOp | LinearLightCompositeOp | LuminizeCompositeOp
  | MathematicsCompositeOp | MinusDstCompositeOp | MinusSrcCompositeOp | ModulateCompositeOp
  | ModulusAddCompositeOp | ModulusSubtractCompositeOp | MultiplyCompositeOp | NoCompositeOp
  | OutCompositeOp | OverCompositeOp | OverlayCompositeOp | PegtopLightCompositeOp
  | PinLightCompositeOp | PlusCompositeOp | ReplaceCompositeOp | SaturateCompositeOp
  | ScreenCompositeOp | SoftLightCompositeOp | SrcAtopCompositeOp | SrcCompositeOp
  | SrcInCompositeOp | SrcOutCompositeOp | SrcOverCompositeOp | ThresholdCompositeOp
  | VividLightCompositeOp | XorCompositeOp
  deriving DecidableEq, Repr

open CompositeOperator

/-- The four numbers of a parsed `compose:args` geometry. -/
structure GeometryInfo where
  rho : ℚ
  sigma : ℚ
  xi : ℚ
  psi : ℚ

/-- The locals `CompositeImage` sets before its row loop and reads inside it. -/
structure CompositeSettings where
  geometry_info : GeometryInfo
  amount : ℚ
  destination_dissolve : ℚ
  midpoint : ℚ
  percent_brightness : ℚ
  percent_saturation : ℚ
  source_dissolve : ℚ
  threshold : ℚ

/-- Modelled from the spec: the pixel helpers the general loop calls and that
are not among the sources: `GetPixelIntensity`, `IsFuzzyEquivalencePixel`,
and the square root computed by `pow(x,0.5)`. -/
structure PixelOracle where
  GetPixelIntensity : Image → Pixel → ℚ
  IsFuzzyEquivalencePixel : Image → Pixel → Image → Pixel → Bool
  sqrt : ℚ → ℚ

/-- Modelled from the spec: `GetPixelRed` of pixel-accessor.h (not among the
sources). -/
def GetPixelRed (image : Image) (p : Pixel) : Quantum := p (image.offset PixelChannel.Red)

/-- Modelled from the spec: `GetPixelGreen` of pixel-accessor.h (not among the
sources). -/
def GetPixelGreen (image : Image) (p : Pixel) : Quantum := p (image.offset PixelChannel.Green)

/-- Modelled from the spec: `GetPixelBlue` of pixel-accessor.h (not among the
sources). -/
def GetPixelBlue (image : Image) (p : Pixel) : Quantum := p (image.offset PixelChannel.Blue)

/-- Modelled from the spec: `GetPixelBlack` of pixel-accessor.h (not among the
sources). -/
def GetPixelBlack (image : Image) (p : Pixel) : Quantum := p (image.offset PixelChannel.Black)

/-- Modelled from the spec: `RoundToUnity` (its header is not among the
sources): the value limited to the interval from 0 to 1. -/
def RoundToUnity (value : ℚ) : ℚ :=
  if value < 0 then 0 else if value > 1 then 1 else value

/-- The function `MagickMin` of composite.c. -/
def MagickMin (x y : ℚ) : ℚ := if x < y then x else y

/-- The function `MagickMax` of composite.c. -/
def MagickMax (x y : ℚ) : ℚ := if x > y then x else y

/-- The C conversion of a real to an integer type: truncation toward zero. -/
def truncate (v : ℚ) : ℤ := if 0 ≤ v then ⌊v⌋ else ⌈v⌉

/-- The function `CompositeHSB`: hue, saturation and brightness of an RGB
triple. `min/max` divides two `Quantum` values, so it is the integer
quotient. -/
def CompositeHSB (red green blue : Quantum) : ℚ × ℚ × ℚ :=
  let max0 : Quantum := if red > green then red else green
  let max : Quantum := if blue > max0 then blue else max0
  let min0 : Quantum := if red < green then red else green
  let min : Quantum := if blue < min0 then blue else min0
  let brightness : ℚ := QuantumScale * max.toReal
  if |max.toReal| < MagickEpsilon then (0, 0, brightness)
  else
    let saturation : ℚ := 1 - ((min.val / max.val : ℕ) : ℚ)
    let delta : ℚ := max.toReal - min.toReal
    if |delta| < MagickEpsilon then (0, saturation, brightness)
    else
      let hue0 : ℚ :=
        if |red.toReal - max.toReal| < MagickEpsilon then
          (green.toReal - blue.toReal) / delta
        else if |green.toReal - max.toReal| < MagickEpsilon then
          2 + (blue.toReal - red.toReal) / delta
        else if |blue.toReal - max.toReal| < MagickEpsilon then
          4 + (red.toReal - green.toReal) / delta
        else 0
      let hue1 : ℚ := hue0 / 6
      (if hue1 < 0 then hue1 + 1 else hue1, saturation, brightness)

/-- The function `HSBComposite`: the RGB triple of a hue, saturation and
brightness, as reals on the quantum scale. -/
def HSBComposite (hue saturation brightness : ℚ) : ℚ × ℚ × ℚ :=
  if saturation = 0 then
    ((QuantumRange : ℚ) * brightness, (QuantumRange : ℚ) * brightness,
      (QuantumRange : ℚ) * brightness)
  else
    let h : ℚ := 6 * (hue - (⌊hue⌋ : ℚ))
    let f : ℚ := h - (⌊h⌋ : ℚ)
    let p : ℚ := brightness * (1 - saturation)
    let q : ℚ := brightness * (1 - saturation * f)
    let t : ℚ := brightness * (1 - saturation * (1 - f))
    let QR : ℚ := (QuantumRange : ℚ)
    match truncate h with
    | 1 => (QR * q, QR * brightness, QR * p)
    | 2 => (QR * p, QR * brightness, QR * t)
    | 3 => (QR * p, QR * q, QR * brightness)
    | 4 => (QR * t, QR * p, QR * brightness)
    | 5 => (QR * brightness, QR * p, QR * q)
    | _ => (QR * brightness, QR * t, QR * p)

/-- The `switch (channel)` that follows `HSBComposite` in the HSB operators:
the component of the triple for a red, green or blue channel, `Dc` for any
other channel. -/
def HSBChannel (channel : PixelChannel) (rgb : ℚ × ℚ × ℚ) (Dc : ℚ) : ℚ :=
  match channel with
  | PixelChannel.Red => rgb.1
  | PixelChannel.Green => rgb.2.1
  | PixelChannel.Blue => rgb.2.2
  | _ => Dc

/-- The first `switch (compose)` of the authentic composite in
`CompositeImage`: the result alpha `alpha` from the normalised source and
destination alpha. -/
def CompositeAlpha (oracle : PixelOracle) (compose : CompositeOperator)
    (settings : CompositeSettings) (composite_image : Image) (p : Pixel) (Sa Da : ℚ) : ℚ :=
  match compose with
  | BumpmapCompositeOp => oracle.GetPixelIntensity composite_image p * Sa
  | ColorBurnCompositeOp | ColorDodgeCompositeOp | DifferenceCompositeOp
  | DivideDstCompositeOp | DivideSrcCompositeOp | ExclusionCompositeOp
  | HardLightCompositeOp | LinearBurnCompositeOp | LinearDodgeCompositeOp
  | LinearLightCompositeOp | MathematicsCompositeOp | MinusDstCompositeOp
  | MinusSrcCompositeOp | ModulusAddCompositeOp | ModulusSubtractCompositeOp
  | MultiplyCompositeOp | OverlayCompositeOp | PegtopLightCompositeOp
  | PinLightCompositeOp | ScreenCompositeOp | SoftLightCompositeOp
  | VividLightCompositeOp => RoundToUnity (Sa + Da - Sa * Da)
  | DarkenCompositeOp | DstAtopCompositeOp | DstInCompositeOp | InCompositeOp
  | LightenCompositeOp | SrcInCompositeOp => Sa * Da
  | DissolveCompositeOp =>
    settings.source_dissolve * Sa * (-settings.destination_dissolve * Da) +
      settings.source_dissolve * Sa + settings.destination_dissolve * Da
  | DstOverCompositeOp => Da * (-Sa) + Da + Sa
  | DstOutCompositeOp => Da * (1 - Sa)
  | OutCompositeOp | SrcOutCompositeOp => Sa * (1 - Da)
  | OverCompositeOp | SrcOverCompositeOp => Sa * (-Da) + Sa + Da
  | BlendCompositeOp | PlusCompositeOp => RoundToUnity (Sa + Da)
  | XorCompositeOp => Sa + Da - 2 * Sa * Da
  | _ => 1

/-- The `switch (compose)` under "Set alpha channel" in `CompositeImage`: the
real value `pixel` that is clamped into an alpha channel with the Copy
trait. -/
def CompositeCopyAlpha (oracle : PixelOracle) (compose : CompositeOperator)
    (image composite_image : Image) (p q : Pixel) (Sa Da alpha : ℚ) : ℚ :=
  let QR : ℚ := (QuantumRange : ℚ)
  match compose with
  | AlphaCompositeOp => QR * Sa
  | AtopCompositeOp | CopyBlackCompositeOp | CopyBlueCompositeOp | CopyCyanCompositeOp
  | CopyGreenCompositeOp | CopyMagentaCompositeOp | CopyRedCompositeOp
  | CopyYellowCompositeOp | SrcAtopCompositeOp | DstCompositeOp | NoCompositeOp => QR * Da
  | ChangeMaskCompositeOp =>
    if Da > QR / 2 then TransparentAlpha.toReal
    else if oracle.IsFuzzyEquivalencePixel composite_image p image q = true then
      TransparentAlpha.toReal
    else OpaqueAlpha.toReal
  | ClearCompositeOp => TransparentAlpha.toReal
  | ColorizeCompositeOp | HueCompositeOp | LuminizeCompositeOp | SaturateCompositeOp =>
    if |QR * Sa - TransparentAlpha.toReal| < MagickEpsilon then QR * Da
    else if |QR * Da - TransparentAlpha.toReal| < MagickEpsilon then QR * Sa
    else if Sa < Da then QR * Da
    else QR * Sa
  | CopyCompositeOp | CopyAlphaCompositeOp | DisplaceCompositeOp | DistortCompositeOp
  | DstAtopCompositeOp | ReplaceCompositeOp | SrcCompositeOp => QR * Sa
  | DarkenIntensityCompositeOp =>
    if (1 - Sa) * oracle.GetPixelIntensity composite_image p <
        (1 - Da) * oracle.GetPixelIntensity image q then Sa else Da
  | IntensityCompositeOp => oracle.GetPixelIntensity composite_image p
  | LightenIntensityCompositeOp =>
    if Sa * oracle.GetPixelIntensity composite_image p >
        Da * oracle.GetPixelIntensity image q then Sa else Da
  | ModulateCompositeOp =>
    if |QR * Sa - TransparentAlpha.toReal| < MagickEpsilon then QR * Da else QR * Da
  | _ => QR * alpha

/-- The last `switch (compose)` of the authentic composite in
`CompositeImage` ("Porter-Duff compositions"): the real value `pixel` for a
channel without the Copy trait. `Sc` and `Dc` are the samples of the channel
on the quantum scale, `Sca` and `Dca` the normalised premultiplied ones,
`gamma` the guarded reciprocal of `alpha`, and `q` the destination pixel as
the channel loop has left it so far. -/
def CompositePorterDuff (oracle : PixelOracle) (compose : CompositeOperator)
    (settings : CompositeSettings) (image composite_image : Image)
    (channel : PixelChannel) (p q : Pixel) (Sa Da Sc Dc Sca Dca gamma : ℚ) : ℚ :=
  let QR : ℚ := (QuantumRange : ℚ)
  let imageHSB := CompositeHSB (GetPixelRed image q) (GetPixelGreen image q)
    (GetPixelBlue image q)
  let compositeHSB := CompositeHSB (GetPixelRed composite_image p)
    (GetPixelGreen composite_image p) (GetPixelBlue composite_image p)
  match compose with
  | AlphaCompositeOp => QR * Sa
  | AtopCompositeOp | SrcAtopCompositeOp => Sc * Sa + Dc * (1 - Sa)
  | BlendCompositeOp =>
    gamma * (settings.source_dissolve * Sa * Sc + settings.destination_dissolve * Da * Dc)
  | BlurCompositeOp | DisplaceCompositeOp | DistortCompositeOp | CopyCompositeOp
  | ReplaceCompositeOp | SrcCompositeOp => Sc
  | BumpmapCompositeOp =>
    if |QR * Sa - TransparentAlpha.toReal| < MagickEpsilon then Dc
    else QuantumScale * oracle.GetPixelIntensity composite_image p * Dc
  | ChangeMaskCompositeOp => Dc
  | ClearCompositeOp => 0
  | ColorBurnCompositeOp =>
    if |Sca| < MagickEpsilon ∧ |Dca - Da| < MagickEpsilon then
      QR * gamma * (Sa * Da + Dca * (1 - Sa))
    else if Sca < MagickEpsilon then QR * gamma * (Dca * (1 - Sa))
    else QR * gamma * (Sa * Da - Sa * MagickMin Da ((Da - Dca) * Sa / Sca) +
      Sca * (1 - Da) + Dca * (1 - Sa))
  | ColorDodgeCompositeOp =>
    if |Sca - Sa| < MagickEpsilon ∧ |Dca| < MagickEpsilon then
      QR * gamma * (Sca * (1 - Da) + Dca * (1 - Sa))
    else if |Sca - Sa| < MagickEpsilon then
      QR * gamma * (Sa * Da + Sca * (1 - Da) + Dca * (1 - Sa))
    else QR * gamma * (Dca * Sa * Sa / (Sa - Sca) + Sca * (1 - Da) + Dca * (1 - Sa))
  | ColorizeCompositeOp =>
    if |QR * Sa - TransparentAlpha.toReal| < MagickEpsilon then Dc
    else if |QR * Da - TransparentAlpha.toReal| < MagickEpsilon then Sc
    else HSBChannel channel
      (HSBComposite compositeHSB.1 compositeHSB.2.1 imageHSB.2.2) Dc
  | CopyAlphaCompositeOp | IntensityCompositeOp =>
    if channel = PixelChannel.Alpha then (GetPixelAlpha composite_image p).toReal else Dc
  | CopyBlackCompositeOp =>
    if channel = PixelChannel.Black then (GetPixelBlack composite_image p).toReal else Dc
  | CopyBlueCompositeOp | CopyYellowCompositeOp =>
    if channel = PixelChannel.Blue then (GetPixelBlue composite_image p).toReal else Dc
  | CopyGreenCompositeOp | CopyMagentaCompositeOp =>
    if channel = PixelChannel.Green then (GetPixelGreen composite_image p).toReal else Dc
  | CopyRedCompositeOp | CopyCyanCompositeOp =>
    if channel = PixelChannel.Red then (GetPixelRed composite_image p).toReal else Dc
  | DarkenCompositeOp =>
    if Sc < Dc then gamma * (Sa * Sc - Sa * Da * Dc + Da * Dc)
    else gamma * (Da * Dc - Da * Sa * Sc + Sa * Sc)
  | DarkenIntensityCompositeOp =>
    if (1 - Sa) * oracle.GetPixelIntensity composite_image p <
        (1 - Da) * oracle.GetPixelIntensity image q then Sc else Dc
  | DifferenceCompositeOp => gamma * (Sa * Sc + Da * Dc - Sa * Da * 2 * MagickMin Sc Dc)
  | DissolveCompositeOp =>
    gamma * (settings.source_dissolve * Sa * Sc -
      settings.source_dissolve * Sa * settings.destination_dissolve * Da * Dc +
      settings.destination_dissolve * Da * Dc)
  | DivideDstCompositeOp =>
    if |Sca| < MagickEpsilon ∧ |Dca| < MagickEpsilon then
      QR * gamma * (Sca * (1 - Da) + Dca * (1 - Sa))
    else if |Dca| < MagickEpsilon then
      QR * gamma * (Sa * Da + Sca * (1 - Da) + Dca * (1 - Sa))
    else QR * gamma * (Sca * Da * Da / Dca + Sca * (1 - Da) + Dca * (1 - Sa))
  | DivideSrcCompositeOp =>
    if |Dca| < MagickEpsilon ∧ |Sca| < MagickEpsilon then
      QR * gamma * (Dca * (1 - Sa) + Sca * (1 - Da))
    else if |Sca| < MagickEpsilon then
      QR * gamma * (Da * Sa + Dca * (1 - Sa) + Sca * (1 - Da))
    else QR * gamma * (Dca * Sa * Sa / Sca + Dca * (1 - Sa) + Sca * (1 - Da))
  | DstAtopCompositeOp => Dc * Da + Sc * (1 - Da)
  | DstCompositeOp | NoCompositeOp => Dc
  | DstInCompositeOp => gamma * (Sa * Dc * Sa)
  | DstOutCompositeOp => gamma * (Da * Dc * (1 - Sa))
  | DstOverCompositeOp => gamma * (Da * Dc - Da * Sa * Sc + Sa * Sc)
  | ExclusionCompositeOp =>
    QR * gamma * (Sca * Da + Dca * Sa - 2 * Sca * Dca + Sca * (1 - Da) + Dca * (1 - Sa))
  | HardLightCompositeOp =>
    if 2 * Sca < Sa then QR * gamma * (2 * Sca * Dca + Sca * (1 - Da) + Dca * (1 - Sa))
    else QR * gamma * (Sa * Da - 2 * (Da - Dca) * (Sa - Sca) + Sca * (1 - Da) +
      Dca * (1 - Sa))
  | HueCompositeOp =>
    if |QR * Sa - TransparentAlpha.toReal| < MagickEpsilon then Dc
    else if |QR * Da - TransparentAlpha.toReal| < MagickEpsilon then Sc
    else HSBChannel channel
      (HSBComposite compositeHSB.1 imageHSB.2.1 imageHSB.2.2) Dc
  | InCompositeOp | SrcInCompositeOp => gamma * (Da * Sc * Da)
  | LinearBurnCompositeOp => QR * gamma * (Sca + Dca - Sa * Da)
  | LinearDodgeCompositeOp => QR * gamma * (Sa * Sc + Da * Dc)
  | LinearLightCompositeOp => QR * gamma * ((Sca - Sa) * Da + Sca + Dca)
  | LightenCompositeOp =>
    if Sc > Dc then QR * gamma * (Sa * Sc - Sa * Da * Dc + Da * Dc)
    else QR * gamma * (Da * Dc - Da * Sa * Sc + Sa * Sc)
  | LightenIntensityCompositeOp =>
    if Sa * oracle.GetPixelIntensity composite_image p >
        Da * oracle.GetPixelIntensity image q then Sc else Dc
  | LuminizeCompositeOp =>
    if |QR * Sa - TransparentAlpha.toReal| < MagickEpsilon then Dc
    else if |QR * Da - TransparentAlpha.toReal| < MagickEpsilon then Sc
    else HSBChannel channel
      (HSBComposite imageHSB.1 imageHSB.2.1 compositeHSB.2.2) Dc
  | MathematicsCompositeOp =>
    gamma * settings.geometry_info.rho * Sa * Sc * Da * Dc +
      settings.geometry_info.sigma * Sa * Sc * Da +
      settings.geometry_info.xi * Da * Dc * Sa +
      settings.geometry_info.psi * Sa * Da +
      Sa * Sc * (1 - Da) + Da * Dc * (1 - Sa)
  | MinusDstCompositeOp => gamma * (Sa * Sc + Da * Dc - 2 * Da * Dc * Sa)
  | MinusSrcCompositeOp => QR * gamma * (Da * Dc + Sa * Sc - 2 * Sa * Sc * Da)
  | ModulateCompositeOp =>
    if |QR * Sa - TransparentAlpha.toReal| < MagickEpsilon then Dc
    else
      let offset : ℤ :=
        truncate (oracle.GetPixelIntensity composite_image p - settings.midpoint)
      if offset = 0 then Dc
      else HSBChannel channel
        (HSBComposite imageHSB.1
          (imageHSB.2.1 * (1 / 100 * settings.percent_saturation))
          (imageHSB.2.2 +
            (1 / 100 * settings.percent_brightness * (offset : ℚ)) / settings.midpoint)) Dc
  | ModulusAddCompositeOp =>
    let pixel : ℚ := if Sc + Dc > QR then Sc + Dc - (QR + 1) else Sc + Dc
    gamma * (pixel * Sa * Da + Sa * Sc * (1 - Da) + Da * Dc * (1 - Sa))
  | ModulusSubtractCompositeOp =>
    let pixel : ℚ := if Sc - Dc < 0 then Sc - Dc + (QR + 1) else Sc - Dc
    gamma * (pixel * Sa * Da + Sa * Sc * (1 - Da) + Da * Dc * (1 - Sa))
  | MultiplyCompositeOp => QR * gamma * (Sca * Dca + Sca * (1 - Da) + Dca * (1 - Sa))
  | OutCompositeOp | SrcOutCompositeOp => gamma * (Sa * Sc * (1 - Da))
  | OverCompositeOp | SrcOverCompositeOp => QR * gamma * (Sa * Sc - Sa * Da * Dc + Da * Dc)
  | OverlayCompositeOp =>
    if 2 * Dca < Da then QR * gamma * (2 * Dca * Sca + Dca * (1 - Sa) + Sca * (1 - Da))
    else QR * gamma * (Da * Sa - 2 * (Sa - Sca) * (Da - Dca) + Dca * (1 - Sa) +
      Sca * (1 - Da))
  | PegtopLightCompositeOp =>
    if |Da| < MagickEpsilon then QR * gamma * Sca
    else QR * gamma * (Dca * Dca * (Sa - 2 * Sca) / Da + Sca * (2 * Dca + 1 - Da) +
      Dca * (1 - Sa))
  | PinLightCompositeOp =>
    if Dca * Sa < Da * (2 * Sca - Sa) then
      QR * gamma * (Sca * (Da + 1) - Sa * Da + Dca * (1 - Sa))
    else if Dca * Sa > 2 * Sca * Da then QR * gamma * (Sca * Da + Sca + Dca * (1 - Sa))
    else QR * gamma * (Sca * (1 - Da) + Dca)
  | PlusCompositeOp => QR * gamma * (Sa * Sc + Da * Dc)
  | SaturateCompositeOp =>
    if |QR * Sa - TransparentAlpha.toReal| < MagickEpsilon then Dc
    else if |QR * Da - TransparentAlpha.toReal| < MagickEpsilon then Sc
    else HSBChannel channel
      (HSBComposite imageHSB.1 compositeHSB.2.1 imageHSB.2.2) Dc
  | ScreenCompositeOp => QR * gamma * (Sca + Dca - Sca * Dca)
  | SoftLightCompositeOp =>
    if 2 * Sca < Sa then
      QR * gamma * (Dca * (Sa + (2 * Sca - Sa) * (1 - Dca / Da)) + Sca * (1 - Da) +
        Dca * (1 - Sa))
    else if 2 * Sca > Sa ∧ 4 * Dca ≤ Da then
      QR * gamma * (Dca * Sa + Da * (2 * Sca - Sa) *
        (4 * (Dca / Da) * (4 * (Dca / Da) + 1) * (Dca / Da - 1) + 7 * (Dca / Da)) +
        Sca * (1 - Da) + Dca * (1 - Sa))
    else
      QR * gamma * (Dca * Sa + Da * (2 * Sca - Sa) * (oracle.sqrt (Dca / Da) - Dca / Da) +
        Sca * (1 - Da) + Dca * (1 - Sa))
  | ThresholdCompositeOp =>
    if |2 * (Sc - Dc)| < settings.threshold then gamma * Dc
    else gamma * (Dc + (Sc - Dc) * settings.amount)
  | VividLightCompositeOp =>
    if |Sa| < MagickEpsilon ∨ |Sca - Sa| < MagickEpsilon then
      QR * gamma * (Sa * Da + Sca * (1 - Da) + Dca * (1 - Sa))
    else if 2 * Sca ≤ Sa then
      QR * gamma * (Sa * (Da + Sa * (Dca - Da) / (2 * Sca)) + Sca * (1 - Da) +
        Dca * (1 - Sa))
    else QR * gamma * (Dca * Sa * Sa / (2 * (Sa - Sca)) + Sca * (1 - Da) + Dca * (1 - Sa))
  | XorCompositeOp => QR * gamma * (Sc * Sa * (1 - Da) + Dc * Da * (1 - Sa))
  | UndefinedCompositeOp => Sc

/-- One turn of the channel loop of the authentic composite in
`CompositeImage`: the sample at offset `i` of the destination pixel `q`
from the source pixel `p`, with `Sa`, `Da` and `alpha` computed before the
loop. (The `gamma=1.0-alpha` of the Darken, Lighten and ModulusSubtract
cases is overwritten by the next statement before it is read.) -/
def CompositeChannel (oracle : PixelOracle) (compose : CompositeOperator)
    (settings : CompositeSettings) (image composite_image : Image) (Sa Da alpha : ℚ)
    (p : Pixel) (q : Pixel) (i : ℕ) : Pixel :=
  let channel := GetPixelChannelMapChannel image i
  let traits := GetPixelChannelMapTraits image channel
  let composite_traits := GetPixelChannelMapTraits composite_image channel
  if traits = UndefinedPixelTrait then q
  else if compose ≠ IntensityCompositeOp ∧ composite_traits = UndefinedPixelTrait then q
  else
    let Sc : ℚ := (GetPixelChannel composite_image channel p).toReal
    let Dc : ℚ := (q i).toReal
    if traits &&& CopyPixelTrait ≠ 0 then
      if channel ≠ PixelChannel.Alpha then
        Function.update q i (ClampToQuantum Sc)
      else
        Function.update q i (ClampToQuantum
          (CompositeCopyAlpha oracle compose image composite_image p q Sa Da alpha))
    else
      let Sca : ℚ := QuantumScale * Sa * Sc
      let Dca : ℚ := QuantumScale * Da * Dc
      let gamma : ℚ := 1 / (if |alpha| ≤ MagickEpsilon then 1 else alpha)
      Function.update q i (ClampToQuantum
        (CompositePorterDuff oracle compose settings image composite_image channel p q
          Sa Da Sc Dc Sca Dca gamma))

/-- The authentic composite of `CompositeImage` for one pixel inside the
overlay: `Sa`, `Da`, the result alpha, the mask test (made with the
destination's channel map on the source pixel `p`, as in the source), then
the channel loop. -/
def CompositePixel (oracle : PixelOracle) (compose : CompositeOperator)
    (settings : CompositeSettings) (image composite_image : Image) (p : Pixel) (q : Pixel) :
    Pixel :=
  let Sa : ℚ := QuantumScale * (GetPixelAlpha composite_image p).toReal
  let Da : ℚ := QuantumScale * (GetPixelAlpha image q).toReal
  let alpha : ℚ := CompositeAlpha oracle compose settings composite_image p Sa Da
  if GetPixelMask image p ≠ 0 then q
  else
    (List.range (GetPixelChannels image)).foldl
      (CompositeChannel oracle compose settings image composite_image Sa Da alpha p) q


/-! ## Concrete images for the scenarios -/

/-- A cache in which every access succeeds, without a progress monitor, whose
virtual pixels are all zero. -/
def reliableCache : CacheOracle :=
  { getVirtualPixels := fun _ => true
    getAuthenticPixels := fun _ => true
    syncAuthenticPixels := fun _ => true
    progress_monitor := none
    oneVirtualPixel := fun _ _ _ => 0 }

/-- The pixel with the samples `red`, `green`, `blue`, `alpha` at the offsets
0, 1, 2, 3. -/
def rgbaPixel (red green blue alpha : Quantum) : Pixel :=
  fun i => match i with
    | 0 => red
    | 1 => green
    | 2 => blue
    | 3 => alpha
    | _ => 0

/-- An image of the given extent with the channels red, green, blue and alpha
at the offsets 0, 1, 2, 3, the colour channels carrying `colorTraits` and
the alpha channel `alphaTraits`, every pixel being `pixel`. -/
def rgbaImage (columns rows : ℕ) (colorTraits alphaTraits : PixelTrait) (pixel : Pixel) :
    Image :=
  { columns := columns
    rows := rows
    number_channels := 4
    channel_at := fun i => match i with
      | 0 => PixelChannel.Red
      | 1 => PixelChannel.Green
      | 2 => PixelChannel.Blue
      | _ => PixelChannel.Alpha
    traits := fun c => match c with
      | PixelChannel.Red => colorTraits
      | PixelChannel.Green => colorTraits
      | PixelChannel.Blue => colorTraits
      | PixelChannel.Alpha => alphaTraits
      | _ => UndefinedPixelTrait
    offset := fun c => match c with
      | PixelChannel.Red => 0
      | PixelChannel.Green => 1
      | PixelChannel.Blue => 2
      | PixelChannel.Alpha => 3
      | _ => 0
    pixels := fun _ _ => pixel }

/-- The 4x4 opaque red image of the scenario (colour channels updated and
blended, alpha copied). -/
def red4x4 : Image :=
  rgbaImage 4 4 (UpdatePixelTrait ||| BlendPixelTrait) CopyPixelTrait
    (rgbaPixel OpaqueAlpha 0 0 OpaqueAlpha)

/-- The 4x4 opaque blue image of the scenario. -/
def blue4x4 : Image :=
  rgbaImage 4 4 (UpdatePixelTrait ||| BlendPixelTrait) CopyPixelTrait
    (rgbaPixel 0 0 OpaqueAlpha OpaqueAlpha)

/-- A 1x1 image with one pixel, for the one-pixel scenarios. -/
def onePixelImage (colorTraits alphaTraits : PixelTrait) (pixel : Pixel) : Image :=
  rgbaImage 1 1 colorTraits alphaTraits pixel

/-- A fully transparent red source pixel. -/
def transparentRedSource : Image :=
  onePixelImage (UpdatePixelTrait ||| BlendPixelTrait) CopyPixelTrait
    (rgbaPixel OpaqueAlpha 0 0 TransparentAlpha)

/-- An opaque black destination pixel whose colour channels carry the Copy
trait. -/
def copyBlackDestination : Image :=
  onePixelImage CopyPixelTrait CopyPixelTrait (rgbaPixel 0 0 0 OpaqueAlpha)

/-- A fully transparent destination pixel that stores the colour green, with
blended colour channels. -/
def transparentGreenDestination : Image :=
  onePixelImage (UpdatePixelTrait ||| BlendPixelTrait) CopyPixelTrait
    (rgbaPixel 0 OpaqueAlpha 0 TransparentAlpha)

/-- An opaque green destination pixel with blended colour channels. -/
def opaqueGreenDestination : Image :=
  onePixelImage (UpdatePixelTrait ||| BlendPixelTrait) CopyPixelTrait
    (rgbaPixel 0 OpaqueAlpha 0 OpaqueAlpha)

/-- An opaque red pixel with blended colour channels and an alpha channel that
carries the Copy trait, used as a destination and as a source. -/
def opaqueRedDestination : Image :=
  onePixelImage (UpdatePixelTrait ||| BlendPixelTrait) CopyPixelTrait
    (rgbaPixel OpaqueAlpha 0 0 OpaqueAlpha)

/-- Pixel helpers for the scenarios: intensity 0, no two pixels equivalent,
square root 0 (none of them is read by the operators of the scenarios). -/
def plainPixelOracle : PixelOracle :=
  { GetPixelIntensity := fun _ _ => 0
    IsFuzzyEquivalencePixel := fun _ _ _ _ => false
    sqrt := fun _ => 0 }

/-- The settings `CompositeImage` starts from (`amount=0.5`, the dissolves 1,
the percentages 100, `threshold=0.05`, `midpoint=(QuantumRange+1)/2`) with
the parsed `compose:args` given. -/
def defaultSettings (geometry_info : GeometryInfo) : CompositeSettings :=
  { geometry_info := geometry_info
    amount := 1 / 2
    destination_dissolve := 1
    midpoint := ((QuantumRange : ℚ) + 1) / 2
    percent_brightness := 100
    percent_saturation := 100
    source_dissolve := 1
    threshold := 1 / 20 }

/-- An opaque mid-grey pixel (every colour sample 32768) with blended colour
channels. -/
def opaqueGreyImage : Image :=
  onePixelImage (UpdatePixelTrait ||| BlendPixelTrait) CopyPixelTrait
    (rgbaPixel 32768 32768 32768 OpaqueAlpha)

/-- The value the Mathematics operator is documented to write, following the
words of the claim and of the comment above its case: with `Sca = Sa*Sc` and
`Dca = Da*Dc` on samples normalised to [0,1],
`Dca' = A*Sca*Dca + B*Sca*Da + C*Dca*Sa + D*Sa*Da + Sca*(1-Da) + Dca*(1-Sa)`
is divided by `Da' = min(1, Sa + Da - Sa*Da)`, brought back to the quantum
scale and clamped. -/
def MathematicsDocumented (A B C D Sa Da : ℚ) (Sc Dc : Quantum) : Quantum :=
  let Sca : ℚ := Sa * (QuantumScale * Sc.toReal)
  let Dca : ℚ := Da * (QuantumScale * Dc.toReal)
  let Da' : ℚ := min 1 (Sa + Da - Sa * Da)
  let Dca' : ℚ := A * Sca * Dca + B * Sca * Da + C * Dca * Sa + D * Sa * Da +
    Sca * (1 - Da) + Dca * (1 - Sa)
  ClampToQuantum ((QuantumRange : ℚ) * (Dca' / Da'))

/-- A cache that fails to deliver the destination row 1 and nothing else. -/
def failingCache : CacheOracle :=
  { getVirtualPixels := fun _ => true
    getAuthenticPixels := fun y => decide (y ≠ 1)
    syncAuthenticPixels := fun _ => true
    progress_monitor := none
    oneVirtualPixel := fun _ _ _ => 0 }

/-! ## Kernels (effect.c) -/

/-- The macro `MagickSigma`, `(fabs(sigma) <= MagickEpsilon ? 1.0 : sigma)`. -/
def MagickSigma {K : Type} [LinearOrderedField K] (sigma : K) : K :=
  if |sigma| ≤ ((MagickEpsilon : ℚ) : K) then 1 else sigma

/-- The kernel `kernel[i]` of `AdaptiveBlurImage` after its normalisation
loop, over an ordered field `K` that stands for `double`, with the
exponential `exp` and the constant `MagickPI` as parameters. The Gaussian
samples are written for `v = -j .. j`, `u = -j .. j` with `j = (width-i)/2`
and summed into `normalize`; `normalize` becomes 1 when it is at most
`MagickEpsilon` in magnitude, then its reciprocal; the last loop scales the
entries `k < j*j`. -/
def AdaptiveBlurKernel {K : Type} [LinearOrderedField K] (exp : K → K) (MagickPI : K)
    (width : ℕ) (sigma : K) (i : ℕ) : List K :=
  let j : ℕ := (width - i) / 2
  let kernel : List K := (List.range ((2 * j + 1) * (2 * j + 1))).map fun (k : ℕ) =>
    let v : K := ((k / (2 * j + 1) : ℕ) : K) - (j : K)
    let u : K := ((k % (2 * j + 1) : ℕ) : K) - (j : K)
    exp (-(u * u + v * v) / (2 * MagickSigma sigma * MagickSigma sigma)) /
      (2 * MagickPI * MagickSigma sigma * MagickSigma sigma)
  let normalize0 : K := kernel.sum
  let normalize1 : K := if |normalize0| ≤ ((MagickEpsilon : ℚ) : K) then 1 else normalize0
  let normalize : K := 1 / normalize1
  (List.range kernel.length).map fun (k : ℕ) =>
    if k < j * j then normalize * kernel.getD k 0 else kernel.getD k 0

/-- The kernel `EdgeImage` builds for the width `width`: the two loops over
`v = -j .. j`, `u = -j .. j` with `j = width/2` write -1 into
`(2*j+1)*(2*j+1)` entries and leave `i` at that count; then the entry
`i/2` is set to `width*width-1`. -/
def EdgeKernel (width : ℕ) : List ℚ :=
  let j : ℕ := width / 2
  let i : ℕ := (2 * j + 1) * (2 * j + 1)
  (List.replicate i (-1 : ℚ)).set (i / 2) ((width : ℚ) * (width : ℚ) - 1)

/-- The kernel `GaussianBlurImage` builds, over an ordered field `K` that
stands for `double`, with the exponential `exp` and the constant `MagickPI`
as parameters: the Gaussian samples for `v = -j .. j`, `u = -j .. j` with
`j = width/2`, in row-major order. -/
def GaussianKernel2D {K : Type} [LinearOrderedField K] (exp : K → K) (MagickPI : K)
    (width : ℕ) (sigma : K) : List K :=
  let j : ℕ := width / 2
  (List.range ((2 * j + 1) * (2 * j + 1))).map fun (k : ℕ) =>
    let v : K := ((k / (2 * j + 1) : ℕ) : K) - (j : K)
    let u : K := ((k % (2 * j + 1) : ℕ) : K) - (j : K)
    exp (-(u * u + v * v) / (2 * MagickSigma sigma * MagickSigma sigma)) /
      (2 * MagickPI * MagickSigma sigma * MagickSigma sigma)

/-- The kernel `SharpenImage` builds, over an ordered field `K` that stands
for `double`, with the exponential `exp` and the constant `MagickPI` as
parameters: the negated Gaussian samples for `v = -j .. j`, `u = -j .. j`
with `j = width/2` are written and summed into `normalize`, which leaves
`i` at their count; then the entry `i/2` is set to `(-2.0)*normalize`. -/
def SharpenKernel {K : Type} [LinearOrderedField K] (exp : K → K) (MagickPI : K)
    (width : ℕ) (sigma : K) : List K :=
  let j : ℕ := width / 2
  let i : ℕ := (2 * j + 1) * (2 * j + 1)
  let values : List K := (List.range i).map fun (k : ℕ) =>
    let v : K := ((k / (2 * j + 1) : ℕ) : K) - (j : K)
    let u : K := ((k % (2 * j + 1) : ℕ) : K) - (j : K)
    (-exp (-(u * u + v * v) / (2 * MagickSigma sigma * MagickSigma sigma))) /
      (2 * MagickPI * MagickSigma sigma * MagickSigma sigma)
  let normalize : K := values.sum
  values.set (i / 2) ((-2) * normalize)

/-! ## The blur loops of effect.c: shared pieces -/

/-- Modelled from the spec: `SetPixelChannel` of pixel-accessor.h (not among
the sources): the sample is stored at the offset of `channel` when the image
has the channel, and nothing is stored otherwise. -/
def SetPixelChannel (image : Image) (channel : PixelChannel) (quantum : Quantum)
    (q : Pixel) : Pixel :=
  if image.traits channel = UndefinedPixelTrait then q
  else Function.update q (image.offset channel) quantum

/-- Modelled from the spec: what the loops of effect.c ask of the pixel cache
and of the progress monitor (cache.c and monitor.c are not among the
sources), as an oracle. For the line `n` of a pass (a row, or a column in the
second pass of `BlurImage`): whether `GetCacheViewVirtualPixels` delivers the
window, whether `QueueCacheViewAuthenticPixels` or
`GetCacheViewAuthenticPixels` delivers the buffer, the contents of the buffer
a queue request delivers (they are unspecified), whether
`SyncCacheViewAuthenticPixels` commits the buffer (a failed sync leaves the
stored pixels as they were); `progress_monitor` is the callback of the image,
if any, applied to the progress counter; `virtualPixel x y` is the pixel a
virtual view delivers at a position outside the image. -/
structure ViewOracle where
  getVirtualPixels : ℕ → Bool
  getAuthenticPixels : ℕ → Bool
  queuedPixels : ℕ → PixelRow
  syncAuthenticPixels : ℕ → Bool
  progress_monitor : Option (ℕ → Bool)
  virtualPixel : ℤ → ℤ → Pixel

/-- Modelled from the spec: the calls that can fail before the pixel loops of
a blur start (image.c and memory.c are not among the sources): `CloneImage`,
`SetImageStorageClass` on the clone, and the allocation of the kernel. -/
structure EffectResources where
  cloneImage : Bool
  setImageStorageClass : Bool
  acquireKernel : Bool

/-- The pixel a virtual view of an image of the given extent delivers at
`(x, y)`: the stored pixel inside the image, the pixel of the virtual pixel
policy outside it. -/
def GetVirtualPixel (cache : ViewOracle) (columns rows : ℕ) (pixels : ℕ → PixelRow)
    (x y : ℤ) : Pixel :=
  if 0 ≤ x ∧ x < (columns : ℤ) ∧ 0 ≤ y ∧ y < (rows : ℤ) then pixels (Int.toNat y) (Int.toNat x)
  else cache.virtualPixel x y

/-- The state a pixel loop of effect.c carries from one line to the next:
`status`, the `progress` counter and the pixel store of `blur_image`. -/
structure EffectState where
  status : Bool
  progress : ℕ
  pixels : ℕ → PixelRow

/-- The end of a line in the loops of effect.c: `SyncCacheViewAuthenticPixels`
(a failure clears `status`; `committed` is the store with the buffer written
back), then the progress monitor, if the image has one (it is given the
progress counter, which is incremented, and a refusal clears `status`). -/
def EffectSync (cache : ViewOracle) (s : EffectState) (n : ℕ)
    (committed : ℕ → PixelRow) : EffectState :=
  let synced := cache.syncAuthenticPixels n
  { status := match cache.progress_monitor with
              | none => synced
              | some monitor => synced && monitor s.progress
    progress := match cache.progress_monitor with
                | none => s.progress
                | some _ => s.progress + 1
    pixels := if synced = true then committed else s.pixels }

/-! ## BlurImage (effect.c) -/

/-- One turn of the channel loop of `BlurImage` (lines 994-1036 for the row
pass, 1117-1160 for the column pass, where `image` is `blur_image` itself).
`pixels u` is the pixel `u` of the footprint, starting at the pointer `p`, so
that `p[center+i]` is the sample `i` of `pixels (width/2)`; `kernel` holds
the `width` weights. A channel that is undefined in one of the images is
skipped; a Copy channel, or any channel when the pixel at `p` is masked,
receives the sample under the centre; a channel without the Blend trait
receives the clamped weighted sum; a Blend channel the clamped alpha-weighted
sum times `gamma`, the guarded reciprocal of the weighted alpha sum. -/
def BlurChannel (image blur_image : Image) (kernel : List ℚ) (width : ℕ)
    (pixels : ℕ → Pixel) (q : Pixel) (i : ℕ) : Pixel :=
  let channel := GetPixelChannelMapChannel image i
  let traits := GetPixelChannelMapTraits image channel
  let blur_traits := GetPixelChannelMapTraits blur_image channel
  if traits = UndefinedPixelTrait ∨ blur_traits = UndefinedPixelTrait then q
  else if blur_traits &&& CopyPixelTrait ≠ 0 ∨ GetPixelMask image (pixels 0) ≠ 0 then
    SetPixelChannel blur_image channel (pixels (width / 2) i) q
  else if blur_traits &&& BlendPixelTrait = 0 then
    SetPixelChannel blur_image channel
      (ClampToQuantum ((List.range width).foldl
        (fun (pixel : ℚ) (u : ℕ) => pixel + kernel.getD u 0 * (pixels u i).toReal) 0)) q
  else
    let pixel : ℚ := (List.range width).foldl
      (fun (pixel : ℚ) (u : ℕ) => pixel + kernel.getD u 0 *
        (QuantumScale * (GetPixelAlpha image (pixels u)).toReal) * (pixels u i).toReal) 0
    let gamma : ℚ := (List.range width).foldl
      (fun (gamma : ℚ) (u : ℕ) => gamma + kernel.getD u 0 *
        (QuantumScale * (GetPixelAlpha image (pixels u)).toReal)) 0
    let gamma : ℚ := 1 / (if |gamma| ≤ MagickEpsilon then 1 else gamma)
    SetPixelChannel blur_image channel (ClampToQuantum (gamma * pixel)) q

/-- The channel loop of `BlurImage` for one pixel: the turns
`0 .. GetPixelChannels(image)-1`. -/
def BlurPixel (image blur_image : Image) (kernel : List ℚ) (width : ℕ)
    (pixels : ℕ → Pixel) (q : Pixel) : Pixel :=
  (List.range (GetPixelChannels image)).foldl
    (BlurChannel image blur_image kernel width pixels) q

/-- The pixel loop of one line of `BlurImage`: for the positions
`0 .. count-1` of the line, the window `p` and the buffer `q` advance by one
pixel per turn, so the footprint of the position `x` starts at `p x`. -/
def BlurLine (image blur_image : Image) (kernel : List ℚ) (width : ℕ) (count : ℕ)
    (p : ℕ → Pixel) (q : ℕ → Pixel) : ℕ → Pixel :=
  (List.range count).foldl
    (fun (q : ℕ → Pixel) (x : ℕ) =>
      Function.update q x
        (BlurPixel image blur_image kernel width (fun u => p (x + u)) (q x))) q

/-- The body of the row loop of `BlurImage` (lines 944-1056) for the row `y`:
the window is the row `y` of `image` from the column `-(width/2)` on, the
buffer is queued on `blur_image`. -/
def BlurRow (cache : ViewOracle) (image blur_image : Image) (kernel : List ℚ) (width : ℕ)
    (s : EffectState) (y : ℕ) : EffectState :=
  if s.status = false then s
  else if cache.getVirtualPixels y = false ∨ cache.getAuthenticPixels y = false then
    { s with status := false }
  else
    EffectSync cache s y
      (Function.update s.pixels y
        (BlurLine image blur_image kernel width image.columns
          (fun k => GetVirtualPixel cache image.columns image.rows image.pixels
            ((k : ℤ) - ((width / 2 : ℕ) : ℤ)) (y : ℤ))
          (cache.queuedPixels y)))

/-- The body of the column loop of `BlurImage` (lines 1068-1180) for the
column `x`: the window is the column `x` of `blur_image` from the row
`-(width/2)` on, as stored when the column is acquired; the buffer is the
column `x` of `blur_image`, written back on sync. -/
def BlurColumn (cache : ViewOracle) (blur_image : Image) (kernel : List ℚ) (width : ℕ)
    (s : EffectState) (x : ℕ) : EffectState :=
  if s.status = false then s
  else if cache.getVirtualPixels x = false ∨ cache.getAuthenticPixels x = false then
    { s with status := false }
  else
    EffectSync cache s x
      (fun y => if y < blur_image.rows then
        Function.update (s.pixels y) x
          (BlurLine blur_image blur_image kernel width blur_image.rows
            (fun k => GetVirtualPixel cache blur_image.columns blur_image.rows s.pixels
              (x : ℤ) ((k : ℤ) - ((width / 2 : ℕ) : ℤ)))
            (fun y => s.pixels y x) y)
        else s.pixels y)

/-- The function `BlurImage` (lines 851-1188), with the kernel width and the
kernel as delivered by `GetOptimalKernelWidth1D` and `GetBlurKernel`. The
clone `blur_image` has the extent, the channel map and the pixels of `image`.
The result is `none` for a null image: when the clone, its storage class or
the kernel cannot be had, and when `status` is false after the two passes.
For `|sigma| <= MagickEpsilon` the clone is returned as it is. The rows are
blurred from `image` into `blur_image`, then the columns of `blur_image` in
place, `status` and `progress` running on. -/
def BlurImage (resources : EffectResources) (rowCache columnCache : ViewOracle)
    (image : Image) (sigma : ℚ) (width : ℕ) (kernel : List ℚ) : Option (ℕ → PixelRow) :=
  if resources.cloneImage = false then none
  else if |sigma| ≤ MagickEpsilon then some image.pixels
  else if resources.setImageStorageClass = false then none
  else if resources.acquireKernel = false then none
  else
    let rows : EffectState := (List.range image.rows).foldl
      (BlurRow rowCache image image kernel width)
      { status := true, progress := 0, pixels := image.pixels }
    let columns : EffectState := (List.range image.columns).foldl
      (BlurColumn columnCache image kernel width) rows
    if columns.status = false then none else some columns.pixels

/-- The footprint of the transparent scenario: every pixel under the kernel is
fully transparent and stores the colour red. -/
def transparentRedFootprint : ℕ → Pixel :=
  fun _ => rgbaPixel OpaqueAlpha 0 0 TransparentAlpha

/-- No access of a pass to the pixel cache fails: the windows and buffers are
delivered, the syncs commit, and the progress monitor, if there is one, lets
the loop proceed. -/
def ViewSucceeds (cache : ViewOracle) : Prop :=
  (∀ n, cache.getVirtualPixels n = true) ∧ (∀ n, cache.getAuthenticPixels n = true) ∧
  (∀ n, cache.syncAuthenticPixels n = true) ∧
  ∀ monitor, cache.progress_monitor = some monitor → ∀ c, monitor c = true

/-- The clone, its storage class and the kernel are delivered. -/
def ResourcesSucceed (resources : EffectResources) : Prop :=
  resources.cloneImage = true ∧ resources.setImageStorageClass = true ∧
  resources.acquireKernel = true

/-- The Copy channels of the first `n` rows of a pixel store hold the samples
of the image. -/
def CopyChannelsKept (image : Image) (pixels : ℕ → PixelRow) (n : ℕ) : Prop :=
  ∀ y x i, y < n → x < image.columns → i < image.number_channels →
    image.traits (image.channel_at i) &&& CopyPixelTrait ≠ 0 →
    pixels y x i = image.pixels y x i

/-- A view in which every access succeeds, without a progress monitor, whose
virtual pixels and queued buffers are all zero. -/
def reliableView : ViewOracle :=
  { getVirtualPixels := fun _ => true
    getAuthenticPixels := fun _ => true
    queuedPixels := fun _ _ _ => 0
    syncAuthenticPixels := fun _ => true
    progress_monitor := none
    virtualPixel := fun _ _ _ => 0 }

/-- Resources that are all delivered. -/
def reliableResources : EffectResources :=
  { cloneImage := true, setImageStorageClass := true, acquireKernel := true }

/-! ## SelectiveBlurImage (effect.c) -/

/-- One turn of the channel loop of `SelectiveBlurImage` (lines 3055-3121).
`window v u` is the pixel of row `v` and column `u` of the footprint that
starts at the pointer `p`, so that `p[center+i]` is the sample `i` of
`window (width/2) (width/2)`; `kernel` holds the `width*width` weights, read
in step with the footprint. The accumulators are the pair `(pixel, gamma)`:
a pixel of the footprint contributes when its intensity differs from the
intensity of the centre by less than `threshold` in magnitude. When `gamma`
is below `MagickEpsilon` in magnitude the sample under the centre is
written. -/
def SelectiveBlurChannel (oracle : PixelOracle) (image blur_image : Image)
    (kernel : List ℚ) (width : ℕ) (threshold : ℚ) (window : ℕ → ℕ → Pixel) (q : Pixel)
    (i : ℕ) : Pixel :=
  let channel := GetPixelChannelMapChannel image i
  let traits := GetPixelChannelMapTraits image channel
  let blur_traits := GetPixelChannelMapTraits blur_image channel
  if traits = UndefinedPixelTrait ∨ blur_traits = UndefinedPixelTrait then q
  else if blur_traits &&& CopyPixelTrait ≠ 0 ∨ GetPixelMask image (window 0 0) ≠ 0 then
    SetPixelChannel blur_image channel (window (width / 2) (width / 2) i) q
  else
    let intensity : ℚ := oracle.GetPixelIntensity image (window (width / 2) (width / 2))
    if blur_traits &&& BlendPixelTrait = 0 then
      let sums : ℚ × ℚ := (List.range width).foldl
        (fun (sums : ℚ × ℚ) (v : ℕ) => (List.range width).foldl
          (fun (sums : ℚ × ℚ) (u : ℕ) =>
            let contrast : ℚ := oracle.GetPixelIntensity image (window v u) - intensity
            if |contrast| < threshold then
              (sums.1 + kernel.getD (v * width + u) 0 * (window v u i).toReal,
               sums.2 + kernel.getD (v * width + u) 0)
            else sums) sums) (0, 0)
      if |sums.2| < MagickEpsilon then
        SetPixelChannel blur_image channel (window (width / 2) (width / 2) i) q
      else
        SetPixelChannel blur_image channel
          (ClampToQuantum (1 / (if |sums.2| ≤ MagickEpsilon then 1 else sums.2) * sums.1)) q
    else
      let sums : ℚ × ℚ := (List.range width).foldl
        (fun (sums : ℚ × ℚ) (v : ℕ) => (List.range width).foldl
          (fun (sums : ℚ × ℚ) (u : ℕ) =>
            let contrast : ℚ := oracle.GetPixelIntensity image (window v u) - intensity
            if |contrast| < threshold then
              (sums.1 + kernel.getD (v * width + u) 0 *
                (QuantumScale * (GetPixelAlpha image (window v u)).toReal) *
                (window v u i).toReal,
               sums.2 + kernel.getD (v * width + u) 0 *
                (QuantumScale * (GetPixelAlpha image (window v u)).toReal))
            else sums) sums) (0, 0)
      if |sums.2| < MagickEpsilon then
        SetPixelChannel blur_image channel (window (width / 2) (width / 2) i) q
      else
        SetPixelChannel blur_image channel
          (ClampToQuantum (1 / (if |sums.2| ≤ MagickEpsilon then 1 else sums.2) * sums.1)) q

/-- The channel loop of `SelectiveBlurImage` for one pixel. -/
def SelectiveBlurPixel (oracle : PixelOracle) (image blur_image : Image)
    (kernel : List ℚ) (width : ℕ) (threshold : ℚ) (window : ℕ → ℕ → Pixel) (q : Pixel) :
    Pixel :=
  (List.range (GetPixelChannels image)).foldl
    (SelectiveBlurChannel oracle image blur_image kernel width threshold window) q

/-- The pixel loop of a row of `SelectiveBlurImage`: `p v k` is the pixel of
row `v` and column `k` of the window acquired for the row, and the window and
the buffer advance by one pixel per turn. -/
def SelectiveBlurLine (oracle : PixelOracle) (image blur_image : Image)
    (kernel : List ℚ) (width : ℕ) (threshold : ℚ) (p : ℕ → ℕ → Pixel) (q : PixelRow) :
    PixelRow :=
  (List.range image.columns).foldl
    (fun (q : PixelRow) (x : ℕ) =>
      Function.update q x
        (SelectiveBlurPixel oracle image blur_image kernel width threshold
          (fun v u => p v (x + u)) (q x))) q

/-- The body of the row loop of `SelectiveBlurImage` (lines 2995-3142) for
the row `y`: the window has `width` rows of `image` from the row
`y-(width/2)` and the column `-(width/2)` on; the buffer is queued on
`blur_image`. -/
def SelectiveBlurRow (oracle : PixelOracle) (cache : ViewOracle) (image blur_image : Image)
    (kernel : List ℚ) (width : ℕ) (threshold : ℚ) (s : EffectState) (y : ℕ) : EffectState :=
  if s.status = false then s
  else if cache.getVirtualPixels y = false ∨ cache.getAuthenticPixels y = false then
    { s with status := false }
  else
    EffectSync cache s y
      (Function.update s.pixels y
        (SelectiveBlurLine oracle image blur_image kernel width threshold
          (fun v k => GetVirtualPixel cache image.columns image.rows image.pixels
            ((k : ℤ) - ((width / 2 : ℕ) : ℤ)) ((y : ℤ) + (v : ℤ) - ((width / 2 : ℕ) : ℤ)))
          (cache.queuedPixels y)))

/-- The function `SelectiveBlurImage` (lines 2888-3150), with the kernel
width as delivered by `GetOptimalKernelWidth1D`; `exp` stands for the
exponential of the C library and `MagickPI` for the constant. The kernel
holds the samples `exp(-(u*u+v*v)/(2*sigma*sigma))/(2*pi*sigma*sigma)`. The
clone `blur_image` has the extent, the channel map and the pixels of
`image`. The result is `none` for a null image: when the kernel, the clone
or its storage class cannot be had, and when `status` is false after the
rows. -/
def SelectiveBlurImage (exp : ℚ → ℚ) (MagickPI : ℚ) (oracle : PixelOracle)
    (resources : EffectResources) (cache : ViewOracle) (image : Image) (width : ℕ)
    (sigma threshold : ℚ) : Option (ℕ → PixelRow) :=
  if resources.acquireKernel = false then none
  else if resources.cloneImage = false then none
  else if resources.setImageStorageClass = false then none
  else
    let kernel : List ℚ := GaussianKernel2D exp MagickPI width sigma
    let rows : EffectState := (List.range image.rows).foldl
      (SelectiveBlurRow oracle cache image image kernel width threshold)
      { status := true, progress := 0, pixels := image.pixels }
    if rows.status = false then none else some rows.pixels

/-! ## MotionBlurImage (effect.c) -/

/-- The function `GetMotionBlurKernel` (lines 1824-1850), over an ordered field
`K` that stands for `double`, with the exponential `exp` of the C library and
the constant `MagickSQ2PI` as parameters: the samples
`exp(-i*i/(2*sigma*sigma))/(MagickSQ2PI*sigma)` for `i = 0 .. width-1`,
divided by their sum. -/
def GetMotionBlurKernel {K : Type} [LinearOrderedField K] (exp : K → K) (MagickSQ2PI : K)
    (width : ℕ) (sigma : K) : List K :=
  let kernel : List K := (List.range width).map fun (i : ℕ) =>
    exp (-((i : K) * (i : K)) / (2 * MagickSigma sigma * MagickSigma sigma)) /
      (MagickSQ2PI * MagickSigma sigma)
  let normalize : K := kernel.sum
  kernel.map fun w => w / normalize

/-- Modelled from the spec: the functions of the C library and the constants
that `MotionBlurImage` uses and that are not among the sources; their values
are doubles, hence rationals. -/
structure MathOracle where
  exp : ℚ → ℚ
  sin : ℚ → ℚ
  cos : ℚ → ℚ
  hypot : ℚ → ℚ → ℚ
  MagickPI : ℚ
  MagickSQ2PI : ℚ

/-- Modelled from the spec: `DegreesToRadians` of image-private.h (not among
the sources), `MagickPI*degrees/180`. -/
def DegreesToRadians (math : MathOracle) (degrees : ℚ) : ℚ :=
  math.MagickPI * degrees / 180

/-- The offsets of `MotionBlurImage` (lines 1916-1922): for the tap `i` the
pair `(x, y)` with `x = ceil(i*point.y/hypot(point.x,point.y)-0.5)` and
`y = ceil(i*point.x/hypot(point.x,point.y)-0.5)`, where
`point = width*(sin(angle), cos(angle))`. -/
def MotionBlurOffsets (math : MathOracle) (width : ℕ) (angle : ℚ) : List (ℤ × ℤ) :=
  let point_x : ℚ := (width : ℚ) * math.sin (DegreesToRadians math angle)
  let point_y : ℚ := (width : ℚ) * math.cos (DegreesToRadians math angle)
  (List.range width).map fun (i : ℕ) =>
    (⌈((i : ℚ) * point_y) / math.hypot point_x point_y - 1 / 2⌉,
     ⌈((i : ℚ) * point_x) / math.hypot point_x point_y - 1 / 2⌉)

/-- The variables of a tap loop of `MotionBlurImage`: `status`, the position
of `k` in the kernel, and the accumulators `pixel` and `gamma`. -/
structure MotionTaps where
  status : Bool
  k : ℕ
  pixel : ℚ
  gamma : ℚ

/-- One turn of the channel loop of `MotionBlurImage` (lines 1983-2031) at
the pixel `(x, y)`, carrying `status` and the pixel `q`. `p` is the pixel of
`image` at `(x, y)`; the tap `j` reads the pixel at `(x+offset[j].x,
y+offset[j].y)` through `motion_view`, and `motion j` tells whether it is
delivered: if not, `status` is cleared and the tap is skipped without
advancing `k`. -/
def MotionBlurChannel (cache : ViewOracle) (motion : ℕ → ℕ → Bool)
    (image blur_image : Image) (kernel : List ℚ) (offset : List (ℤ × ℤ)) (width : ℕ)
    (x y : ℕ) (p : Pixel) (s : Bool × Pixel) (i : ℕ) : Bool × Pixel :=
  let channel := GetPixelChannelMapChannel image i
  let traits := GetPixelChannelMapTraits image channel
  let blur_traits := GetPixelChannelMapTraits blur_image channel
  let r : ℕ → Pixel := fun j =>
    GetVirtualPixel cache image.columns image.rows image.pixels
      ((x : ℤ) + (offset.getD j (0, 0)).1) ((y : ℤ) + (offset.getD j (0, 0)).2)
  if traits = UndefinedPixelTrait ∨ blur_traits = UndefinedPixelTrait then s
  else if blur_traits &&& CopyPixelTrait ≠ 0 ∨ GetPixelMask image p ≠ 0 then
    (s.1, SetPixelChannel blur_image channel (p i) s.2)
  else if blur_traits &&& BlendPixelTrait = 0 then
    let taps : MotionTaps := (List.range width).foldl
      (fun (t : MotionTaps) (j : ℕ) =>
        if motion i j = false then { t with status := false }
        else { t with
          pixel := t.pixel + kernel.getD t.k 0 * (r j i).toReal
          k := t.k + 1 })
      { status := s.1, k := 0, pixel := 0, gamma := 0 }
    (taps.status, SetPixelChannel blur_image channel (ClampToQuantum taps.pixel) s.2)
  else
    let taps : MotionTaps := (List.range width).foldl
      (fun (t : MotionTaps) (j : ℕ) =>
        if motion i j = false then { t with status := false }
        else { t with
          pixel := t.pixel + kernel.getD t.k 0 *
            (QuantumScale * (GetPixelAlpha image (r j)).toReal) * (r j i).toReal
          gamma := t.gamma + kernel.getD t.k 0 *
            (QuantumScale * (GetPixelAlpha image (r j)).toReal)
          k := t.k + 1 })
      { status := s.1, k := 0, pixel := 0, gamma := 0 }
    let gamma : ℚ := 1 / (if |taps.gamma| ≤ MagickEpsilon then 1 else taps.gamma)
    (taps.status, SetPixelChannel blur_image channel (ClampToQuantum (gamma * taps.pixel)) s.2)

/-- The channel loop of `MotionBlurImage` for the pixel `(x, y)`. -/
def MotionBlurPixel (cache : ViewOracle) (motion : ℕ → ℕ → Bool)
    (image blur_image : Image) (kernel : List ℚ) (offset : List (ℤ × ℤ)) (width : ℕ)
    (x y : ℕ) (p : Pixel) (s : Bool × Pixel) : Bool × Pixel :=
  (List.range (GetPixelChannels image)).foldl
    (MotionBlurChannel cache motion image blur_image kernel offset width x y p) s

/-- The pixel loop of the row `y` of `MotionBlurImage`, carrying `status` and
the buffer `q`; `p` is the row `y` of `image`. -/
def MotionBlurLine (cache : ViewOracle) (motion : ℕ → ℕ → ℕ → Bool)
    (image blur_image : Image) (kernel : List ℚ) (offset : List (ℤ × ℤ)) (width : ℕ)
    (y : ℕ) (p : PixelRow) (s : Bool × PixelRow) : Bool × PixelRow :=
  (List.range image.columns).foldl
    (fun (s : Bool × PixelRow) (x : ℕ) =>
      ((MotionBlurPixel cache (motion x) image blur_image kernel offset width x y (p x)
          (s.1, s.2 x)).1,
       Function.update s.2 x
        (MotionBlurPixel cache (motion x) image blur_image kernel offset width x y (p x)
          (s.1, s.2 x)).2)) s

/-- The body of the row loop of `MotionBlurImage` (lines 1934-2050) for the
row `y`. The sync and the progress monitor run whatever the taps did to
`status`, and can only clear it. -/
def MotionBlurRow (cache : ViewOracle) (motion : ℕ → ℕ → ℕ → ℕ → Bool)
    (image blur_image : Image) (kernel : List ℚ) (offset : List (ℤ × ℤ)) (width : ℕ)
    (s : EffectState) (y : ℕ) : EffectState :=
  if s.status = false then s
  else if cache.getVirtualPixels y = false ∨ cache.getAuthenticPixels y = false then
    { s with status := false }
  else
    let line : Bool × PixelRow :=
      MotionBlurLine cache (motion y) image blur_image kernel offset width y
        (fun x => GetVirtualPixel cache image.columns image.rows image.pixels (x : ℤ) (y : ℤ))
        (true, cache.queuedPixels y)
    { EffectSync cache s y (Function.update s.pixels y line.2) with
      status := line.1 && (EffectSync cache s y (Function.update s.pixels y line.2)).status }

/-- The function `MotionBlurImage` (lines 1852-2059), with the kernel width
as delivered by `GetOptimalKernelWidth1D`. `resources.acquireKernel` stands
for the allocation of the kernel and of the offsets. The clone `blur_image`
has the extent, the channel map and the pixels of `image`. The result is
`none` for a null image. `motion y x i j` tells whether the read of the tap
`j` for the channel `i` of the pixel `(x, y)` is delivered. -/
def MotionBlurImage (math : MathOracle) (resources : EffectResources) (cache : ViewOracle)
    (motion : ℕ → ℕ → ℕ → ℕ → Bool) (image : Image) (width : ℕ) (sigma angle : ℚ) :
    Option (ℕ → PixelRow) :=
  if resources.acquireKernel = false then none
  else if resources.cloneImage = false then none
  else if resources.setImageStorageClass = false then none
  else
    let kernel : List ℚ := GetMotionBlurKernel math.exp math.MagickSQ2PI width sigma
    let offset : List (ℤ × ℤ) := MotionBlurOffsets math width angle
    let rows : EffectState := (List.range image.rows).foldl
      (MotionBlurRow cache motion image image kernel offset width)
      { status := true, progress := 0, pixels := image.pixels }
    if rows.status = false then none else some rows.pixels

/-- Rational stand-ins for the functions of the C library, exact at 0: the
first terms of the series of `exp`, `sin` and `cos`, the larger magnitude for
`hypot`, and the constants to five decimals. -/
def seriesMath : MathOracle :=
  { exp := fun x => 1 + x + x * x / 2
    sin := fun x => x - x * x * x / 6
    cos := fun x => 1 - x * x / 2
    hypot := fun x y => max |x| |y|
    MagickPI := 314159 / 100000
    MagickSQ2PI := 250663 / 100000 }

/-! ## FloodfillPaintImage (paint.c) -/

/-- The record `SegmentInfo` as the segment stack uses it: `x1` and `x2` are
the ends of a span, `y1` its row and `y2` the direction; the fields are
doubles that hold integers. -/
structure SegmentInfo where
  x1 : ℤ
  y1 : ℤ
  x2 : ℤ
  y2 : ℤ

/-- The capacity `MaxStacksize` of the segment stack, `1UL << 15`. -/
def MaxStacksize : ℕ := 32768

/-- The colour record `PixelInfo`, reduced to the fields the fill reads. -/
structure PixelInfo where
  red : ℚ
  green : ℚ
  blue : ℚ
  black : ℚ
  alpha : ℚ

/-- Modelled from the spec: what `FloodfillPaintImage` calls and is not among
the sources. `setImageStorageClass`, `cloneImage` and `acquireSegmentStack`
tell whether these calls succeed; `cache n` tells whether the cache access
number `n` of the run succeeds (an acquisition of the two row pointers counts
as one access, a sync as one); `IsFuzzyEquivalencePixelInfo` is the
comparison of a pixel of the image with `target`; `GetFillColor x y` is the
fill colour of `draw_info` at `(x, y)` as `SetPixelInfoPacket` and, in the
CMYK colorspace, `ConvertRGBToCMYK` leave it; `cmyk` tells whether the
colorspace of the image is `CMYKColorspace`. -/
structure FloodfillOracle where
  setImageStorageClass : Bool
  cloneImage : Bool
  acquireSegmentStack : Bool
  cache : ℕ → Bool
  IsFuzzyEquivalencePixelInfo : Pixel → Bool
  GetFillColor : ℕ → ℕ → PixelInfo
  cmyk : Bool

/-- Modelled from the spec: the trait bit `ActivePixelTrait` that paint.c
tests (pixel.h is not among the sources), taken as the bit of a channel that
is updated. -/
def ActivePixelTrait : PixelTrait := UpdatePixelTrait

/-- The loop `for (x=x1; x >= 0; x--)` of lines 237-247 on the row `p` of the
image and the buffer `q` of flood plane alphas: it stops at a pixel that is
already marked or that does not pass the comparison with the target, and
marks the others with `TransparentAlpha`. The first argument counts the turns
left, `x+1`. The result is the final `x` and the buffer. -/
def FloodfillScanLeft (oracle : FloodfillOracle) (invert : Bool) (p : PixelRow) :
    ℕ → ℤ → (ℕ → Quantum) → ℤ × (ℕ → Quantum)
  | 0, x, q => (x, q)
  | n + 1, x, q =>
    if x < 0 then (x, q)
    else if q (Int.toNat x) = TransparentAlpha then (x, q)
    else if oracle.IsFuzzyEquivalencePixelInfo (p (Int.toNat x)) = invert then (x, q)
    else FloodfillScanLeft oracle invert p n (x - 1)
      (Function.update q (Int.toNat x) TransparentAlpha)

/-- The loop `for ( ; x < image->columns; x++)` of lines 271-282: as the left
scan, towards the right. The first argument counts the turns left,
`image->columns - x`. -/
def FloodfillScanRight (oracle : FloodfillOracle) (image : Image) (invert : Bool)
    (p : PixelRow) : ℕ → ℤ → (ℕ → Quantum) → ℤ × (ℕ → Quantum)
  | 0, x, q => (x, q)
  | n + 1, x, q =>
    if (image.columns : ℤ) ≤ x then (x, q)
    else if q (Int.toNat x) = TransparentAlpha then (x, q)
    else if oracle.IsFuzzyEquivalencePixelInfo (p (Int.toNat x)) = invert then (x, q)
    else FloodfillScanRight oracle image invert p n (x + 1)
      (Function.update q (Int.toNat x) TransparentAlpha)

/-- The loop `for ( ; x <= x2; x++)` of lines 301-310: it passes over the
pixels that are neither marked nor pass the comparison with the target, and
writes nothing. The first argument counts the turns left, `x2 - x + 1`. -/
def FloodfillScanSkip (oracle : FloodfillOracle) (invert : Bool) (p : PixelRow)
    (q : ℕ → Quantum) (x2 : ℤ) : ℕ → ℤ → ℤ
  | 0, x => x
  | n + 1, x =>
    if x2 < x then x
    else if q (Int.toNat x) = TransparentAlpha then x
    else if oracle.IsFuzzyEquivalencePixelInfo (p (Int.toNat x)) ≠ invert then x
    else FloodfillScanSkip oracle invert p q x2 n (x + 1)

/-- The variables of `FloodfillPaintImage` during the segment loop: the
segment stack, the alpha plane of `floodplane_image` (a pixel is marked when
its alpha is `TransparentAlpha`), `start`, `x`, `skip`, and the count of
cache accesses made. -/
structure FloodState where
  stack : List SegmentInfo
  floodplane : ℕ → ℕ → Quantum
  start : ℤ
  x : ℤ
  skip : Bool
  accesses : ℕ

/-- The ways the loops of the flood fill are left early, each with the
variables as they stand: `stop` by a `break` out of the segment loop (after a
failed cache access of the left scan), `leave` by a `break` out of the loop
over the spans of one segment (after a failed cache access there; the
segment loop goes on), `overflow` by the exception of `PushSegmentStack`. -/
inductive FloodExit
  | stop (s : FloodState)
  | leave (s : FloodState)
  | overflow

/-- The macro `PushSegmentStack(up,left,right,delta)`: an exception when the
stack is full; otherwise the segment is pushed when the row `up+delta` lies
in the image, and dropped when it does not. The head of the list is the top
of the stack. -/
def PushSegmentStack (image : Image) (stack : List SegmentInfo) (up left right delta : ℤ) :
    Except FloodExit (List SegmentInfo) :=
  if MaxStacksize ≤ stack.length then Except.error FloodExit.overflow
  else if 0 ≤ up + delta ∧ up + delta < (image.rows : ℤ) then
    Except.ok ({ x1 := left, y1 := up, x2 := right, y2 := delta } :: stack)
  else Except.ok stack

/-- The loop `do ... while (x <= x2)` of lines 258-313 for a popped segment
of the row `y`; `pixels` is the pixel store of the image. Unless `skip` is
set, the span is extended to the right of `x` (marking), the span
`start .. x-1` is pushed in the direction `offset`, and the part of it beyond
`x2+1` in the direction `-offset`; then `x` passes over the pixels up to `x2`
that are not part of the region. A failed cache access leaves this loop, and
a failed sync leaves the marks of the scan uncommitted. Each turn increases
`x`, so the first argument, the turns left, starts at `x2 - x + 1` and is
never used up. -/
def FloodfillSpans (oracle : FloodfillOracle) (image : Image) (pixels : ℕ → PixelRow)
    (invert : Bool) (y x2 offset : ℤ) : ℕ → FloodState → Except FloodExit FloodState
  | 0, s => Except.ok s
  | n + 1, s => do
    let s ← (if s.skip = false then do
        let s ← (if s.x < (image.columns : ℤ) then
            if oracle.cache s.accesses = false then
              Except.error (FloodExit.leave { s with accesses := s.accesses + 1 })
            else if oracle.cache (s.accesses + 1) = false then
              Except.error (FloodExit.leave { s with accesses := s.accesses + 2 })
            else
              Except.ok { s with
                x := (FloodfillScanRight oracle image invert (pixels (Int.toNat y))
                  (Int.toNat ((image.columns : ℤ) - s.x)) s.x
                  (s.floodplane (Int.toNat y))).1
                floodplane := Function.update s.floodplane (Int.toNat y)
                  (FloodfillScanRight oracle image invert (pixels (Int.toNat y))
                    (Int.toNat ((image.columns : ℤ) - s.x)) s.x
                    (s.floodplane (Int.toNat y))).2
                accesses := s.accesses + 2 }
          else Except.ok s)
        let stack ← PushSegmentStack image s.stack y s.start (s.x - 1) offset
        let stack ← (if s.x > x2 + 1 then
            PushSegmentStack image stack y (x2 + 1) (s.x - 1) (-offset)
          else Except.ok stack)
        Except.ok { s with stack := stack }
      else Except.ok s)
    let s : FloodState := { s with skip := false, x := s.x + 1 }
    let s ← (if s.x ≤ x2 then
        if oracle.cache s.accesses = false then
          Except.error (FloodExit.leave { s with accesses := s.accesses + 1 })
        else
          Except.ok { s with
            x := FloodfillScanSkip oracle invert (pixels (Int.toNat y))
              (s.floodplane (Int.toNat y)) x2 (Int.toNat (x2 - s.x + 1)) s.x
            accesses := s.accesses + 1 }
      else Except.ok s)
    let s : FloodState := { s with start := s.x }
    if s.x ≤ x2 then FloodfillSpans oracle image pixels invert y x2 offset n s
    else Except.ok s

/-- The body of the loop `while (s > segment_stack)` (lines 219-313) for the
popped `segment`, `rest` being the stack below it: the left scan from `x1` in
the row `y = y1+offset` and its sync (a failure of either leaves the segment
loop), the push of the part found on the left of `x1` in the direction
`-offset`, and the loop over the spans up to `x2`. -/
def FloodfillSegment (oracle : FloodfillOracle) (image : Image) (pixels : ℕ → PixelRow)
    (invert : Bool) (s : FloodState) (segment : SegmentInfo) (rest : List SegmentInfo) :
    Except FloodExit FloodState := do
  let x1 : ℤ := segment.x1
  let x2 : ℤ := segment.x2
  let offset : ℤ := segment.y2
  let y : ℤ := segment.y1 + offset
  let s : FloodState := { s with stack := rest }
  let s ← (if oracle.cache s.accesses = false then
      Except.error (FloodExit.stop { s with accesses := s.accesses + 1 })
    else if oracle.cache (s.accesses + 1) = false then
      Except.error (FloodExit.stop { s with accesses := s.accesses + 2 })
    else
      Except.ok { s with
        x := (FloodfillScanLeft oracle invert (pixels (Int.toNat y)) (Int.toNat (x1 + 1)) x1
          (s.floodplane (Int.toNat y))).1
        floodplane := Function.update s.floodplane (Int.toNat y)
          (FloodfillScanLeft oracle invert (pixels (Int.toNat y)) (Int.toNat (x1 + 1)) x1
            (s.floodplane (Int.toNat y))).2
        accesses := s.accesses + 2 })
  let s : FloodState := { s with skip := decide (x1 ≤ s.x) }
  let s ← (if s.skip = false then do
      let start : ℤ := s.x + 1
      let stack ← (if start < x1 then PushSegmentStack image s.stack y start (x1 - 1) (-offset)
        else Except.ok s.stack)
      Except.ok { s with start := start, stack := stack, x := x1 + 1 }
    else Except.ok s)
  match FloodfillSpans oracle image pixels invert y x2 offset (Int.toNat (x2 - s.x) + 1) s with
  | Except.error (FloodExit.leave s2) => Except.ok s2
  | result => result

/-- The loop `while (s > segment_stack)` of lines 208-314, with `fuel` turns
allowed: `none` when the stack is not empty after `fuel` turns. -/
def FloodfillSegments (oracle : FloodfillOracle) (image : Image) (pixels : ℕ → PixelRow)
    (invert : Bool) : ℕ → FloodState → Option (Except FloodExit FloodState)
  | 0, s =>
    match s.stack with
    | [] => some (Except.ok s)
    | _ :: _ => none
  | fuel + 1, s =>
    match s.stack with
    | [] => some (Except.ok s)
    | segment :: rest =>
      match FloodfillSegment oracle image pixels invert s segment rest with
      | Except.ok s2 => FloodfillSegments oracle image pixels invert fuel s2
      | Except.error e => some (Except.error e)

/-- Lines 338-352: the fill colour written to the channels of the pixel `q`
whose traits have the bit `ActivePixelTrait`, black only in the CMYK
colorspace. Modelled from the spec for the setters `SetPixelRed` ..
`SetPixelAlpha` of pixel-accessor.h, which store at the offset of the
channel. -/
def FloodfillFillPixel (image : Image) (cmyk : Bool) (fill : PixelInfo) (q : Pixel) : Pixel :=
  let q : Pixel := if image.traits PixelChannel.Red &&& ActivePixelTrait ≠ 0 then
    Function.update q (image.offset PixelChannel.Red) (ClampToQuantum fill.red) else q
  let q : Pixel := if image.traits PixelChannel.Green &&& ActivePixelTrait ≠ 0 then
    Function.update q (image.offset PixelChannel.Green) (ClampToQuantum fill.green) else q
  let q : Pixel := if image.traits PixelChannel.Blue &&& ActivePixelTrait ≠ 0 then
    Function.update q (image.offset PixelChannel.Blue) (ClampToQuantum fill.blue) else q
  let q : Pixel := if image.traits PixelChannel.Black &&& ActivePixelTrait ≠ 0 ∧ cmyk = true then
    Function.update q (image.offset PixelChannel.Black) (ClampToQuantum fill.black) else q
  if image.traits PixelChannel.Alpha &&& ActivePixelTrait ≠ 0 then
    Function.update q (image.offset PixelChannel.Alpha) (ClampToQuantum fill.alpha) else q

/-- The loop over the rows of lines 315-359, which writes the fill colour to
every pixel whose flood plane alpha is not `OpaqueAlpha`: the first argument
counts the rows left, `y` is the current row. A failed acquisition or sync
leaves the loop; the result tells whether `y` reached `image->rows`. -/
def FloodfillTile (oracle : FloodfillOracle) (image : Image) (floodplane : ℕ → ℕ → Quantum) :
    ℕ → ℕ → ℕ → (ℕ → PixelRow) → Bool × (ℕ → PixelRow)
  | 0, _, _, pixels => (true, pixels)
  | n + 1, y, accesses, pixels =>
    if oracle.cache accesses = false then (false, pixels)
    else if oracle.cache (accesses + 1) = false then (false, pixels)
    else
      FloodfillTile oracle image floodplane n (y + 1) (accesses + 2)
        (Function.update pixels y
          ((List.range image.columns).foldl
            (fun (q : PixelRow) (x : ℕ) =>
              if floodplane y x ≠ OpaqueAlpha then
                Function.update q x
                  (FloodfillFillPixel image oracle.cmyk (oracle.GetFillColor x y) (q x))
              else q) (pixels y)))

/-- The tiling that follows the segment loop, from the flood plane and the
access count the loop left; an exception of `PushSegmentStack` has returned
`MagickFalse` before it. -/
def FloodfillFinish (oracle : FloodfillOracle) (image : Image) (pixels : ℕ → PixelRow) :
    Except FloodExit FloodState → Bool × (ℕ → PixelRow)
  | Except.ok s => FloodfillTile oracle image s.floodplane image.rows 0 s.accesses pixels
  | Except.error (FloodExit.stop s) =>
    FloodfillTile oracle image s.floodplane image.rows 0 s.accesses pixels
  | Except.error (FloodExit.leave s) =>
    FloodfillTile oracle image s.floodplane image.rows 0 s.accesses pixels
  | Except.error FloodExit.overflow => (false, pixels)

/-- The function `FloodfillPaintImage` (lines 105-365): the value returned
and the pixels of the image afterwards, or `none` when the segment loop has
not finished within `fuel` turns. `matte` is `image->matte`: when it is
false `SetImageAlphaChannel` makes every pixel of the image opaque (modelled
from the spec, image.c is not among the sources). The flood plane is a clone
made opaque, of which only the alpha plane is kept. An exception of
`PushSegmentStack` returns `MagickFalse` at once. -/
def FloodfillPaintImage (oracle : FloodfillOracle) (image : Image) (matte : Bool)
    (x_offset y_offset : ℤ) (invert : Bool) (fuel : ℕ) : Option (Bool × (ℕ → PixelRow)) :=
  if x_offset < 0 ∨ (image.columns : ℤ) ≤ x_offset then some (false, image.pixels)
  else if y_offset < 0 ∨ (image.rows : ℤ) ≤ y_offset then some (false, image.pixels)
  else if oracle.setImageStorageClass = false then some (false, image.pixels)
  else
    let pixels : ℕ → PixelRow :=
      if matte = false then
        fun y x => Function.update (image.pixels y x) (image.offset PixelChannel.Alpha)
          OpaqueAlpha
      else image.pixels
    if oracle.cloneImage = false then some (false, pixels)
    else if oracle.acquireSegmentStack = false then some (false, pixels)
    else
      match (PushSegmentStack image [] y_offset x_offset x_offset 1).bind
          (fun stack => PushSegmentStack image stack (y_offset + 1) x_offset x_offset (-1)) with
      | Except.error _ => some (false, pixels)
      | Except.ok stack =>
        (FloodfillSegments oracle image pixels invert fuel
          { stack := stack, floodplane := fun _ _ => OpaqueAlpha, start := 0,
            x := x_offset, skip := false, accesses := 0 }).map
          (FloodfillFinish oracle image pixels)

/-- An opaque image of one column and two rows: the pixel of row 0 is red,
the pixel of row 1 is blue; every channel is updated. -/
def redOverBlue : Image :=
  { rgbaImage 1 2 UpdatePixelTrait UpdatePixelTrait (rgbaPixel 0 0 0 OpaqueAlpha) with
    pixels := fun y _ =>
      if y = 0 then rgbaPixel OpaqueAlpha 0 0 OpaqueAlpha
      else rgbaPixel 0 0 OpaqueAlpha OpaqueAlpha }

/-- A flood fill whose target is matched by the pixels with a full blue
sample, whose fill colour is opaque green, and in which nothing fails. -/
def blueTargetFill : FloodfillOracle :=
  { setImageStorageClass := true
    cloneImage := true
    acquireSegmentStack := true
    cache := fun _ => true
    IsFuzzyEquivalencePixelInfo := fun p => decide (p 2 = OpaqueAlpha)
    GetFillColor := fun _ _ =>
      { red := 0, green := 65535, blue := 0, black := 0, alpha := 65535 }
    cmyk := false }

/-! ## Option tables (option.c) -/

/-- A C string as the list of its character codes, the terminating NUL
excluded: the codes of a Lean string. -/
def cstring (s : String) : List ℕ := s.toList.map Char.toNat

/-- The function `tolower` of the C library in the C locale, on character
codes. -/
def tolower (c : ℕ) : ℕ := if 65 ≤ c ∧ c ≤ 90 then c + 32 else c

/-- The function `isspace` of the C library in the C locale: the space and
the codes 9 to 13. -/
def isspace (c : ℕ) : Bool := decide (c = 32 ∨ (9 ≤ c ∧ c ≤ 13))

/-- Modelled from the spec: `LocaleCompare` of locale.c (not among the
sources), the case-insensitive comparison of two C strings: the difference
of the lower-cased codes at the first position where the strings end or
differ. The end of a list, like a code 0, ends the string. -/
def LocaleCompare : List ℕ → List ℕ → ℤ
  | [], q => 0 - (tolower (q.headD 0) : ℤ)
  | c :: _, [] => (tolower c : ℤ)
  | c :: p, d :: q =>
    if c = 0 ∨ tolower c ≠ tolower d then (tolower c : ℤ) - (tolower d : ℤ)
    else LocaleCompare p q

/-- The record `OptionInfo`, reduced to the fields the lookups read: the
mnemonic and the type. A table is the list of its entries before the
terminating entry, whose mnemonic is null; the index `length` stands for
that entry. -/
structure OptionInfo where
  mnemonic : List ℕ
  type : ℤ
  deriving DecidableEq

/-- The comparison of the binary search of `GetCommandOptionInfo` (lines
2067-2069): `LocaleCompare(value+1,mnemonic+1)`, and when that is 0 the
difference of the first characters. -/
def CommandOptionCompare (value mnemonic : List ℕ) : ℤ :=
  let cmp : ℤ := LocaleCompare value.tail mnemonic.tail
  if cmp = 0 then (value.headD 0 : ℤ) - (mnemonic.headD 0 : ℤ) else cmp

/-- The loop `while ( l < h )` of `GetCommandOptionInfo` (lines 2062-2079)
with `fuel` turns allowed: the index of the entry returned, `table_size` for
the terminating entry, or `none` when the loop has not finished after `fuel`
turns or reads beyond the table. -/
def CommandOptionSearch (option_info : List OptionInfo) (table_size : ℕ) (value : List ℕ) :
    ℕ → ℕ → ℕ → Option ℕ
  | 0, l, h => if l < h then none else some table_size
  | fuel + 1, l, h =>
    if l < h then
      match option_info[(l + h) / 2]? with
      | none => none
      | some entry =>
        if CommandOptionCompare value entry.mnemonic = 0 then some ((l + h) / 2)
        else if CommandOptionCompare value entry.mnemonic > 0 then
          CommandOptionSearch option_info table_size value fuel ((l + h) / 2 + 1) h
        else CommandOptionSearch option_info table_size value fuel l ((l + h) / 2)
    else some table_size

/-- One turn of the first-call scan of `GetCommandOptionInfo` (lines
2051-2053): `l` becomes `i` when `LocaleCompare` finds the mnemonic of the
entry `i` equal to `value`. -/
def CommandOptionScan (option_info : List OptionInfo) (value : List ℕ) (l : Option ℕ)
    (i : ℕ) : Option ℕ :=
  match option_info[i]? with
  | none => l
  | some entry => if LocaleCompare value entry.mnemonic = 0 then some i else l

/-- The function `GetCommandOptionInfo` (lines 2034-2082) on a table
`option_info`, with the static variable `table_size` as an argument: the
index of the entry returned and the value of `table_size` afterwards. When
`table_size` is 0 the table is scanned from its first entry to the
terminating one, the last entry that `LocaleCompare` finds equal to `value`
is kept (`l` is `none` for -1), and `table_size` becomes the number of
entries; otherwise the binary search runs with the bounds 0 and
`table_size`, for at most `table_size` turns. -/
def GetCommandOptionInfo (option_info : List OptionInfo) (table_size : ℕ) (value : List ℕ) :
    Option (ℕ × ℕ) :=
  if table_size = 0 then
    let l : Option ℕ := (List.range option_info.length).foldl
      (CommandOptionScan option_info value) none
    some (l.getD option_info.length, option_info.length)
  else
    (CommandOptionSearch option_info table_size value table_size 0 table_size).map
      fun i => (i, table_size)

/-- A table of two entries in the order of the binary search (the text after
the first character, then the first character), whose mnemonics begin with
a letter. -/
def letterOptions : List OptionInfo :=
  [{ mnemonic := cstring "Copy", type := 1 }, { mnemonic := cstring "Over", type := 2 }]

/-- Modelled from the spec: the extent `MaxTextExtent` of a text buffer (its
header is not among the sources). -/
def MaxTextExtent : ℕ := 4096

/-- The function `strchr` of the C library on a string without its
terminator: the rest of the string from the first occurrence of `c` on. -/
def strchr : List ℕ → ℕ → Option (List ℕ)
  | [], _ => none
  | d :: s, c => if d = c then some (d :: s) else strchr s c

/-- The first loop of the body of `ParseCommandOption` (lines 2475-2477):
`p` passes over the white space and the sentinels. -/
def SkipSeparators (sentinel : ℕ) : List ℕ → List ℕ
  | [] => []
  | c :: p =>
    if (isspace c = true ∨ c = sentinel) ∧ c ≠ 0 then SkipSeparators sentinel p else c :: p

/-- The loop of lines 2482-2488 that copies a token: the characters up to the
next white space, sentinel or end of the string, at most as many as the
first argument, the room left in `token`, allows. The result is the token
and the rest of the string. -/
def CopyToken (sentinel : ℕ) : ℕ → List ℕ → List ℕ × List ℕ
  | _, [] => ([], [])
  | 0, c :: p => ([], c :: p)
  | room + 1, c :: p =>
    if (isspace c = false ∧ c ≠ sentinel) ∧ c ≠ 0 then
      (c :: (CopyToken sentinel room p).1, (CopyToken sentinel room p).2)
    else ([], c :: p)

/-- Lines 2475-2489 of `ParseCommandOption`: the separators are passed over,
a leading `!` is passed over (`negate`), and the token is copied into a
buffer of `MaxTextExtent` characters. The result is the token and the rest
of the string. -/
def NextToken (sentinel : ℕ) (p : List ℕ) : List ℕ × List ℕ :=
  let p : List ℕ := SkipSeparators sentinel p
  let p : List ℕ := if p.headD 0 = 33 then p.tail else p
  CopyToken sentinel (MaxTextExtent - 1) p

/-- The lookup loop of `ParseCommandOption` (lines 2490-2498): the first
entry of the table whose mnemonic `LocaleCompare` finds equal to `token`. -/
def FindMnemonic (option_info : List OptionInfo) (token : List ℕ) : Option OptionInfo :=
  option_info.find? fun e => decide (LocaleCompare token e.mnemonic = 0)

/-- Lines 2490-2515 of `ParseCommandOption`: the entry found for `token`;
when there is none and the token has a `-` or a `_` after its first
character, these are removed and the table is searched again. Modelled from
the spec for `CopyMagickString(q,q+1,...)` of string.c (not among the
sources), which removes the character at `q`. -/
def MatchToken (option_info : List OptionInfo) (token : List ℕ) : Option OptionInfo :=
  match FindMnemonic option_info token with
  | some e => some e
  | none =>
    if (strchr token.tail 45).isSome ∨ (strchr token.tail 95).isSome then
      FindMnemonic option_info
        (token.take 1 ++ (token.tail.filter (fun c => c ≠ 45)).filter (fun c => c ≠ 95))
    else none

/-- The loop `for (p=options; p != NULL; p=strchr(p,sentinel))` of
`ParseCommandOption` with `fuel` turns allowed: `none` when the loop has not
finished after `fuel` turns. A token without an entry returns -1; the type
of the entry found is cleared from `option_types` when the token begins with
`!` and set otherwise; the loop ends after the first token when `list` is
false. -/
def ParseTokens (option_info : List OptionInfo) (list : Bool) (sentinel : ℕ) :
    ℕ → List ℕ → ℤ → Option ℤ
  | 0, _, _ => none
  | fuel + 1, p, option_types =>
    match MatchToken option_info (NextToken sentinel p).1 with
    | none => some (-1)
    | some e =>
      let option_types : ℤ :=
        if (NextToken sentinel p).1.headD 0 = 33 then Int.land option_types (Int.lnot e.type)
        else Int.lor option_types e.type
      if list = false then some option_types
      else
        match strchr (NextToken sentinel p).2 sentinel with
        | none => some option_types
        | some rest => ParseTokens option_info list sentinel fuel rest option_types

/-- The function `ParseCommandOption` (lines 2438-2522); `option_info` is
what `GetOptionInfo(option_table)` returns, `none` for a table that is not
known. The sentinel is `|` when the string has one, `,` otherwise. Each turn
of the loop shortens the string, so `strlen(options)+1` turns are allowed;
the result is `none` when they do not suffice. -/
def ParseCommandOption (option_info : Option (List OptionInfo)) (list : Bool)
    (options : List ℕ) : Option ℤ :=
  match option_info with
  | none => some (-1)
  | some table =>
    ParseTokens table list (if (strchr options 124).isSome then 124 else 44)
      (options.length + 1) options 0

/-- The tokens the loop of `ParseCommandOption` takes from the string, one per
turn, when every lookup succeeds: the first word after each run of
separators that follows a sentinel, and only the first token when `list` is
false. -/
def ParsedTokens (list : Bool) (sentinel : ℕ) : ℕ → List ℕ → List (List ℕ)
  | 0, _ => []
  | fuel + 1, p =>
    (NextToken sentinel p).1 ::
      (if list = false then []
       else
         match strchr (NextToken sentinel p).2 sentinel with
         | none => []
         | some rest => ParsedTokens list sentinel fuel rest)

/-- The function `CommandOptionToMnemonic` (lines 2225-2243): the mnemonic of
the first entry of the table whose type is `type`, the text `undefined` when
there is none, and `none` (a null pointer) for a table that is not known. -/
def CommandOptionToMnemonic (option_info : Option (List OptionInfo)) (type : ℤ) :
    Option (List ℕ) :=
  match option_info with
  | none => none
  | some table =>
    match table.find? (fun e => decide (type = e.type)) with
    | none => some (cstring "undefined")
    | some e => some e.mnemonic

/-- The table `ComposeOptions` (lines 756-831), which `GetOptionInfo` returns
for `MagickComposeOptions`: the mnemonics with their operators, in the order
of the source; `value` gives the integer of each enumerator of
`CompositeOperator` (composite.h is not among the sources). -/
def ComposeOptions (value : CompositeOperator → ℤ) : List OptionInfo :=
  [{ mnemonic := cstring "Undefined", type := value UndefinedCompositeOp },
   { mnemonic := cstring "Atop", type := value AtopCompositeOp },
   { mnemonic := cstring "Blend", type := value BlendCompositeOp },
   { mnemonic := cstring "Blur", type := value BlurCompositeOp },
   { mnemonic := cstring "Bumpmap", type := value BumpmapCompositeOp },
   { mnemonic := cstring "ChangeMask", type := value ChangeMaskCompositeOp },
   { mnemonic := cstring "Clear", type := value ClearCompositeOp },
   { mnemonic := cstring "ColorBurn", type := value ColorBurnCompositeOp },
   { mnemonic := cstring "ColorDodge", type := value ColorDodgeCompositeOp },
   { mnemonic := cstring "Colorize", type := value ColorizeCompositeOp },
   { mnemonic := cstring "CopyAlpha", type := value CopyAlphaCompositeOp },
   { mnemonic := cstring "CopyBlack", type := value CopyBlackCompositeOp },
   { mnemonic := cstring "CopyBlue", type := value CopyBlueCompositeOp },
   { mnemonic := cstring "CopyCyan", type := value CopyCyanCompositeOp },
   { mnemonic := cstring "CopyGreen", type := value CopyGreenCompositeOp },
   { mnemonic := cstring "Copy", type := value CopyCompositeOp },
   { mnemonic := cstring "CopyMagenta", type := value CopyMagentaCompositeOp },
   { mnemonic := cstring "CopyRed", type := value CopyRedCompositeOp },
   { mnemonic := cstring "CopyYellow", type := value CopyYellowCompositeOp },
   { mnemonic := cstring "Darken", type := value DarkenCompositeOp },
   { mnemonic := cstring "DarkenIntensity", type := value DarkenIntensityCompositeOp },
   { mnemonic := cstring "DivideDst", type := value DivideDstCompositeOp },
   { mnemonic := cstring "DivideSrc", type := value DivideSrcCompositeOp },
   { mnemonic := cstring "Dst", type := value DstCompositeOp },
   { mnemonic := cstring "Difference", type := value DifferenceCompositeOp },
   { mnemonic := cstring "Displace", type := value DisplaceCompositeOp },
   { mnemonic := cstring "Dissolve", type := value DissolveCompositeOp },
   { mnemonic := cstring "Distort", type := value DistortCompositeOp },
   { mnemonic := cstring "DstAtop", type := value DstAtopCompositeOp },
   { mnemonic := cstring "DstIn", type := value DstInCompositeOp },
   { mnemonic := cstring "DstOut", type := value DstOutCompositeOp },
   { mnemonic := cstring "DstOver", type := value DstOverCompositeOp },
   { mnemonic := cstring "Exclusion", type := value ExclusionCompositeOp },
   { mnemonic := cstring "HardLight", type := value HardLightCompositeOp },
   { mnemonic := cstring "Hue", type := value HueCompositeOp },
   { mnemonic := cstring "In", type := value InCompositeOp },
   { mnemonic := cstring "Intensity", type := value IntensityCompositeOp },
   { mnemonic := cstring "Lighten", type := value LightenCompositeOp },
   { mnemonic := cstring "LightenIntensity", type := value LightenIntensityCompositeOp },
   { mnemonic := cstring "LinearBurn", type := value LinearBurnCompositeOp },
   { mnemonic := cstring "LinearDodge", type := value LinearDodgeCompositeOp },
   { mnemonic := cstring "LinearLight", type := value LinearLightCompositeOp },
   { mnemonic := cstring "Luminize", type := value LuminizeCompositeOp },
   { mnemonic := cstring "Mathematics", type := value MathematicsCompositeOp },
   { mnemonic := cstring "MinusDst", type := value MinusDstCompositeOp },
   { mnemonic := cstring "MinusSrc", type := value MinusSrcCompositeOp },
   { mnemonic := cstring "Modulate", type := value ModulateCompositeOp },
   { mnemonic := cstring "ModulusAdd", type := value ModulusAddCompositeOp },
   { mnemonic := cstring "ModulusSubtract", type := value ModulusSubtractCompositeOp },
   { mnemonic := cstring "Multiply", type := value MultiplyCompositeOp },
   { mnemonic := cstring "None", type := value NoCompositeOp },
   { mnemonic := cstring "Out", type := value OutCompositeOp },
   { mnemonic := cstring "Overlay", type := value OverlayCompositeOp },
   { mnemonic := cstring "Over", type := value OverCompositeOp },
   { mnemonic := cstring "PegtopLight", type := value PegtopLightCompositeOp },
   { mnemonic := cstring "PinLight", type := value PinLightCompositeOp },
   { mnemonic := cstring "Plus", type := value PlusCompositeOp },
   { mnemonic := cstring "Replace", type := value ReplaceCompositeOp },
   { mnemonic := cstring "Saturate", type := value SaturateCompositeOp },
   { mnemonic := cstring "Screen", type := value ScreenCompositeOp },
   { mnemonic := cstring "SoftLight", type := value SoftLightCompositeOp },
   { mnemonic := cstring "Src", type := value SrcCompositeOp },
   { mnemonic := cstring "SrcAtop", type := value SrcAtopCompositeOp },
   { mnemonic := cstring "SrcIn", type := value SrcInCompositeOp },
   { mnemonic := cstring "SrcOut", type := value SrcOutCompositeOp },
   { mnemonic := cstring "SrcOver", type := value SrcOverCompositeOp },
   { mnemonic := cstring "VividLight", type := value VividLightCompositeOp },
   { mnemonic := cstring "Xor", type := value XorCompositeOp },
   { mnemonic := cstring "Divide", type := value DivideDstCompositeOp },
   { mnemonic := cstring "Minus", type := value MinusDstCompositeOp },
   { mnemonic := cstring "Threshold", type := value ThresholdCompositeOp },
   { mnemonic := cstring "CopyOpacity", type := value CopyAlphaCompositeOp }]

/-- An assignment of integers to the composite operators for the scenarios:
the position of the operator in the declaration above. -/
def operatorIndex (op : CompositeOperator) : ℤ := (op.toCtorIdx : ℤ)

/-! ## Virtual pixel methods (cache-view.h, option.c) -/

/-- The enumeration `VirtualPixelMethod` of cache-view.h (lines 26-45), in the
order of its declaration. -/
inductive VirtualPixelMethod
  | UndefinedVirtualPixelMethod
  | BackgroundVirtualPixelMethod
  | DitherVirtualPixelMethod
  | EdgeVirtualPixelMethod
  | MirrorVirtualPixelMethod
  | RandomVirtualPixelMethod
  | TileVirtualPixelMethod
  | TransparentVirtualPixelMethod
  | MaskVirtualPixelMethod
  | BlackVirtualPixelMethod
  | GrayVirtualPixelMethod
  | WhiteVirtualPixelMethod
  | HorizontalTileVirtualPixelMethod
  | VerticalTileVirtualPixelMethod
  | HorizontalTileEdgeVirtualPixelMethod
  | VerticalTileEdgeVirtualPixelMethod
  | CheckerTileVirtualPixelMethod
  deriving DecidableEq, Repr

open VirtualPixelMethod

/-- The integer a C compiler gives each enumerator of `VirtualPixelMethod`:
none has an initialiser, so they count from zero in declaration order. -/
def VirtualPixelMethod.value : VirtualPixelMethod → ℤ
  | UndefinedVirtualPixelMethod => 0
  | BackgroundVirtualPixelMethod => 1
  | DitherVirtualPixelMethod => 2
  | EdgeVirtualPixelMethod => 3
  | MirrorVirtualPixelMethod => 4
  | RandomVirtualPixelMethod => 5
  | TileVirtualPixelMethod => 6
  | TransparentVirtualPixelMethod => 7
  | MaskVirtualPixelMethod => 8
  | BlackVirtualPixelMethod => 9
  | GrayVirtualPixelMethod => 10
  | WhiteVirtualPixelMethod => 11
  | HorizontalTileVirtualPixelMethod => 12
  | VerticalTileVirtualPixelMethod => 13
  | HorizontalTileEdgeVirtualPixelMethod => 14
  | VerticalTileEdgeVirtualPixelMethod => 15
  | CheckerTileVirtualPixelMethod => 16

/-- The table `VirtualPixelOptions` of option.c (lines 1601-1621), which
`GetOptionInfo` returns for `MagickVirtualPixelOptions`, without its closing
null entry. -/
def VirtualPixelOptions : List OptionInfo :=
  [ ⟨cstring "Undefined", UndefinedVirtualPixelMethod.value⟩,
    ⟨cstring "Background", BackgroundVirtualPixelMethod.value⟩,
    ⟨cstring "Black", BlackVirtualPixelMethod.value⟩,
    ⟨cstring "Constant", BackgroundVirtualPixelMethod.value⟩,
    ⟨cstring "CheckerTile", CheckerTileVirtualPixelMethod.value⟩,
    ⟨cstring "Dither", DitherVirtualPixelMethod.value⟩,
    ⟨cstring "Edge", EdgeVirtualPixelMethod.value⟩,
    ⟨cstring "Gray", GrayVirtualPixelMethod.value⟩,
    ⟨cstring "HorizontalTile", HorizontalTileVirtualPixelMethod.value⟩,
    ⟨cstring "HorizontalTileEdge", HorizontalTileEdgeVirtualPixelMethod.value⟩,
    ⟨cstring "Mirror", MirrorVirtualPixelMethod.value⟩,
    ⟨cstring "Random", RandomVirtualPixelMethod.value⟩,
    ⟨cstring "Tile", TileVirtualPixelMethod.value⟩,
    ⟨cstring "Transparent", TransparentVirtualPixelMethod.value⟩,
    ⟨cstring "VerticalTile", VerticalTileVirtualPixelMethod.value⟩,
    ⟨cstring "VerticalTileEdge", VerticalTileEdgeVirtualPixelMethod.value⟩,
    ⟨cstring "White", WhiteVirtualPixelMethod.value⟩ ]

/-! ## IsCommandOption (option.c) -/

/-- The C library `isalpha` in the C locale: the letters A-Z and a-z. -/
def isalpha (c : ℕ) : Bool := (65 ≤ c ∧ c ≤ 90) ∨ (97 ≤ c ∧ c ≤ 122)

/-- The C library `isdigit`: the digits 0-9. -/
def isdigit (c : ℕ) : Bool := 48 ≤ c ∧ c ≤ 57

/-- The C library `isalnum`: a letter or a digit. -/
def isalnum (c : ℕ) : Bool := isalpha c || isdigit c

/-- The C library `strlen`: the number of characters before the first null. -/
def strlen (s : List ℕ) : ℕ := (s.takeWhile (fun c => c ≠ 0)).length

/-- The function `IsCommandOption` of option.c (lines 2187-2198). The string
is a list of character codes; reading past its end reads the closing null. -/
def IsCommandOption (option : List ℕ) : Bool :=
  if option.headD 0 ≠ 45 ∧ option.headD 0 ≠ 43 then false
  else if strlen option = 1 then false
  else
    let option := option.tail
    if isalpha (option.headD 0) = false then false
    else true

/-- An opaque source pixel whose colour samples are 100, with blended colour
channels. -/
def opaqueDimSource : Image :=
  onePixelImage (UpdatePixelTrait ||| BlendPixelTrait) CopyPixelTrait
    (rgbaPixel 100 100 100 OpaqueAlpha)

/-- An opaque destination pixel whose colour samples are 50, with blended
colour channels. -/
def opaqueDarkDestination : Image :=
  onePixelImage (UpdatePixelTrait ||| BlendPixelTrait) CopyPixelTrait
    (rgbaPixel 50 50 50 OpaqueAlpha)

/-- A source pixel of alpha 13107 (`Sa = 1/5`) whose colour samples are 1000,
with blended colour channels. -/
def fifthOpaqueSource : Image :=
  onePixelImage (UpdatePixelTrait ||| BlendPixelTrait) CopyPixelTrait
    (rgbaPixel 1000 1000 1000 13107)

/-- The value the claim gives for the In operator, following its words and
the composition model in the comment of composite.c (lines 131-149): the
premultiplied result `Sca*Da` divided by the result alpha `Sa*Da`, clamped. -/
def InDocumented (Sa Da : ℚ) (Sc : Quantum) : Quantum :=
  ClampToQuantum (Sa * Sc.toReal * Da / (Sa * Da))

/-- The round trip of the HSB helpers: `HSBComposite` applied to the hue,
saturation and brightness that `CompositeHSB` gives for an RGB triple. -/
def HSBRoundTrip (red green blue : Quantum) : ℚ × ℚ × ℚ :=
  HSBComposite (CompositeHSB red green blue).1 (CompositeHSB red green blue).2.1
    (CompositeHSB red green blue).2.2

/-! ## Kernel selection of AdaptiveBlurImage and the kernel of EmbossImage (effect.c) -/

/-- The array `kernel` of `AdaptiveBlurImage` (lines 253-278) and of
`AdaptiveSharpenImage` after the building loop when every allocation
succeeds: `ResetMagickMemory` leaves every slot null and the loop
`for (i=0; i < width; i+=2)` fills the even slots below `width`; the slot `i`
is allocated for `(width-i)*(width-i)` entries. -/
def AdaptiveBlurKernels {K : Type} [LinearOrderedField K] (exp : K → K) (MagickPI : K)
    (width : ℕ) (sigma : K) (i : ℕ) : Option (List K) :=
  if i < width ∧ i % 2 = 0 then some (AdaptiveBlurKernel exp MagickPI width sigma i)
  else none

/-- The kernel index `j` that `AdaptiveBlurImage` (lines 332-340) and
`AdaptiveSharpenImage` (lines 653-661) select for a pixel of the edge image
of intensity `intensity`: the ceiling of `width*QuantumScale*intensity-0.5`,
clamped to `[0, width]`, and decremented when its lowest bit is set. -/
def AdaptiveKernelIndex (width : ℕ) (intensity : ℚ) : ℤ :=
  let j : ℤ := Int.ceil ((width : ℚ) * QuantumScale * intensity - 1 / 2)
  let j : ℤ := if j < 0 then 0 else if j > (width : ℤ) then (width : ℤ) else j
  if j % 2 ≠ 0 then j - 1 else j

/-- The table `CommandOptions` of option.c (lines 171-755) without its closing
null entry: each mnemonic with its `type` field, here the number of arguments
the option takes, in the order of the source. -/
def CommandOptions : List OptionInfo :=
  [ OptionInfo.mk (cstring "(") 0,
    OptionInfo.mk (cstring ")") 0,
    OptionInfo.mk (cstring "\x7b") 0,
    OptionInfo.mk (cstring "\x7d") 0,
    OptionInfo.mk (cstring "--") 1,
    OptionInfo.mk (cstring "+adaptive-blur") 1,
    OptionInfo.mk (cstring "-adaptive-blur") 1,
    OptionInfo.mk (cstring "+adaptive-resize") 1,
    OptionInfo.mk (cstring "-adaptive-resize") 1,
    OptionInfo.mk (cstring "+adaptive-sharpen") 1,
    OptionInfo.mk (cstring "-adaptive-sharpen") 1,
    OptionInfo.mk (cstring "+adjoin") 0,
    OptionInfo.mk (cstring "-adjoin") 0,
    OptionInfo.mk (cstring "+affine") 0,
    OptionInfo.mk (cstring "-affine") 1,
    OptionInfo.mk (cstring "+affinity") 0,
    OptionInfo.mk (cstring "-affinity") 1,
    OptionInfo.mk (cstring "+alpha") 1,
    OptionInfo.mk (cstring "-alpha") 1,
    OptionInfo.mk (cstring "+annotate") 0,
    OptionInfo.mk (cstring "-annotate") 2,
    OptionInfo.mk (cstring "+antialias") 0,
    OptionInfo.mk (cstring "-antialias") 0,
    OptionInfo.mk (cstring "+append") 0,
    OptionInfo.mk (cstring "-append") 0,
    OptionInfo.mk (cstring "+attenuate") 0,
    OptionInfo.mk (cstring "-attenuate") 1,
    OptionInfo.mk (cstring "+authenticate") 0,
    OptionInfo.mk (cstring "-authenticate") 1,
    OptionInfo.mk (cstring "+auto-gamma") 0,
    OptionInfo.mk (cstring "-auto-gamma") 0,
    OptionInfo.mk (cstring "+auto-level") 0,
    OptionInfo.mk (cstring "-auto-level") 0,
    OptionInfo.mk (cstring "+auto-orient") 0,
    OptionInfo.mk (cstring "-auto-orient") 0,
    OptionInfo.mk (cstring "+average") 0,
    OptionInfo.mk (cstring "-average") 0,
    OptionInfo.mk (cstring "+backdrop") 0,
    OptionInfo.mk (cstring "-backdrop") 1,
    OptionInfo.mk (cstring "+background") 0,
    OptionInfo.mk (cstring "-background") 1,
    OptionInfo.mk (cstring "+bench") 1,
    OptionInfo.mk (cstring "-bench") 1,
    OptionInfo.mk (cstring "+bias") 0,
    OptionInfo.mk (cstring "-bias") 1,
    OptionInfo.mk (cstring "+black-point-compensation") 0,
    OptionInfo.mk (cstring "-black-point-compensation") 0,
    OptionInfo.mk (cstring "+black-threshold") 0,
    OptionInfo.mk (cstring "-black-threshold") 1,
    OptionInfo.mk (cstring "+blend") 0,
    OptionInfo.mk (cstring "-blend") 1,
    OptionInfo.mk (cstring "+blue-primary") 0,
    OptionInfo.mk (cstring "-blue-primary") 1,
    OptionInfo.mk (cstring "+blue-shift") 1,
    OptionInfo.mk (cstring "-blue-shift") 1,
    OptionInfo.mk (cstring "+blur") 0,
    OptionInfo.mk (cstring "-blur") 1,
    OptionInfo.mk (cstring "+border") 1,
    OptionInfo.mk (cstring "-border") 1,
    OptionInfo.mk (cstring "+bordercolor") 0,
    OptionInfo.mk (cstring "-bordercolor") 1,
    OptionInfo.mk (cstring "+borderwidth") 0,
    OptionInfo.mk (cstring "-borderwidth") 1,
    OptionInfo.mk (cstring "+box") 0,
    OptionInfo.mk (cstring "-box") 1,
    OptionInfo.mk (cstring "+brightness-contrast") 0,
    OptionInfo.mk (cstring "-brightness-contrast") 1,
    OptionInfo.mk (cstring "+cache") 0,
    OptionInfo.mk (cstring "-cache") 1,
    OptionInfo.mk (cstring "+caption") 0,
    OptionInfo.mk (cstring "-caption") 1,
    OptionInfo.mk (cstring "+cdl") 1,
    OptionInfo.mk (cstring "-cdl") 1,
    OptionInfo.mk (cstring "+channel") 0,
    OptionInfo.mk (cstring "-channel") 1,
    OptionInfo.mk (cstring "-channel-fx") 1,
    OptionInfo.mk (cstring "+charcoal") 0,
    OptionInfo.mk (cstring "-charcoal") 0,
    OptionInfo.mk (cstring "+chop") 1,
    OptionInfo.mk (cstring "-chop") 1,
    OptionInfo.mk (cstring "+clamp") 0,
    OptionInfo.mk (cstring "-clamp") 0,
    OptionInfo.mk (cstring "+clip") 0,
    OptionInfo.mk (cstring "-clip") 0,
    OptionInfo.mk (cstring "+clip-mask") 0,
    OptionInfo.mk (cstring "-clip-mask") 1,
    OptionInfo.mk (cstring "+clip-path") 1,
    OptionInfo.mk (cstring "-clip-path") 1,
    OptionInfo.mk (cstring "+clone") 0,
    OptionInfo.mk (cstring "-clone") 1,
    OptionInfo.mk (cstring "+clut") 0,
    OptionInfo.mk (cstring "-clut") 0,
    OptionInfo.mk (cstring "+coalesce") 0,
    OptionInfo.mk (cstring "-coalesce") 0,
    OptionInfo.mk (cstring "+color-matrix") 1,
    OptionInfo.mk (cstring "-color-matrix") 1,
    OptionInfo.mk (cstring "+colorize") 1,
    OptionInfo.mk (cstring "-colorize") 1,
    OptionInfo.mk (cstring "+colormap") 0,
    OptionInfo.mk (cstring "-colormap") 1,
    OptionInfo.mk (cstring "+colors") 1,
    OptionInfo.mk (cstring "-colors") 1,
    OptionInfo.mk (cstring "+colorspace") 0,
    OptionInfo.mk (cstring "-colorspace") 1,
    OptionInfo.mk (cstring "+combine") 0,
    OptionInfo.mk (cstring "-combine") 0,
    OptionInfo.mk (cstring "+comment") 0,
    OptionInfo.mk (cstring "-comment") 1,
    OptionInfo.mk (cstring "+compose") 0,
    OptionInfo.mk (cstring "-compose") 1,
    OptionInfo.mk (cstring "+composite") 0,
    OptionInfo.mk (cstring "-composite") 0,
    OptionInfo.mk (cstring "+compress") 0,
    OptionInfo.mk (cstring "-compress") 1,
    OptionInfo.mk (cstring "+concurrent") 0,
    OptionInfo.mk (cstring "-concurrent") 0,
    OptionInfo.mk (cstring "+contrast") 0,
    OptionInfo.mk (cstring "-contrast") 0,
    OptionInfo.mk (cstring "+contrast-stretch") 1,
    OptionInfo.mk (cstring "-contrast-stretch") 1,
    OptionInfo.mk (cstring "+convolve") 1,
    OptionInfo.mk (cstring "-convolve") 1,
    OptionInfo.mk (cstring "+crop") 1,
    OptionInfo.mk (cstring "-crop") 1,
    OptionInfo.mk (cstring "+cycle") 1,
    OptionInfo.mk (cstring "-cycle") 1,
    OptionInfo.mk (cstring "+debug") 0,
    OptionInfo.mk (cstring "-debug") 1,
    OptionInfo.mk (cstring "+decipher") 1,
    OptionInfo.mk (cstring "-decipher") 1,
    OptionInfo.mk (cstring "+deconstruct") 0,
    OptionInfo.mk (cstring "-deconstruct") 0,
    OptionInfo.mk (cstring "+define") 1,
    OptionInfo.mk (cstring "-define") 1,
    OptionInfo.mk (cstring "+delay") 0,
    OptionInfo.mk (cstring "-delay") 1,
    OptionInfo.mk (cstring "+delete") 0,
    OptionInfo.mk (cstring "-delete") 1,
    OptionInfo.mk (cstring "+density") 0,
    OptionInfo.mk (cstring "-density") 1,
    OptionInfo.mk (cstring "+depth") 0,
    OptionInfo.mk (cstring "-depth") 1,
    OptionInfo.mk (cstring "+descend") 0,
    OptionInfo.mk (cstring "-descend") 1,
    OptionInfo.mk (cstring "+deskew") 0,
    OptionInfo.mk (cstring "-deskew") 1,
    OptionInfo.mk (cstring "+despeckle") 0,
    OptionInfo.mk (cstring "-despeckle") 0,
    OptionInfo.mk (cstring "+direction") 0,
    OptionInfo.mk (cstring "-direction") 1,
    OptionInfo.mk (cstring "+displace") 0,
    OptionInfo.mk (cstring "-displace") 1,
    OptionInfo.mk (cstring "+display") 1,
    OptionInfo.mk (cstring "-display") 1,
    OptionInfo.mk (cstring "+dispose") 0,
    OptionInfo.mk (cstring "-dispose") 1,
    OptionInfo.mk (cstring "+dissolve") 0,
    OptionInfo.mk (cstring "-dissolve") 1,
    OptionInfo.mk (cstring "+distort") 2,
    OptionInfo.mk (cstring "-distort") 2,
    OptionInfo.mk (cstring "+dither") 0,
    OptionInfo.mk (cstring "-dither") 1,
    OptionInfo.mk (cstring "+draw") 0,
    OptionInfo.mk (cstring "-draw") 1,
    OptionInfo.mk (cstring "+duplicate") 0,
    OptionInfo.mk (cstring "-duplicate") 1,
    OptionInfo.mk (cstring "+duration") 1,
    OptionInfo.mk (cstring "-duration") 1,
    OptionInfo.mk (cstring "+edge") 1,
    OptionInfo.mk (cstring "-edge") 1,
    OptionInfo.mk (cstring "+emboss") 1,
    OptionInfo.mk (cstring "-emboss") 1,
    OptionInfo.mk (cstring "+encipher") 1,
    OptionInfo.mk (cstring "-encipher") 1,
    OptionInfo.mk (cstring "+encoding") 0,
    OptionInfo.mk (cstring "-encoding") 1,
    OptionInfo.mk (cstring "+endian") 0,
    OptionInfo.mk (cstring "-endian") 1,
    OptionInfo.mk (cstring "+enhance") 0,
    OptionInfo.mk (cstring "-enhance") 0,
    OptionInfo.mk (cstring "+equalize") 0,
    OptionInfo.mk (cstring "-equalize") 0,
    OptionInfo.mk (cstring "+evaluate") 2,
    OptionInfo.mk (cstring "-evaluate") 2,
    OptionInfo.mk (cstring "+evaluate-sequence") 1,
    OptionInfo.mk (cstring "-evaluate-sequence") 1,
    OptionInfo.mk (cstring "-exit") 0,
    OptionInfo.mk (cstring "+extent") 1,
    OptionInfo.mk (cstring "-extent") 1,
    OptionInfo.mk (cstring "+extract") 0,
    OptionInfo.mk (cstring "-extract") 1,
    OptionInfo.mk (cstring "+family") 0,
    OptionInfo.mk (cstring "-family") 1,
    OptionInfo.mk (cstring "+features") 0,
    OptionInfo.mk (cstring "-features") 1,
    OptionInfo.mk (cstring "+fft") 0,
    OptionInfo.mk (cstring "-fft") 0,
    OptionInfo.mk (cstring "+fill") 0,
    OptionInfo.mk (cstring "-fill") 1,
    OptionInfo.mk (cstring "+filter") 0,
    OptionInfo.mk (cstring "-filter") 1,
    OptionInfo.mk (cstring "+flatten") 0,
    OptionInfo.mk (cstring "-flatten") 0,
    OptionInfo.mk (cstring "+flip") 0,
    OptionInfo.mk (cstring "-flip") 0,
    OptionInfo.mk (cstring "+floodfill") 2,
    OptionInfo.mk (cstring "-floodfill") 2,
    OptionInfo.mk (cstring "+flop") 0,
    OptionInfo.mk (cstring "-flop") 0,
    OptionInfo.mk (cstring "+font") 0,
    OptionInfo.mk (cstring "-font") 1,
    OptionInfo.mk (cstring "+foreground") 0,
    OptionInfo.mk (cstring "-foreground") 1,
    OptionInfo.mk (cstring "+format") 0,
    OptionInfo.mk (cstring "-format") 1,
    OptionInfo.mk (cstring "+frame") 1,
    OptionInfo.mk (cstring "-frame") 1,
    OptionInfo.mk (cstring "+function") 2,
    OptionInfo.mk (cstring "-function") 2,
    OptionInfo.mk (cstring "+fuzz") 0,
    OptionInfo.mk (cstring "-fuzz") 1,
    OptionInfo.mk (cstring "+fx") 1,
    OptionInfo.mk (cstring "-fx") 1,
    OptionInfo.mk (cstring "+gamma") 0,
    OptionInfo.mk (cstring "-gamma") 1,
    OptionInfo.mk (cstring "+gaussian") 1,
    OptionInfo.mk (cstring "-gaussian") 1,
    OptionInfo.mk (cstring "+gaussian-blur") 1,
    OptionInfo.mk (cstring "-gaussian-blur") 1,
    OptionInfo.mk (cstring "+geometry") 0,
    OptionInfo.mk (cstring "-geometry") 1,
    OptionInfo.mk (cstring "+gravity") 0,
    OptionInfo.mk (cstring "-gravity") 1,
    OptionInfo.mk (cstring "+green-primary") 0,
    OptionInfo.mk (cstring "-green-primary") 1,
    OptionInfo.mk (cstring "+hald-clut") 0,
    OptionInfo.mk (cstring "-hald-clut") 0,
    OptionInfo.mk (cstring "+highlight-color") 1,
    OptionInfo.mk (cstring "-highlight-color") 1,
    OptionInfo.mk (cstring "+iconGeometry") 0,
    OptionInfo.mk (cstring "-iconGeometry") 1,
    OptionInfo.mk (cstring "+iconic") 0,
    OptionInfo.mk (cstring "-iconic") 1,
    OptionInfo.mk (cstring "+identify") 0,
    OptionInfo.mk (cstring "-identify") 0,
    OptionInfo.mk (cstring "+ift") 0,
    OptionInfo.mk (cstring "-ift") 0,
    OptionInfo.mk (cstring "+immutable") 0,
    OptionInfo.mk (cstring "-immutable") 0,
    OptionInfo.mk (cstring "+implode") 0,
    OptionInfo.mk (cstring "-implode") 1,
    OptionInfo.mk (cstring "+insert") 0,
    OptionInfo.mk (cstring "-insert") 1,
    OptionInfo.mk (cstring "+intent") 0,
    OptionInfo.mk (cstring "-intent") 1,
    OptionInfo.mk (cstring "+interlace") 0,
    OptionInfo.mk (cstring "-interlace") 1,
    OptionInfo.mk (cstring "+interline-spacing") 0,
    OptionInfo.mk (cstring "-interline-spacing") 1,
    OptionInfo.mk (cstring "+interpolate") 0,
    OptionInfo.mk (cstring "-interpolate") 1,
    OptionInfo.mk (cstring "+interpolative-resize") 1,
    OptionInfo.mk (cstring "-interpolative-resize") 1,
    OptionInfo.mk (cstring "+interword-spacing") 0,
    OptionInfo.mk (cstring "-interword-spacing") 1,
    OptionInfo.mk (cstring "+kerning") 0,
    OptionInfo.mk (cstring "-kerning") 1,
    OptionInfo.mk (cstring "+label") 0,
    OptionInfo.mk (cstring "-label") 1,
    OptionInfo.mk (cstring "+lat") 1,
    OptionInfo.mk (cstring "-lat") 1,
    OptionInfo.mk (cstring "+layers") 1,
    OptionInfo.mk (cstring "-layers") 1,
    OptionInfo.mk (cstring "+level") 1,
    OptionInfo.mk (cstring "-level") 1,
    OptionInfo.mk (cstring "+level-colors") 1,
    OptionInfo.mk (cstring "-level-colors") 1,
    OptionInfo.mk (cstring "+limit") 0,
    OptionInfo.mk (cstring "-limit") 2,
    OptionInfo.mk (cstring "+linear-stretch") 1,
    OptionInfo.mk (cstring "-linear-stretch") 1,
    OptionInfo.mk (cstring "+liquid-rescale") 1,
    OptionInfo.mk (cstring "-liquid-rescale") 1,
    OptionInfo.mk (cstring "+list") 0,
    OptionInfo.mk (cstring "-list") 1,
    OptionInfo.mk (cstring "+log") 0,
    OptionInfo.mk (cstring "-log") 1,
    OptionInfo.mk (cstring "+loop") 0,
    OptionInfo.mk (cstring "-loop") 1,
    OptionInfo.mk (cstring "+lowlight-color") 1,
    OptionInfo.mk (cstring "-lowlight-color") 1,
    OptionInfo.mk (cstring "+magnify") 0,
    OptionInfo.mk (cstring "-magnify") 1,
    OptionInfo.mk (cstring "+map") 0,
    OptionInfo.mk (cstring "-map") 1,
    OptionInfo.mk (cstring "+mask") 0,
    OptionInfo.mk (cstring "-mask") 1,
    OptionInfo.mk (cstring "+matte") 0,
    OptionInfo.mk (cstring "-matte") 0,
    OptionInfo.mk (cstring "+mattecolor") 0,
    OptionInfo.mk (cstring "-mattecolor") 1,
    OptionInfo.mk (cstring "+maximum") 0,
    OptionInfo.mk (cstring "-maximum") 0,
    OptionInfo.mk (cstring "+median") 1,
    OptionInfo.mk (cstring "-median") 1,
    OptionInfo.mk (cstring "+metric") 0,
    OptionInfo.mk (cstring "-metric") 1,
    OptionInfo.mk (cstring "+minimum") 0,
    OptionInfo.mk (cstring "-minimum") 0,
    OptionInfo.mk (cstring "+mode") 1,
    OptionInfo.mk (cstring "-mode") 1,
    OptionInfo.mk (cstring "+modulate") 1,
    OptionInfo.mk (cstring "-modulate") 1,
    OptionInfo.mk (cstring "+monitor") 0,
    OptionInfo.mk (cstring "-monitor") 0,
    OptionInfo.mk (cstring "+monochrome") 0,
    OptionInfo.mk (cstring "-monochrome") 0,
    OptionInfo.mk (cstring "+morph") 1,
    OptionInfo.mk (cstring "-morph") 1,
    OptionInfo.mk (cstring "+morphology") 2,
    OptionInfo.mk (cstring "-morphology") 2,
    OptionInfo.mk (cstring "+mosaic") 0,
    OptionInfo.mk (cstring "-mosaic") 0,
    OptionInfo.mk (cstring "+motion-blur") 1,
    OptionInfo.mk (cstring "-motion-blur") 1,
    OptionInfo.mk (cstring "+name") 0,
    OptionInfo.mk (cstring "-name") 1,
    OptionInfo.mk (cstring "+negate") 0,
    OptionInfo.mk (cstring "-negate") 0,
    OptionInfo.mk (cstring "+noise") 1,
    OptionInfo.mk (cstring "-noise") 1,
    OptionInfo.mk (cstring "-noop") 0,
    OptionInfo.mk (cstring "+normalize") 0,
    OptionInfo.mk (cstring "-normalize") 0,
    OptionInfo.mk (cstring "+opaque") 1,
    OptionInfo.mk (cstring "-opaque") 1,
    OptionInfo.mk (cstring "+ordered-dither") 0,
    OptionInfo.mk (cstring "-ordered-dither") 1,
    OptionInfo.mk (cstring "+orient") 0,
    OptionInfo.mk (cstring "-orient") 1,
    OptionInfo.mk (cstring "+origin") 0,
    OptionInfo.mk (cstring "-origin") 1,
    OptionInfo.mk (cstring "+page") 0,
    OptionInfo.mk (cstring "-page") 1,
    OptionInfo.mk (cstring "+paint") 0,
    OptionInfo.mk (cstring "-paint") 1,
    OptionInfo.mk (cstring "+path") 0,
    OptionInfo.mk (cstring "-path") 1,
    OptionInfo.mk (cstring "+pause") 0,
    OptionInfo.mk (cstring "-pause") 1,
    OptionInfo.mk (cstring "+ping") 0,
    OptionInfo.mk (cstring "-ping") 0,
    OptionInfo.mk (cstring "+pointsize") 0,
    OptionInfo.mk (cstring "-pointsize") 1,
    OptionInfo.mk (cstring "+polaroid") 0,
    OptionInfo.mk (cstring "-polaroid") 1,
    OptionInfo.mk (cstring "+posterize") 1,
    OptionInfo.mk (cstring "-posterize") 1,
    OptionInfo.mk (cstring "+precision") 0,
    OptionInfo.mk (cstring "-precision") 1,
    OptionInfo.mk (cstring "+preview") 0,
    OptionInfo.mk (cstring "-preview") 1,
    OptionInfo.mk (cstring "+print") 1,
    OptionInfo.mk (cstring "-print") 1,
    OptionInfo.mk (cstring "+process") 1,
    OptionInfo.mk (cstring "-process") 1,
    OptionInfo.mk (cstring "+profile") 1,
    OptionInfo.mk (cstring "-profile") 1,
    OptionInfo.mk (cstring "+quality") 0,
    OptionInfo.mk (cstring "-quality") 1,
    OptionInfo.mk (cstring "+quantize") 0,
    OptionInfo.mk (cstring "-quantize") 1,
    OptionInfo.mk (cstring "+quiet") 0,
    OptionInfo.mk (cstring "-quiet") 0,
    OptionInfo.mk (cstring "+radial-blur") 1,
    OptionInfo.mk (cstring "-radial-blur") 1,
    OptionInfo.mk (cstring "+raise") 1,
    OptionInfo.mk (cstring "-raise") 1,
    OptionInfo.mk (cstring "+random-threshold") 1,
    OptionInfo.mk (cstring "-random-threshold") 1,
    OptionInfo.mk (cstring "-read") 1,
    OptionInfo.mk (cstring "+recolor") 1,
    OptionInfo.mk (cstring "-recolor") 1,
    OptionInfo.mk (cstring "+red-primary") 0,
    OptionInfo.mk (cstring "-red-primary") 1,
    OptionInfo.mk (cstring "+regard-warnings") 0,
    OptionInfo.mk (cstring "-regard-warnings") 0,
    OptionInfo.mk (cstring "+region") 0,
    OptionInfo.mk (cstring "-region") 1,
    OptionInfo.mk (cstring "+remap") 0,
    OptionInfo.mk (cstring "-remap") 1,
    OptionInfo.mk (cstring "+remote") 0,
    OptionInfo.mk (cstring "-remote") 1,
    OptionInfo.mk (cstring "+render") 0,
    OptionInfo.mk (cstring "-render") 0,
    OptionInfo.mk (cstring "+repage") 0,
    OptionInfo.mk (cstring "-repage") 1,
    OptionInfo.mk (cstring "+resample") 1,
    OptionInfo.mk (cstring "-resample") 1,
    OptionInfo.mk (cstring "+resize") 1,
    OptionInfo.mk (cstring "-resize") 1,
    OptionInfo.mk (cstring "+respect-parenthesis") 0,
    OptionInfo.mk (cstring "-respect-parenthesis") 0,
    OptionInfo.mk (cstring "+reverse") 0,
    OptionInfo.mk (cstring "-reverse") 0,
    OptionInfo.mk (cstring "+roll") 1,
    OptionInfo.mk (cstring "-roll") 1,
    OptionInfo.mk (cstring "+rotate") 1,
    OptionInfo.mk (cstring "-rotate") 1,
    OptionInfo.mk (cstring "+sample") 1,
    OptionInfo.mk (cstring "-sample") 1,
    OptionInfo.mk (cstring "+sampling-factor") 0,
    OptionInfo.mk (cstring "-sampling-factor") 1,
    OptionInfo.mk (cstring "+sans") 1,
    OptionInfo.mk (cstring "-sans") 1,
    OptionInfo.mk (cstring "+sans0") 0,
    OptionInfo.mk (cstring "-sans0") 0,
    OptionInfo.mk (cstring "+sans2") 2,
    OptionInfo.mk (cstring "-sans2") 2,
    OptionInfo.mk (cstring "+scale") 1,
    OptionInfo.mk (cstring "-scale") 1,
    OptionInfo.mk (cstring "+scene") 0,
    OptionInfo.mk (cstring "-scene") 1,
    OptionInfo.mk (cstring "+scenes") 0,
    OptionInfo.mk (cstring "-scenes") 1,
    OptionInfo.mk (cstring "+screen") 0,
    OptionInfo.mk (cstring "-screen") 1,
    OptionInfo.mk (cstring "-script") 1,
    OptionInfo.mk (cstring "+seed") 0,
    OptionInfo.mk (cstring "-seed") 1,
    OptionInfo.mk (cstring "+segment") 1,
    OptionInfo.mk (cstring "-segment") 1,
    OptionInfo.mk (cstring "+selective-blur") 1,
    OptionInfo.mk (cstring "-selective-blur") 1,
    OptionInfo.mk (cstring "+separate") 0,
    OptionInfo.mk (cstring "-separate") 0,
    OptionInfo.mk (cstring "+sepia-tone") 1,
    OptionInfo.mk (cstring "-sepia-tone") 1,
    OptionInfo.mk (cstring "+set") 1,
    OptionInfo.mk (cstring "-set") 2,
    OptionInfo.mk (cstring "+shade") 0,
    OptionInfo.mk (cstring "-shade") 1,
    OptionInfo.mk (cstring "+shadow") 1,
    OptionInfo.mk (cstring "-shadow") 1,
    OptionInfo.mk (cstring "+shared-memory") 0,
    OptionInfo.mk (cstring "-shared-memory") 1,
    OptionInfo.mk (cstring "+sharpen") 1,
    OptionInfo.mk (cstring "-sharpen") 1,
    OptionInfo.mk (cstring "+shave") 1,
    OptionInfo.mk (cstring "-shave") 1,
    OptionInfo.mk (cstring "+shear") 1,
    OptionInfo.mk (cstring "-shear") 1,
    OptionInfo.mk (cstring "+sigmoidal-contrast") 1,
    OptionInfo.mk (cstring "-sigmoidal-contrast") 1,
    OptionInfo.mk (cstring "+silent") 0,
    OptionInfo.mk (cstring "-silent") 1,
    OptionInfo.mk (cstring "+size") 0,
    OptionInfo.mk (cstring "-size") 1,
    OptionInfo.mk (cstring "+sketch") 1,
    OptionInfo.mk (cstring "-sketch") 1,
    OptionInfo.mk (cstring "+smush") 1,
    OptionInfo.mk (cstring "-smush") 1,
    OptionInfo.mk (cstring "+snaps") 0,
    OptionInfo.mk (cstring "-snaps") 1,
    OptionInfo.mk (cstring "+solarize") 1,
    OptionInfo.mk (cstring "-solarize") 1,
    OptionInfo.mk (cstring "+sparse-color") 2,
    OptionInfo.mk (cstring "-sparse-color") 2,
    OptionInfo.mk (cstring "+splice") 1,
    OptionInfo.mk (cstring "-splice") 1,
    OptionInfo.mk (cstring "+spread") 1,
    OptionInfo.mk (cstring "-spread") 1,
    OptionInfo.mk (cstring "+statistic") 2,
    OptionInfo.mk (cstring "-statistic") 2,
    OptionInfo.mk (cstring "+stegano") 0,
    OptionInfo.mk (cstring "-stegano") 1,
    OptionInfo.mk (cstring "+stereo") 0,
    OptionInfo.mk (cstring "-stereo") 1,
    OptionInfo.mk (cstring "+stretch") 1,
    OptionInfo.mk (cstring "-stretch") 1,
    OptionInfo.mk (cstring "+strip") 0,
    OptionInfo.mk (cstring "-strip") 0,
    OptionInfo.mk (cstring "+stroke") 0,
    OptionInfo.mk (cstring "-stroke") 1,
    OptionInfo.mk (cstring "+strokewidth") 1,
    OptionInfo.mk (cstring "-strokewidth") 1,
    OptionInfo.mk (cstring "+style") 0,
    OptionInfo.mk (cstring "-style") 1,
    OptionInfo.mk (cstring "+subimage-search") 0,
    OptionInfo.mk (cstring "-subimage-search") 0,
    OptionInfo.mk (cstring "+swap") 0,
    OptionInfo.mk (cstring "-swap") 1,
    OptionInfo.mk (cstring "+swirl") 1,
    OptionInfo.mk (cstring "-swirl") 1,
    OptionInfo.mk (cstring "+synchronize") 0,
    OptionInfo.mk (cstring "-synchronize") 0,
    OptionInfo.mk (cstring "+taint") 0,
    OptionInfo.mk (cstring "-taint") 0,
    OptionInfo.mk (cstring "+text-font") 0,
    OptionInfo.mk (cstring "-text-font") 1,
    OptionInfo.mk (cstring "+texture") 0,
    OptionInfo.mk (cstring "-texture") 1,
    OptionInfo.mk (cstring "+threshold") 0,
    OptionInfo.mk (cstring "-threshold") 1,
    OptionInfo.mk (cstring "+thumbnail") 1,
    OptionInfo.mk (cstring "-thumbnail") 1,
    OptionInfo.mk (cstring "+tile") 0,
    OptionInfo.mk (cstring "-tile") 1,
    OptionInfo.mk (cstring "+tile-offset") 0,
    OptionInfo.mk (cstring "-tile-offset") 1,
    OptionInfo.mk (cstring "+tint") 1,
    OptionInfo.mk (cstring "-tint") 1,
    OptionInfo.mk (cstring "+title") 0,
    OptionInfo.mk (cstring "-title") 1,
    OptionInfo.mk (cstring "+transform") 0,
    OptionInfo.mk (cstring "-transform") 0,
    OptionInfo.mk (cstring "+transparent") 1,
    OptionInfo.mk (cstring "-transparent") 1,
    OptionInfo.mk (cstring "+transparent-color") 1,
    OptionInfo.mk (cstring "-transparent-color") 1,
    OptionInfo.mk (cstring "+transpose") 0,
    OptionInfo.mk (cstring "-transpose") 0,
    OptionInfo.mk (cstring "+transverse") 0,
    OptionInfo.mk (cstring "-transverse") 0,
    OptionInfo.mk (cstring "+treedepth") 1,
    OptionInfo.mk (cstring "-treedepth") 1,
    OptionInfo.mk (cstring "+trim") 0,
    OptionInfo.mk (cstring "-trim") 0,
    OptionInfo.mk (cstring "+type") 0,
    OptionInfo.mk (cstring "-type") 1,
    OptionInfo.mk (cstring "+undercolor") 0,
    OptionInfo.mk (cstring "-undercolor") 1,
    OptionInfo.mk (cstring "+unique") 0,
    OptionInfo.mk (cstring "-unique") 0,
    OptionInfo.mk (cstring "+unique-colors") 0,
    OptionInfo.mk (cstring "-unique-colors") 0,
    OptionInfo.mk (cstring "+units") 0,
    OptionInfo.mk (cstring "-units") 1,
    OptionInfo.mk (cstring "+unsharp") 1,
    OptionInfo.mk (cstring "-unsharp") 1,
    OptionInfo.mk (cstring "+update") 0,
    OptionInfo.mk (cstring "-update") 1,
    OptionInfo.mk (cstring "+use-pixmap") 0,
    OptionInfo.mk (cstring "-use-pixmap") 1,
    OptionInfo.mk (cstring "+verbose") 0,
    OptionInfo.mk (cstring "-verbose") 0,
    OptionInfo.mk (cstring "+version") 0,
    OptionInfo.mk (cstring "-version") 0,
    OptionInfo.mk (cstring "+view") 0,
    OptionInfo.mk (cstring "-view") 1,
    OptionInfo.mk (cstring "+vignette") 1,
    OptionInfo.mk (cstring "-vignette") 1,
    OptionInfo.mk (cstring "+virtual-pixel") 0,
    OptionInfo.mk (cstring "-virtual-pixel") 1,
    OptionInfo.mk (cstring "+visual") 0,
    OptionInfo.mk (cstring "-visual") 1,
    OptionInfo.mk (cstring "+watermark") 0,
    OptionInfo.mk (cstring "-watermark") 1,
    OptionInfo.mk (cstring "+wave") 1,
    OptionInfo.mk (cstring "-wave") 1,
    OptionInfo.mk (cstring "+weight") 1,
    OptionInfo.mk (cstring "-weight") 1,
    OptionInfo.mk (cstring "+white-point") 0,
    OptionInfo.mk (cstring "-white-point") 1,
    OptionInfo.mk (cstring "+white-threshold") 1,
    OptionInfo.mk (cstring "-white-threshold") 1,
    OptionInfo.mk (cstring "+window") 0,
    OptionInfo.mk (cstring "-window") 1,
    OptionInfo.mk (cstring "+window-group") 0,
    OptionInfo.mk (cstring "-window-group") 1,
    OptionInfo.mk (cstring "+write") 1,
    OptionInfo.mk (cstring "-write") 1 ]

/-! ## Row order in CompositeOverImage (composite.c) -/

/-- The row loop of `CompositeOverImage` with its rows taken in the order
`order` instead of ascending: the loop is an OpenMP `parallel for` (lines
337-340), whose turns may run in any order; each turn is the loop body
`CompositeOverRow`, from `status=MagickTrue` and `progress=0`. -/
def CompositeOverImageInOrder (cache : CacheOracle) (image composite_image : Image)
    (clip_to_self : Bool) (x_offset y_offset : ℤ) (order : List ℕ) : CompositeState :=
  order.foldl
    (CompositeOverRow cache image composite_image clip_to_self x_offset y_offset)
    { status := true, progress := 0, pixels := image.pixels, trace := [] }

/-- A cache in which every access succeeds and whose progress monitor cancels
at the first call. -/
def cancellingCache : CacheOracle :=
  { getVirtualPixels := fun _ => true
    getAuthenticPixels := fun _ => true
    syncAuthenticPixels := fun _ => true
    progress_monitor := some (fun _ => false)
    oneVirtualPixel := fun _ _ _ => 0 }

/-! ## OilPaintImage (paint.c) -/

/-- The number `NumberPaintBins` of intensity bins. -/
def NumberPaintBins : ℕ := 256

/-- Modelled from the spec: `GetPixelComponents` of pixel-accessor.h (not
among the sources), the number of samples a pixel occupies in a row. -/
def GetPixelComponents (image : Image) : ℕ := image.number_channels

/-- Modelled from the spec: `ScaleQuantumToChar` of quantum.h (not among the
sources) for the quantum depth 16: `((value+128)-((value+128) >> 8)) >> 8`. -/
def ScaleQuantumToChar (value : Quantum) : ℕ :=
  ((value.val + 128) - (value.val + 128) / 256) / 256

/-- Modelled from the spec: what `OilPaintImage` calls before its loops and
is not among the sources: whether `CloneImage`, `SetImageStorageClass` and
`AcquireHistogramThreadSet` succeed; `cmyk` tells whether the colorspace of
the image is `CMYKColorspace` and `matte` is `image->matte`;
`GetPixelIntensity` is the intensity, as a `Quantum`, of the pixel whose
samples start at a pointer. -/
structure OilPaintOracle where
  cloneImage : Bool
  setImageStorageClass : Bool
  acquireHistograms : Bool
  cmyk : Bool
  matte : Bool
  GetPixelIntensity : Pixel → Quantum

/-- The buffer `p` that `GetCacheViewVirtualPixels(image_view,-(width/2),
y-(width/2),image->columns+width,width)` delivers for the row `y` (lines
622-623), read as the array of samples that the pointer arithmetic of the
loop sees: the sample `n` belongs to the pixel `n / GetPixelComponents` of the
window, which lies in its row `pixel / (columns+width)` and column
`pixel % (columns+width)`. -/
def OilPaintWindow (cache : ViewOracle) (image : Image) (width y : ℕ) (n : ℕ) : Quantum :=
  GetVirtualPixel cache image.columns image.rows image.pixels
    (((n / GetPixelComponents image) % (image.columns + width) : ℕ) - ((width / 2 : ℕ) : ℤ))
    ((y : ℤ) - ((width / 2 : ℕ) : ℤ) +
      ((n / GetPixelComponents image) / (image.columns + width) : ℕ))
    (n % GetPixelComponents image)

/-- The variables of the histogram loops of `OilPaintImage`: the histogram,
`count` and `j`. -/
structure OilPaintScan where
  histogram : ℕ → ℕ
  count : ℕ
  j : ℕ

/-- The body of the loop over `u` (lines 655-664) for the pointer `p` (an
index into the samples of the window) and the offset `i` of the row: the bin
`k` of the intensity read at the pointer `p+u+i` is counted, and `j` becomes
`i+u` when that count exceeds `count`. -/
def OilPaintCount (oracle : OilPaintOracle) (window : ℕ → Quantum) (p i : ℕ)
    (s : OilPaintScan) (u : ℕ) : OilPaintScan :=
  let k : ℕ := ScaleQuantumToChar (oracle.GetPixelIntensity (fun c => window (p + u + i + c)))
  let histogram : ℕ → ℕ := Function.update s.histogram k (s.histogram k + 1)
  if histogram k > s.count then { histogram := histogram, count := histogram k, j := i + u }
  else { s with histogram := histogram }

/-- The two histogram loops (lines 649-666): for `v = 0 .. width-1` the offset
`i` is `v*(columns+width)`, and `u` runs over `0 .. width-1`; the histogram
starts cleared, `count` and `j` at 0. -/
def OilPaintHistogram (oracle : OilPaintOracle) (image : Image) (width : ℕ)
    (window : ℕ → Quantum) (p : ℕ) : OilPaintScan :=
  (List.range width).foldl
    (fun (s : OilPaintScan) (v : ℕ) =>
      (List.range width).foldl
        (OilPaintCount oracle window p (v * (image.columns + width))) s)
    { histogram := fun _ => 0, count := 0, j := 0 }

/-- Lines 667-678: the red, green and blue samples of the pixel at
`p+j*GetPixelComponents(image)`, its black sample in the CMYK colorspace and
its alpha sample when the image has `matte`, are stored in the pixel `q` of
`paint_image`. Modelled from the spec for the setters of pixel-accessor.h,
which store at the offset of the channel. -/
def OilPaintPixel (oracle : OilPaintOracle) (image paint_image : Image)
    (window : ℕ → Quantum) (p j : ℕ) (q : Pixel) : Pixel :=
  let source : Pixel := fun c => window (p + j * GetPixelComponents image + c)
  let q : Pixel := Function.update q (paint_image.offset PixelChannel.Red)
    (GetPixelRed image source)
  let q : Pixel := Function.update q (paint_image.offset PixelChannel.Green)
    (GetPixelGreen image source)
  let q : Pixel := Function.update q (paint_image.offset PixelChannel.Blue)
    (GetPixelBlue image source)
  let q : Pixel := if oracle.cmyk = true then
    Function.update q (paint_image.offset PixelChannel.Black) (GetPixelBlack image source)
    else q
  if oracle.matte = true then
    Function.update q (paint_image.offset PixelChannel.Alpha)
      (source (image.offset PixelChannel.Alpha))
  else q

/-- The body of the row loop of `OilPaintImage` (lines 606-698) for the row
`y`: the window and the queued row are acquired, every pixel of the row is
written from the window (`p` advances by `GetPixelComponents(image)` per
column), and the row is synced. -/
def OilPaintRow (oracle : OilPaintOracle) (cache : ViewOracle) (image : Image) (width : ℕ)
    (s : EffectState) (y : ℕ) : EffectState :=
  if s.status = false then s
  else if cache.getVirtualPixels y = false ∨ cache.getAuthenticPixels y = false then
    { s with status := false }
  else
    EffectSync cache s y
      (Function.update s.pixels y
        ((List.range image.columns).foldl
          (fun (q : PixelRow) (x : ℕ) =>
            Function.update q x
              (OilPaintPixel oracle image image (OilPaintWindow cache image width y)
                (x * GetPixelComponents image)
                (OilPaintHistogram oracle image width (OilPaintWindow cache image width y)
                  (x * GetPixelComponents image)).j
                (q x)))
          (cache.queuedPixels y)))

/-- The function `OilPaintImage` (lines 545-703): the pixels of the image
returned, `none` for a null result. `width` is what
`GetOptimalKernelWidth2D(radius,0.5)` returns (gem.c is not among the
sources); `paint_image` is a clone, with the channel map of the image. -/
def OilPaintImage (oracle : OilPaintOracle) (cache : ViewOracle) (image : Image)
    (width : ℕ) : Option (ℕ → PixelRow) :=
  if oracle.cloneImage = false then none
  else if oracle.setImageStorageClass = false then none
  else if oracle.acquireHistograms = false then none
  else
    let s : EffectState := (List.range image.rows).foldl
      (OilPaintRow oracle cache image width)
      { status := true, progress := 0, pixels := image.pixels }
    if s.status = false then none else some s.pixels

/-- The bins of the nine, or `width*width`, pixels of the neighbourhood of the
pixel `(x, y)`, following the words of the claim: the bin of the intensity of
the pixel at the column `x - width/2 + u` and the row `y - width/2 + v`, for
`v = 0 .. width-1` and `u = 0 .. width-1`. -/
def OilPaintNeighbourhoodBins (oracle : OilPaintOracle) (cache : ViewOracle) (image : Image)
    (width x y : ℕ) : List ℕ :=
  (List.range width).flatMap fun (v : ℕ) =>
    (List.range width).map fun (u : ℕ) =>
      ScaleQuantumToChar (oracle.GetPixelIntensity
        (GetVirtualPixel cache image.columns image.rows image.pixels
          ((x : ℤ) - ((width / 2 : ℕ) : ℤ) + (u : ℤ)) ((y : ℤ) - ((width / 2 : ℕ) : ℤ) + (v : ℤ))))

/-- An image of six columns and three rows with the channels red, green,
blue and alpha: the row 0 is white, the rows 1 and 2 are black, except the
pixel of column 2 and row 2, which is mid-grey; every pixel is opaque. -/
def whiteOverBlack : Image :=
  { rgbaImage 6 3 UpdatePixelTrait UpdatePixelTrait (rgbaPixel 0 0 0 OpaqueAlpha) with
    pixels := fun y x =>
      if y = 0 then rgbaPixel OpaqueAlpha OpaqueAlpha OpaqueAlpha OpaqueAlpha
      else if y = 2 ∧ x = 2 then rgbaPixel 32768 32768 32768 OpaqueAlpha
      else rgbaPixel 0 0 0 OpaqueAlpha }

/-- An oil paint of an RGB image with `matte` in which every resource is
delivered; the intensity of a pixel is the rounded weighted sum
`0.299*red + 0.587*green + 0.114*blue` of the samples at the offsets 0, 1
and 2, which is the common sample of a grey pixel. -/
def lumaOilPaint : OilPaintOracle :=
  { cloneImage := true
    setImageStorageClass := true
    acquireHistograms := true
    cmyk := false
    matte := true
    GetPixelIntensity := fun p => ClampToQuantum
      (299 / 1000 * (p 0).toReal + 587 / 1000 * (p 1).toReal + 114 / 1000 * (p 2).toReal) }

/-! ## TransparentPaintImageChroma (paint.c) -/

/-- Modelled from the spec: `SetPixelInfo` of pixel-accessor.h (not among the
sources), which loads the samples of the pixel `q` into a `PixelInfo`. -/
def SetPixelInfo (image : Image) (q : Pixel) : PixelInfo :=
  { red := (GetPixelRed image q).toReal
    green := (GetPixelGreen image q).toReal
    blue := (GetPixelBlue image q).toReal
    black := (GetPixelBlack image q).toReal
    alpha := (GetPixelAlpha image q).toReal }

/-- Modelled from the spec: `SetPixelAlpha` of pixel-accessor.h (not among the
sources), which stores the sample at the offset of the alpha channel. -/
def SetPixelAlpha (image : Image) (alpha : Quantum) (q : Pixel) : Pixel :=
  Function.update q (image.offset PixelChannel.Alpha) alpha

/-- The test `match` of `TransparentPaintImageChroma` (lines 1092-1095) for
the pixel `q`: each of its red, green and blue samples lies between the
sample of `low` and the sample of `high`. -/
def ChromaMatch (image : Image) (low high : PixelInfo) (q : Pixel) : Bool :=
  decide ((SetPixelInfo image q).red ≥ low.red ∧ (SetPixelInfo image q).red ≤ high.red ∧
    (SetPixelInfo image q).green ≥ low.green ∧ (SetPixelInfo image q).green ≤ high.green ∧
    (SetPixelInfo image q).blue ≥ low.blue ∧ (SetPixelInfo image q).blue ≤ high.blue)

/-- The body of the column loop of `TransparentPaintImageChroma` (lines
1091-1097) for the pixel `q`. -/
def TransparentChromaPixel (image : Image) (low high : PixelInfo) (opacity : Quantum)
    (invert : Bool) (q : Pixel) : Pixel :=
  if ChromaMatch image low high q ≠ invert then SetPixelAlpha image opacity q else q

/-- The body of the row loop of `TransparentPaintImageChroma` (lines
1066-1115) for the row `y`. -/
def TransparentChromaRow (cache : ViewOracle) (image : Image) (low high : PixelInfo)
    (opacity : Quantum) (invert : Bool) (s : EffectState) (y : ℕ) : EffectState :=
  if s.status = false then s
  else if cache.getAuthenticPixels y = false then { s with status := false }
  else
    EffectSync cache s y
      (Function.update s.pixels y
        ((List.range image.columns).foldl
          (fun (q : PixelRow) (x : ℕ) =>
            Function.update q x (TransparentChromaPixel image low high opacity invert (q x)))
          (s.pixels y)))

/-- The pixels `TransparentPaintImageChroma` starts from: when `image->matte`
is false, `SetImageAlphaChannel(image,OpaqueAlphaChannel)` makes every pixel
opaque (modelled from the spec, image.c is not among the sources). -/
def TransparentChromaStart (image : Image) (matte : Bool) : ℕ → PixelRow :=
  if matte = false then
    fun y x => Function.update (image.pixels y x) (image.offset PixelChannel.Alpha) OpaqueAlpha
  else image.pixels

/-- The function `TransparentPaintImageChroma` (lines 1025-1118): the value
returned and the pixels of the image afterwards. `setImageStorageClass` tells
whether `SetImageStorageClass` succeeds, `matte` is `image->matte`. -/
def TransparentPaintImageChroma (cache : ViewOracle) (setImageStorageClass : Bool)
    (image : Image) (matte : Bool) (low high : PixelInfo) (opacity : Quantum)
    (invert : Bool) : Bool × (ℕ → PixelRow) :=
  if setImageStorageClass = false then (false, image.pixels)
  else
    let s : EffectState := (List.range image.rows).foldl
      (TransparentChromaRow cache image low high opacity invert)
      { status := true, progress := 0, pixels := TransparentChromaStart image matte }
    (s.status, s.pixels)

/-! ## CompositeImage with CopyCompositeOp (composite.c) -/

theorem QuantumRange_pos : (0 : ℚ) < (QuantumRange : ℚ) := by
  norm_num [QuantumRange]

theorem Quantum.toReal_nonneg (s : Quantum) : 0 ≤ s.toReal := by
  unfold Quantum.toReal; positivity

theorem Quantum.toReal_le (s : Quantum) : s.toReal ≤ (QuantumRange : ℚ) := by
  unfold Quantum.toReal
  have h : s.val ≤ QuantumRange := Nat.lt_succ_iff.mp s.isLt
  exact_mod_cast h

theorem Quantum.toReal_injective {s t : Quantum} (h : s.toReal = t.toReal) : s = t := by
  unfold Quantum.toReal at h
  exact Fin.ext (by exact_mod_cast h)

/-- Clamping the real value of a sample gives the sample back. -/
theorem ClampToQuantum_toReal (s : Quantum) : ClampToQuantum s.toReal = s := by
  have hle : s.val ≤ QuantumRange := Nat.lt_succ_iff.mp s.isLt
  unfold ClampToQuantum Quantum.toReal
  by_cases h0 : ((s.val : ℕ) : ℚ) ≤ 0
  · rw [if_pos h0]
    have : s.val = 0 := by
      have : ((s.val : ℕ) : ℚ) = 0 := le_antisymm h0 (by positivity)
      exact_mod_cast this
    exact Fin.ext this.symm
  · rw [if_neg h0]
    by_cases h1 : (QuantumRange : ℚ) ≤ ((s.val : ℕ) : ℚ)
    · rw [if_pos h1]
      have : QuantumRange ≤ s.val := by exact_mod_cast h1
      exact Fin.ext (by simp [Fin.last]; omega)
    · rw [if_neg h1]
      have hfl : ⌊((s.val : ℕ) : ℚ) + 1 / 2⌋ = (s.val : ℤ) := by
        rw [Int.floor_eq_iff]
        constructor <;> push_cast <;> linarith
      rw [hfl, Int.toNat_natCast]
      apply Fin.ext
      simp [Fin.ofNat, Nat.mod_eq_of_lt s.isLt]

/-- The scaled alpha of a sample is 1 exactly for the opaque sample. -/
theorem QuantumScale_mul_eq_one_iff (s : Quantum) :
    QuantumScale * s.toReal = 1 ↔ s = OpaqueAlpha := by
  have hq := QuantumRange_pos
  unfold QuantumScale
  constructor
  · intro h
    have h2 : s.toReal = (QuantumRange : ℚ) := by
      field_simp at h; linarith
    apply Fin.ext
    unfold Quantum.toReal at h2
    have : s.val = QuantumRange := by exact_mod_cast h2
    simp [OpaqueAlpha, Fin.last, this]
  · rintro rfl
    simp [OpaqueAlpha, Quantum.toReal, Fin.last]
    field_simp

/-- The scaled alpha of a sample is 0 exactly for the transparent sample. -/
theorem QuantumScale_mul_eq_zero_iff (s : Quantum) :
    QuantumScale * s.toReal = 0 ↔ s = TransparentAlpha := by
  have hq := QuantumRange_pos
  unfold QuantumScale
  constructor
  · intro h
    have h2 : s.toReal = 0 := by
      rcases mul_eq_zero.mp h with h | h
      · exfalso; have : (1 : ℚ) / (QuantumRange : ℚ) > 0 := by positivity
        linarith
      · exact h
    apply Fin.ext
    unfold Quantum.toReal at h2
    have : s.val = 0 := by exact_mod_cast h2
    simp [TransparentAlpha, this]
  · rintro rfl
    simp [TransparentAlpha, Quantum.toReal]

/-! ## Lemmas on the channel loops -/

/-- A loop over the offsets `0 .. n-1` whose turn `i` rewrites only the sample
at offset `i`, from the sample found there, leaves at every offset below `n`
what its own turn computes from the initial sample. -/
theorem foldl_range_pointwise (step : Pixel → ℕ → Pixel)
    (hframe : ∀ q i k, k ≠ i → step q i k = q k)
    (hlocal : ∀ q q2 i, q i = q2 i → step q i i = step q2 i i)
    (n : ℕ) (q : Pixel) (k : ℕ) :
    (List.range n).foldl step q k = if k < n then step q k k else q k := by
  induction n with
  | zero => simp
  | succ n ih =>
    rw [List.range_succ, List.foldl_append]
    simp only [List.foldl_cons, List.foldl_nil]
    by_cases hk : k = n
    · subst hk
      rw [if_pos (Nat.lt_succ_self _)]
      apply hlocal
      rw [ih, if_neg (Nat.lt_irrefl _)]
    · rw [hframe _ _ _ hk, ih]
      by_cases hlt : k < n
      · rw [if_pos hlt, if_pos (Nat.lt_succ_of_lt hlt)]
      · rw [if_neg hlt, if_neg (by omega)]

theorem CompositeOverChannel_frame (image composite_image : Image) (Sa Da alpha : ℚ)
    (p q : Pixel) (i k : ℕ) (hk : k ≠ i) :
    CompositeOverChannel image composite_image Sa Da alpha p q i k = q k := by
  unfold CompositeOverChannel
  simp only
  split_ifs <;> simp [Function.update, hk]

theorem CompositeOverChannel_local (image composite_image : Image) (Sa Da alpha : ℚ)
    (p q q2 : Pixel) (i : ℕ) (h : q i = q2 i) :
    CompositeOverChannel image composite_image Sa Da alpha p q i i =
      CompositeOverChannel image composite_image Sa Da alpha p q2 i i := by
  unfold CompositeOverChannel
  simp only
  split_ifs <;> simp [Function.update, h]

/-- The sample `CompositeOverPixel` leaves at offset `k` is the one the turn
`k` of its channel loop computes from the prior pixel. -/
theorem CompositeOverPixel_apply (image composite_image : Image) (p q : Pixel) (k : ℕ) :
    CompositeOverPixel image composite_image p q k =
      if k < GetPixelChannels image then
        CompositeOverChannel image composite_image
          (QuantumScale * (GetPixelAlpha composite_image p).toReal)
          (QuantumScale * (GetPixelAlpha image q).toReal)
          (QuantumScale * (GetPixelAlpha composite_image p).toReal *
              (-(QuantumScale * (GetPixelAlpha image q).toReal)) +
            QuantumScale * (GetPixelAlpha composite_image p).toReal +
            QuantumScale * (GetPixelAlpha image q).toReal) p q k k
      else q k := by
  unfold CompositeOverPixel
  exact foldl_range_pointwise _ (fun q i k hk => CompositeOverChannel_frame _ _ _ _ _ _ q i k hk)
    (fun q q2 i h => CompositeOverChannel_local _ _ _ _ _ _ q q2 i h) _ q k

theorem VirtualOverChannel_frame (image composite_image : Image)
    (source : PixelChannel → Quantum) (q : Pixel) (i k : ℕ) (hk : k ≠ i) :
    VirtualOverChannel image composite_image source q i k = q k := by
  unfold VirtualOverChannel
  split_ifs <;> simp [Function.update, hk]

/-! ## Lemmas on the column loop -/

theorem CompositeOverColumn_congr (cache : CacheOracle) (image composite_image : Image)
    (clip_to_self : Bool) (x_offset y_offset : ℤ) (y : ℕ) (pixels : Option PixelRow)
    (q q2 : PixelRow) (k : ℕ) (h : q k = q2 k) :
    CompositeOverColumn cache image composite_image clip_to_self x_offset y_offset y pixels q k =
      CompositeOverColumn cache image composite_image clip_to_self x_offset y_offset y pixels
        q2 k := by
  unfold CompositeOverColumn
  rw [h]

theorem columns_step (S : PixelRow → ℕ → Pixel)
    (hS : ∀ (q q2 : PixelRow) (k : ℕ), q k = q2 k → S q k = S q2 k)
    (q q2 : PixelRow) (x n k : ℕ) (hx : q2 x = S q x) (hne : ∀ j, j ≠ x → q2 j = q j) :
    (if x + 1 ≤ k ∧ k < x + 1 + n then S q2 k else q2 k) =
      if x ≤ k ∧ k < x + (n + 1) then S q k else q k := by
  by_cases hk : k = x
  · subst hk
    have h1 : ¬ (k + 1 ≤ k ∧ k < k + 1 + n) := by omega
    have h2 : k ≤ k ∧ k < k + (n + 1) := by omega
    rw [if_neg h1, if_pos h2, hx]
  · by_cases hk2 : x + 1 ≤ k ∧ k < x + 1 + n
    · have h2 : x ≤ k ∧ k < x + (n + 1) := by omega
      rw [if_pos hk2, if_pos h2]
      exact hS _ _ _ (hne k hk)
    · have h2 : ¬ (x ≤ k ∧ k < x + (n + 1)) := by omega
      rw [if_neg hk2, if_neg h2]
      exact hne k hk

theorem ite_update_ne (c : Prop) [Decidable c] (q : PixelRow) (x : ℕ) (v : Pixel) (j : ℕ)
    (hj : j ≠ x) : (if c then q else Function.update q x v) j = q j := by
  split_ifs <;> simp [Function.update, hj]

theorem ite_update_same (c : Prop) [Decidable c] (q : PixelRow) (x : ℕ) (v : Pixel) :
    (if c then q else Function.update q x v) x = if c then q x else v := by
  split_ifs <;> simp

/-- The column loop, column by column: started at column `x` with `n` columns
left and the source index `p` in step with `x`, it leaves in every column
`k` of `x .. x+n-1` what `CompositeOverColumn` gives for the prior row, and
every other column as it was. -/
theorem CompositeOverColumns_apply (cache : CacheOracle) (image composite_image : Image)
    (clip_to_self : Bool) (x_offset y_offset : ℤ) (y : ℕ) (pixels : Option PixelRow)
    (n : ℕ) : ∀ (x p : ℕ) (q : PixelRow),
    (pixels.isSome = true → ((x : ℤ) < x_offset → p = 0) ∧
      (x_offset ≤ (x : ℤ) → (x : ℤ) - x_offset < (composite_image.columns : ℤ) →
        (p : ℤ) = (x : ℤ) - x_offset)) →
    ∀ k : ℕ,
    CompositeOverColumns cache image composite_image clip_to_self x_offset y_offset y pixels
        n x p q k =
      if x ≤ k ∧ k < x + n then
        CompositeOverColumn cache image composite_image clip_to_self x_offset y_offset y
          pixels q k
      else q k := by
  induction n with
  | zero =>
    intro x p q _ k
    have h : ¬ (x ≤ k ∧ k < x + 0) := by omega
    rw [CompositeOverColumns, if_neg h]
  | succ n ih =>
    intro x p q hJ k
    show CompositeOverColumns cache image composite_image clip_to_self x_offset y_offset y
      pixels (n + 1) x p q k = _
    unfold CompositeOverColumns
    have hS := CompositeOverColumn_congr cache image composite_image clip_to_self x_offset
      y_offset y pixels
    by_cases hc1 : clip_to_self = true ∧ (x : ℤ) < x_offset
    · rw [if_pos hc1]
      rw [ih (x + 1) p q (by
        intro hs
        obtain ⟨h1, h2⟩ := hJ hs
        refine ⟨fun h => h1 (by omega), fun ha hb => ?_⟩
        have := h1 hc1.2
        push_cast; omega)]
      apply columns_step _ hS q q x n k _ (fun _ _ => rfl)
      unfold CompositeOverColumn
      rw [if_pos ⟨hc1.1, Or.inl hc1.2⟩]
    · rw [if_neg hc1]
      by_cases hc2 : clip_to_self = true ∧ (composite_image.columns : ℤ) ≤ (x : ℤ) - x_offset
      · rw [if_pos hc2]
        by_cases hk : x ≤ k ∧ k < x + (n + 1)
        · rw [if_pos hk]
          unfold CompositeOverColumn
          rw [if_pos ⟨hc2.1, Or.inr (by omega)⟩]
        · rw [if_neg hk]
      · rw [if_neg hc2]
        have hclip : ¬ (clip_to_self = true ∧
            ((x : ℤ) < x_offset ∨ (composite_image.columns : ℤ) ≤ (x : ℤ) - x_offset)) := by
          rintro ⟨h1, h2 | h2⟩
          · exact hc1 ⟨h1, h2⟩
          · exact hc2 ⟨h1, h2⟩
        cases pixels with
        | none =>
          simp only
          rw [ih (x + 1) p _ (by intro hs; simp at hs)]
          apply columns_step _ hS q _ x n k _ (fun j hj => ite_update_ne _ q x _ j hj)
          rw [ite_update_same]
          unfold CompositeOverColumn
          rw [if_neg hclip]
        | some src =>
          obtain ⟨hJ1, hJ2⟩ := hJ rfl
          simp only
          by_cases hv : (x : ℤ) < x_offset ∨ (composite_image.columns : ℤ) ≤ (x : ℤ) - x_offset
          · rw [if_pos hv]
            rw [ih (x + 1) p _ (by
              intro _
              refine ⟨fun h => hJ1 (by omega), fun ha hb => ?_⟩
              rcases hv with hv | hv
              · have := hJ1 hv
                push_cast; omega
              · push_cast at hb; omega)]
            apply columns_step _ hS q _ x n k _ (fun j hj => ite_update_ne _ q x _ j hj)
            rw [ite_update_same]
            unfold CompositeOverColumn
            rw [if_neg hclip]
            simp only
            rw [if_pos hv]
          · rw [if_neg hv]
            have hp : (p : ℤ) = (x : ℤ) - x_offset := hJ2 (by omega) (by omega)
            rw [ih (x + 1) _ _ (by
              intro _
              refine ⟨fun h => by omega, fun ha hb => ?_⟩
              have : ¬ composite_image.columns ≤ p + 1 := by push_cast at hb; omega
              rw [if_neg this]
              push_cast; omega)]
            apply columns_step _ hS q _ x n k _ (fun j hj => ite_update_ne _ q x _ j hj)
            rw [ite_update_same]
            unfold CompositeOverColumn
            rw [if_neg hclip]
            simp only
            rw [if_neg hv]
            have hp2 : Int.toNat ((x : ℤ) - x_offset) = p := by omega
            rw [hp2]

/-! ## Lemmas on the row loop -/

theorem CompositeSyncRow_frame (cache : CacheOracle) (s : CompositeState) (y : ℕ)
    (trace : List CacheAccess) (q : PixelRow) (y2 : ℕ) (h : y2 ≠ y) :
    (CompositeSyncRow cache s y trace q).pixels y2 = s.pixels y2 := by
  simp only [CompositeSyncRow]
  split_ifs <;> simp [Function.update, h]

theorem CompositeOverRow_of_status_false (cache : CacheOracle) (image composite_image : Image)
    (clip_to_self : Bool) (x_offset y_offset : ℤ) (s : CompositeState) (y : ℕ)
    (hs : s.status = false) :
    CompositeOverRow cache image composite_image clip_to_self x_offset y_offset s y = s := by
  unfold CompositeOverRow
  rw [if_pos hs]

theorem CompositeOverRow_frame (cache : CacheOracle) (image composite_image : Image)
    (clip_to_self : Bool) (x_offset y_offset : ℤ) (s : CompositeState) (y y2 : ℕ)
    (h : y2 ≠ y) :
    (CompositeOverRow cache image composite_image clip_to_self x_offset y_offset s y).pixels y2
      = s.pixels y2 := by
  unfold CompositeOverRow
  simp only
  split_ifs <;> first | rfl | exact CompositeSyncRow_frame _ _ _ _ _ _ h

theorem CompositeOverRow_trace (cache : CacheOracle) (image composite_image : Image)
    (clip_to_self : Bool) (x_offset y_offset : ℤ) (s : CompositeState) (y : ℕ)
    (a : CacheAccess)
    (ha : a ∈ (CompositeOverRow cache image composite_image clip_to_self x_offset y_offset
      s y).trace) : a ∈ s.trace ∨ a.row = y := by
  have hT : a ∈ (if y_offset ≤ (y : ℤ) ∧ (y : ℤ) - y_offset < (composite_image.rows : ℤ) then
      s.trace ++ [CacheAccess.virtualRow y] else s.trace) → a ∈ s.trace ∨ a.row = y := by
    intro h
    split_ifs at h
    · rcases List.mem_append.mp h with h | h
      · exact Or.inl h
      · rw [List.mem_singleton.mp h]; exact Or.inr rfl
    · exact Or.inl h
  unfold CompositeOverRow at ha
  simp only at ha
  by_cases h1 : s.status = false
  · rw [if_pos h1] at ha; exact Or.inl ha
  rw [if_neg h1] at ha
  by_cases h2 : clip_to_self = true ∧
      ((y : ℤ) < y_offset ∨ (composite_image.rows : ℤ) ≤ (y : ℤ) - y_offset)
  · rw [if_pos h2] at ha; exact Or.inl ha
  rw [if_neg h2] at ha
  by_cases h3 : (y_offset ≤ (y : ℤ) ∧ (y : ℤ) - y_offset < (composite_image.rows : ℤ)) ∧
      cache.getVirtualPixels y = false
  · rw [if_pos h3] at ha
    rcases List.mem_append.mp ha with h | h
    · exact Or.inl h
    · rw [List.mem_singleton.mp h]; exact Or.inr rfl
  rw [if_neg h3] at ha
  by_cases h4 : cache.getAuthenticPixels y = false
  · rw [if_pos h4] at ha
    rcases List.mem_append.mp ha with h | h
    · exact hT h
    · rw [List.mem_singleton.mp h]; exact Or.inr rfl
  rw [if_neg h4] at ha
  simp only [CompositeSyncRow] at ha
  rcases List.mem_append.mp ha with h | h
  · rcases List.mem_append.mp h with h | h
    · exact hT h
    · rw [List.mem_singleton.mp h]; exact Or.inr rfl
  · rw [List.mem_singleton.mp h]; exact Or.inr rfl

theorem CompositeOverRow_of_fails (cache : CacheOracle) (image composite_image : Image)
    (clip_to_self : Bool) (x_offset y_offset : ℤ) (s : CompositeState) (y : ℕ)
    (hf : AcquisitionFails cache composite_image clip_to_self y_offset y) :
    (CompositeOverRow cache image composite_image clip_to_self x_offset y_offset s y).status
        = false ∧
      (CompositeOverRow cache image composite_image clip_to_self x_offset y_offset s y).pixels
        = s.pixels ∧
      (CacheAccess.syncRow y ∉ s.trace →
        CacheAccess.syncRow y ∉ (CompositeOverRow cache image composite_image clip_to_self
          x_offset y_offset s y).trace) := by
  obtain ⟨hclip, hacq⟩ := hf
  unfold CompositeOverRow
  simp only
  by_cases hs : s.status = false
  · rw [if_pos hs]; exact ⟨hs, rfl, id⟩
  · rw [if_neg hs, if_neg hclip]
    by_cases hv : (y_offset ≤ (y : ℤ) ∧ (y : ℤ) - y_offset < (composite_image.rows : ℤ))
        ∧ cache.getVirtualPixels y = false
    · rw [if_pos hv]
      refine ⟨rfl, rfl, fun h => ?_⟩
      simp [h]
    · rw [if_neg hv]
      have ha : cache.getAuthenticPixels y = false := by
        rcases hacq with ⟨h1, h2⟩ | h
        · exact absurd ⟨h1, h2⟩ hv
        · exact h
      rw [if_pos ha]
      refine ⟨rfl, rfl, fun h => ?_⟩
      split_ifs <;> simp [h]

/-- The column loop as the row loop starts it, on a row that `clip_to_self`
does not skip. -/
theorem CompositeOverColumns_row (cache : CacheOracle) (image composite_image : Image)
    (clip_to_self : Bool) (x_offset y_offset : ℤ) (y : ℕ) (row : PixelRow)
    (hclip : ¬ (clip_to_self = true ∧
      ((y : ℤ) < y_offset ∨ (composite_image.rows : ℤ) ≤ (y : ℤ) - y_offset))) :
    CompositeOverColumns cache image composite_image clip_to_self x_offset y_offset y
        (if y_offset ≤ (y : ℤ) ∧ (y : ℤ) - y_offset < (composite_image.rows : ℤ) then
          some (composite_image.pixels (Int.toNat ((y : ℤ) - y_offset))) else none)
        image.columns 0
        (if (y_offset ≤ (y : ℤ) ∧ (y : ℤ) - y_offset < (composite_image.rows : ℤ)) ∧
          x_offset < 0 then Int.toNat (-x_offset) else 0) row
      = CompositeOverRowPixels cache image composite_image clip_to_self x_offset y_offset y
          row := by
  unfold CompositeOverRowPixels
  rw [if_neg hclip]
  funext k
  rw [CompositeOverColumns_apply]
  · by_cases hk : k < image.columns
    · rw [if_pos ⟨Nat.zero_le _, by omega⟩, if_pos hk]
    · rw [if_neg (by omega), if_neg hk]
  · intro hsome
    have hov : y_offset ≤ (y : ℤ) ∧ (y : ℤ) - y_offset < (composite_image.rows : ℤ) := by
      by_contra hno
      rw [if_neg hno] at hsome
      simp at hsome
    refine ⟨fun h => ?_, fun h1 h2 => ?_⟩
    · rw [if_neg (by push_cast at h; omega)]
    · by_cases hx : x_offset < 0
      · rw [if_pos ⟨hov, hx⟩]; push_cast; omega
      · rw [if_neg (fun h => hx h.2)]; push_cast at h1 ⊢; omega

/-- Whatever the cache does, the row `y` is afterwards either as it was or
composited. -/
theorem CompositeOverRow_pixels_cases (cache : CacheOracle) (image composite_image : Image)
    (clip_to_self : Bool) (x_offset y_offset : ℤ) (s : CompositeState) (y : ℕ) :
    (CompositeOverRow cache image composite_image clip_to_self x_offset y_offset s y).pixels y
        = s.pixels y ∨
      (CompositeOverRow cache image composite_image clip_to_self x_offset y_offset s y).pixels y
        = CompositeOverRowPixels cache image composite_image clip_to_self x_offset y_offset y
            (s.pixels y) := by
  unfold CompositeOverRow
  simp only
  by_cases h1 : s.status = false
  · rw [if_pos h1]; exact Or.inl rfl
  rw [if_neg h1]
  by_cases h2 : clip_to_self = true ∧
      ((y : ℤ) < y_offset ∨ (composite_image.rows : ℤ) ≤ (y : ℤ) - y_offset)
  · rw [if_pos h2]; exact Or.inl rfl
  rw [if_neg h2]
  by_cases h3 : (y_offset ≤ (y : ℤ) ∧ (y : ℤ) - y_offset < (composite_image.rows : ℤ)) ∧
      cache.getVirtualPixels y = false
  · rw [if_pos h3]; exact Or.inl rfl
  rw [if_neg h3]
  by_cases h4 : cache.getAuthenticPixels y = false
  · rw [if_pos h4]; exact Or.inl rfl
  rw [if_neg h4]
  simp only [CompositeSyncRow]
  by_cases h5 : cache.syncAuthenticPixels y = true
  · right
    rw [if_pos h5, Function.update_same]
    exact CompositeOverColumns_row cache image composite_image clip_to_self x_offset y_offset
      y (s.pixels y) h2
  · left
    rw [if_neg h5]

/-- Under `clip_to_self` a composited row keeps every pixel outside the
overlay. -/
theorem CompositeOverRowPixels_clip_frame (cache : CacheOracle)
    (image composite_image : Image) (x_offset y_offset : ℤ) (y : ℕ) (row : PixelRow) (x : ℕ)
    (hout : ¬ (x_offset ≤ (x : ℤ) ∧ (x : ℤ) - x_offset < (composite_image.columns : ℤ) ∧
      y_offset ≤ (y : ℤ) ∧ (y : ℤ) - y_offset < (composite_image.rows : ℤ))) :
    CompositeOverRowPixels cache image composite_image true x_offset y_offset y row x
      = row x := by
  unfold CompositeOverRowPixels
  by_cases hrow : (true = true) ∧
      ((y : ℤ) < y_offset ∨ (composite_image.rows : ℤ) ≤ (y : ℤ) - y_offset)
  · rw [if_pos hrow]
  · rw [if_neg hrow]
    by_cases hx : x < image.columns
    · rw [if_pos hx]
      unfold CompositeOverColumn
      have hcol : (true = true) ∧
          ((x : ℤ) < x_offset ∨ (composite_image.columns : ℤ) ≤ (x : ℤ) - x_offset) := by
        refine ⟨rfl, ?_⟩
        by_contra hno
        apply hout
        have : ¬ ((y : ℤ) < y_offset ∨ (composite_image.rows : ℤ) ≤ (y : ℤ) - y_offset) :=
          fun h => hrow ⟨rfl, h⟩
        omega
      rw [if_pos hcol]
    · rw [if_neg hx]

theorem CompositeOverRow_of_succeeds (cache : CacheOracle) (image composite_image : Image)
    (clip_to_self : Bool) (x_offset y_offset : ℤ) (s : CompositeState) (y : ℕ)
    (hs : s.status = true) (hy : RowSucceeds cache y s.progress) :
    (CompositeOverRow cache image composite_image clip_to_self x_offset y_offset s y).status
        = true ∧
      (CompositeOverRow cache image composite_image clip_to_self x_offset y_offset s y).progress
        ≤ s.progress + 1 ∧
      (CompositeOverRow cache image composite_image clip_to_self x_offset y_offset s y).pixels y
        = CompositeOverRowPixels cache image composite_image clip_to_self x_offset y_offset y
            (s.pixels y) := by
  obtain ⟨hv, ha, hsync, hm⟩ := hy
  unfold CompositeOverRow CompositeOverRowPixels
  simp only
  rw [if_neg (by simp [hs])]
  by_cases hclip : clip_to_self = true ∧
      ((y : ℤ) < y_offset ∨ (composite_image.rows : ℤ) ≤ (y : ℤ) - y_offset)
  · rw [if_pos hclip, if_pos hclip]
    exact ⟨hs, Nat.le_succ _, rfl⟩
  · rw [if_neg hclip, if_neg hclip, if_neg (by simp [hv]), if_neg (by simp [ha])]
    refine ⟨?_, ?_, ?_⟩
    · simp only [CompositeSyncRow, hsync]
      cases hmon : cache.progress_monitor with
      | none => rfl
      | some monitor => simp [hm monitor hmon]
    · simp only [CompositeSyncRow]
      cases cache.progress_monitor <;> simp
    · simp only [CompositeSyncRow, hsync, if_true, Function.update_same]
      have := CompositeOverColumns_row cache image composite_image clip_to_self x_offset
        y_offset y (s.pixels y) hclip
      unfold CompositeOverRowPixels at this
      rw [if_neg hclip] at this
      exact this

/-! ## Lemmas on `CompositeOverImage` -/

/-- The state after the rows `0 .. n-1` of `CompositeOverImage`. -/
theorem CompositeOverImage_prefix_invariant (cache : CacheOracle)
    (image composite_image : Image) (clip_to_self : Bool) (x_offset y_offset : ℤ) (n : ℕ) :
    (∀ a ∈ ((List.range n).foldl
        (CompositeOverRow cache image composite_image clip_to_self x_offset y_offset)
        { status := true, progress := 0, pixels := image.pixels, trace := [] }).trace,
        a.row < n) ∧
    (∀ y, n ≤ y → ((List.range n).foldl
        (CompositeOverRow cache image composite_image clip_to_self x_offset y_offset)
        { status := true, progress := 0, pixels := image.pixels, trace := [] }).pixels y
        = image.pixels y) := by
  induction n with
  | zero => simp
  | succ n ih =>
    rw [List.range_succ, List.foldl_append]
    simp only [List.foldl_cons, List.foldl_nil]
    obtain ⟨ih1, ih2⟩ := ih
    constructor
    · intro a ha
      rcases CompositeOverRow_trace _ _ _ _ _ _ _ _ a ha with h | h
      · exact Nat.lt_succ_of_lt (ih1 a h)
      · omega
    · intro y hy
      rw [CompositeOverRow_frame _ _ _ _ _ _ _ _ _ (by omega)]
      exact ih2 y (by omega)

/-- Once an attempted acquisition of the row `y0` has failed, the state after
any longer prefix of rows has `status` false, the rows from `y0` on as they
were, and no access to a later row. -/
theorem CompositeOverImage_after_failure (cache : CacheOracle)
    (image composite_image : Image) (clip_to_self : Bool) (x_offset y_offset : ℤ) (y0 : ℕ)
    (hf : AcquisitionFails cache composite_image clip_to_self y_offset y0) (n : ℕ)
    (hn : y0 < n) :
    ((List.range n).foldl
        (CompositeOverRow cache image composite_image clip_to_self x_offset y_offset)
        { status := true, progress := 0, pixels := image.pixels, trace := [] }).status = false ∧
    (∀ y, y0 ≤ y → ((List.range n).foldl
        (CompositeOverRow cache image composite_image clip_to_self x_offset y_offset)
        { status := true, progress := 0, pixels := image.pixels, trace := [] }).pixels y
        = image.pixels y) ∧
    (∀ a ∈ ((List.range n).foldl
        (CompositeOverRow cache image composite_image clip_to_self x_offset y_offset)
        { status := true, progress := 0, pixels := image.pixels, trace := [] }).trace,
        a.row ≤ y0 ∧ a ≠ CacheAccess.syncRow y0) := by
  induction n with
  | zero => omega
  | succ n ih =>
    rw [List.range_succ, List.foldl_append]
    simp only [List.foldl_cons, List.foldl_nil]
    by_cases hy : y0 < n
    · obtain ⟨h1, h2, h3⟩ := ih hy
      rw [CompositeOverRow_of_status_false _ _ _ _ _ _ _ _ h1]
      exact ⟨h1, h2, h3⟩
    · have hyn : n = y0 := by omega
      subst hyn
      obtain ⟨p1, p2⟩ := CompositeOverImage_prefix_invariant cache image composite_image
        clip_to_self x_offset y_offset n
      obtain ⟨f1, f2, f3⟩ := CompositeOverRow_of_fails cache image composite_image clip_to_self
        x_offset y_offset ((List.range n).foldl
        (CompositeOverRow cache image composite_image clip_to_self x_offset y_offset)
        { status := true, progress := 0, pixels := image.pixels, trace := [] }) n hf
      refine ⟨f1, fun y hy2 => ?_, fun a ha => ⟨?_, ?_⟩⟩
      · rw [f2]; exact p2 y hy2
      · rcases CompositeOverRow_trace _ _ _ _ _ _ _ _ a ha with h | h
        · exact Nat.le_of_lt (p1 a h)
        · omega
      · rintro rfl
        exact f3 (fun h => by have := p1 _ h; simp [CacheAccess.row] at this) ha

/-- When nothing fails, the state after the rows `0 .. n-1` has `status`
true and holds the composited rows. -/
theorem CompositeOverImage_prefix_succeeds (cache : CacheOracle)
    (image composite_image : Image) (clip_to_self : Bool) (x_offset y_offset : ℤ)
    (hnf : NoFailure cache image.rows) (n : ℕ) (hn : n ≤ image.rows) :
    ((List.range n).foldl
        (CompositeOverRow cache image composite_image clip_to_self x_offset y_offset)
        { status := true, progress := 0, pixels := image.pixels, trace := [] }).status = true ∧
    ((List.range n).foldl
        (CompositeOverRow cache image composite_image clip_to_self x_offset y_offset)
        { status := true, progress := 0, pixels := image.pixels, trace := [] }).progress ≤ n ∧
    (∀ y, y < n → ((List.range n).foldl
        (CompositeOverRow cache image composite_image clip_to_self x_offset y_offset)
        { status := true, progress := 0, pixels := image.pixels, trace := [] }).pixels y
        = CompositeOverRowPixels cache image composite_image clip_to_self x_offset y_offset y
            (image.pixels y)) := by
  induction n with
  | zero => simp
  | succ n ih =>
    rw [List.range_succ, List.foldl_append]
    simp only [List.foldl_cons, List.foldl_nil]
    obtain ⟨h1, h2, h3⟩ := ih (by omega)
    obtain ⟨p1, p2⟩ := CompositeOverImage_prefix_invariant cache image composite_image
      clip_to_self x_offset y_offset n
    obtain ⟨r1, r2, r3⟩ := CompositeOverRow_of_succeeds cache image composite_image clip_to_self
      x_offset y_offset _ n h1 (hnf n (by omega) _ (by omega))
    refine ⟨r1, by omega, fun y hy => ?_⟩
    by_cases hyn : y = n
    · subst hyn
      rw [r3, p2 y (le_refl _)]
    · rw [CompositeOverRow_frame _ _ _ _ _ _ _ _ _ hyn]
      exact h3 y (by omega)

/-- The pixel `CompositeOverImage` leaves at the column `x` of the row `y`
when nothing fails. -/
theorem CompositeOverImage_pixels (cache : CacheOracle) (image composite_image : Image)
    (clip_to_self : Bool) (x_offset y_offset : ℤ) (hnf : NoFailure cache image.rows)
    (x y : ℕ) (hy : y < image.rows) :
    (CompositeOverImage cache image composite_image clip_to_self x_offset y_offset).pixels y x
      = CompositeOverRowPixels cache image composite_image clip_to_self x_offset y_offset y
          (image.pixels y) x := by
  unfold CompositeOverImage
  rw [(CompositeOverImage_prefix_succeeds cache image composite_image clip_to_self x_offset
    y_offset hnf image.rows (le_refl _)).2.2 y hy]

/-- Inside the overlay, with an unmasked source pixel, the pixel
`CompositeOverImage` leaves is the authentic composite of the source pixel
at `(x - x_offset, y - y_offset)` over the prior destination pixel. -/
theorem CompositeOverImage_overlay_pixel (cache : CacheOracle)
    (image composite_image : Image) (clip_to_self : Bool) (x_offset y_offset : ℤ)
    (hnf : NoFailure cache image.rows) (x y : ℕ) (hx : x < image.columns)
    (hy : y < image.rows)
    (hxo : x_offset ≤ (x : ℤ)) (hxc : (x : ℤ) - x_offset < (composite_image.columns : ℤ))
    (hyo : y_offset ≤ (y : ℤ)) (hyr : (y : ℤ) - y_offset < (composite_image.rows : ℤ))
    (hmask : GetPixelMask composite_image
      (composite_image.pixels (Int.toNat ((y : ℤ) - y_offset))
        (Int.toNat ((x : ℤ) - x_offset))) = 0) :
    (CompositeOverImage cache image composite_image clip_to_self x_offset y_offset).pixels y x
      = CompositeOverPixel image composite_image
          (composite_image.pixels (Int.toNat ((y : ℤ) - y_offset))
            (Int.toNat ((x : ℤ) - x_offset))) (image.pixels y x) := by
  rw [CompositeOverImage_pixels cache image composite_image clip_to_self x_offset y_offset hnf
    x y hy]
  unfold CompositeOverRowPixels
  rw [if_neg (by omega), if_pos hx]
  unfold CompositeOverColumn
  rw [if_neg (by omega), if_pos ⟨hyo, hyr⟩]
  simp only
  rw [if_neg (by omega), if_neg (by simp [hmask])]

/-- C1: `CompositeOverImage` (the loop of `CompositeImage` for Over and
SrcOver), when nothing fails: at every destination pixel inside the overlay
whose source pixel is unmasked and fully opaque (`Sa = 1`), every channel
whose traits are defined in both images ends equal to the source pixel's
sample for that channel, alpha included, whatever the destination held. -/
theorem CompositeOverImage_opaque_source (cache : CacheOracle)
    (image composite_image : Image) (clip_to_self : Bool) (x_offset y_offset : ℤ)
    (hnf : NoFailure cache image.rows) (x y : ℕ) (hx : x < image.columns)
    (hy : y < image.rows)
    (hxo : x_offset ≤ (x : ℤ)) (hxc : (x : ℤ) - x_offset < (composite_image.columns : ℤ))
    (hyo : y_offset ≤ (y : ℤ)) (hyr : (y : ℤ) - y_offset < (composite_image.rows : ℤ))
    (hmask : GetPixelMask composite_image
      (composite_image.pixels (Int.toNat ((y : ℤ) - y_offset))
        (Int.toNat ((x : ℤ) - x_offset))) = 0)
    (hSa : QuantumScale * (GetPixelAlpha composite_image
      (composite_image.pixels (Int.toNat ((y : ℤ) - y_offset))
        (Int.toNat ((x : ℤ) - x_offset)))).toReal = 1)
    (i : ℕ) (hi : i < GetPixelChannels image)
    (ht : GetPixelChannelMapTraits image (GetPixelChannelMapChannel image i)
      ≠ UndefinedPixelTrait)
    (hct : GetPixelChannelMapTraits composite_image (GetPixelChannelMapChannel image i)
      ≠ UndefinedPixelTrait) :
    (CompositeOverImage cache image composite_image clip_to_self x_offset y_offset).pixels
        y x i =
      GetPixelChannel composite_image (GetPixelChannelMapChannel image i)
        (composite_image.pixels (Int.toNat ((y : ℤ) - y_offset))
          (Int.toNat ((x : ℤ) - x_offset))) := by
  rw [CompositeOverImage_overlay_pixel cache image composite_image clip_to_self x_offset
    y_offset hnf x y hx hy hxo hxc hyo hyr hmask, CompositeOverPixel_apply, if_pos hi, hSa]
  unfold CompositeOverChannel
  simp only
  rw [if_neg (by tauto)]
  by_cases hcopy : GetPixelChannelMapTraits image (GetPixelChannelMapChannel image i) &&&
      CopyPixelTrait ≠ 0
  · rw [if_pos hcopy]
    by_cases hch : GetPixelChannelMapChannel image i ≠ PixelChannel.Alpha
    · rw [if_pos hch, Function.update_same]
    · rw [if_neg hch, Function.update_same]
      push_neg at hch
      have halpha : GetPixelAlpha composite_image
          (composite_image.pixels (Int.toNat ((y : ℤ) - y_offset))
            (Int.toNat ((x : ℤ) - x_offset))) = OpaqueAlpha :=
        (QuantumScale_mul_eq_one_iff _).mp hSa
      rw [hch] at hct ⊢
      have hsame : GetPixelChannel composite_image PixelChannel.Alpha
          (composite_image.pixels (Int.toNat ((y : ℤ) - y_offset))
            (Int.toNat ((x : ℤ) - x_offset))) = OpaqueAlpha := by
        rw [← halpha]
        unfold GetPixelChannel GetPixelAlpha
        unfold GetPixelChannelMapTraits at hct
        rw [if_neg hct, if_neg hct]
      rw [hsame]
      have : (QuantumRange : ℚ) * (1 * -(QuantumScale * (GetPixelAlpha image
          (image.pixels y x)).toReal) + 1 + QuantumScale * (GetPixelAlpha image
          (image.pixels y x)).toReal) = OpaqueAlpha.toReal := by
        simp [OpaqueAlpha, Quantum.toReal, Fin.last]
      rw [this, ClampToQuantum_toReal]
  · rw [if_neg hcopy, Function.update_same]
    have h1 : (1 : ℚ) * -(QuantumScale * (GetPixelAlpha image (image.pixels y x)).toReal) + 1 +
        QuantumScale * (GetPixelAlpha image (image.pixels y x)).toReal = 1 := by ring
    rw [h1]
    have h2 : |(1 : ℚ)| ≤ MagickEpsilon ↔ False := by
      simp [MagickEpsilon]; norm_num
    simp only [h2, if_false]
    have h3 : ∀ a b c : ℚ, 1 / 1 * (1 * a - 1 * b * c + b * c) = a := by intros; ring
    rw [h3, ClampToQuantum_toReal]

theorem reliableCache_noFailure (rows : ℕ) : NoFailure reliableCache rows := by
  intro y _ c _
  refine ⟨rfl, rfl, rfl, ?_⟩
  intro monitor h
  simp [reliableCache] at h

/-- The scenario of C1: the 4x4 opaque red image composited over the 4x4
opaque blue image at offset (0,0) gives, at every pixel, the red sample
`QuantumRange`, green 0, blue 0 and alpha `QuantumRange`. -/
theorem CompositeOverImage_opaque_source_witness :
    NoFailure reliableCache blue4x4.rows ∧
    ∀ x : Fin 4, ∀ y : Fin 4, ∀ i : Fin 4,
      (CompositeOverImage reliableCache blue4x4 red4x4 false 0 0).pixels y.val x.val i.val =
        rgbaPixel OpaqueAlpha 0 0 OpaqueAlpha i.val := by
  refine ⟨reliableCache_noFailure _, fun x y i => ?_⟩
  have hx : (x.val : ℤ) < 4 := by exact_mod_cast x.isLt
  have hy : (y.val : ℤ) < 4 := by exact_mod_cast y.isLt
  have h := CompositeOverImage_opaque_source reliableCache blue4x4 red4x4 false 0 0
    (reliableCache_noFailure _) x.val y.val x.isLt y.isLt (by simp) (by simp [red4x4, rgbaImage, hx])
    (by simp) (by simp [red4x4, rgbaImage, hy])
    (by simp [GetPixelMask, red4x4, rgbaImage, UndefinedPixelTrait])
    ((QuantumScale_mul_eq_one_iff _).mpr
      (by simp [GetPixelAlpha, red4x4, rgbaImage, UndefinedPixelTrait, CopyPixelTrait,
            rgbaPixel]))
    i.val i.isLt
    (by
      fin_cases i <;>
        simp [GetPixelChannelMapTraits, GetPixelChannelMapChannel, blue4x4, rgbaImage,
          UndefinedPixelTrait, CopyPixelTrait, UpdatePixelTrait, BlendPixelTrait])
    (by
      fin_cases i <;>
        simp [GetPixelChannelMapTraits, GetPixelChannelMapChannel, blue4x4, red4x4, rgbaImage,
          UndefinedPixelTrait, CopyPixelTrait, UpdatePixelTrait, BlendPixelTrait])
  rw [h]
  fin_cases i <;>
    simp [GetPixelChannel, GetPixelChannelMapChannel, blue4x4, red4x4, rgbaImage, rgbaPixel,
      UndefinedPixelTrait, CopyPixelTrait, UpdatePixelTrait, BlendPixelTrait]

/-- A normalised alpha that is not 0 is above `MagickEpsilon`. -/
theorem QuantumScale_mul_gt_epsilon (s : Quantum) (h : QuantumScale * s.toReal ≠ 0) :
    ¬ |QuantumScale * s.toReal| ≤ MagickEpsilon := by
  have hs : s.val ≠ 0 := by
    intro h0
    apply h
    simp [Quantum.toReal, h0]
  have h1 : (1 : ℚ) ≤ s.toReal := by
    unfold Quantum.toReal
    have : 1 ≤ s.val := Nat.one_le_iff_ne_zero.mpr hs
    exact_mod_cast this
  have h2 : (1 : ℚ) / 65535 ≤ QuantumScale * s.toReal := by
    unfold QuantumScale QuantumRange
    push_cast
    have : (1 : ℚ) / 65535 * 1 ≤ 1 / 65535 * s.toReal :=
      mul_le_mul_of_nonneg_left h1 (by norm_num)
    linarith
  rw [abs_of_nonneg (by linarith)]
  unfold MagickEpsilon
  intro h3
  have : (1 : ℚ) / 10000000000 < 1 / 65535 := by norm_num
  linarith

/-- C2, as amended: `CompositeOverImage`, when nothing fails, at a destination
pixel inside the overlay whose source pixel is unmasked and fully
transparent (`Sa = 0`). A channel keeps its prior value when its traits are
undefined in one of the images, when it is the alpha channel, or when it
has no Copy trait and the destination pixel is not fully transparent
(`Da ≠ 0`). A channel other than alpha with the Copy trait takes the source
sample, and a channel without the Copy trait becomes 0 when `Da = 0`. -/
theorem CompositeOverImage_transparent_source (cache : CacheOracle)
    (image composite_image : Image) (clip_to_self : Bool) (x_offset y_offset : ℤ)
    (hnf : NoFailure cache image.rows) (x y : ℕ) (hx : x < image.columns)
    (hy : y < image.rows)
    (hxo : x_offset ≤ (x : ℤ)) (hxc : (x : ℤ) - x_offset < (composite_image.columns : ℤ))
    (hyo : y_offset ≤ (y : ℤ)) (hyr : (y : ℤ) - y_offset < (composite_image.rows : ℤ))
    (hmask : GetPixelMask composite_image
      (composite_image.pixels (Int.toNat ((y : ℤ) - y_offset))
        (Int.toNat ((x : ℤ) - x_offset))) = 0)
    (htransparent : QuantumScale * (GetPixelAlpha composite_image
      (composite_image.pixels (Int.toNat ((y : ℤ) - y_offset))
        (Int.toNat ((x : ℤ) - x_offset)))).toReal = 0)
    (i : ℕ) (hi : i < GetPixelChannels image) :
    ((GetPixelChannelMapTraits image (GetPixelChannelMapChannel image i)
          = UndefinedPixelTrait ∨
        GetPixelChannelMapTraits composite_image (GetPixelChannelMapChannel image i)
          = UndefinedPixelTrait) →
      (CompositeOverImage cache image composite_image clip_to_self x_offset y_offset).pixels
        y x i = image.pixels y x i) ∧
    ((GetPixelChannelMapTraits image (GetPixelChannelMapChannel image i)
          ≠ UndefinedPixelTrait ∧
        GetPixelChannelMapTraits composite_image (GetPixelChannelMapChannel image i)
          ≠ UndefinedPixelTrait) →
      (GetPixelChannelMapChannel image i = PixelChannel.Alpha →
        image.offset PixelChannel.Alpha = i →
        (CompositeOverImage cache image composite_image clip_to_self x_offset y_offset).pixels
          y x i = image.pixels y x i) ∧
      (GetPixelChannelMapTraits image (GetPixelChannelMapChannel image i) &&& CopyPixelTrait
          = 0 →
        QuantumScale * (GetPixelAlpha image (image.pixels y x)).toReal ≠ 0 →
        (CompositeOverImage cache image composite_image clip_to_self x_offset y_offset).pixels
          y x i = image.pixels y x i) ∧
      (GetPixelChannelMapTraits image (GetPixelChannelMapChannel image i) &&& CopyPixelTrait
          ≠ 0 →
        GetPixelChannelMapChannel image i ≠ PixelChannel.Alpha →
        (CompositeOverImage cache image composite_image clip_to_self x_offset y_offset).pixels
          y x i = GetPixelChannel composite_image (GetPixelChannelMapChannel image i)
            (composite_image.pixels (Int.toNat ((y : ℤ) - y_offset))
              (Int.toNat ((x : ℤ) - x_offset)))) ∧
      (GetPixelChannelMapTraits image (GetPixelChannelMapChannel image i) &&& CopyPixelTrait
          = 0 →
        QuantumScale * (GetPixelAlpha image (image.pixels y x)).toReal = 0 →
        (CompositeOverImage cache image composite_image clip_to_self x_offset y_offset).pixels
          y x i = 0)) := by
  rw [CompositeOverImage_overlay_pixel cache image composite_image clip_to_self x_offset
    y_offset hnf x y hx hy hxo hxc hyo hyr hmask, CompositeOverPixel_apply, if_pos hi,
    htransparent]
  unfold CompositeOverChannel
  simp only
  have halpha : ∀ Da : ℚ, (0 : ℚ) * -Da + 0 + Da = Da := by intro Da; ring
  rw [halpha]
  have hclamp0 : ClampToQuantum 0 = 0 := by
    have := ClampToQuantum_toReal 0
    simpa [Quantum.toReal] using this
  have hkeep : ∀ (s d : Quantum), QuantumScale * s.toReal ≠ 0 → ∀ Sc : ℚ,
      ClampToQuantum (1 / (if |QuantumScale * s.toReal| ≤ MagickEpsilon then 1
        else QuantumScale * s.toReal) *
        (0 * Sc - 0 * (QuantumScale * s.toReal) * d.toReal +
          QuantumScale * s.toReal * d.toReal)) = d := by
    intro s d hne Sc
    rw [if_neg (QuantumScale_mul_gt_epsilon s hne)]
    have : 1 / (QuantumScale * s.toReal) *
        (0 * Sc - 0 * (QuantumScale * s.toReal) * d.toReal +
          QuantumScale * s.toReal * d.toReal) = d.toReal := by
      field_simp
    rw [this, ClampToQuantum_toReal]
  have hzero : ∀ (Da Sc Dc : ℚ), Da = 0 →
      ClampToQuantum (1 / (if |Da| ≤ MagickEpsilon then 1 else Da) *
        (0 * Sc - 0 * Da * Dc + Da * Dc)) = 0 := by
    intro Da Sc Dc h0
    subst h0
    have : (1 : ℚ) / (if |(0 : ℚ)| ≤ MagickEpsilon then 1 else 0) *
        (0 * Sc - 0 * 0 * Dc + 0 * Dc) = 0 := by ring
    rw [this, hclamp0]
  refine ⟨fun hund => ?_, fun hdef => ?_⟩
  · rw [if_pos hund]
  have hnund : ¬ (GetPixelChannelMapTraits image (GetPixelChannelMapChannel image i)
        = UndefinedPixelTrait ∨
      GetPixelChannelMapTraits composite_image (GetPixelChannelMapChannel image i)
        = UndefinedPixelTrait) := by
    rintro (h | h)
    · exact hdef.1 h
    · exact hdef.2 h
  rw [if_neg hnund]
  refine ⟨fun hch hoff => ?_, fun hnc hDa => ?_, fun hc hch => ?_, fun hnc hDa => ?_⟩
  · have hq : GetPixelAlpha image (image.pixels y x) = image.pixels y x i := by
      unfold GetPixelAlpha
      have h1 := hdef.1
      rw [hch] at h1
      unfold GetPixelChannelMapTraits at h1
      rw [if_neg h1, hoff]
    have hnch : ¬ GetPixelChannelMapChannel image i ≠ PixelChannel.Alpha := by
      simp [hch]
    by_cases hcopy : GetPixelChannelMapTraits image (GetPixelChannelMapChannel image i) &&&
        CopyPixelTrait ≠ 0
    · rw [if_pos hcopy, if_neg hnch, Function.update_same, hq]
      have : (QuantumRange : ℚ) * (QuantumScale * (image.pixels y x i).toReal) =
          (image.pixels y x i).toReal := by
        have := QuantumRange_pos
        unfold QuantumScale
        field_simp
      rw [this, ClampToQuantum_toReal]
    · rw [if_neg hcopy, Function.update_same, hq]
      by_cases hDa : QuantumScale * (image.pixels y x i).toReal = 0
      · rw [hzero _ _ _ hDa]
        exact ((QuantumScale_mul_eq_zero_iff _).mp hDa).symm
      · exact hkeep _ _ hDa _
  · have hncopy : ¬ (GetPixelChannelMapTraits image (GetPixelChannelMapChannel image i) &&&
        CopyPixelTrait ≠ 0) := by simp [hnc]
    rw [if_neg hncopy, Function.update_same]
    exact hkeep _ _ hDa _
  · rw [if_pos hc, if_pos hch, Function.update_same]
  · have hncopy : ¬ (GetPixelChannelMapTraits image (GetPixelChannelMapChannel image i) &&&
        CopyPixelTrait ≠ 0) := by simp [hnc]
    rw [if_neg hncopy, Function.update_same]
    exact hzero _ _ _ hDa

/-- C2 fails as stated, at two one-pixel inputs with a fully transparent
source (`Sa = 0`): a red channel with the Copy trait takes the source's red
instead of keeping the destination's, and over a fully transparent
destination (`Da = 0`) a blended green channel becomes 0 instead of keeping
its value. -/
theorem CompositeOverImage_transparent_source_counterexample :
    QuantumScale * (GetPixelAlpha transparentRedSource
      (transparentRedSource.pixels 0 0)).toReal = 0 ∧
    (CompositeOverImage reliableCache copyBlackDestination transparentRedSource
      false 0 0).pixels 0 0 0 ≠ copyBlackDestination.pixels 0 0 0 ∧
    (CompositeOverImage reliableCache transparentGreenDestination transparentRedSource
      false 0 0).pixels 0 0 1 ≠ transparentGreenDestination.pixels 0 0 1 := by
  decide!

/-- The amended C2 at a one-pixel input: a fully transparent source over an
opaque green destination leaves the blended green channel as it was. -/
theorem CompositeOverImage_transparent_source_witness :
    NoFailure reliableCache opaqueGreenDestination.rows ∧
    QuantumScale * (GetPixelAlpha transparentRedSource
      (transparentRedSource.pixels (Int.toNat ((0 : ℕ) - 0)) (Int.toNat ((0 : ℕ) - 0)))).toReal
      = 0 ∧
    QuantumScale * (GetPixelAlpha opaqueGreenDestination
      (opaqueGreenDestination.pixels 0 0)).toReal ≠ 0 ∧
    (CompositeOverImage reliableCache opaqueGreenDestination transparentRedSource
      false 0 0).pixels 0 0 1 = opaqueGreenDestination.pixels 0 0 1 :=
  ⟨reliableCache_noFailure _, by decide!, by decide!,
    (((CompositeOverImage_transparent_source reliableCache opaqueGreenDestination
      transparentRedSource false 0 0 (reliableCache_noFailure _) 0 0 (by decide) (by decide)
      (by decide) (by decide) (by decide) (by decide) (by decide) (by decide!) 1
      (by decide)).2 ⟨by decide, by decide⟩).2.1) (by decide) (by decide!)⟩

/-! ## Lemmas on the channel loop of the general composite -/

/-- A loop over the offsets `0 .. n-1` whose turn `i` rewrites only the sample
at offset `i` leaves at every offset `k` below `n` what the turn `k` wrote,
computed from the pixel as the turns before it left it. -/
theorem foldl_range_frame (step : Pixel → ℕ → Pixel)
    (hframe : ∀ q i k, k ≠ i → step q i k = q k) (n : ℕ) (q : Pixel) (k : ℕ) :
    (List.range n).foldl step q k =
      if k < n then step ((List.range k).foldl step q) k k else q k := by
  induction n with
  | zero => simp
  | succ n ih =>
    rw [List.range_succ, List.foldl_append]
    simp only [List.foldl_cons, List.foldl_nil]
    by_cases hk : k = n
    · subst hk
      rw [if_pos (Nat.lt_succ_self _)]
    · rw [hframe _ _ _ hk, ih]
      by_cases hlt : k < n
      · rw [if_pos hlt, if_pos (Nat.lt_succ_of_lt hlt)]
      · rw [if_neg hlt, if_neg (by omega)]

theorem CompositeChannel_frame (oracle : PixelOracle) (compose : CompositeOperator)
    (settings : CompositeSettings) (image composite_image : Image) (Sa Da alpha : ℚ)
    (p q : Pixel) (i k : ℕ) (hk : k ≠ i) :
    CompositeChannel oracle compose settings image composite_image Sa Da alpha p q i k
      = q k := by
  unfold CompositeChannel
  simp only
  split_ifs <;> simp [Function.update, hk]

/-- The sample the general loop leaves at offset `k` of an unmasked pixel is
the one the turn `k` of its channel loop writes. -/
theorem CompositePixel_apply (oracle : PixelOracle) (compose : CompositeOperator)
    (settings : CompositeSettings) (image composite_image : Image) (p q : Pixel) (k : ℕ)
    (hmask : GetPixelMask image p = 0) (hk : k < GetPixelChannels image) :
    CompositePixel oracle compose settings image composite_image p q k =
      CompositeChannel oracle compose settings image composite_image
        (QuantumScale * (GetPixelAlpha composite_image p).toReal)
        (QuantumScale * (GetPixelAlpha image q).toReal)
        (CompositeAlpha oracle compose settings composite_image p
          (QuantumScale * (GetPixelAlpha composite_image p).toReal)
          (QuantumScale * (GetPixelAlpha image q).toReal)) p
        ((List.range k).foldl
          (CompositeChannel oracle compose settings image composite_image
            (QuantumScale * (GetPixelAlpha composite_image p).toReal)
            (QuantumScale * (GetPixelAlpha image q).toReal)
            (CompositeAlpha oracle compose settings composite_image p
              (QuantumScale * (GetPixelAlpha composite_image p).toReal)
              (QuantumScale * (GetPixelAlpha image q).toReal)) p) q) k k := by
  unfold CompositePixel
  rw [if_neg (by simp [hmask])]
  rw [foldl_range_frame _
    (fun q i k hk => CompositeChannel_frame _ _ _ _ _ _ _ _ _ q i k hk), if_pos hk]

theorem copy_trait_defined (traits : PixelTrait) (h : traits &&& CopyPixelTrait ≠ 0) :
    traits ≠ UndefinedPixelTrait := by
  intro h0
  apply h
  rw [h0]
  simp [UndefinedPixelTrait]

/-- C4: the result alpha of `CompositeImage` from the normalised `Sa` and `Da`
is `Sa + Da - Sa*Da` for Over and SrcOver, `Sa*Da` for In and SrcIn and
`Sa + Da - 2*Sa*Da` for Xor; and an alpha channel of the destination that
carries the Copy trait receives `ClampToQuantum(QuantumRange * alpha)` of
that result alpha: in `CompositeOverImage` for Over and SrcOver and in the
general loop for In, SrcIn and Xor. -/
theorem CompositeImage_result_alpha (oracle : PixelOracle) (settings : CompositeSettings)
    (image composite_image : Image) (p q : Pixel) (i : ℕ) (hi : i < GetPixelChannels image)
    (hch : GetPixelChannelMapChannel image i = PixelChannel.Alpha)
    (hcopy : GetPixelChannelMapTraits image (GetPixelChannelMapChannel image i) &&&
      CopyPixelTrait ≠ 0)
    (hct : GetPixelChannelMapTraits composite_image (GetPixelChannelMapChannel image i)
      ≠ UndefinedPixelTrait) :
    (∀ Sa Da : ℚ,
      CompositeAlpha oracle OverCompositeOp settings composite_image p Sa Da
        = Sa + Da - Sa * Da ∧
      CompositeAlpha oracle SrcOverCompositeOp settings composite_image p Sa Da
        = Sa + Da - Sa * Da ∧
      CompositeAlpha oracle InCompositeOp settings composite_image p Sa Da = Sa * Da ∧
      CompositeAlpha oracle SrcInCompositeOp settings composite_image p Sa Da = Sa * Da ∧
      CompositeAlpha oracle XorCompositeOp settings composite_image p Sa Da
        = Sa + Da - 2 * Sa * Da) ∧
    CompositeOverPixel image composite_image p q i =
      ClampToQuantum ((QuantumRange : ℚ) *
        (QuantumScale * (GetPixelAlpha composite_image p).toReal +
          QuantumScale * (GetPixelAlpha image q).toReal -
          QuantumScale * (GetPixelAlpha composite_image p).toReal *
            (QuantumScale * (GetPixelAlpha image q).toReal))) ∧
    (GetPixelMask image p = 0 →
      (∀ compose, compose = InCompositeOp ∨ compose = SrcInCompositeOp →
        CompositePixel oracle compose settings image composite_image p q i =
          ClampToQuantum ((QuantumRange : ℚ) *
            (QuantumScale * (GetPixelAlpha composite_image p).toReal *
              (QuantumScale * (GetPixelAlpha image q).toReal)))) ∧
      CompositePixel oracle XorCompositeOp settings image composite_image p q i =
        ClampToQuantum ((QuantumRange : ℚ) *
          (QuantumScale * (GetPixelAlpha composite_image p).toReal +
            QuantumScale * (GetPixelAlpha image q).toReal -
            2 * (QuantumScale * (GetPixelAlpha composite_image p).toReal) *
              (QuantumScale * (GetPixelAlpha image q).toReal)))) := by
  have ht := copy_trait_defined _ hcopy
  have hnch : ¬ GetPixelChannelMapChannel image i ≠ PixelChannel.Alpha := by simp [hch]
  refine ⟨fun Sa Da => ?_, ?_, fun hmask => ⟨fun compose hc => ?_, ?_⟩⟩
  · simp only [CompositeAlpha]
    refine ⟨by ring, by ring, trivial, trivial, trivial⟩
  · rw [CompositeOverPixel_apply, if_pos hi]
    unfold CompositeOverChannel
    simp only
    have h2 : ¬ (GetPixelChannelMapTraits image (GetPixelChannelMapChannel image i)
          = UndefinedPixelTrait ∨
        GetPixelChannelMapTraits composite_image (GetPixelChannelMapChannel image i)
          = UndefinedPixelTrait) := by
      rintro (h | h)
      · exact ht h
      · exact hct h
    rw [if_neg h2, if_pos hcopy, if_neg hnch, Function.update_same]
    congr 1
    ring
  · rw [CompositePixel_apply oracle compose settings image composite_image p q i hmask hi]
    unfold CompositeChannel
    simp only
    have h2 : ¬ (compose ≠ IntensityCompositeOp ∧
        GetPixelChannelMapTraits composite_image (GetPixelChannelMapChannel image i)
          = UndefinedPixelTrait) := fun h => hct h.2
    rw [if_neg ht, if_neg h2, if_pos hcopy, if_neg hnch, Function.update_same]
    rcases hc with rfl | rfl <;> simp only [CompositeCopyAlpha, CompositeAlpha]
  · rw [CompositePixel_apply oracle XorCompositeOp settings image composite_image p q i hmask
      hi]
    unfold CompositeChannel
    simp only
    have h2 : ¬ (XorCompositeOp ≠ IntensityCompositeOp ∧
        GetPixelChannelMapTraits composite_image (GetPixelChannelMapChannel image i)
          = UndefinedPixelTrait) := fun h => hct h.2
    rw [if_neg ht, if_neg h2, if_pos hcopy, if_neg hnch, Function.update_same]
    simp only [CompositeCopyAlpha, CompositeAlpha]

/-- C4 at a one-pixel input: a transparent source over an opaque destination
whose alpha channel carries the Copy trait, under Xor. -/
theorem CompositeImage_result_alpha_witness :
    GetPixelMask opaqueRedDestination (transparentRedSource.pixels 0 0) = 0 ∧
    CompositePixel plainPixelOracle XorCompositeOp
      (defaultSettings { rho := 0, sigma := 0, xi := 0, psi := 0 })
      opaqueRedDestination transparentRedSource
      (transparentRedSource.pixels 0 0) (opaqueRedDestination.pixels 0 0) 3 =
      ClampToQuantum ((QuantumRange : ℚ) *
        (QuantumScale * (GetPixelAlpha transparentRedSource
            (transparentRedSource.pixels 0 0)).toReal +
          QuantumScale * (GetPixelAlpha opaqueRedDestination
            (opaqueRedDestination.pixels 0 0)).toReal -
          2 * (QuantumScale * (GetPixelAlpha transparentRedSource
            (transparentRedSource.pixels 0 0)).toReal) *
            (QuantumScale * (GetPixelAlpha opaqueRedDestination
              (opaqueRedDestination.pixels 0 0)).toReal))) :=
  ⟨by decide,
   ((CompositeImage_result_alpha plainPixelOracle
      (defaultSettings { rho := 0, sigma := 0, xi := 0, psi := 0 })
      opaqueRedDestination transparentRedSource (transparentRedSource.pixels 0 0)
      (opaqueRedDestination.pixels 0 0) 3 (by decide) (by decide) (by decide)
      (by decide)).2.2 (by decide)).2⟩

/-- C5 fails on the code, at two one-pixel inputs with opaque source and
destination (`Sa = Da = 1`). With the arguments `0,0,0,0.5` the red channel
receives 1 where the documented `QuantumRange * D` is 32768; with the
arguments `1,0,0,0` over mid-grey it receives `QuantumRange` where the
documented `QuantumRange * Sc * Dc` is 16384. -/
theorem CompositeImage_mathematics_divergence :
    (CompositePixel plainPixelOracle MathematicsCompositeOp
        (defaultSettings { rho := 0, sigma := 0, xi := 0, psi := 1 / 2 })
        opaqueGreenDestination opaqueRedDestination
        (opaqueRedDestination.pixels 0 0) (opaqueGreenDestination.pixels 0 0) 0 = 1 ∧
      MathematicsDocumented 0 0 0 (1 / 2) 1 1 (opaqueRedDestination.pixels 0 0 0)
        (opaqueGreenDestination.pixels 0 0 0) = 32768) ∧
    (CompositePixel plainPixelOracle MathematicsCompositeOp
        (defaultSettings { rho := 1, sigma := 0, xi := 0, psi := 0 })
        opaqueGreyImage opaqueGreyImage
        (opaqueGreyImage.pixels 0 0) (opaqueGreyImage.pixels 0 0) 0 = OpaqueAlpha ∧
      MathematicsDocumented 1 0 0 0 1 1 (opaqueGreyImage.pixels 0 0 0)
        (opaqueGreyImage.pixels 0 0 0) = 16384) := by
  decide!

/-- C6: `CompositeOverImage` with `clip_to_self` true leaves every channel of
every destination pixel outside the overlay rectangle
`x_offset <= x < x_offset + columns`, `y_offset <= y < y_offset + rows` of
the source as it was, for every offset, every pair of image sizes, and
whatever the cache does. -/
theorem CompositeOverImage_clip_to_self_frame (cache : CacheOracle)
    (image composite_image : Image) (x_offset y_offset : ℤ) (x y : ℕ)
    (hout : ¬ (x_offset ≤ (x : ℤ) ∧ (x : ℤ) - x_offset < (composite_image.columns : ℤ) ∧
      y_offset ≤ (y : ℤ) ∧ (y : ℤ) - y_offset < (composite_image.rows : ℤ))) :
    (CompositeOverImage cache image composite_image true x_offset y_offset).pixels y x
      = image.pixels y x := by
  unfold CompositeOverImage
  generalize image.rows = n
  induction n with
  | zero => simp
  | succ n ih =>
    rw [List.range_succ, List.foldl_append]
    simp only [List.foldl_cons, List.foldl_nil]
    by_cases hy : y = n
    · subst hy
      rcases CompositeOverRow_pixels_cases cache image composite_image true x_offset y_offset
        ((List.range y).foldl
          (CompositeOverRow cache image composite_image true x_offset y_offset)
          { status := true, progress := 0, pixels := image.pixels, trace := [] }) y with h | h
      · rw [h]; exact ih
      · rw [h, CompositeOverRowPixels_clip_frame cache image composite_image x_offset y_offset
          y _ x hout]
        exact ih
    · rw [CompositeOverRow_frame _ _ _ _ _ _ _ _ _ hy]
      exact ih

/-- C6 at the scenario images moved to the offset (2, -1): the destination
pixel (0, 0) lies left of the overlay and keeps its four samples. -/
theorem CompositeOverImage_clip_to_self_frame_witness :
    ¬ ((2 : ℤ) ≤ ((0 : ℕ) : ℤ) ∧ ((0 : ℕ) : ℤ) - 2 < (red4x4.columns : ℤ) ∧
      (-1 : ℤ) ≤ ((0 : ℕ) : ℤ) ∧ ((0 : ℕ) : ℤ) - (-1) < (red4x4.rows : ℤ)) ∧
    (CompositeOverImage reliableCache blue4x4 red4x4 true 2 (-1)).pixels 0 0
      = blue4x4.pixels 0 0 :=
  ⟨by decide,
   CompositeOverImage_clip_to_self_frame reliableCache blue4x4 red4x4 2 (-1) 0 0 (by decide)⟩

/-- C7: `CompositeOverImage` with the rows processed in ascending order and
the cache as an oracle. If an acquisition of the source row or of the
destination row that the loop attempts for the row `y0` fails, the function
returns `MagickFalse`, the pixels of the row `y0` and of every later row are
not modified, the row `y0` is not synced and no cache access is made for a
later row. If no acquisition, sync or progress callback fails, it returns
`MagickTrue`. -/
theorem CompositeOverImage_failure_semantics (cache : CacheOracle)
    (image composite_image : Image) (clip_to_self : Bool) (x_offset y_offset : ℤ) :
    (∀ y0, y0 < image.rows →
      AcquisitionFails cache composite_image clip_to_self y_offset y0 →
      (CompositeOverImage cache image composite_image clip_to_self x_offset y_offset).status
        = false ∧
      (∀ y, y0 ≤ y →
        (CompositeOverImage cache image composite_image clip_to_self x_offset y_offset).pixels y
          = image.pixels y) ∧
      (∀ a ∈ (CompositeOverImage cache image composite_image clip_to_self x_offset
          y_offset).trace, a.row ≤ y0 ∧ a ≠ CacheAccess.syncRow y0)) ∧
    (NoFailure cache image.rows →
      (CompositeOverImage cache image composite_image clip_to_self x_offset y_offset).status
        = true) := by
  constructor
  · intro y0 hy0 hf
    exact CompositeOverImage_after_failure cache image composite_image clip_to_self x_offset
      y_offset y0 hf image.rows hy0
  · intro hnf
    exact (CompositeOverImage_prefix_succeeds cache image composite_image clip_to_self x_offset
      y_offset hnf image.rows (le_refl _)).1

/-- C7 at the scenario images: when the destination row 1 is not delivered
the composite returns `MagickFalse` and the rows from 1 on are as they
were; with the reliable cache it returns `MagickTrue`. -/
theorem CompositeOverImage_failure_semantics_witness :
    AcquisitionFails failingCache red4x4 false 0 1 ∧
    (CompositeOverImage failingCache blue4x4 red4x4 false 0 0).status = false ∧
    (∀ y, 1 ≤ y →
      (CompositeOverImage failingCache blue4x4 red4x4 false 0 0).pixels y
        = blue4x4.pixels y) ∧
    NoFailure reliableCache blue4x4.rows ∧
    (CompositeOverImage reliableCache blue4x4 red4x4 false 0 0).status = true :=
  have hf : AcquisitionFails failingCache red4x4 false 0 1 := by
    unfold AcquisitionFails
    decide
  ⟨hf,
   ((CompositeOverImage_failure_semantics failingCache blue4x4 red4x4 false 0 0).1 1
      (by decide) hf).1,
   ((CompositeOverImage_failure_semantics failingCache blue4x4 red4x4 false 0 0).1 1
      (by decide) hf).2.1,
   reliableCache_noFailure _,
   (CompositeOverImage_failure_semantics reliableCache blue4x4 red4x4 false 0 0).2
      (reliableCache_noFailure _)⟩

/-! ## Kernels -/

theorem MagickSigma_ne_zero {K : Type} [LinearOrderedField K] (sigma : K) :
    MagickSigma sigma ≠ 0 := by
  unfold MagickSigma
  split_ifs with h
  · exact one_ne_zero
  · intro h0
    apply h
    rw [h0, abs_zero]
    have : (0 : ℚ) ≤ MagickEpsilon := by unfold MagickEpsilon; norm_num
    exact_mod_cast this

theorem list_sum_pos {K : Type} [LinearOrderedField K] (l : List K) (hne : l ≠ [])
    (hpos : ∀ w ∈ l, 0 < w) : 0 < l.sum := by
  induction l with
  | nil => exact absurd rfl hne
  | cons a t ih =>
    rw [List.sum_cons]
    have ha : 0 < a := hpos a (List.mem_cons_self _ _)
    by_cases ht : t = []
    · subst ht; simpa using ha
    · have := ih ht (fun w hw => hpos w (List.mem_cons_of_mem _ hw))
      linarith

theorem MagickSigma_one {K : Type} [LinearOrderedField K] : MagickSigma (1 : K) = 1 := by
  unfold MagickSigma
  split_ifs <;> rfl

theorem exp_neg_le (x : ℝ) (hx : 0 ≤ x) : Real.exp (-x) ≤ 1 / (1 + x) := by
  rw [Real.exp_neg, inv_eq_one_div]
  apply one_div_le_one_div_of_le (by linarith)
  linarith [Real.add_one_le_exp x]


/-- The 3x3 kernel `kernel[0]` of `AdaptiveBlurImage` for the width 3 and
sigma 1, with the real exponential and pi, sums to less than 1: only its
first entry has been scaled. -/
theorem AdaptiveBlurKernel_three_sum_lt_one :
    (AdaptiveBlurKernel Real.exp Real.pi 3 1 0).sum < 1 := by
  unfold AdaptiveBlurKernel
  simp [MagickSigma_one, List.range_succ]
  have e1 : ((-1 : ℝ) + -((2 - 1) * (2 - 1))) / 2 = -1 := by norm_num
  have e2 : (-(((2 : ℝ) - 1) * (2 - 1)) + -1) / 2 = -1 := by norm_num
  have e3 : -(((2 : ℝ) - 1) * (2 - 1)) / 2 = -(1 / 2) := by norm_num
  have e4 : -(((2 : ℝ) - 1) * (2 - 1)) = -1 := by norm_num
  have e5 : (-1 : ℝ) / 2 = -(1 / 2) := by norm_num
  rw [e1, e2, e3, e4, e5]
  have ha := exp_neg_le (1 / 2) (by norm_num)
  have hb := exp_neg_le 1 (by norm_num)
  have ha0 := Real.exp_pos (-(1 / 2))
  have hb0 := Real.exp_pos (-1)
  generalize Real.exp (-(1 / 2)) = a at *
  generalize Real.exp (-1) = b at *
  have hpi := Real.pi_gt_d2
  have hpi2 := Real.pi_lt_d2
  generalize Real.pi = c at *
  have hc : 0 < c := by linarith
  have hN : b / (2 * c) + (a / (2 * c) + (b / (2 * c) + (a / (2 * c) + (c⁻¹ * 2⁻¹ +
      (a / (2 * c) + (b / (2 * c) + (a / (2 * c) + b / (2 * c))))))))
      = (1 + 4 * a + 4 * b) / (2 * c) := by
    field_simp; ring
  rw [hN]
  have hNpos : (1 : ℝ) / 7 ≤ (1 + 4 * a + 4 * b) / (2 * c) := by
    rw [div_le_div_iff₀ (by norm_num) (by positivity)]
    nlinarith
  have heps : ¬ |(1 + 4 * a + 4 * b) / (2 * c)| ≤ ((MagickEpsilon : ℚ) : ℝ) := by
    rw [abs_of_nonneg (by linarith)]
    have : ((MagickEpsilon : ℚ) : ℝ) < 1 / 7 := by
      unfold MagickEpsilon; norm_num
    linarith
  rw [if_neg heps]
  have h1 : ((1 + 4 * a + 4 * b) / (2 * c))⁻¹ * (b / (2 * c)) = b / (1 + 4 * a + 4 * b) := by
    field_simp; ring
  have h2 : a / (2 * c) + (b / (2 * c) + (a / (2 * c) + (c⁻¹ * 2⁻¹ +
      (a / (2 * c) + (b / (2 * c) + (a / (2 * c) + b / (2 * c)))))))
      = (1 + 4 * a + 3 * b) / (2 * c) := by
    field_simp; ring
  rw [h1, h2]
  have h3 : b / (1 + 4 * a + 4 * b) ≤ 1 / 6 := by
    rw [div_le_div_iff₀ (by positivity) (by norm_num)]
    norm_num at ha hb
    nlinarith
  have h5 : (1 + 4 * a + 3 * b) / (2 * c) < 5 / 6 := by
    rw [div_lt_div_iff₀ (by positivity) (by norm_num)]
    norm_num at ha hb
    nlinarith
  linarith

/-- C9 fails on the code, for the width 3 and sigma 1 with the real
exponential and pi: the 1x1 kernel `kernel[2]` is left at `1/(2*pi)` because
the normalisation loop runs over `k < j*j = 0` entries, and the 3x3 kernel
`kernel[0]`, of which the loop scales one entry of nine, sums to less
than 1. -/
theorem AdaptiveBlurKernel_sum_divergence :
    (AdaptiveBlurKernel Real.exp Real.pi 3 1 2).sum = 1 / (2 * Real.pi) ∧
    (AdaptiveBlurKernel Real.exp Real.pi 3 1 2).sum ≠ 1 ∧
    (AdaptiveBlurKernel Real.exp Real.pi 3 1 0).sum ≠ 1 := by
  have h : (AdaptiveBlurKernel Real.exp Real.pi 3 1 2).sum = 1 / (2 * Real.pi) := by
    unfold AdaptiveBlurKernel
    simp [MagickSigma_one, List.range_succ]
  refine ⟨h, ?_, ne_of_lt AdaptiveBlurKernel_three_sum_lt_one⟩
  rw [h]
  have hpi := Real.pi_gt_three
  intro h1
  rw [div_eq_iff (by positivity)] at h1
  linarith

theorem odd_width_sq (width : ℕ) (hodd : width % 2 = 1) :
    (2 * (width / 2) + 1) * (2 * (width / 2) + 1) = width * width ∧
    (width * width) % 2 = 1 ∧ (width * width) / 2 < width * width ∧
    (width * width) / 2 = (width * width - 1) / 2 := by
  have hw : 2 * (width / 2) + 1 = width := by omega
  rw [hw]
  have h2 : (width * width) % 2 = 1 := by
    rw [Nat.mul_mod, hodd]
  refine ⟨rfl, h2, ?_, ?_⟩ <;> omega

/-- C10: for every odd width `w` the kernel `EdgeImage` builds has `w*w`
weights, each equal to -1 except the centre weight (index `(w*w-1)/2`),
which is `w*w-1`; so the weights sum to exactly 0 and a neighbourhood of
constant value `c` has the response 0. -/
theorem EdgeKernel_weights (width : ℕ) (hodd : width % 2 = 1) :
    (EdgeKernel width).length = width * width ∧
    (∀ k, k < width * width →
      (EdgeKernel width).getD k 0 =
        if k = (width * width - 1) / 2 then (width : ℚ) * (width : ℚ) - 1 else -1) ∧
    (EdgeKernel width).sum = 0 ∧
    (∀ c : ℚ, ((EdgeKernel width).map fun w => w * c).sum = 0) := by
  obtain ⟨h1, h2, h3, h4⟩ := odd_width_sq width hodd
  have hsum : (EdgeKernel width).sum = 0 := by
    unfold EdgeKernel
    simp only
    rw [h1, List.sum_set']
    have hlt : width * width / 2 < (List.replicate (width * width) (-1 : ℚ)).length := by
      rw [List.length_replicate]; exact h3
    rw [dif_pos hlt]
    simp only [List.getElem_replicate, List.sum_replicate, nsmul_eq_mul]
    push_cast
    ring
  refine ⟨?_, ?_, hsum, ?_⟩
  · unfold EdgeKernel
    simp only
    rw [h1, List.length_set, List.length_replicate]
  · intro k hk
    unfold EdgeKernel
    simp only
    rw [h1, ← h4]
    rw [List.getD_eq_getElem?_getD, List.getElem?_set]
    by_cases hkc : width * width / 2 = k
    · rw [if_pos hkc, if_pos hkc.symm]
      simp [List.length_replicate, ← hkc, h3]
    · rw [if_neg hkc, if_neg (fun h => hkc h.symm)]
      simp [List.getElem?_replicate, hk]
  · intro c
    rw [List.sum_map_mul_right]
    simp only [List.map_id']
    rw [hsum, zero_mul]

/-- C10 for the width 3: eight weights -1 around the centre weight 8. -/
theorem EdgeKernel_weights_witness :
    3 % 2 = 1 ∧ EdgeKernel 3 = [-1, -1, -1, -1, 8, -1, -1, -1, -1] ∧
    (EdgeKernel 3).length = 3 * 3 ∧ (EdgeKernel 3).sum = 0 :=
  ⟨by decide, by decide!, (EdgeKernel_weights 3 (by decide)).1,
   (EdgeKernel_weights 3 (by decide)).2.2.1⟩

/-! ## The kernel of SharpenImage -/

theorem list_sum_map_neg {K : Type} [LinearOrderedField K] (l : List K) :
    (l.map fun w => -w).sum = -l.sum := by
  induction l with
  | nil => simp
  | cons a t ih => simp only [List.map_cons, List.sum_cons, ih]; ring

theorem SharpenKernel_eq {K : Type} [LinearOrderedField K] (exp : K → K) (MagickPI : K)
    (width : ℕ) (sigma : K) :
    SharpenKernel exp MagickPI width sigma =
      ((GaussianKernel2D exp MagickPI width sigma).map fun w => -w).set
        ((2 * (width / 2) + 1) * (2 * (width / 2) + 1) / 2)
        (2 * (GaussianKernel2D exp MagickPI width sigma).sum) := by
  unfold SharpenKernel GaussianKernel2D
  simp only [List.map_map]
  have hfun : (fun (k : ℕ) =>
      (-exp (-((((k % (2 * (width / 2) + 1) : ℕ) : K) - ((width / 2 : ℕ) : K)) *
            (((k % (2 * (width / 2) + 1) : ℕ) : K) - ((width / 2 : ℕ) : K)) +
          (((k / (2 * (width / 2) + 1) : ℕ) : K) - ((width / 2 : ℕ) : K)) *
            (((k / (2 * (width / 2) + 1) : ℕ) : K) - ((width / 2 : ℕ) : K))) /
        (2 * MagickSigma sigma * MagickSigma sigma))) /
      (2 * MagickPI * MagickSigma sigma * MagickSigma sigma)) =
      ((fun w => -w) ∘ fun (k : ℕ) =>
      exp (-((((k % (2 * (width / 2) + 1) : ℕ) : K) - ((width / 2 : ℕ) : K)) *
            (((k % (2 * (width / 2) + 1) : ℕ) : K) - ((width / 2 : ℕ) : K)) +
          (((k / (2 * (width / 2) + 1) : ℕ) : K) - ((width / 2 : ℕ) : K)) *
            (((k / (2 * (width / 2) + 1) : ℕ) : K) - ((width / 2 : ℕ) : K))) /
        (2 * MagickSigma sigma * MagickSigma sigma)) /
      (2 * MagickPI * MagickSigma sigma * MagickSigma sigma)) := by
    funext k
    simp only [Function.comp]
    ring
  rw [hfun, ← List.map_map, list_sum_map_neg]
  congr 1
  ring

theorem GaussianKernel2D_length {K : Type} [LinearOrderedField K] (exp : K → K)
    (MagickPI : K) (width : ℕ) (sigma : K) :
    (GaussianKernel2D exp MagickPI width sigma).length =
      (2 * (width / 2) + 1) * (2 * (width / 2) + 1) := by
  unfold GaussianKernel2D
  simp

theorem GaussianKernel2D_pos {K : Type} [LinearOrderedField K] (exp : K → K)
    (MagickPI : K) (width : ℕ) (sigma : K) (hexp : ∀ x, 0 < exp x) (hpi : 0 < MagickPI) :
    ∀ w ∈ GaussianKernel2D exp MagickPI width sigma, 0 < w := by
  intro w hw
  unfold GaussianKernel2D at hw
  simp only at hw
  obtain ⟨k, _, rfl⟩ := List.mem_map.mp hw
  have hs := MagickSigma_ne_zero sigma
  have hs2 : 0 < MagickSigma sigma * MagickSigma sigma := mul_self_pos.mpr hs
  apply div_pos (hexp _)
  have : 2 * MagickPI * MagickSigma sigma * MagickSigma sigma =
      2 * MagickPI * (MagickSigma sigma * MagickSigma sigma) := by ring
  rw [this]
  positivity

theorem GaussianKernel2D_center {K : Type} [LinearOrderedField K] (exp : K → K)
    (MagickPI : K) (width : ℕ) (sigma : K) (hodd : width % 2 = 1) :
    (GaussianKernel2D exp MagickPI width sigma).getD (width * width / 2) 0 =
      exp 0 / (2 * MagickPI * MagickSigma sigma * MagickSigma sigma) := by
  obtain ⟨h1, h2, h3, h4⟩ := odd_width_sq width hodd
  have hw : 2 * (width / 2) + 1 = width := by omega
  unfold GaussianKernel2D
  simp only
  rw [hw]
  rw [List.getD_eq_getElem?_getD, List.getElem?_map, List.getElem?_range h3]
  simp only [Option.map_some', Option.getD_some]
  have hk : width * width / 2 = (width / 2) * width + width / 2 := by
    have : width * width = (2 * (width / 2) + 1) * width := by rw [hw]
    have h5 : width * width = 2 * ((width / 2) * width) + width := by rw [this]; ring
    omega
  have hdiv : width * width / 2 / width = width / 2 := by
    rw [hk]
    have hpos : 0 < width := by omega
    rw [Nat.add_comm, Nat.add_mul_div_right _ _ hpos, Nat.div_eq_of_lt (by omega)]
    simp
  have hmod : width * width / 2 % width = width / 2 := by
    rw [hk, Nat.add_comm, Nat.add_mul_mod_self_right, Nat.mod_eq_of_lt (by omega)]
  rw [hdiv, hmod]
  simp

/-- C11, as amended: for every odd width and every sigma (read in exact
arithmetic with a positive exponential and a positive `MagickPI`) the kernel
`SharpenImage` builds has `width*width` weights; the centre weight is twice
the sum of the Gaussian samples, every other weight is the negated Gaussian
sample; so the weights sum to the sum of the Gaussian samples plus the
centre sample `exp(0)/(2*pi*sigma*sigma)`, a positive value that is not 1 in
general. -/
theorem SharpenKernel_sum {K : Type} [LinearOrderedField K] (exp : K → K) (MagickPI : K)
    (width : ℕ) (sigma : K) (hexp : ∀ x, 0 < exp x) (hpi : 0 < MagickPI)
    (hodd : width % 2 = 1) :
    (SharpenKernel exp MagickPI width sigma).length = width * width ∧
    (SharpenKernel exp MagickPI width sigma).getD (width * width / 2) 0 =
      2 * (GaussianKernel2D exp MagickPI width sigma).sum ∧
    (∀ k, k < width * width → k ≠ width * width / 2 →
      (SharpenKernel exp MagickPI width sigma).getD k 0 =
        -(GaussianKernel2D exp MagickPI width sigma).getD k 0 ∧
      (SharpenKernel exp MagickPI width sigma).getD k 0 < 0) ∧
    (SharpenKernel exp MagickPI width sigma).sum =
      (GaussianKernel2D exp MagickPI width sigma).sum +
        exp 0 / (2 * MagickPI * MagickSigma sigma * MagickSigma sigma) ∧
    0 < (SharpenKernel exp MagickPI width sigma).sum := by
  obtain ⟨h1, h2, h3, h4⟩ := odd_width_sq width hodd
  have hlen := GaussianKernel2D_length exp MagickPI width sigma
  rw [h1] at hlen
  have hposG := GaussianKernel2D_pos exp MagickPI width sigma hexp hpi
  have hcen := GaussianKernel2D_center exp MagickPI width sigma hodd
  have hlenN : ((GaussianKernel2D exp MagickPI width sigma).map fun w => -w).length
      = width * width := by rw [List.length_map, hlen]
  have hsum : (SharpenKernel exp MagickPI width sigma).sum =
      (GaussianKernel2D exp MagickPI width sigma).sum +
        exp 0 / (2 * MagickPI * MagickSigma sigma * MagickSigma sigma) := by
    rw [SharpenKernel_eq, h1, List.sum_set']
    have hlt : width * width / 2 <
        ((GaussianKernel2D exp MagickPI width sigma).map fun w => -w).length := by
      rw [hlenN]; exact h3
    rw [dif_pos hlt, list_sum_map_neg, ← hcen]
    have hget : ((GaussianKernel2D exp MagickPI width sigma).map fun w => -w)[width * width / 2]
        = -(GaussianKernel2D exp MagickPI width sigma).getD (width * width / 2) 0 := by
      rw [List.getElem_map, List.getD_eq_getElem?_getD,
        List.getElem?_eq_getElem (by rw [hlen]; exact h3)]
      rfl
    rw [hget]
    ring
  have hGs : 0 < (GaussianKernel2D exp MagickPI width sigma).sum := by
    apply list_sum_pos _ _ hposG
    intro h
    have := congrArg List.length h
    rw [hlen] at this
    simp at this
    omega
  refine ⟨?_, ?_, ?_, hsum, ?_⟩
  · rw [SharpenKernel_eq, List.length_set, hlenN]
  · rw [SharpenKernel_eq, h1, List.getD_eq_getElem?_getD, List.getElem?_set_self (by rw [hlenN]; exact h3)]
    rfl
  · intro k hk hne
    have hval : (SharpenKernel exp MagickPI width sigma).getD k 0 =
        -(GaussianKernel2D exp MagickPI width sigma).getD k 0 := by
      rw [SharpenKernel_eq, h1, List.getD_eq_getElem?_getD,
        List.getElem?_set_ne (fun h => hne h.symm), List.getElem?_map,
        List.getD_eq_getElem?_getD, List.getElem?_eq_getElem (by rw [hlen]; exact hk)]
      rfl
    refine ⟨hval, ?_⟩
    rw [hval]
    have : 0 < (GaussianKernel2D exp MagickPI width sigma).getD k 0 := by
      rw [List.getD_eq_getElem?_getD, List.getElem?_eq_getElem (by rw [hlen]; exact hk)]
      exact hposG _ (List.getElem_mem _)
    linarith
  · rw [hsum]
    have : 0 < exp 0 / (2 * MagickPI * MagickSigma sigma * MagickSigma sigma) := by
      rw [← hcen, List.getD_eq_getElem?_getD,
        List.getElem?_eq_getElem (by rw [hlen]; exact h3)]
      exact hposG _ (List.getElem_mem _)
    linarith

theorem exp_neg_le_quadratic (x : ℝ) (hx : 0 ≤ x) :
    Real.exp (-x) ≤ 1 / (1 + x + x ^ 2 / 2) := by
  rw [Real.exp_neg, inv_eq_one_div]
  apply one_div_le_one_div_of_le (by positivity)
  exact Real.quadratic_le_exp_of_nonneg hx

theorem SharpenKernel_three_sum_lt_one : (SharpenKernel Real.exp Real.pi 3 1).sum < 1 := by
  unfold SharpenKernel
  simp [MagickSigma_one, List.range_succ, List.set]
  have e1 : ((-1 : ℝ) + -((2 - 1) * (2 - 1))) / 2 = -1 := by norm_num
  have e2 : (-(((2 : ℝ) - 1) * (2 - 1)) + -1) / 2 = -1 := by norm_num
  have e3 : -(((2 : ℝ) - 1) * (2 - 1)) / 2 = -(1 / 2) := by norm_num
  have e4 : -(((2 : ℝ) - 1) * (2 - 1)) = -1 := by norm_num
  have e5 : (-1 : ℝ) / 2 = -(1 / 2) := by norm_num
  rw [e1, e2, e3, e4, e5]
  have ha := exp_neg_le_quadratic (1 / 2) (by norm_num)
  have hb := exp_neg_le_quadratic 1 (by norm_num)
  have ha0 := Real.exp_pos (-(1 / 2))
  have hb0 := Real.exp_pos (-1)
  generalize Real.exp (-(1 / 2)) = a at *
  generalize Real.exp (-1) = b at *
  have hpi := Real.pi_gt_d2
  generalize Real.pi = c at *
  have hc : 0 < c := by linarith
  norm_num at ha hb
  have key : -b / (2 * c) + (-a / (2 * c) + (-b / (2 * c) + (-a / (2 * c) +
      (-(2 * (-b / (2 * c) + (-a / (2 * c) + (-b / (2 * c) + (-a / (2 * c) +
        (-1 / (2 * c) + (-a / (2 * c) + (-b / (2 * c) + (-a / (2 * c) +
          -b / (2 * c)))))))))) +
        (-a / (2 * c) + (-b / (2 * c) + (-a / (2 * c) + -b / (2 * c))))))))
      = (2 + 4 * a + 4 * b) / (2 * c) := by
    field_simp; ring
  rw [key, div_lt_one (by positivity)]
  nlinarith

/-- C11 fails as stated: for the width 3 and sigma 1, with the real
exponential and pi, the weights of the kernel of `SharpenImage` do not sum
to 1 (they sum to `(2 + 4*exp(-1/2) + 4*exp(-1))/(2*pi)`, about 0.94). -/
theorem SharpenKernel_sum_counterexample :
    (SharpenKernel Real.exp Real.pi 3 1).sum ≠ 1 :=
  ne_of_lt SharpenKernel_three_sum_lt_one

/-- The amended C11 for the real exponential and pi, the width 3 and
sigma 1. -/
theorem SharpenKernel_sum_witness :
    (∀ x : ℝ, 0 < Real.exp x) ∧ 0 < Real.pi ∧ 3 % 2 = 1 ∧
    (SharpenKernel Real.exp Real.pi 3 1).sum =
      (GaussianKernel2D Real.exp Real.pi 3 1).sum +
        Real.exp 0 / (2 * Real.pi * MagickSigma 1 * MagickSigma 1) ∧
    0 < (SharpenKernel Real.exp Real.pi 3 1).sum :=
  ⟨Real.exp_pos, Real.pi_pos, by decide,
   (SharpenKernel_sum Real.exp Real.pi 3 1 Real.exp_pos Real.pi_pos (by decide)).2.2.2.1,
   (SharpenKernel_sum Real.exp Real.pi 3 1 Real.exp_pos Real.pi_pos (by decide)).2.2.2.2⟩

/-! ## The channel loop of BlurImage -/

/-- An accumulation loop over `0 .. n-1` computes the sum of its terms. -/
theorem foldl_add_eq_sum (f : ℕ → ℚ) (n : ℕ) (a : ℚ) :
    (List.range n).foldl (fun (acc : ℚ) (u : ℕ) => acc + f u) a =
      a + ((List.range n).map f).sum := by
  induction n with
  | zero => simp
  | succ n ih =>
    rw [List.range_succ, List.foldl_append, ih]
    simp [add_assoc]

/-- The function `SetPixelChannel` stores the sample at the offset of a channel the
image has. -/
theorem SetPixelChannel_apply (image : Image) (channel : PixelChannel) (v : Quantum) (q : Pixel)
    (h : image.traits channel ≠ UndefinedPixelTrait) :
    SetPixelChannel image channel v q (image.offset channel) = v := by
  unfold SetPixelChannel
  rw [if_neg h]
  simp

/-- C12, as amended: in the channel loop of `BlurImage`, for a channel with
the Blend trait and without the Copy trait, at an unmasked pixel, when the
weighted alpha sum over the footprint is at most `MagickEpsilon` in
magnitude, `gamma` is 1 and the value written is the clamped alpha-weighted
sum of the samples, `ClampToQuantum(sum of k[u]*alpha[u]*sample[u])`; in a
fully transparent neighbourhood this is 0, whatever the sample under the
kernel centre is. -/
theorem BlurChannel_transparent (image blur_image : Image) (kernel : List ℚ) (width : ℕ)
    (pixels : ℕ → Pixel) (q : Pixel) (i : ℕ)
    (htraits : GetPixelChannelMapTraits image (GetPixelChannelMapChannel image i) ≠
      UndefinedPixelTrait)
    (hcopy : GetPixelChannelMapTraits blur_image (GetPixelChannelMapChannel image i) &&&
      CopyPixelTrait = 0)
    (hblend : GetPixelChannelMapTraits blur_image (GetPixelChannelMapChannel image i) &&&
      BlendPixelTrait ≠ 0)
    (hmask : GetPixelMask image (pixels 0) = 0)
    (hgamma : |((List.range width).map fun u => kernel.getD u 0 *
      (QuantumScale * (GetPixelAlpha image (pixels u)).toReal)).sum| ≤ MagickEpsilon) :
    BlurChannel image blur_image kernel width pixels q i
        (blur_image.offset (GetPixelChannelMapChannel image i)) =
      ClampToQuantum (((List.range width).map fun u => kernel.getD u 0 *
        (QuantumScale * (GetPixelAlpha image (pixels u)).toReal) * (pixels u i).toReal).sum) ∧
    ((∀ u, u < width → GetPixelAlpha image (pixels u) = TransparentAlpha) →
      BlurChannel image blur_image kernel width pixels q i
        (blur_image.offset (GetPixelChannelMapChannel image i)) = 0) := by
  have hblur : GetPixelChannelMapTraits blur_image (GetPixelChannelMapChannel image i) ≠
      UndefinedPixelTrait := by
    intro h0
    apply hblend
    rw [h0]
    simp [UndefinedPixelTrait]
  have hval : BlurChannel image blur_image kernel width pixels q i
        (blur_image.offset (GetPixelChannelMapChannel image i)) =
      ClampToQuantum (((List.range width).map fun u => kernel.getD u 0 *
        (QuantumScale * (GetPixelAlpha image (pixels u)).toReal) * (pixels u i).toReal).sum) := by
    unfold BlurChannel
    simp only
    rw [if_neg (by simp [htraits, hblur]), if_neg (by simp [hcopy, hmask]), if_neg hblend]
    rw [SetPixelChannel_apply _ _ _ _ hblur]
    rw [foldl_add_eq_sum (fun u => kernel.getD u 0 *
        (QuantumScale * (GetPixelAlpha image (pixels u)).toReal) * (pixels u i).toReal),
      foldl_add_eq_sum (fun u => kernel.getD u 0 *
        (QuantumScale * (GetPixelAlpha image (pixels u)).toReal))]
    rw [zero_add, zero_add, if_pos hgamma]
    simp
  refine ⟨hval, fun htransparent => ?_⟩
  rw [hval]
  have hzero : ((List.range width).map fun u => kernel.getD u 0 *
        (QuantumScale * (GetPixelAlpha image (pixels u)).toReal) * (pixels u i).toReal) =
      (List.range width).map fun _ => (0 : ℚ) := by
    apply List.map_congr_left
    intro u hu
    rw [htransparent u (List.mem_range.mp hu)]
    simp [TransparentAlpha, Quantum.toReal]
  rw [hzero]
  simp [ClampToQuantum]

/-- C12 fails as stated: with the weights 1/4, 1/2, 1/4 over three fully
transparent red pixels, the Blend channel red has a weighted alpha sum of 0,
the sample under the kernel centre is `QuantumRange`, and `BlurImage` writes
0. -/
theorem BlurChannel_transparent_counterexample :
    GetPixelChannelMapTraits transparentRedSource
      (GetPixelChannelMapChannel transparentRedSource 0) &&& BlendPixelTrait ≠ 0 ∧
    GetPixelChannelMapTraits transparentRedSource
      (GetPixelChannelMapChannel transparentRedSource 0) &&& CopyPixelTrait = 0 ∧
    GetPixelMask transparentRedSource (transparentRedFootprint 0) = 0 ∧
    |((List.range 3).map fun u => ([1 / 4, 1 / 2, 1 / 4] : List ℚ).getD u 0 *
      (QuantumScale * (GetPixelAlpha transparentRedSource
        (transparentRedFootprint u)).toReal)).sum| ≤ MagickEpsilon ∧
    transparentRedFootprint (3 / 2) 0 = OpaqueAlpha ∧
    BlurChannel transparentRedSource transparentRedSource [1 / 4, 1 / 2, 1 / 4] 3
      transparentRedFootprint (rgbaPixel 0 0 0 0) 0
      (transparentRedSource.offset (GetPixelChannelMapChannel transparentRedSource 0)) ≠
        transparentRedFootprint (3 / 2) 0 := by
  decide!

/-- The amended C12 on three fully transparent red pixels with the weights
1/4, 1/2, 1/4: the red sample written is 0. -/
theorem BlurChannel_transparent_witness :
    BlurChannel transparentRedSource transparentRedSource [1 / 4, 1 / 2, 1 / 4] 3
      transparentRedFootprint (rgbaPixel 0 0 0 0) 0
      (transparentRedSource.offset (GetPixelChannelMapChannel transparentRedSource 0)) = 0 :=
  (BlurChannel_transparent transparentRedSource transparentRedSource [1 / 4, 1 / 2, 1 / 4] 3
    transparentRedFootprint (rgbaPixel 0 0 0 0) 0 (by decide!) (by decide!) (by decide!)
    (by decide!) (by decide!)).2 (fun _ _ => rfl)

/-! ## The two passes of BlurImage -/

/-- A loop over the offsets `0 .. n-1` whose turn `i` rewrites only the entry
`i` leaves at every entry `k` below `n` what the turn `k` wrote. -/
theorem foldl_range_frame_lt {α : Type} (step : (ℕ → α) → ℕ → (ℕ → α)) (n : ℕ)
    (hframe : ∀ q i k, i < n → k ≠ i → step q i k = q k) (q : ℕ → α) (k : ℕ) :
    (List.range n).foldl step q k =
      if k < n then step ((List.range k).foldl step q) k k else q k := by
  induction n with
  | zero => simp
  | succ n ih =>
    rw [List.range_succ, List.foldl_append]
    simp only [List.foldl_cons, List.foldl_nil]
    have ih2 := ih (fun q i k hi hk => hframe q i k (Nat.lt_succ_of_lt hi) hk)
    by_cases hk : k = n
    · subst hk
      rw [if_pos (Nat.lt_succ_self _)]
    · rw [hframe _ _ _ (Nat.lt_succ_self _) hk, ih2]
      by_cases hlt : k < n
      · rw [if_pos hlt, if_pos (Nat.lt_succ_of_lt hlt)]
      · rw [if_neg hlt, if_neg (by omega)]

/-- A loop that rewrites the entry `x` at its turn `x` from the entry found
there. -/
theorem foldl_range_update {α : Type} (f : ℕ → α → α) (n : ℕ) (q : ℕ → α) (k : ℕ) :
    (List.range n).foldl (fun (q : ℕ → α) (x : ℕ) => Function.update q x (f x (q x))) q k =
      if k < n then f k (q k) else q k := by
  induction n with
  | zero => simp
  | succ n ih =>
    rw [List.range_succ, List.foldl_append]
    simp only [List.foldl_cons, List.foldl_nil]
    by_cases hk : k = n
    · subst hk
      rw [Function.update_same, if_pos (Nat.lt_succ_self _), ih, if_neg (Nat.lt_irrefl _)]
    · rw [Function.update_noteq hk, ih]
      by_cases hlt : k < n
      · rw [if_pos hlt, if_pos (Nat.lt_succ_of_lt hlt)]
      · rw [if_neg hlt, if_neg (by omega)]

theorem SetPixelChannel_frame (image : Image) (channel : PixelChannel) (v : Quantum)
    (q : Pixel) (k : ℕ) (hk : k ≠ image.offset channel) :
    SetPixelChannel image channel v q k = q k := by
  unfold SetPixelChannel
  split_ifs
  · rfl
  · exact Function.update_noteq hk _ _

theorem BlurChannel_frame (image blur_image : Image) (kernel : List ℚ) (width : ℕ)
    (pixels : ℕ → Pixel) (q : Pixel) (i k : ℕ)
    (hoff : blur_image.offset (image.channel_at i) = i) (hk : k ≠ i) :
    BlurChannel image blur_image kernel width pixels q i k = q k := by
  have hk2 : k ≠ blur_image.offset (GetPixelChannelMapChannel image i) := by
    rw [GetPixelChannelMapChannel, hoff]; exact hk
  unfold BlurChannel
  simp only
  split_ifs <;> first | rfl | exact SetPixelChannel_frame _ _ _ _ _ hk2

theorem BlurPixel_copy (image blur_image : Image) (kernel : List ℚ) (width : ℕ)
    (pixels : ℕ → Pixel) (q : Pixel) (i : ℕ)
    (hmap : ∀ j, j < image.number_channels → blur_image.offset (image.channel_at j) = j)
    (hi : i < image.number_channels)
    (htraits : image.traits (image.channel_at i) ≠ UndefinedPixelTrait)
    (hcopy : blur_image.traits (image.channel_at i) &&& CopyPixelTrait ≠ 0) :
    BlurPixel image blur_image kernel width pixels q i = pixels (width / 2) i := by
  unfold BlurPixel GetPixelChannels
  rw [foldl_range_frame_lt _ _
    (fun q j k hj hk => BlurChannel_frame image blur_image kernel width pixels q j k
      (hmap j hj) hk), if_pos hi]
  unfold BlurChannel
  simp only [GetPixelChannelMapChannel, GetPixelChannelMapTraits]
  rw [if_neg (by simp [htraits, copy_trait_defined _ hcopy]), if_pos (Or.inl hcopy)]
  have := SetPixelChannel_apply blur_image (image.channel_at i) (pixels (width / 2) i)
    ((List.range i).foldl (BlurChannel image blur_image kernel width pixels) q)
    (copy_trait_defined _ hcopy)
  rw [hmap i hi] at this
  exact this

theorem BlurLine_apply (image blur_image : Image) (kernel : List ℚ) (width count : ℕ)
    (p q : ℕ → Pixel) (x : ℕ) :
    BlurLine image blur_image kernel width count p q x =
      if x < count then BlurPixel image blur_image kernel width (fun u => p (x + u)) (q x)
      else q x := by
  unfold BlurLine
  exact foldl_range_update
    (fun x qx => BlurPixel image blur_image kernel width (fun u => p (x + u)) qx) count q x

theorem GetVirtualPixel_inside (cache : ViewOracle) (columns rows : ℕ)
    (pixels : ℕ → PixelRow) (x y : ℕ) (hx : x < columns) (hy : y < rows) :
    GetVirtualPixel cache columns rows pixels (x : ℤ) (y : ℤ) = pixels y x := by
  unfold GetVirtualPixel
  rw [if_pos (by omega)]
  simp

theorem EffectSync_status (cache : ViewOracle) (s : EffectState) (n : ℕ)
    (committed : ℕ → PixelRow) (h : (EffectSync cache s n committed).status = true) :
    (EffectSync cache s n committed).pixels = committed := by
  unfold EffectSync at h ⊢
  simp only at h ⊢
  have hsync : cache.syncAuthenticPixels n = true := by
    cases hm : cache.progress_monitor with
    | none => rw [hm] at h; exact h
    | some monitor =>
      rw [hm] at h
      simp only [Bool.and_eq_true] at h
      exact h.1
  rw [if_pos hsync]

theorem EffectSync_succeeds (cache : ViewOracle) (s : EffectState) (n : ℕ)
    (committed : ℕ → PixelRow) (h : ViewSucceeds cache) :
    (EffectSync cache s n committed).status = true := by
  obtain ⟨_, _, hsync, hm⟩ := h
  unfold EffectSync
  simp only
  cases hmon : cache.progress_monitor with
  | none => exact hsync n
  | some monitor => simp [hsync n, hm monitor hmon]


theorem BlurRow_status (cache : ViewOracle) (image blur_image : Image) (kernel : List ℚ)
    (width : ℕ) (s : EffectState) (y : ℕ)
    (h : (BlurRow cache image blur_image kernel width s y).status = true) :
    s.status = true ∧
    (BlurRow cache image blur_image kernel width s y).pixels =
      Function.update s.pixels y
        (BlurLine image blur_image kernel width image.columns
          (fun k => GetVirtualPixel cache image.columns image.rows image.pixels
            ((k : ℤ) - ((width / 2 : ℕ) : ℤ)) (y : ℤ))
          (cache.queuedPixels y)) := by
  unfold BlurRow at h ⊢
  by_cases hs : s.status = false
  · rw [if_pos hs] at h
    rw [hs] at h
    exact absurd h (by decide)
  · rw [if_neg hs] at h ⊢
    by_cases ha : cache.getVirtualPixels y = false ∨ cache.getAuthenticPixels y = false
    · rw [if_pos ha] at h
      exact absurd h (by simp)
    · rw [if_neg ha] at h ⊢
      exact ⟨by simpa using hs, EffectSync_status _ _ _ _ h⟩

theorem BlurRow_succeeds (cache : ViewOracle) (image blur_image : Image) (kernel : List ℚ)
    (width : ℕ) (s : EffectState) (y : ℕ) (hc : ViewSucceeds cache) (hs : s.status = true) :
    (BlurRow cache image blur_image kernel width s y).status = true := by
  unfold BlurRow
  rw [if_neg (by simp [hs]), if_neg (by simp [hc.1 y, hc.2.1 y])]
  exact EffectSync_succeeds _ _ _ _ hc

theorem BlurColumn_succeeds (cache : ViewOracle) (blur_image : Image) (kernel : List ℚ)
    (width : ℕ) (s : EffectState) (x : ℕ) (hc : ViewSucceeds cache) (hs : s.status = true) :
    (BlurColumn cache blur_image kernel width s x).status = true := by
  unfold BlurColumn
  rw [if_neg (by simp [hs]), if_neg (by simp [hc.1 x, hc.2.1 x])]
  exact EffectSync_succeeds _ _ _ _ hc

theorem foldl_status_succeeds (step : EffectState → ℕ → EffectState)
    (hstep : ∀ s n, s.status = true → (step s n).status = true) (n : ℕ) (s : EffectState)
    (hs : s.status = true) : ((List.range n).foldl step s).status = true := by
  induction n with
  | zero => simpa using hs
  | succ n ih =>
    rw [List.range_succ, List.foldl_append]
    exact hstep _ _ ih

theorem BlurImage_rows_copy (cache : ViewOracle) (image : Image) (kernel : List ℚ)
    (width : ℕ) (s0 : EffectState)
    (hmap : ∀ j, j < image.number_channels → image.offset (image.channel_at j) = j)
    (n : ℕ) (hn : n ≤ image.rows)
    (h : ((List.range n).foldl (BlurRow cache image image kernel width) s0).status = true) :
    CopyChannelsKept image
      ((List.range n).foldl (BlurRow cache image image kernel width) s0).pixels n := by
  induction n with
  | zero => intro y x i hy; omega
  | succ n ih =>
    rw [List.range_succ, List.foldl_append] at h ⊢
    simp only [List.foldl_cons, List.foldl_nil] at h ⊢
    obtain ⟨hs, hp⟩ := BlurRow_status _ _ _ _ _ _ _ h
    have ih2 := ih (by omega) hs
    intro y x i hy hx hi hcopy
    rw [hp]
    by_cases hyn : y = n
    · subst hyn
      rw [Function.update_same, BlurLine_apply, if_pos hx,
        BlurPixel_copy image image kernel width _ _ i hmap hi (copy_trait_defined _ hcopy) hcopy]
      have hcast : (((x + width / 2 : ℕ) : ℤ) - ((width / 2 : ℕ) : ℤ)) = (x : ℤ) := by
        push_cast; ring
      simp only [hcast]
      rw [GetVirtualPixel_inside _ _ _ _ _ _ hx (by omega)]
    · rw [Function.update_noteq hyn]
      exact ih2 y x i (by omega) hx hi hcopy

theorem BlurColumn_copy (cache : ViewOracle) (image : Image) (kernel : List ℚ)
    (width : ℕ) (s : EffectState) (x : ℕ)
    (hmap : ∀ j, j < image.number_channels → image.offset (image.channel_at j) = j)
    (hx : x < image.columns)
    (h : CopyChannelsKept image s.pixels image.rows) :
    CopyChannelsKept image (BlurColumn cache image kernel width s x).pixels image.rows := by
  unfold BlurColumn
  split_ifs with h1 h2
  · exact h
  · exact h
  · unfold EffectSync
    simp only
    split_ifs with h3
    · intro y x2 i hy hx2 hi hcopy
      simp only
      rw [if_pos hy]
      by_cases hxx : x2 = x
      · subst hxx
        rw [Function.update_same, BlurLine_apply, if_pos hy,
          BlurPixel_copy image image kernel width _ _ i hmap hi (copy_trait_defined _ hcopy)
            hcopy]
        have hcast : (((y + width / 2 : ℕ) : ℤ) - ((width / 2 : ℕ) : ℤ)) = (y : ℤ) := by
          push_cast; ring
        simp only [hcast]
        rw [GetVirtualPixel_inside _ _ _ _ _ _ hx2 hy]
        exact h y x2 i hy hx2 hi hcopy
      · rw [Function.update_noteq hxx]
        exact h y x2 i hy hx2 hi hcopy
    · exact h

theorem BlurImage_columns_copy (cache : ViewOracle) (image : Image) (kernel : List ℚ)
    (width : ℕ) (s0 : EffectState)
    (hmap : ∀ j, j < image.number_channels → image.offset (image.channel_at j) = j)
    (h : CopyChannelsKept image s0.pixels image.rows) (n : ℕ) (hn : n ≤ image.columns) :
    CopyChannelsKept image
      ((List.range n).foldl (BlurColumn cache image kernel width) s0).pixels image.rows := by
  induction n with
  | zero => simpa using h
  | succ n ih =>
    rw [List.range_succ, List.foldl_append]
    simp only [List.foldl_cons, List.foldl_nil]
    exact BlurColumn_copy _ _ _ _ _ _ hmap (by omega) (ih (by omega))

theorem BlurColumn_status (cache : ViewOracle) (blur_image : Image) (kernel : List ℚ)
    (width : ℕ) (s : EffectState) (x : ℕ)
    (h : (BlurColumn cache blur_image kernel width s x).status = true) : s.status = true := by
  unfold BlurColumn at h
  by_cases hs : s.status = false
  · rw [if_pos hs] at h
    rw [hs] at h
    exact absurd h (by decide)
  · simpa using hs

theorem foldl_status_of_true (step : EffectState → ℕ → EffectState)
    (hstep : ∀ s n, (step s n).status = true → s.status = true) (n : ℕ) (s : EffectState)
    (h : ((List.range n).foldl step s).status = true) : s.status = true := by
  induction n with
  | zero => simpa using h
  | succ n ih =>
    rw [List.range_succ, List.foldl_append] at h
    exact ih (hstep _ _ h)

/-- C13: `BlurImage` (row pass followed by column pass), for every kernel
width, kernel and sigma, on an image whose channel map stores the channel of
index `i` at the offset `i`: when the resources are delivered and no cache
access fails an image is returned; and in every image it returns, every
channel that carries the Copy trait holds, at every pixel, exactly the input
image's sample at that pixel. -/
theorem BlurImage_copy_channel (resources : EffectResources) (rowCache columnCache : ViewOracle)
    (image : Image) (sigma : ℚ) (width : ℕ) (kernel : List ℚ)
    (hmap : ∀ i, i < GetPixelChannels image →
      image.offset (GetPixelChannelMapChannel image i) = i) :
    (ResourcesSucceed resources → ViewSucceeds rowCache → ViewSucceeds columnCache →
      (BlurImage resources rowCache columnCache image sigma width kernel).isSome = true) ∧
    ∀ result, BlurImage resources rowCache columnCache image sigma width kernel = some result →
      ∀ y x i, y < image.rows → x < image.columns → i < GetPixelChannels image →
        GetPixelChannelMapTraits image (GetPixelChannelMapChannel image i) &&&
          CopyPixelTrait ≠ 0 →
        GetPixelChannel image (GetPixelChannelMapChannel image i) (result y x) =
          GetPixelChannel image (GetPixelChannelMapChannel image i) (image.pixels y x) := by
  constructor
  · rintro ⟨hr1, hr2, hr3⟩ hrow hcol
    unfold BlurImage
    simp only
    rw [if_neg (by simp [hr1])]
    split_ifs with h1 h2 h3 h4
    · rfl
    · exact absurd hr2 (by simp [h2])
    · exact absurd hr3 (by simp [h3])
    · exfalso
      have := foldl_status_succeeds (BlurColumn columnCache image kernel width)
        (fun s n hs => BlurColumn_succeeds _ _ _ _ s n hcol hs) image.columns _
        (foldl_status_succeeds (BlurRow rowCache image image kernel width)
          (fun s n hs => BlurRow_succeeds _ _ _ _ _ s n hrow hs) image.rows
          { status := true, progress := 0, pixels := image.pixels } rfl)
      rw [this] at h4
      exact absurd h4 (by decide)
    · rfl
  · intro result hres y x i hy hx hi hcopy
    have hkept : CopyChannelsKept image result image.rows := by
      unfold BlurImage at hres
      simp only at hres
      split_ifs at hres with h1 h2 h3 h4 h5
      · cases hres
        intro y x i _ _ _ _
        rfl
      · cases hres
        have hcolstatus : ((List.range image.columns).foldl
            (BlurColumn columnCache image kernel width)
            ((List.range image.rows).foldl (BlurRow rowCache image image kernel width)
              { status := true, progress := 0, pixels := image.pixels })).status = true := by
          simpa using h5
        have hrowstatus := foldl_status_of_true _
          (fun s n h => BlurColumn_status columnCache image kernel width s n h) _ _ hcolstatus
        exact BlurImage_columns_copy columnCache image kernel width _ hmap
          (BlurImage_rows_copy rowCache image kernel width _ hmap image.rows le_rfl hrowstatus)
          image.columns le_rfl
    have hv := hkept y x i hy hx hi hcopy
    unfold GetPixelChannel
    rw [hmap i hi, hv]


theorem reliableView_succeeds : ViewSucceeds reliableView :=
  ⟨fun _ => rfl, fun _ => rfl, fun _ => rfl, fun _ h => by cases h⟩

/-- C13 on the 4x4 opaque red image, whose alpha channel carries the Copy
trait, blurred with the weights 1/4, 1/2, 1/4: an image is returned and its
alpha samples are those of the input. -/
theorem BlurImage_copy_channel_witness :
    (∀ i, i < GetPixelChannels red4x4 →
      red4x4.offset (GetPixelChannelMapChannel red4x4 i) = i) ∧
    (BlurImage reliableResources reliableView reliableView red4x4 1 3
      [1 / 4, 1 / 2, 1 / 4]).isSome = true ∧
    ∀ result, BlurImage reliableResources reliableView reliableView red4x4 1 3
        [1 / 4, 1 / 2, 1 / 4] = some result →
      ∀ x : Fin 4, ∀ y : Fin 4,
        GetPixelChannel red4x4 PixelChannel.Alpha (result y.val x.val) = OpaqueAlpha :=
  have hmap : ∀ i, i < GetPixelChannels red4x4 →
      red4x4.offset (GetPixelChannelMapChannel red4x4 i) = i := by decide
  ⟨hmap,
   (BlurImage_copy_channel reliableResources reliableView reliableView red4x4 1 3
      [1 / 4, 1 / 2, 1 / 4] hmap).1 ⟨rfl, rfl, rfl⟩ reliableView_succeeds reliableView_succeeds,
   fun result h x y =>
     (BlurImage_copy_channel reliableResources reliableView reliableView red4x4 1 3
       [1 / 4, 1 / 2, 1 / 4] hmap).2 result h y.val x.val 3 y.isLt x.isLt (by decide)
       (by decide)⟩

/-! ## SelectiveBlurImage at a threshold of 0 -/

/-- A row loop whose body, when it leaves `status` true, found it true and
committed the row `row y`: if `status` is true after the rows `0 .. n-1`,
each of these rows holds its committed buffer. -/
theorem foldl_rows_committed (step : EffectState → ℕ → EffectState) (row : ℕ → PixelRow)
    (hstep : ∀ s y, (step s y).status = true →
      s.status = true ∧ (step s y).pixels = Function.update s.pixels y (row y))
    (n : ℕ) (s0 : EffectState) (h : ((List.range n).foldl step s0).status = true) :
    ∀ y, y < n → ((List.range n).foldl step s0).pixels y = row y := by
  induction n with
  | zero => intro y hy; omega
  | succ n ih =>
    rw [List.range_succ, List.foldl_append] at h ⊢
    simp only [List.foldl_cons, List.foldl_nil] at h ⊢
    obtain ⟨hs, hp⟩ := hstep _ _ h
    intro y hy
    rw [hp]
    by_cases hyn : y = n
    · subst hyn
      rw [Function.update_same]
    · rw [Function.update_noteq hyn]
      exact ih hs y (by omega)

/-- A loop whose body leaves the accumulator as it is. -/
theorem foldl_const {α β : Type} (f : α → β → α) (l : List β) (a : α)
    (h : ∀ b, f a b = a) : l.foldl f a = a := by
  induction l with
  | nil => rfl
  | cons b l ih => rw [List.foldl_cons, h b, ih]

theorem SelectiveBlurChannel_frame (oracle : PixelOracle) (image blur_image : Image)
    (kernel : List ℚ) (width : ℕ) (threshold : ℚ) (window : ℕ → ℕ → Pixel) (q : Pixel)
    (i k : ℕ) (hoff : blur_image.offset (image.channel_at i) = i) (hk : k ≠ i) :
    SelectiveBlurChannel oracle image blur_image kernel width threshold window q i k = q k := by
  have hk2 : k ≠ blur_image.offset (GetPixelChannelMapChannel image i) := by
    rw [GetPixelChannelMapChannel, hoff]; exact hk
  unfold SelectiveBlurChannel
  simp only
  split_ifs <;> first | rfl | exact SetPixelChannel_frame _ _ _ _ _ hk2

theorem SelectiveBlurChannel_threshold (oracle : PixelOracle) (image blur_image : Image)
    (kernel : List ℚ) (width : ℕ) (threshold : ℚ) (window : ℕ → ℕ → Pixel) (q : Pixel)
    (i : ℕ) (hthreshold : threshold ≤ 0)
    (htraits : image.traits (image.channel_at i) ≠ UndefinedPixelTrait)
    (hblur : blur_image.traits (image.channel_at i) ≠ UndefinedPixelTrait) :
    SelectiveBlurChannel oracle image blur_image kernel width threshold window q i =
      SetPixelChannel blur_image (image.channel_at i) (window (width / 2) (width / 2) i) q := by
  have hgate : ∀ c : ℚ, ¬ |c| < threshold := fun c hc =>
    absurd (lt_of_lt_of_le hc hthreshold) (not_lt.mpr (abs_nonneg c))
  have heps : |(0 : ℚ)| < MagickEpsilon := by
    rw [abs_zero]; unfold MagickEpsilon; norm_num
  unfold SelectiveBlurChannel
  simp only [GetPixelChannelMapChannel, GetPixelChannelMapTraits]
  rw [if_neg (by simp [htraits, hblur])]
  simp only [hgate, if_false]
  have hfold : ∀ a : ℚ × ℚ, (List.range width).foldl
      (fun (sums : ℚ × ℚ) (_ : ℕ) => (List.range width).foldl
        (fun (sums : ℚ × ℚ) (_ : ℕ) => sums) sums) a = a := by
    intro a
    apply foldl_const
    intro b
    exact foldl_const _ _ _ (fun _ => rfl)
  rw [hfold]
  simp only [heps, if_true]
  split_ifs <;> rfl


theorem SelectiveBlurPixel_threshold (oracle : PixelOracle) (image blur_image : Image)
    (kernel : List ℚ) (width : ℕ) (threshold : ℚ) (window : ℕ → ℕ → Pixel) (q : Pixel)
    (i : ℕ) (hthreshold : threshold ≤ 0)
    (hmap : ∀ j, j < image.number_channels → blur_image.offset (image.channel_at j) = j)
    (hi : i < image.number_channels)
    (htraits : image.traits (image.channel_at i) ≠ UndefinedPixelTrait)
    (hblur : blur_image.traits (image.channel_at i) ≠ UndefinedPixelTrait) :
    SelectiveBlurPixel oracle image blur_image kernel width threshold window q i =
      window (width / 2) (width / 2) i := by
  unfold SelectiveBlurPixel GetPixelChannels
  rw [foldl_range_frame_lt _ _
    (fun q j k hj hk => SelectiveBlurChannel_frame oracle image blur_image kernel width
      threshold window q j k (hmap j hj) hk), if_pos hi,
    SelectiveBlurChannel_threshold _ _ _ _ _ _ _ _ _ hthreshold htraits hblur]
  have := SetPixelChannel_apply blur_image (image.channel_at i)
    (window (width / 2) (width / 2) i)
    ((List.range i).foldl
      (SelectiveBlurChannel oracle image blur_image kernel width threshold window) q) hblur
  rw [hmap i hi] at this
  exact this

theorem SelectiveBlurLine_apply (oracle : PixelOracle) (image blur_image : Image)
    (kernel : List ℚ) (width : ℕ) (threshold : ℚ) (p : ℕ → ℕ → Pixel) (q : PixelRow)
    (x : ℕ) :
    SelectiveBlurLine oracle image blur_image kernel width threshold p q x =
      if x < image.columns then
        SelectiveBlurPixel oracle image blur_image kernel width threshold
          (fun v u => p v (x + u)) (q x)
      else q x := by
  unfold SelectiveBlurLine
  exact foldl_range_update
    (fun x qx => SelectiveBlurPixel oracle image blur_image kernel width threshold
      (fun v u => p v (x + u)) qx) image.columns q x

theorem SelectiveBlurRow_status (oracle : PixelOracle) (cache : ViewOracle)
    (image blur_image : Image) (kernel : List ℚ) (width : ℕ) (threshold : ℚ)
    (s : EffectState) (y : ℕ)
    (h : (SelectiveBlurRow oracle cache image blur_image kernel width threshold s y).status
      = true) :
    s.status = true ∧
    (SelectiveBlurRow oracle cache image blur_image kernel width threshold s y).pixels =
      Function.update s.pixels y
        (SelectiveBlurLine oracle image blur_image kernel width threshold
          (fun v k => GetVirtualPixel cache image.columns image.rows image.pixels
            ((k : ℤ) - ((width / 2 : ℕ) : ℤ)) ((y : ℤ) + (v : ℤ) - ((width / 2 : ℕ) : ℤ)))
          (cache.queuedPixels y)) := by
  unfold SelectiveBlurRow at h ⊢
  by_cases hs : s.status = false
  · rw [if_pos hs] at h
    rw [hs] at h
    exact absurd h (by decide)
  · rw [if_neg hs] at h ⊢
    by_cases ha : cache.getVirtualPixels y = false ∨ cache.getAuthenticPixels y = false
    · rw [if_pos ha] at h
      exact absurd h (by simp)
    · rw [if_neg ha] at h ⊢
      exact ⟨by simpa using hs, EffectSync_status _ _ _ _ h⟩

theorem SelectiveBlurRow_succeeds (oracle : PixelOracle) (cache : ViewOracle)
    (image blur_image : Image) (kernel : List ℚ) (width : ℕ) (threshold : ℚ)
    (s : EffectState) (y : ℕ) (hc : ViewSucceeds cache) (hs : s.status = true) :
    (SelectiveBlurRow oracle cache image blur_image kernel width threshold s y).status
      = true := by
  unfold SelectiveBlurRow
  rw [if_neg (by simp [hs]), if_neg (by simp [hc.1 y, hc.2.1 y])]
  exact EffectSync_succeeds _ _ _ _ hc

/-- C14: `SelectiveBlurImage` with a threshold at or below 0, for every
width, sigma and intensity function, on an image whose channel map stores the
channel of index `i` at the offset `i`: when the resources are delivered and
no cache access fails an image is returned; and in every image it returns,
every channel of the image, whatever its traits (Copy, Update or Blend),
holds at every pixel exactly the input image's sample at that pixel: no
sample passes the strict gate `|contrast| < threshold`, `gamma` stays 0 and
the sample under the centre is passed through. -/
theorem SelectiveBlurImage_threshold_zero (exp : ℚ → ℚ) (MagickPI : ℚ) (oracle : PixelOracle)
    (resources : EffectResources) (cache : ViewOracle) (image : Image) (width : ℕ)
    (sigma threshold : ℚ)
    (hmap : ∀ i, i < GetPixelChannels image →
      image.offset (GetPixelChannelMapChannel image i) = i)
    (hthreshold : threshold ≤ 0) :
    (ResourcesSucceed resources → ViewSucceeds cache →
      (SelectiveBlurImage exp MagickPI oracle resources cache image width sigma
        threshold).isSome = true) ∧
    ∀ result, SelectiveBlurImage exp MagickPI oracle resources cache image width sigma
        threshold = some result →
      ∀ y x i, y < image.rows → x < image.columns → i < GetPixelChannels image →
        GetPixelChannelMapTraits image (GetPixelChannelMapChannel image i) ≠
          UndefinedPixelTrait →
        GetPixelChannel image (GetPixelChannelMapChannel image i) (result y x) =
          GetPixelChannel image (GetPixelChannelMapChannel image i) (image.pixels y x) := by
  constructor
  · rintro ⟨hr1, hr2, hr3⟩ hrow
    unfold SelectiveBlurImage
    simp only
    rw [if_neg (by simp [hr3]), if_neg (by simp [hr1]), if_neg (by simp [hr2]),
      if_neg (by
        rw [foldl_status_succeeds _
          (fun s n hs => SelectiveBlurRow_succeeds _ _ _ _ _ _ _ s n hrow hs) image.rows
          { status := true, progress := 0, pixels := image.pixels } rfl]
        decide)]
    rfl
  · intro result hres y x i hy hx hi htraits
    unfold SelectiveBlurImage at hres
    simp only at hres
    split_ifs at hres with h1 h2 h3 h4
    cases hres
    have hstatus : ((List.range image.rows).foldl
        (SelectiveBlurRow oracle cache image image (GaussianKernel2D exp MagickPI width sigma)
          width threshold)
        { status := true, progress := 0, pixels := image.pixels }).status = true := by
      simpa using h4
    rw [foldl_rows_committed _ _
      (fun s y h => SelectiveBlurRow_status oracle cache image image _ width threshold s y h)
      image.rows _ hstatus y hy]
    have htraits2 : image.traits (image.channel_at i) ≠ UndefinedPixelTrait := htraits
    have hmap2 : ∀ j, j < image.number_channels → image.offset (image.channel_at j) = j := hmap
    have hi2 : i < image.number_channels := hi
    unfold GetPixelChannel GetPixelChannelMapChannel
    rw [if_neg htraits2, if_neg htraits2, hmap2 i hi2, SelectiveBlurLine_apply, if_pos hx,
      SelectiveBlurPixel_threshold _ _ _ _ _ _ _ _ _ hthreshold hmap2 hi2 htraits2 htraits2]
    have hcx : (((x + width / 2 : ℕ) : ℤ) - ((width / 2 : ℕ) : ℤ)) = (x : ℤ) := by
      push_cast; ring
    have hcy : ((y : ℤ) + ((width / 2 : ℕ) : ℤ) - ((width / 2 : ℕ) : ℤ)) = (y : ℤ) := by
      ring
    simp only [hcx, hcy]
    rw [GetVirtualPixel_inside _ _ _ _ _ _ hx hy]

/-- C14 on the 4x4 opaque red image with the threshold 0: an image is
returned and its red samples, a Blend channel, are those of the input. -/
theorem SelectiveBlurImage_threshold_zero_witness :
    (∀ i, i < GetPixelChannels red4x4 →
      red4x4.offset (GetPixelChannelMapChannel red4x4 i) = i) ∧
    (SelectiveBlurImage (fun _ => 1) 3 plainPixelOracle reliableResources reliableView
      red4x4 3 1 0).isSome = true ∧
    ∀ result, SelectiveBlurImage (fun _ => 1) 3 plainPixelOracle reliableResources
        reliableView red4x4 3 1 0 = some result →
      ∀ x : Fin 4, ∀ y : Fin 4,
        GetPixelChannel red4x4 PixelChannel.Red (result y.val x.val) = OpaqueAlpha :=
  have hmap : ∀ i, i < GetPixelChannels red4x4 →
      red4x4.offset (GetPixelChannelMapChannel red4x4 i) = i := by decide
  ⟨hmap,
   (SelectiveBlurImage_threshold_zero (fun _ => 1) 3 plainPixelOracle reliableResources
      reliableView red4x4 3 1 0 hmap le_rfl).1 ⟨rfl, rfl, rfl⟩ reliableView_succeeds,
   fun result h x y =>
     (SelectiveBlurImage_threshold_zero (fun _ => 1) 3 plainPixelOracle reliableResources
       reliableView red4x4 3 1 0 hmap le_rfl).2 result h y.val x.val 0 y.isLt x.isLt
       (by decide) (by decide)⟩

/-! ## MotionBlurImage at the width 1 -/

theorem range_one : List.range 1 = [0] := rfl

theorem GetMotionBlurKernel_one (exp : ℚ → ℚ) (MagickSQ2PI sigma : ℚ) (hexp : exp 0 ≠ 0)
    (hsq : MagickSQ2PI ≠ 0) : GetMotionBlurKernel exp MagickSQ2PI 1 sigma = [1] := by
  have hs := MagickSigma_ne_zero sigma
  unfold GetMotionBlurKernel
  simp only [range_one, List.map_cons, List.map_nil, List.sum_cons, List.sum_nil,
    add_zero, Nat.cast_zero, mul_zero, neg_zero, zero_div]
  rw [div_self (div_ne_zero hexp (mul_ne_zero hsq hs))]

theorem MotionBlurOffsets_one (math : MathOracle) (angle : ℚ) :
    MotionBlurOffsets math 1 angle = [(0, 0)] := by
  unfold MotionBlurOffsets
  simp only [range_one, List.map_cons, List.map_nil, Nat.cast_zero, zero_mul, zero_div,
    zero_sub]
  have h : ⌈-(1 / 2 : ℚ)⌉ = 0 := by
    rw [Int.ceil_eq_iff]
    norm_num
  rw [h]

/-- The sample the channel loop of a motion blur of width 1 writes when it
leaves `status` true. -/
theorem MotionBlurChannel_one (cache : ViewOracle) (motion : ℕ → ℕ → Bool)
    (image blur_image : Image) (x y : ℕ) (s : Bool × Pixel) (i : ℕ)
    (hx : x < image.columns) (hy : y < image.rows)
    (htraits : image.traits (image.channel_at i) ≠ UndefinedPixelTrait)
    (hblur : blur_image.traits (image.channel_at i) ≠ UndefinedPixelTrait)
    (h : (MotionBlurChannel cache motion image blur_image [1] [(0, 0)] 1 x y
      (image.pixels y x) s i).1 = true) :
    (MotionBlurChannel cache motion image blur_image [1] [(0, 0)] 1 x y
      (image.pixels y x) s i).2 =
      SetPixelChannel blur_image (image.channel_at i)
        (if blur_image.traits (image.channel_at i) &&& CopyPixelTrait ≠ 0 ∨
            GetPixelMask image (image.pixels y x) ≠ 0 ∨
            blur_image.traits (image.channel_at i) &&& BlendPixelTrait = 0 ∨
            GetPixelAlpha image (image.pixels y x) ≠ TransparentAlpha
          then image.pixels y x i else 0) s.2 := by
  have hr : GetVirtualPixel cache image.columns image.rows image.pixels
      ((x : ℤ) + 0) ((y : ℤ) + 0) = image.pixels y x := by
    rw [add_zero, add_zero, GetVirtualPixel_inside _ _ _ _ _ _ hx hy]
  unfold MotionBlurChannel at h ⊢
  simp only [GetPixelChannelMapChannel, GetPixelChannelMapTraits, range_one,
    List.foldl_cons, List.foldl_nil, List.getD_cons_zero, hr, zero_add, one_mul] at h ⊢
  rw [if_neg (by simp [htraits, hblur])] at h ⊢
  by_cases hcopy : blur_image.traits (image.channel_at i) &&& CopyPixelTrait ≠ 0 ∨
      GetPixelMask image (image.pixels y x) ≠ 0
  · have hC : blur_image.traits (image.channel_at i) &&& CopyPixelTrait ≠ 0 ∨
        GetPixelMask image (image.pixels y x) ≠ 0 ∨
        blur_image.traits (image.channel_at i) &&& BlendPixelTrait = 0 ∨
        GetPixelAlpha image (image.pixels y x) ≠ TransparentAlpha := by tauto
    rw [if_pos hcopy, if_pos hC]
  · rw [if_neg hcopy] at h ⊢
    by_cases hblend : blur_image.traits (image.channel_at i) &&& BlendPixelTrait = 0
    · have hC : blur_image.traits (image.channel_at i) &&& CopyPixelTrait ≠ 0 ∨
          GetPixelMask image (image.pixels y x) ≠ 0 ∨
          blur_image.traits (image.channel_at i) &&& BlendPixelTrait = 0 ∨
          GetPixelAlpha image (image.pixels y x) ≠ TransparentAlpha := by tauto
      rw [if_pos hblend] at h ⊢
      rw [if_pos hC]
      by_cases hm : motion i 0 = false
      · rw [if_pos hm] at h
        exact absurd h (by simp)
      · rw [if_neg hm]
        simp only []
        rw [ClampToQuantum_toReal]
    · rw [if_neg hblend] at h ⊢
      by_cases hm : motion i 0 = false
      · rw [if_pos hm] at h
        exact absurd h (by simp)
      · rw [if_neg hm]
        simp only []
        by_cases ha : GetPixelAlpha image (image.pixels y x) = TransparentAlpha
        · have hC : ¬ (blur_image.traits (image.channel_at i) &&& CopyPixelTrait ≠ 0 ∨
              GetPixelMask image (image.pixels y x) ≠ 0 ∨
              blur_image.traits (image.channel_at i) &&& BlendPixelTrait = 0 ∨
              GetPixelAlpha image (image.pixels y x) ≠ TransparentAlpha) := by tauto
          rw [if_neg hC]
          have hz := (QuantumScale_mul_eq_zero_iff _).mpr ha
          rw [hz]
          simp [ClampToQuantum]
        · have hC : blur_image.traits (image.channel_at i) &&& CopyPixelTrait ≠ 0 ∨
              GetPixelMask image (image.pixels y x) ≠ 0 ∨
              blur_image.traits (image.channel_at i) &&& BlendPixelTrait = 0 ∨
              GetPixelAlpha image (image.pixels y x) ≠ TransparentAlpha := by tauto
          have hnz : QuantumScale * (GetPixelAlpha image (image.pixels y x)).toReal ≠ 0 :=
            fun h0 => ha ((QuantumScale_mul_eq_zero_iff _).mp h0)
          rw [if_neg (QuantumScale_mul_gt_epsilon _ hnz), if_pos hC]
          have : 1 / (QuantumScale * (GetPixelAlpha image (image.pixels y x)).toReal) *
              (QuantumScale * (GetPixelAlpha image (image.pixels y x)).toReal *
                (image.pixels y x i).toReal) = (image.pixels y x i).toReal := by
            field_simp
          rw [this, ClampToQuantum_toReal]


theorem MotionTaps_status (step : MotionTaps → ℕ → MotionTaps)
    (hstep : ∀ t j, (step t j).status = true → t.status = true) (l : List ℕ) (t : MotionTaps)
    (h : (l.foldl step t).status = true) : t.status = true := by
  induction l generalizing t with
  | nil => exact h
  | cons j l ih => exact hstep _ _ (ih _ h)

theorem MotionTaps_succeeds (step : MotionTaps → ℕ → MotionTaps)
    (hstep : ∀ t j, t.status = true → (step t j).status = true) (l : List ℕ) (t : MotionTaps)
    (h : t.status = true) : (l.foldl step t).status = true := by
  induction l generalizing t with
  | nil => exact h
  | cons j l ih => exact ih _ (hstep _ _ h)

theorem MotionBlurChannel_status (cache : ViewOracle) (motion : ℕ → ℕ → Bool)
    (image blur_image : Image) (kernel : List ℚ) (offset : List (ℤ × ℤ)) (width : ℕ)
    (x y : ℕ) (p : Pixel) (s : Bool × Pixel) (i : ℕ)
    (h : (MotionBlurChannel cache motion image blur_image kernel offset width x y p s i).1
      = true) : s.1 = true := by
  unfold MotionBlurChannel at h
  simp only at h
  split_ifs at h <;> first
    | exact h
    | (refine MotionTaps_status _ (fun t j ht => ?_) _ _ h
       by_cases hmj : motion i j = false
       · rw [if_pos hmj] at ht
         exact absurd ht (by simp)
       · rw [if_neg hmj] at ht
         exact ht)

theorem MotionBlurChannel_succeeds (cache : ViewOracle) (motion : ℕ → ℕ → Bool)
    (image blur_image : Image) (kernel : List ℚ) (offset : List (ℤ × ℤ)) (width : ℕ)
    (x y : ℕ) (p : Pixel) (s : Bool × Pixel) (i : ℕ) (hm : ∀ i j, motion i j = true)
    (h : s.1 = true) :
    (MotionBlurChannel cache motion image blur_image kernel offset width x y p s i).1
      = true := by
  unfold MotionBlurChannel
  simp only
  split_ifs <;> first
    | exact h
    | (refine MotionTaps_succeeds _ (fun t j ht => ?_) _ _ h
       rw [if_neg (by simp [hm])]
       exact ht)

theorem MotionBlurChannel_frame (cache : ViewOracle) (motion : ℕ → ℕ → Bool)
    (image blur_image : Image) (kernel : List ℚ) (offset : List (ℤ × ℤ)) (width : ℕ)
    (x y : ℕ) (p : Pixel) (s : Bool × Pixel) (i k : ℕ)
    (hoff : blur_image.offset (image.channel_at i) = i) (hk : k ≠ i) :
    (MotionBlurChannel cache motion image blur_image kernel offset width x y p s i).2 k
      = s.2 k := by
  have hk2 : k ≠ blur_image.offset (GetPixelChannelMapChannel image i) := by
    rw [GetPixelChannelMapChannel, hoff]; exact hk
  unfold MotionBlurChannel
  simp only
  split_ifs <;> first | rfl | exact SetPixelChannel_frame _ _ _ _ _ hk2

/-- The channel loop of a motion blur of width 1 at a pixel of the image. -/
theorem MotionBlurPixel_one (cache : ViewOracle) (motion : ℕ → ℕ → Bool)
    (image : Image) (x y : ℕ) (s : Bool × Pixel)
    (hmap : ∀ j, j < image.number_channels → image.offset (image.channel_at j) = j)
    (hx : x < image.columns) (hy : y < image.rows) (n : ℕ) (hn : n ≤ image.number_channels)
    (h : ((List.range n).foldl (MotionBlurChannel cache motion image image [1] [(0, 0)] 1 x y
      (image.pixels y x)) s).1 = true) :
    s.1 = true ∧
    ∀ i, i < n → image.traits (image.channel_at i) ≠ UndefinedPixelTrait →
      ((List.range n).foldl (MotionBlurChannel cache motion image image [1] [(0, 0)] 1 x y
        (image.pixels y x)) s).2 i =
        if image.traits (image.channel_at i) &&& CopyPixelTrait ≠ 0 ∨
            GetPixelMask image (image.pixels y x) ≠ 0 ∨
            image.traits (image.channel_at i) &&& BlendPixelTrait = 0 ∨
            GetPixelAlpha image (image.pixels y x) ≠ TransparentAlpha
          then image.pixels y x i else 0 := by
  induction n with
  | zero => exact ⟨by simpa using h, fun i hi => by omega⟩
  | succ n ih =>
    rw [List.range_succ, List.foldl_append] at h ⊢
    simp only [List.foldl_cons, List.foldl_nil] at h ⊢
    have hprev := MotionBlurChannel_status _ _ _ _ _ _ _ _ _ _ _ _ h
    obtain ⟨hs, ih2⟩ := ih (by omega) hprev
    refine ⟨hs, fun i hi htraits => ?_⟩
    by_cases hin : i = n
    · subst hin
      rw [MotionBlurChannel_one cache motion image image x y _ i hx hy htraits htraits h]
      have := SetPixelChannel_apply image (image.channel_at i)
        (if image.traits (image.channel_at i) &&& CopyPixelTrait ≠ 0 ∨
            GetPixelMask image (image.pixels y x) ≠ 0 ∨
            image.traits (image.channel_at i) &&& BlendPixelTrait = 0 ∨
            GetPixelAlpha image (image.pixels y x) ≠ TransparentAlpha
          then image.pixels y x i else 0)
        ((List.range i).foldl (MotionBlurChannel cache motion image image [1] [(0, 0)] 1 x y
          (image.pixels y x)) s).2 htraits
      rw [hmap i (by omega)] at this
      exact this
    · rw [MotionBlurChannel_frame _ _ _ _ _ _ _ _ _ _ _ _ _ (hmap n (by omega)) hin]
      exact ih2 i (by omega) htraits

theorem MotionBlurPixel_succeeds (cache : ViewOracle) (motion : ℕ → ℕ → Bool)
    (image blur_image : Image) (kernel : List ℚ) (offset : List (ℤ × ℤ)) (width : ℕ)
    (x y : ℕ) (p : Pixel) (s : Bool × Pixel) (hm : ∀ i j, motion i j = true)
    (h : s.1 = true) :
    (MotionBlurPixel cache motion image blur_image kernel offset width x y p s).1 = true := by
  unfold MotionBlurPixel
  generalize List.range (GetPixelChannels image) = l
  induction l generalizing s with
  | nil => exact h
  | cons i l ih =>
    exact ih _ (MotionBlurChannel_succeeds _ _ _ _ _ _ _ _ _ _ _ _ hm h)


/-- A row loop whose body, when it leaves `status` true, found it true, left
the other rows as they were and established `P` on its own row: if `status`
is true after the rows `0 .. n-1`, `P` holds on each of them. -/
theorem foldl_rows_invariant (step : EffectState → ℕ → EffectState) (P : ℕ → PixelRow → Prop)
    (hstep : ∀ s y, (step s y).status = true →
      s.status = true ∧ P y ((step s y).pixels y) ∧
      ∀ y2, y2 ≠ y → (step s y).pixels y2 = s.pixels y2)
    (n : ℕ) (s0 : EffectState) (h : ((List.range n).foldl step s0).status = true) :
    ∀ y, y < n → P y (((List.range n).foldl step s0).pixels y) := by
  induction n with
  | zero => intro y hy; omega
  | succ n ih =>
    rw [List.range_succ, List.foldl_append] at h ⊢
    simp only [List.foldl_cons, List.foldl_nil] at h ⊢
    obtain ⟨hs, hp, hframe⟩ := hstep _ _ h
    intro y hy
    by_cases hyn : y = n
    · subst hyn
      exact hp
    · rw [hframe y hyn]
      exact ih hs y (by omega)

theorem MotionBlurLine_one (cache : ViewOracle) (motion : ℕ → ℕ → ℕ → Bool)
    (image : Image) (y : ℕ) (p : PixelRow) (s : Bool × PixelRow)
    (hmap : ∀ j, j < image.number_channels → image.offset (image.channel_at j) = j)
    (hy : y < image.rows) (hp : ∀ x, x < image.columns → p x = image.pixels y x)
    (n : ℕ) (hn : n ≤ image.columns)
    (h : ((List.range n).foldl
      (fun (s : Bool × PixelRow) (x : ℕ) =>
        ((MotionBlurPixel cache (motion x) image image [1] [(0, 0)] 1 x y (p x)
            (s.1, s.2 x)).1,
         Function.update s.2 x
          (MotionBlurPixel cache (motion x) image image [1] [(0, 0)] 1 x y (p x)
            (s.1, s.2 x)).2)) s).1 = true) :
    s.1 = true ∧
    ∀ x i, x < n → i < image.number_channels →
      image.traits (image.channel_at i) ≠ UndefinedPixelTrait →
      ((List.range n).foldl
        (fun (s : Bool × PixelRow) (x : ℕ) =>
          ((MotionBlurPixel cache (motion x) image image [1] [(0, 0)] 1 x y (p x)
              (s.1, s.2 x)).1,
           Function.update s.2 x
            (MotionBlurPixel cache (motion x) image image [1] [(0, 0)] 1 x y (p x)
              (s.1, s.2 x)).2)) s).2 x i =
        if image.traits (image.channel_at i) &&& CopyPixelTrait ≠ 0 ∨
            GetPixelMask image (image.pixels y x) ≠ 0 ∨
            image.traits (image.channel_at i) &&& BlendPixelTrait = 0 ∨
            GetPixelAlpha image (image.pixels y x) ≠ TransparentAlpha
          then image.pixels y x i else 0 := by
  induction n with
  | zero => exact ⟨by simpa using h, fun x i hx => by omega⟩
  | succ n ih =>
    rw [List.range_succ, List.foldl_append] at h ⊢
    simp only [List.foldl_cons, List.foldl_nil] at h ⊢
    rw [hp n (by omega)] at h ⊢
    unfold MotionBlurPixel GetPixelChannels at h ⊢
    obtain ⟨hprev, hval⟩ := MotionBlurPixel_one cache (motion n) image n y _ hmap (by omega) hy
      image.number_channels le_rfl h
    obtain ⟨hs, ih2⟩ := ih (by omega) hprev
    refine ⟨hs, fun x i hx hi htraits => ?_⟩
    by_cases hxn : x = n
    · subst hxn
      rw [Function.update_same]
      exact hval i hi htraits
    · rw [Function.update_noteq hxn]
      exact ih2 x i (by omega) hi htraits

theorem MotionBlurLine_succeeds (cache : ViewOracle) (motion : ℕ → ℕ → ℕ → Bool)
    (image blur_image : Image) (kernel : List ℚ) (offset : List (ℤ × ℤ)) (width : ℕ)
    (y : ℕ) (p : PixelRow) (s : Bool × PixelRow) (hm : ∀ x i j, motion x i j = true)
    (h : s.1 = true) :
    (MotionBlurLine cache motion image blur_image kernel offset width y p s).1 = true := by
  unfold MotionBlurLine
  generalize List.range image.columns = l
  induction l generalizing s with
  | nil => exact h
  | cons x l ih =>
    rw [List.foldl_cons]
    exact ih _ (MotionBlurPixel_succeeds _ _ _ _ _ _ _ _ _ _ _ (hm x) h)

theorem MotionBlurRow_status (cache : ViewOracle) (motion : ℕ → ℕ → ℕ → ℕ → Bool)
    (image blur_image : Image) (kernel : List ℚ) (offset : List (ℤ × ℤ)) (width : ℕ)
    (s : EffectState) (y : ℕ)
    (h : (MotionBlurRow cache motion image blur_image kernel offset width s y).status = true) :
    s.status = true ∧
    (MotionBlurLine cache (motion y) image blur_image kernel offset width y
        (fun x => GetVirtualPixel cache image.columns image.rows image.pixels (x : ℤ) (y : ℤ))
        (true, cache.queuedPixels y)).1 = true ∧
    (MotionBlurRow cache motion image blur_image kernel offset width s y).pixels =
      Function.update s.pixels y
        (MotionBlurLine cache (motion y) image blur_image kernel offset width y
          (fun x => GetVirtualPixel cache image.columns image.rows image.pixels (x : ℤ) (y : ℤ))
          (true, cache.queuedPixels y)).2 := by
  unfold MotionBlurRow at h ⊢
  by_cases hs : s.status = false
  · rw [if_pos hs] at h
    rw [hs] at h
    exact absurd h (by decide)
  · rw [if_neg hs] at h ⊢
    by_cases ha : cache.getVirtualPixels y = false ∨ cache.getAuthenticPixels y = false
    · rw [if_pos ha] at h
      exact absurd h (by simp)
    · rw [if_neg ha] at h ⊢
      simp only [Bool.and_eq_true] at h ⊢
      exact ⟨by simpa using hs, h.1, EffectSync_status _ _ _ _ h.2⟩

theorem MotionBlurRow_succeeds (cache : ViewOracle) (motion : ℕ → ℕ → ℕ → ℕ → Bool)
    (image blur_image : Image) (kernel : List ℚ) (offset : List (ℤ × ℤ)) (width : ℕ)
    (s : EffectState) (y : ℕ) (hc : ViewSucceeds cache) (hm : ∀ y x i j, motion y x i j = true)
    (hs : s.status = true) :
    (MotionBlurRow cache motion image blur_image kernel offset width s y).status = true := by
  unfold MotionBlurRow
  rw [if_neg (by simp [hs]), if_neg (by simp [hc.1 y, hc.2.1 y])]
  simp only [Bool.and_eq_true]
  exact ⟨MotionBlurLine_succeeds _ _ _ _ _ _ _ _ _ _ (hm y) rfl, EffectSync_succeeds _ _ _ _ hc⟩


/-- C15, as amended: `MotionBlurImage` with kernel width 1, for every image
whose channel map stores the channel of index `i` at the offset `i`, every
sigma and angle (the exponential at 0 and `MagickSQ2PI` being non-zero): the
kernel is the single weight 1 and the single offset is `(0, 0)`; when the
resources are delivered and no cache access fails an image is returned; and
in every image it returns, a channel of the image holds the input sample at
every pixel if it carries the Copy trait, if the pixel is masked, if it has
no Blend trait, or if the pixel is not fully transparent, whereas a Blend
channel of an unmasked, fully transparent pixel holds 0. -/
theorem MotionBlurImage_width_one (math : MathOracle) (resources : EffectResources)
    (cache : ViewOracle) (motion : ℕ → ℕ → ℕ → ℕ → Bool) (image : Image) (sigma angle : ℚ)
    (hexp : math.exp 0 ≠ 0) (hsq : math.MagickSQ2PI ≠ 0)
    (hmap : ∀ i, i < GetPixelChannels image →
      image.offset (GetPixelChannelMapChannel image i) = i) :
    GetMotionBlurKernel math.exp math.MagickSQ2PI 1 sigma = [1] ∧
    MotionBlurOffsets math 1 angle = [(0, 0)] ∧
    (ResourcesSucceed resources → ViewSucceeds cache → (∀ y x i j, motion y x i j = true) →
      (MotionBlurImage math resources cache motion image 1 sigma angle).isSome = true) ∧
    ∀ result, MotionBlurImage math resources cache motion image 1 sigma angle = some result →
      ∀ y x i, y < image.rows → x < image.columns → i < GetPixelChannels image →
        GetPixelChannelMapTraits image (GetPixelChannelMapChannel image i) ≠
          UndefinedPixelTrait →
        ((GetPixelChannelMapTraits image (GetPixelChannelMapChannel image i) &&&
              CopyPixelTrait ≠ 0 ∨
            GetPixelMask image (image.pixels y x) ≠ 0 ∨
            GetPixelChannelMapTraits image (GetPixelChannelMapChannel image i) &&&
              BlendPixelTrait = 0 ∨
            GetPixelAlpha image (image.pixels y x) ≠ TransparentAlpha) →
          GetPixelChannel image (GetPixelChannelMapChannel image i) (result y x) =
            GetPixelChannel image (GetPixelChannelMapChannel image i) (image.pixels y x)) ∧
        (GetPixelChannelMapTraits image (GetPixelChannelMapChannel image i) &&&
              CopyPixelTrait = 0 →
          GetPixelMask image (image.pixels y x) = 0 →
          GetPixelChannelMapTraits image (GetPixelChannelMapChannel image i) &&&
              BlendPixelTrait ≠ 0 →
          GetPixelAlpha image (image.pixels y x) = TransparentAlpha →
          GetPixelChannel image (GetPixelChannelMapChannel image i) (result y x) = 0) := by
  have hk := GetMotionBlurKernel_one math.exp math.MagickSQ2PI sigma hexp hsq
  have ho := MotionBlurOffsets_one math angle
  refine ⟨hk, ho, ?_, ?_⟩
  · rintro ⟨hr1, hr2, hr3⟩ hc hm
    unfold MotionBlurImage
    simp only
    rw [if_neg (by simp [hr3]), if_neg (by simp [hr1]), if_neg (by simp [hr2]),
      if_neg (by
        rw [foldl_status_succeeds _
          (fun s n hs => MotionBlurRow_succeeds _ _ _ _ _ _ _ s n hc hm hs) image.rows
          { status := true, progress := 0, pixels := image.pixels } rfl]
        decide)]
    rfl
  · intro result hres y x i hy hx hi htraits
    have htraits2 : image.traits (image.channel_at i) ≠ UndefinedPixelTrait := htraits
    have hmap2 : ∀ j, j < image.number_channels → image.offset (image.channel_at j) = j := hmap
    have hi2 : i < image.number_channels := hi
    unfold MotionBlurImage at hres
    simp only at hres
    rw [hk, ho] at hres
    split_ifs at hres with h1 h2 h3 h4
    cases hres
    have hstatus : ((List.range image.rows).foldl
        (MotionBlurRow cache motion image image [1] [(0, 0)] 1)
        { status := true, progress := 0, pixels := image.pixels }).status = true := by
      simpa using h4
    have hrow := foldl_rows_invariant (MotionBlurRow cache motion image image [1] [(0, 0)] 1)
      (fun y row => y < image.rows → ∀ x i, x < image.columns → i < image.number_channels →
        image.traits (image.channel_at i) ≠ UndefinedPixelTrait →
        row x i =
          if image.traits (image.channel_at i) &&& CopyPixelTrait ≠ 0 ∨
              GetPixelMask image (image.pixels y x) ≠ 0 ∨
              image.traits (image.channel_at i) &&& BlendPixelTrait = 0 ∨
              GetPixelAlpha image (image.pixels y x) ≠ TransparentAlpha
            then image.pixels y x i else 0)
      (fun s y h => by
        obtain ⟨hs, hline, hp⟩ := MotionBlurRow_status _ _ _ _ _ _ _ _ _ h
        refine ⟨hs, fun hyr => ?_, fun y2 hy2 => by rw [hp, Function.update_noteq hy2]⟩
        rw [hp, Function.update_same]
        unfold MotionBlurLine at hline ⊢
        exact (MotionBlurLine_one cache (motion y) image y _ _ hmap2 hyr
          (fun x hx => GetVirtualPixel_inside _ _ _ _ _ _ hx hyr) image.columns le_rfl
          hline).2)
      image.rows _ hstatus y hy hy x i hx hi2 htraits2
    unfold GetPixelChannel GetPixelChannelMapChannel GetPixelChannelMapTraits
    rw [if_neg htraits2, if_neg htraits2, hmap2 i hi2, hrow]
    constructor
    · intro hC
      rw [if_pos hC]
    · intro c1 c2 c3 c4
      rw [if_neg (by tauto)]


/-- C15 fails as stated: in the 1x1 image whose pixel is fully transparent
and stores red = `QuantumRange`, with red a Blend channel, the motion blur of
width 1 returns an image whose red sample is 0. -/
theorem MotionBlurImage_width_one_counterexample :
    GetPixelChannelMapTraits transparentRedSource
      (GetPixelChannelMapChannel transparentRedSource 0) = UpdatePixelTrait ||| BlendPixelTrait ∧
    GetPixelChannel transparentRedSource (GetPixelChannelMapChannel transparentRedSource 0)
      (transparentRedSource.pixels 0 0) = OpaqueAlpha ∧
    (MotionBlurImage seriesMath reliableResources reliableView (fun _ _ _ _ => true)
      transparentRedSource 1 0 0).map
        (fun result => GetPixelChannel transparentRedSource
          (GetPixelChannelMapChannel transparentRedSource 0) (result 0 0)) = some 0 := by
  decide!


/-- The amended C15 on the 1x1 fully transparent red image: an image is
returned, its alpha sample (a Copy channel) is the input's and its red
sample (a Blend channel) is 0. -/
theorem MotionBlurImage_width_one_witness :
    seriesMath.exp 0 ≠ 0 ∧ seriesMath.MagickSQ2PI ≠ 0 ∧
    (∀ i, i < GetPixelChannels transparentRedSource →
      transparentRedSource.offset (GetPixelChannelMapChannel transparentRedSource i) = i) ∧
    (MotionBlurImage seriesMath reliableResources reliableView (fun _ _ _ _ => true)
      transparentRedSource 1 0 0).isSome = true ∧
    ∀ result, MotionBlurImage seriesMath reliableResources reliableView (fun _ _ _ _ => true)
        transparentRedSource 1 0 0 = some result →
      GetPixelChannel transparentRedSource PixelChannel.Alpha (result 0 0) =
        GetPixelChannel transparentRedSource PixelChannel.Alpha
          (transparentRedSource.pixels 0 0) ∧
      GetPixelChannel transparentRedSource PixelChannel.Red (result 0 0) = 0 :=
  have hexp : seriesMath.exp 0 ≠ 0 := by decide!
  have hsq : seriesMath.MagickSQ2PI ≠ 0 := by decide!
  have hmap : ∀ i, i < GetPixelChannels transparentRedSource →
      transparentRedSource.offset (GetPixelChannelMapChannel transparentRedSource i) = i := by
    decide
  ⟨hexp, hsq, hmap,
   (MotionBlurImage_width_one seriesMath reliableResources reliableView (fun _ _ _ _ => true)
      transparentRedSource 0 0 hexp hsq hmap).2.2.1 ⟨rfl, rfl, rfl⟩ reliableView_succeeds
      (fun _ _ _ _ => rfl),
   fun result h =>
     ⟨((MotionBlurImage_width_one seriesMath reliableResources reliableView
        (fun _ _ _ _ => true) transparentRedSource 0 0 hexp hsq hmap).2.2.2 result h 0 0 3
        (by decide) (by decide) (by decide) (by decide)).1 (Or.inl (by decide)),
      ((MotionBlurImage_width_one seriesMath reliableResources reliableView
        (fun _ _ _ _ => true) transparentRedSource 0 0 hexp hsq hmap).2.2.2 result h 0 0 0
        (by decide) (by decide) (by decide) (by decide)).2 (by decide) (by decide) (by decide)
        (by decide)⟩⟩

/-! ## FloodfillPaintImage -/

/-- C17: `FloodfillPaintImage` returns `MagickFalse` and leaves every pixel of
the image as it was whenever the seed is outside the image, that is when
`x_offset < 0`, `x_offset >= columns`, `y_offset < 0` or `y_offset >= rows`;
the segment loop is not entered, so the result is there whatever the number
of turns allowed. -/
theorem FloodfillPaintImage_seed_outside (oracle : FloodfillOracle) (image : Image)
    (matte : Bool) (x_offset y_offset : ℤ) (invert : Bool) (fuel : ℕ)
    (h : x_offset < 0 ∨ (image.columns : ℤ) ≤ x_offset ∨ y_offset < 0 ∨
      (image.rows : ℤ) ≤ y_offset) :
    FloodfillPaintImage oracle image matte x_offset y_offset invert fuel =
      some (false, image.pixels) := by
  unfold FloodfillPaintImage
  by_cases hx : x_offset < 0 ∨ (image.columns : ℤ) ≤ x_offset
  · rw [if_pos hx]
  · rw [if_neg hx]
    have hy : y_offset < 0 ∨ (image.rows : ℤ) ≤ y_offset := by tauto
    rw [if_pos hy]

/-- C17 on the image of one column and two rows with the seed `(1, 0)`, which
is beyond the last column. -/
theorem FloodfillPaintImage_seed_outside_witness :
    ((1 : ℤ) < 0 ∨ (redOverBlue.columns : ℤ) ≤ 1 ∨ (0 : ℤ) < 0 ∨
      (redOverBlue.rows : ℤ) ≤ 0) ∧
    FloodfillPaintImage blueTargetFill redOverBlue true 1 0 false 0 =
      some (false, redOverBlue.pixels) :=
  ⟨Or.inr (Or.inl (by decide)),
   FloodfillPaintImage_seed_outside blueTargetFill redOverBlue true 1 0 false 0
     (Or.inr (Or.inl (by decide)))⟩

/-- C16 does not hold of the code: in the image of one column whose pixel of
row 0 is red and whose pixel of row 1 is blue, with a target that only blue
matches, not inverted, nothing failing, the seed `(0, 0)` does not match,
yet `FloodfillPaintImage` returns `MagickTrue` after two turns of the segment
loop and has recoloured the pixel `(0, 1)` below the seed with the fill
colour, opaque green. -/
theorem FloodfillPaintImage_seed_divergence :
    blueTargetFill.IsFuzzyEquivalencePixelInfo (redOverBlue.pixels 0 0) = false ∧
    (List.range 4).map (redOverBlue.pixels 1 0) = [0, 0, OpaqueAlpha, OpaqueAlpha] ∧
    (FloodfillPaintImage blueTargetFill redOverBlue true 0 0 false 2).map
      (fun result => result.1) = some true ∧
    (FloodfillPaintImage blueTargetFill redOverBlue true 0 0 false 2).map
      (fun result => (List.range 4).map (result.2 1 0)) =
        some [0, OpaqueAlpha, 0, OpaqueAlpha] := by
  decide!

/-! ## The binary search of GetCommandOptionInfo -/

theorem tolower_zero : tolower 0 = 0 := rfl

theorem tolower_eq_zero (c : ℕ) : tolower c = 0 ↔ c = 0 := by
  unfold tolower
  split_ifs <;> constructor <;> intro h <;> first | omega | contradiction

/-- Swapping the arguments of `LocaleCompare` negates the result. -/
theorem LocaleCompare_antisymm (p q : List ℕ) : LocaleCompare q p = -LocaleCompare p q := by
  induction p generalizing q with
  | nil =>
    cases q with
    | nil => simp [LocaleCompare, tolower_zero]
    | cons d q => simp [LocaleCompare]
  | cons c p ih =>
    cases q with
    | nil => simp [LocaleCompare]
    | cons d q =>
      have hc := tolower_eq_zero c
      have hd := tolower_eq_zero d
      simp only [LocaleCompare]
      by_cases h : tolower c = tolower d
      · by_cases h0 : c = 0
        · have hd0 : d = 0 := hd.mp (by rw [← h]; exact hc.mpr h0)
          simp [h0, hd0]
        · have hd0 : d ≠ 0 := fun hd0 => h0 (hc.mp (by rw [h]; exact hd.mpr hd0))
          rw [if_neg (by simp [h, hd0]), if_neg (by simp [h, h0])]
          exact ih q
      · rw [if_pos (Or.inr (fun h2 => h h2.symm)), if_pos (Or.inr h)]
        ring

/-- The three forms of transitivity of the order `LocaleCompare` induces. -/
theorem LocaleCompare_trans (p q r : List ℕ) :
    (LocaleCompare p q ≤ 0 → LocaleCompare q r ≤ 0 → LocaleCompare p r ≤ 0) ∧
    (LocaleCompare p q < 0 → LocaleCompare q r ≤ 0 → LocaleCompare p r < 0) ∧
    (LocaleCompare p q ≤ 0 → LocaleCompare q r < 0 → LocaleCompare p r < 0) := by
  induction p generalizing q r with
  | nil =>
    cases q with
    | nil =>
      simp only [LocaleCompare, List.headD_nil, tolower_zero]
      refine ⟨?_, ?_, ?_⟩ <;> intro h1 h2 <;> omega
    | cons d q =>
      cases r with
      | nil =>
        have hd := tolower_eq_zero d
        simp only [LocaleCompare, List.headD_cons, List.headD_nil]
        unfold tolower
        refine ⟨?_, ?_, ?_⟩ <;> intro h1 h2 <;> split_ifs at h1 h2 ⊢ <;> omega
      | cons e r =>
        have hd := tolower_eq_zero d
        have he := tolower_eq_zero e
        simp only [LocaleCompare, List.headD_cons]
        refine ⟨?_, ?_, ?_⟩ <;> intro h1 h2 <;> split_ifs at h2 <;> omega
  | cons c p ih =>
    cases q with
    | nil =>
      have hc := tolower_eq_zero c
      cases r with
      | nil =>
        simp only [LocaleCompare, List.headD_nil, tolower_zero]
        refine ⟨?_, ?_, ?_⟩ <;> intro h1 h2 <;> omega
      | cons e r =>
        have he := tolower_eq_zero e
        simp only [LocaleCompare, List.headD_cons]
        refine ⟨?_, ?_, ?_⟩ <;> intro h1 h2 <;> split_ifs <;> omega
    | cons d q =>
      have hc := tolower_eq_zero c
      have hd := tolower_eq_zero d
      cases r with
      | nil =>
        simp only [LocaleCompare]
        refine ⟨?_, ?_, ?_⟩ <;> intro h1 h2 <;> split_ifs at h1 <;> omega
      | cons e r =>
        have he := tolower_eq_zero e
        obtain ⟨i1, i2, i3⟩ := ih q r
        simp only [LocaleCompare]
        refine ⟨?_, ?_, ?_⟩ <;> intro h1 h2 <;> split_ifs at h1 h2 ⊢ <;> omega


theorem LocaleCompare_eq_trans (p q r : List ℕ) (h1 : LocaleCompare p q = 0)
    (h2 : LocaleCompare q r = 0) : LocaleCompare p r = 0 := by
  have a := (LocaleCompare_trans p q r).1 (le_of_eq h1) (le_of_eq h2)
  have b := (LocaleCompare_trans r q p).1
    (by rw [LocaleCompare_antisymm q r, h2]; simp)
    (by rw [LocaleCompare_antisymm p q, h1]; simp)
  rw [LocaleCompare_antisymm p r] at b
  omega

theorem CommandOptionCompare_antisymm (a b : List ℕ) :
    CommandOptionCompare b a = -CommandOptionCompare a b := by
  unfold CommandOptionCompare
  simp only
  rw [LocaleCompare_antisymm a.tail b.tail]
  split_ifs <;> omega

/-- The three forms of transitivity of the order of the binary search. -/
theorem CommandOptionCompare_trans (a b c : List ℕ) :
    (CommandOptionCompare a b ≤ 0 → CommandOptionCompare b c ≤ 0 →
      CommandOptionCompare a c ≤ 0) ∧
    (CommandOptionCompare a b < 0 → CommandOptionCompare b c ≤ 0 →
      CommandOptionCompare a c < 0) ∧
    (CommandOptionCompare a b ≤ 0 → CommandOptionCompare b c < 0 →
      CommandOptionCompare a c < 0) := by
  obtain ⟨t1, t2, t3⟩ := LocaleCompare_trans a.tail b.tail c.tail
  have e1 := LocaleCompare_eq_trans a.tail b.tail c.tail
  have e2 : LocaleCompare a.tail c.tail = 0 → LocaleCompare a.tail b.tail = 0 →
      LocaleCompare b.tail c.tail = 0 := by
    intro h1 h2
    exact LocaleCompare_eq_trans b.tail a.tail c.tail
      (by rw [LocaleCompare_antisymm a.tail b.tail, h2]; simp) h1
  have e3 : LocaleCompare a.tail c.tail = 0 → LocaleCompare b.tail c.tail = 0 →
      LocaleCompare a.tail b.tail = 0 := by
    intro h1 h2
    exact LocaleCompare_eq_trans a.tail c.tail b.tail h1
      (by rw [LocaleCompare_antisymm b.tail c.tail, h2]; simp)
  unfold CommandOptionCompare
  simp only
  refine ⟨?_, ?_, ?_⟩ <;> intro h1 h2 <;> split_ifs at h1 h2 ⊢ <;> omega


theorem pairwise_getElem_some {α : Type} (R : α → α → Prop) (l : List α) (h : l.Pairwise R)
    (i j : ℕ) (a b : α) (hi : l[i]? = some a) (hj : l[j]? = some b) (hij : i < j) : R a b := by
  rw [List.pairwise_iff_getElem] at h
  obtain ⟨hi1, hi2⟩ := List.getElem?_eq_some_iff.mp hi
  obtain ⟨hj1, hj2⟩ := List.getElem?_eq_some_iff.mp hj
  rw [← hi2, ← hj2]
  exact h i j hi1 hj1 hij

/-- The binary search of `GetCommandOptionInfo` on a sorted table, from
bounds that enclose every entry equal to `value`, with enough fuel. -/
theorem CommandOptionSearch_correct (option_info : List OptionInfo) (value : List ℕ)
    (hsorted : option_info.Pairwise
      (fun a b => CommandOptionCompare a.mnemonic b.mnemonic ≤ 0))
    (fuel l h : ℕ) (hlh : l ≤ h) (hh : h ≤ option_info.length) (hfuel : h - l ≤ fuel)
    (hlow : ∀ (j : ℕ) (e : OptionInfo), option_info[j]? = some e → j < l →
      CommandOptionCompare value e.mnemonic > 0)
    (hhigh : ∀ (j : ℕ) (e : OptionInfo), option_info[j]? = some e → h ≤ j →
      CommandOptionCompare value e.mnemonic < 0) :
    ∃ i, CommandOptionSearch option_info option_info.length value fuel l h = some i ∧
      ((∃ e, option_info[i]? = some e ∧ CommandOptionCompare value e.mnemonic = 0) ∨
       (i = option_info.length ∧
        ∀ (j : ℕ) (e : OptionInfo), option_info[j]? = some e → CommandOptionCompare value e.mnemonic ≠ 0)) := by
  have hnone : ¬ l < h → ∀ (j : ℕ) (e : OptionInfo), option_info[j]? = some e →
      CommandOptionCompare value e.mnemonic ≠ 0 := by
    intro hl j e he
    by_cases hj : j < l
    · exact ne_of_gt (hlow j e he hj)
    · exact ne_of_lt (hhigh j e he (by omega))
  induction fuel generalizing l h with
  | zero =>
    have hl : ¬ l < h := by omega
    exact ⟨option_info.length, by simp [CommandOptionSearch, hl], Or.inr ⟨rfl, hnone hl⟩⟩
  | succ fuel ih =>
    by_cases hl : l < h
    · have hmid : (l + h) / 2 < option_info.length := by omega
      obtain ⟨e, he⟩ : ∃ e, option_info[(l + h) / 2]? = some e :=
        ⟨option_info[(l + h) / 2], List.getElem?_eq_getElem hmid⟩
      unfold CommandOptionSearch
      rw [if_pos hl, he]
      simp only
      by_cases h0 : CommandOptionCompare value e.mnemonic = 0
      · rw [if_pos h0]
        exact ⟨(l + h) / 2, rfl, Or.inl ⟨e, he, h0⟩⟩
      · rw [if_neg h0]
        by_cases hpos : CommandOptionCompare value e.mnemonic > 0
        · rw [if_pos hpos]
          apply ih ((l + h) / 2 + 1) h (by omega) hh (by omega)
          · intro j ej hej hj
            by_cases hjm : j = (l + h) / 2
            · subst hjm
              rw [he] at hej
              cases hej
              exact hpos
            · have hs := pairwise_getElem_some _ _ hsorted j ((l + h) / 2) ej e hej he (by omega)
              have ha := CommandOptionCompare_antisymm value e.mnemonic
              have hb := CommandOptionCompare_antisymm value ej.mnemonic
              have ht := (CommandOptionCompare_trans ej.mnemonic e.mnemonic value).2.2 hs
                (by omega)
              omega
          · exact hhigh
          · intro hl2 j ej hej
            by_cases hj : j < (l + h) / 2 + 1
            · by_cases hjm : j = (l + h) / 2
              · subst hjm
                rw [he] at hej
                cases hej
                exact h0
              · have hs := pairwise_getElem_some _ _ hsorted j ((l + h) / 2) ej e hej he
                  (by omega)
                have ha := CommandOptionCompare_antisymm value e.mnemonic
                have hb := CommandOptionCompare_antisymm value ej.mnemonic
                have ht := (CommandOptionCompare_trans ej.mnemonic e.mnemonic value).2.2 hs
                  (by omega)
                omega
            · exact ne_of_lt (hhigh j ej hej (by omega))
        · rw [if_neg hpos]
          have hneg : CommandOptionCompare value e.mnemonic < 0 := by omega
          have hstep : ∀ (j : ℕ) (ej : OptionInfo), option_info[j]? = some ej → (l + h) / 2 ≤ j →
              CommandOptionCompare value ej.mnemonic < 0 := by
            intro j ej hej hj
            by_cases hjm : j = (l + h) / 2
            · subst hjm
              rw [he] at hej
              cases hej
              exact hneg
            · have hs := pairwise_getElem_some _ _ hsorted ((l + h) / 2) j e ej he hej (by omega)
              exact (CommandOptionCompare_trans value e.mnemonic ej.mnemonic).2.1 hneg hs
          apply ih l ((l + h) / 2) (by omega) (by omega) (by omega) hlow hstep
          intro hl2 j ej hej
          by_cases hj : j < l
          · exact ne_of_gt (hlow j ej hej hj)
          · exact ne_of_lt (hstep j ej hej (by omega))
    · refine ⟨option_info.length, ?_, Or.inr ⟨rfl, hnone hl⟩⟩
      unfold CommandOptionSearch
      rw [if_neg hl]


theorem SkipSeparators_length (sentinel : ℕ) (p : List ℕ) :
    (SkipSeparators sentinel p).length ≤ p.length := by
  induction p with
  | nil => simp [SkipSeparators]
  | cons c p ih =>
    unfold SkipSeparators
    split_ifs
    · exact Nat.le_succ_of_le ih
    · rfl

theorem FindMnemonic_some (option_info : List OptionInfo) (token : List ℕ) (e : OptionInfo)
    (h : FindMnemonic option_info token = some e) :
    e ∈ option_info ∧ LocaleCompare token e.mnemonic = 0 := by
  unfold FindMnemonic at h
  exact ⟨List.mem_of_find?_eq_some h, by simpa using List.find?_some h⟩

theorem Int_lor_zero (t : ℤ) : Int.lor 0 t = t := by
  cases t with
  | ofNat n => simp [Int.lor]
  | negSucc n => simp [Int.lor, Nat.ldiff]

theorem LocaleCompare_self (p : List ℕ) : LocaleCompare p p = 0 := by
  have := LocaleCompare_antisymm p p
  omega

/-- In a table whose mnemonics `LocaleCompare` tells apart, the lookup of the
mnemonic of an entry finds that entry. -/
theorem FindMnemonic_self (option_info : List OptionInfo) (e : OptionInfo)
    (hdistinct : option_info.Pairwise
      (fun a b => LocaleCompare a.mnemonic b.mnemonic ≠ 0))
    (he : e ∈ option_info) : FindMnemonic option_info e.mnemonic = some e := by
  induction option_info with
  | nil => simp at he
  | cons a l ih =>
    rw [List.pairwise_cons] at hdistinct
    unfold FindMnemonic
    rw [List.mem_cons] at he
    by_cases hea : e = a
    · subst hea
      simp [List.find?, LocaleCompare_self]
    · have hel : e ∈ l := by tauto
      have hne : LocaleCompare e.mnemonic a.mnemonic ≠ 0 := by
        have h1 := hdistinct.1 e hel
        have h2 := LocaleCompare_antisymm a.mnemonic e.mnemonic
        omega
      simp only [List.find?, hne, decide_False]
      exact ih hdistinct.2 hel

/-- The round trip through a table whose mnemonics are told apart by
`LocaleCompare` and are plain tokens. -/
theorem OptionInfo_round_trip (option_info : List OptionInfo) (t : ℤ)
    (hdistinct : option_info.Pairwise
      (fun a b => LocaleCompare a.mnemonic b.mnemonic ≠ 0))
    (hplain : ∀ e ∈ option_info, (strchr e.mnemonic 124).isSome = false ∧
      (NextToken 44 e.mnemonic).1 = e.mnemonic ∧ e.mnemonic.headD 0 ≠ 33)
    (ht : ∃ e ∈ option_info, e.type = t) :
    (CommandOptionToMnemonic (some option_info) t).bind
      (ParseCommandOption (some option_info) false) = some t := by
  obtain ⟨e0, he0, het0⟩ := ht
  unfold CommandOptionToMnemonic
  simp only
  cases hfind : option_info.find? (fun e => decide (t = e.type)) with
  | none =>
    have := List.find?_eq_none.mp hfind e0 he0
    simp [het0] at this
  | some e =>
    have hmem := List.mem_of_find?_eq_some hfind
    have htype : t = e.type := by simpa using List.find?_some hfind
    obtain ⟨hp1, hp2, hp3⟩ := hplain e hmem
    simp only [Option.bind]
    unfold ParseCommandOption
    simp only [hp1]
    unfold ParseTokens
    have hmatch : MatchToken option_info e.mnemonic = some e := by
      unfold MatchToken
      rw [FindMnemonic_self option_info e hdistinct hmem]
    simp only [Bool.false_eq_true, if_false, hp2, hmatch, if_neg hp3, if_true, Int_lor_zero]
    rw [htype]


theorem ComposeOptions_mnemonics (value : CompositeOperator → ℤ) :
    (ComposeOptions value).map (fun e => e.mnemonic) =
      (ComposeOptions (fun _ => 0)).map (fun e => e.mnemonic) := rfl

/-- No two mnemonics of `ComposeOptions` are equal for `LocaleCompare`. -/
theorem ComposeOptions_distinct :
    ((ComposeOptions (fun _ => 0)).map (fun e => e.mnemonic)).Pairwise
      (fun p q => LocaleCompare p q ≠ 0) := by
  decide!

/-- Every mnemonic of `ComposeOptions` is a single token: no `|`, no white
space, no comma, no leading `!`. -/
theorem ComposeOptions_plain :
    ∀ m ∈ (ComposeOptions (fun _ => 0)).map (fun e => e.mnemonic),
      (strchr m 124).isSome = false ∧ (NextToken 44 m).1 = m ∧ m.headD 0 ≠ 33 := by
  decide!

/-- C20: compose operator names round-trip: for every assignment of integers
to the operators and every type value `t` that occurs in the table
`ComposeOptions`, `ParseCommandOption(MagickComposeOptions, MagickFalse,
CommandOptionToMnemonic(MagickComposeOptions, t))` is `t`. -/
theorem ComposeOptions_round_trip (value : CompositeOperator → ℤ) (t : ℤ)
    (ht : ∃ e ∈ ComposeOptions value, e.type = t) :
    (CommandOptionToMnemonic (some (ComposeOptions value)) t).bind
      (ParseCommandOption (some (ComposeOptions value)) false) = some t := by
  apply OptionInfo_round_trip _ _ _ _ ht
  · have h := ComposeOptions_distinct
    rw [← ComposeOptions_mnemonics value, List.pairwise_map] at h
    exact h
  · intro e he
    have h := ComposeOptions_plain
    rw [← ComposeOptions_mnemonics value] at h
    exact h e.mnemonic (List.mem_map_of_mem _ he)


/-- C20 for the operator `Over` under the scenario's assignment: its type
value occurs in the table, its mnemonic is `Over`, and parsing it gives the
type value back. -/
theorem ComposeOptions_round_trip_witness :
    (∃ e ∈ ComposeOptions operatorIndex, e.type = operatorIndex OverCompositeOp) ∧
    CommandOptionToMnemonic (some (ComposeOptions operatorIndex))
      (operatorIndex OverCompositeOp) = some (cstring "Over") ∧
    (CommandOptionToMnemonic (some (ComposeOptions operatorIndex))
      (operatorIndex OverCompositeOp)).bind
        (ParseCommandOption (some (ComposeOptions operatorIndex)) false) =
      some (operatorIndex OverCompositeOp) :=
  have ht : ∃ e ∈ ComposeOptions operatorIndex, e.type = operatorIndex OverCompositeOp :=
    ⟨{ mnemonic := cstring "Over", type := operatorIndex OverCompositeOp }, by decide, rfl⟩
  ⟨ht, by decide, ComposeOptions_round_trip operatorIndex (operatorIndex OverCompositeOp) ht⟩

/-! ## The round trip through VirtualPixelOptions -/

/-- No two mnemonics of `VirtualPixelOptions` are equal for `LocaleCompare`. -/
theorem VirtualPixelOptions_distinct :
    VirtualPixelOptions.Pairwise (fun a b => LocaleCompare a.mnemonic b.mnemonic ≠ 0) := by
  decide

/-- Every mnemonic of `VirtualPixelOptions` is a single token: no `|`, no white
space or comma, no leading `!`. -/
theorem VirtualPixelOptions_plain :
    ∀ e ∈ VirtualPixelOptions, (strchr e.mnemonic 124).isSome = false ∧
      (NextToken 44 e.mnemonic).1 = e.mnemonic ∧ e.mnemonic.headD 0 ≠ 33 := by
  decide

/-- C21 fails at `MaskVirtualPixelMethod`: no entry of `VirtualPixelOptions`
has this type, so `CommandOptionToMnemonic` returns the text `undefined`,
which `ParseCommandOption` finds as the mnemonic `Undefined` of
`UndefinedVirtualPixelMethod`, and the round trip gives 0 instead of 8. -/
theorem VirtualPixelOptions_round_trip_counterexample :
    (∀ e ∈ VirtualPixelOptions, e.type ≠ MaskVirtualPixelMethod.value) ∧
    CommandOptionToMnemonic (some VirtualPixelOptions) MaskVirtualPixelMethod.value =
      some (cstring "undefined") ∧
    (CommandOptionToMnemonic (some VirtualPixelOptions) MaskVirtualPixelMethod.value).bind
      (ParseCommandOption (some VirtualPixelOptions) false) =
      some UndefinedVirtualPixelMethod.value ∧
    UndefinedVirtualPixelMethod.value ≠ MaskVirtualPixelMethod.value := by
  decide

/-- C21 (amended): every enumerant `m` of `VirtualPixelMethod` other than
`MaskVirtualPixelMethod` has a mnemonic in `VirtualPixelOptions` whose type is
`m`, and `ParseCommandOption(MagickVirtualPixelOptions, MagickFalse,
CommandOptionToMnemonic(MagickVirtualPixelOptions, m))` is `m`. -/
theorem VirtualPixelOptions_round_trip (m : VirtualPixelMethod)
    (hm : m ≠ MaskVirtualPixelMethod) :
    (∃ e ∈ VirtualPixelOptions, e.type = m.value) ∧
    (CommandOptionToMnemonic (some VirtualPixelOptions) m.value).bind
      (ParseCommandOption (some VirtualPixelOptions) false) = some m.value := by
  have ht : ∃ e ∈ VirtualPixelOptions, e.type = m.value := by
    cases m <;> first | exact absurd rfl hm | decide
  exact ⟨ht, OptionInfo_round_trip VirtualPixelOptions m.value VirtualPixelOptions_distinct
    VirtualPixelOptions_plain ht⟩

/-- The round trip at `CheckerTileVirtualPixelMethod`, the last enumerant. -/
theorem VirtualPixelOptions_round_trip_witness :
    CheckerTileVirtualPixelMethod ≠ MaskVirtualPixelMethod ∧
    CommandOptionToMnemonic (some VirtualPixelOptions) CheckerTileVirtualPixelMethod.value =
      some (cstring "CheckerTile") ∧
    ((∃ e ∈ VirtualPixelOptions, e.type = CheckerTileVirtualPixelMethod.value) ∧
    (CommandOptionToMnemonic (some VirtualPixelOptions)
        CheckerTileVirtualPixelMethod.value).bind
      (ParseCommandOption (some VirtualPixelOptions) false) =
      some CheckerTileVirtualPixelMethod.value) :=
  ⟨by decide, by decide,
    VirtualPixelOptions_round_trip CheckerTileVirtualPixelMethod (by decide)⟩

/-! ## IsCommandOption -/

/-- What `IsCommandOption` computes: the string begins with `-` or `+` and
the character that follows is a letter. -/
theorem IsCommandOption_iff (option : List ℕ) :
    IsCommandOption option = true ↔
      (option.headD 0 = 45 ∨ option.headD 0 = 43) ∧ isalpha (option.tail.headD 0) = true := by
  unfold IsCommandOption
  by_cases h1 : option.headD 0 ≠ 45 ∧ option.headD 0 ≠ 43
  · rw [if_pos h1]
    constructor
    · intro h; cases h
    · rintro ⟨h, _⟩; omega
  · rw [if_neg h1]
    have h1' : option.headD 0 = 45 ∨ option.headD 0 = 43 := by omega
    by_cases h2 : strlen option = 1
    · rw [if_pos h2]
      have h3 : isalpha (option.tail.headD 0) = false := by
        unfold strlen at h2
        match option, h1', h2 with
        | [], h, _ => exact absurd h (by decide)
        | [c], _, _ => show isalpha 0 = false; decide
        | c :: d :: s, h1', h2 =>
          by_cases hc : c = 0
          · subst hc
            have h5 : ¬ ((0 : ℕ) = 45 ∨ (0 : ℕ) = 43) := by decide
            exact absurd h1' h5
          · by_cases hd : d = 0
            · subst hd; show isalpha 0 = false; decide
            · simp [List.takeWhile, hc, hd] at h2
      constructor
      · intro h; cases h
      · rintro ⟨_, h⟩; rw [h3] at h; cases h
    · rw [if_neg h2]
      simp only
      by_cases h3 : isalpha (option.tail.headD 0) = false
      · rw [if_pos h3]
        constructor
        · intro h; cases h
        · rintro ⟨_, h⟩; rw [h3] at h; cases h
      · rw [if_neg h3]
        have h4 : isalpha (option.tail.headD 0) = true := by
          cases h : isalpha (option.tail.headD 0)
          · exact absurd h h3
          · rfl
        exact ⟨fun _ => ⟨h1', h4⟩, fun _ => rfl⟩

/-- C22 fails on the code at the string `-5`: it begins with `-` and the
character that follows is a digit, hence alphanumeric, yet `IsCommandOption`
returns `MagickFalse`, because the code tests `isalpha`. -/
theorem IsCommandOption_digit_divergence :
    IsCommandOption (cstring "-5") = false ∧
    (cstring "-5").headD 0 = 45 ∧ isalnum ((cstring "-5").tail.headD 0) = true ∧
    isalpha ((cstring "-5").tail.headD 0) = false := by
  decide

/-! ## The Over, In and Lighten cases of the general loop, and the HSB helpers -/

/-- C24 fails on the code, at a source pixel of alpha 13107 (`Sa = 1/5`) and
sample 1000 over an opaque destination pixel (`Da = 1`, so `Sa*Da = 1/5`):
the In and SrcIn cases write `gamma*(Da*Sc*Da) = 5000` to the red channel,
where the source colour `Sc`, which is `Sca*Da/(Sa*Da)`, is 1000. -/
theorem CompositeImage_in_divergence :
    QuantumScale * (GetPixelAlpha fifthOpaqueSource (fifthOpaqueSource.pixels 0 0)).toReal *
      (QuantumScale *
        (GetPixelAlpha opaqueDarkDestination (opaqueDarkDestination.pixels 0 0)).toReal) =
      1 / 5 ∧
    CompositePixel plainPixelOracle InCompositeOp
        (defaultSettings { rho := 0, sigma := 0, xi := 0, psi := 0 })
        opaqueDarkDestination fifthOpaqueSource
        (fifthOpaqueSource.pixels 0 0) (opaqueDarkDestination.pixels 0 0) 0 = 5000 ∧
    CompositePixel plainPixelOracle SrcInCompositeOp
        (defaultSettings { rho := 0, sigma := 0, xi := 0, psi := 0 })
        opaqueDarkDestination fifthOpaqueSource
        (fifthOpaqueSource.pixels 0 0) (opaqueDarkDestination.pixels 0 0) 0 = 5000 ∧
    fifthOpaqueSource.pixels 0 0 0 = 1000 ∧
    InDocumented (1 / 5) 1 (fifthOpaqueSource.pixels 0 0 0) = 1000 := by
  decide!

/-- C25 fails on the code, at an opaque source pixel of sample 100 and an
opaque destination pixel of sample 50 (`Sa = Da = 1`), in both orders: the
Lighten case computes `QuantumRange*100`, which clamps to `QuantumRange`,
where the maximum of the two samples is 100. -/
theorem CompositeImage_lighten_divergence :
    CompositePixel plainPixelOracle LightenCompositeOp
        (defaultSettings { rho := 0, sigma := 0, xi := 0, psi := 0 })
        opaqueDarkDestination opaqueDimSource
        (opaqueDimSource.pixels 0 0) (opaqueDarkDestination.pixels 0 0) 0 = OpaqueAlpha ∧
    CompositePixel plainPixelOracle LightenCompositeOp
        (defaultSettings { rho := 0, sigma := 0, xi := 0, psi := 0 })
        opaqueDimSource opaqueDarkDestination
        (opaqueDarkDestination.pixels 0 0) (opaqueDimSource.pixels 0 0) 0 = OpaqueAlpha ∧
    max (opaqueDimSource.pixels 0 0 0) (opaqueDarkDestination.pixels 0 0 0) = 100 := by
  decide!

/-- C26 fails on the code at the triple (65535, 32768, 32768): `min/max` is
the integer quotient 0, so `CompositeHSB` gives the saturation 1 (hue 0,
brightness 1) and `HSBComposite` returns (65535, 0, 0). -/
theorem HSBComposite_round_trip_divergence :
    CompositeHSB 65535 32768 32768 = (0, 1, 1) ∧
    HSBRoundTrip 65535 32768 32768 = (65535, 0, 0) := by
  decide!

/-! ## Kernel selection of AdaptiveBlurImage -/

/-- The kernel `kernel[i]` of `AdaptiveBlurImage` has `(2*((width-i)/2)+1)^2`
entries. -/
theorem AdaptiveBlurKernel_length {K : Type} [LinearOrderedField K] (exp : K → K)
    (MagickPI : K) (width : ℕ) (sigma : K) (i : ℕ) :
    (AdaptiveBlurKernel exp MagickPI width sigma i).length =
      (2 * ((width - i) / 2) + 1) * (2 * ((width - i) / 2) + 1) := by
  simp [AdaptiveBlurKernel]

/-- C27: for every odd `width` and every edge intensity (in `[0, QuantumRange]`
or not, since the index is clamped) the index `j` that `AdaptiveBlurImage` and `AdaptiveSharpenImage` select is
even and satisfies `0 <= j <= width-1`; `kernel[j]` is one of the kernels the
building loop has built; and the footprint side `width-j` is odd, at least 1,
and the side of that kernel (which has `(width-j)*(width-j)` entries). -/
theorem AdaptiveKernelIndex_selects {K : Type} [LinearOrderedField K] (exp : K → K)
    (MagickPI : K) (sigma : K) (width : ℕ) (intensity : ℚ)
    (hodd : width % 2 = 1) :
    AdaptiveKernelIndex width intensity % 2 = 0 ∧
    0 ≤ AdaptiveKernelIndex width intensity ∧
    AdaptiveKernelIndex width intensity ≤ (width : ℤ) - 1 ∧
    ((width : ℤ) - AdaptiveKernelIndex width intensity) % 2 = 1 ∧
    1 ≤ (width : ℤ) - AdaptiveKernelIndex width intensity ∧
    ∃ kernel : List K,
      AdaptiveBlurKernels exp MagickPI width sigma
        (AdaptiveKernelIndex width intensity).toNat = some kernel ∧
      (kernel.length : ℤ) = ((width : ℤ) - AdaptiveKernelIndex width intensity) *
        ((width : ℤ) - AdaptiveKernelIndex width intensity) := by
  have hj : ∃ j : ℕ, AdaptiveKernelIndex width intensity = (j : ℤ) ∧ j % 2 = 0 ∧ j < width := by
    unfold AdaptiveKernelIndex
    simp only
    generalize Int.ceil ((width : ℚ) * QuantumScale * intensity - 1 / 2) = c
    by_cases hc0 : c < 0
    · rw [if_pos hc0]
      exact ⟨0, by simp, by simp, by omega⟩
    · rw [if_neg hc0]
      by_cases hcw : c > (width : ℤ)
      · rw [if_pos hcw]
        have hw : (width : ℤ) % 2 ≠ 0 := by omega
        rw [if_pos hw]
        exact ⟨width - 1, by omega, by omega, by omega⟩
      · rw [if_neg hcw]
        by_cases hc2 : c % 2 ≠ 0
        · rw [if_pos hc2]
          exact ⟨(c - 1).toNat, by omega, by omega, by omega⟩
        · rw [if_neg hc2]
          exact ⟨c.toNat, by omega, by omega, by omega⟩
  obtain ⟨j, hj, hjeven, hjlt⟩ := hj
  rw [hj]
  refine ⟨by omega, by omega, by omega, by omega, by omega, ?_⟩
  refine ⟨AdaptiveBlurKernel exp MagickPI width sigma j, ?_, ?_⟩
  · unfold AdaptiveBlurKernels
    rw [Int.toNat_ofNat, if_pos ⟨hjlt, hjeven⟩]
  · rw [AdaptiveBlurKernel_length]
    have hside : 2 * ((width - j) / 2) + 1 = width - j := by omega
    rw [hside]
    push_cast
    rw [Nat.cast_sub (le_of_lt hjlt)]

/-- The selection for width 5 at the intensities 0, 32768 and `QuantumRange`:
the indices 0, 2 and 4, and the kernels of 25, 9 and 1 entries. -/
theorem AdaptiveKernelIndex_selects_witness :
    5 % 2 = 1 ∧
    AdaptiveKernelIndex 5 0 = 0 ∧ AdaptiveKernelIndex 5 32768 = 2 ∧
    AdaptiveKernelIndex 5 (QuantumRange : ℚ) = 4 ∧
    (AdaptiveKernelIndex 5 32768 % 2 = 0 ∧
    0 ≤ AdaptiveKernelIndex 5 32768 ∧
    AdaptiveKernelIndex 5 32768 ≤ ((5 : ℕ) : ℤ) - 1 ∧
    (((5 : ℕ) : ℤ) - AdaptiveKernelIndex 5 32768) % 2 = 1 ∧
    1 ≤ ((5 : ℕ) : ℤ) - AdaptiveKernelIndex 5 32768 ∧
    ∃ kernel : List ℚ,
      AdaptiveBlurKernels (fun _ => 1) 3 5 1 (AdaptiveKernelIndex 5 32768).toNat =
        some kernel ∧
      (kernel.length : ℤ) = (((5 : ℕ) : ℤ) - AdaptiveKernelIndex 5 32768) *
        (((5 : ℕ) : ℤ) - AdaptiveKernelIndex 5 32768)) :=
  ⟨by decide, by decide!, by decide!, by decide!,
    AdaptiveKernelIndex_selects (fun _ => (1 : ℚ)) 3 1 5 32768 (by decide)⟩

/-! ## The kernel of EmbossImage -/

/-- A list whose consecutive entries are strictly increasing for the
comparison of the binary search is strictly increasing throughout. -/
theorem CommandOptionCompare_chain (option_info : List OptionInfo)
    (h : option_info.Chain' (fun a b => CommandOptionCompare a.mnemonic b.mnemonic < 0)) :
    option_info.Pairwise (fun a b => CommandOptionCompare a.mnemonic b.mnemonic < 0) := by
  haveI : IsTrans OptionInfo (fun a b => CommandOptionCompare a.mnemonic b.mnemonic < 0) :=
    ⟨fun a b c hab hbc =>
      (CommandOptionCompare_trans a.mnemonic b.mnemonic c.mnemonic).2.1 hab (le_of_lt hbc)⟩
  exact List.chain'_iff_pairwise.mp h

/-- A mnemonic compares equal to itself in the binary search. -/
theorem CommandOptionCompare_self (a : List ℕ) : CommandOptionCompare a a = 0 := by
  have := CommandOptionCompare_antisymm a a
  omega

/-- In a table that is strictly increasing for the comparison of the binary
search, the binary search of `GetCommandOptionInfo` finds the mnemonic of the
entry `k` at the index `k`. -/
theorem GetCommandOptionInfo_finds (option_info : List OptionInfo)
    (hsorted : option_info.Pairwise
      (fun a b => CommandOptionCompare a.mnemonic b.mnemonic < 0))
    (k : ℕ) (e : OptionInfo) (hk : option_info[k]? = some e) :
    GetCommandOptionInfo option_info option_info.length e.mnemonic =
      some (k, option_info.length) := by
  have hklt : k < option_info.length := (List.getElem?_eq_some_iff.mp hk).1
  have hle : option_info.Pairwise
      (fun a b => CommandOptionCompare a.mnemonic b.mnemonic ≤ 0) :=
    hsorted.imp (fun h => le_of_lt h)
  obtain ⟨i, hi, hcase⟩ := CommandOptionSearch_correct option_info e.mnemonic hle
    option_info.length 0 option_info.length (Nat.zero_le _) (le_refl _) (by omega)
    (fun j _ _ hj => absurd hj (Nat.not_lt_zero j))
    (fun j e2 he2 hj => by
      have := (List.getElem?_eq_some_iff.mp he2).1
      omega)
  unfold GetCommandOptionInfo
  rw [if_neg (by omega), hi]
  rcases hcase with ⟨e2, he2, hcmp⟩ | ⟨_, hnone⟩
  · have hik : i = k := by
      rcases Nat.lt_trichotomy i k with hlt | heq | hgt
      · have := pairwise_getElem_some _ option_info hsorted i k e2 e he2 hk hlt
        have := CommandOptionCompare_antisymm e2.mnemonic e.mnemonic
        omega
      · exact heq
      · have := pairwise_getElem_some _ option_info hsorted k i e e2 hk he2 hgt
        omega
    rw [hik]; rfl
  · exact absurd (CommandOptionCompare_self e.mnemonic) (hnone k e hk)

/-- A relation that holds for every pair of consecutive entries, listed by
zipping the list with its tail, holds along the list. -/
theorem chain_of_zip_tail {α : Type} (R : α → α → Prop) (l : List α)
    (h : ∀ p ∈ l.zip l.tail, R p.1 p.2) : l.Chain' R := by
  induction l with
  | nil => exact List.chain'_nil
  | cons a l ih =>
    cases l with
    | nil => exact List.chain'_singleton a
    | cons b l =>
      rw [List.chain'_cons]
      refine ⟨h (a, b) (by simp), ih (fun p hp => h p ?_)⟩
      simp only [List.tail_cons, List.zip_cons_cons, List.mem_cons]
      exact Or.inr hp

/-- The consecutive entries of `CommandOptions` are strictly increasing for
the comparison of the binary search (by evaluation on the 572 entries). -/
theorem CommandOptions_consecutive :
    ∀ p ∈ CommandOptions.zip CommandOptions.tail,
      CommandOptionCompare p.1.mnemonic p.2.mnemonic < 0 := by
  decide!

/-- C29: the table `CommandOptions` is sorted in the order
`GetCommandOptionInfo` searches by: of every two consecutive entries the
earlier is strictly smaller for the comparison of the binary search (the
mnemonics without their first character compared by `LocaleCompare`, then
the first characters); the table has 572 entries; and the binary search,
which runs once `table_size` is the number of entries, finds the mnemonic of
every entry at the index of that entry. -/
theorem CommandOptions_sorted :
    CommandOptions.Chain' (fun a b => CommandOptionCompare a.mnemonic b.mnemonic < 0) ∧
    CommandOptions.length = 572 ∧
    ∀ (k : ℕ) (e : OptionInfo), CommandOptions[k]? = some e →
      GetCommandOptionInfo CommandOptions CommandOptions.length e.mnemonic =
        some (k, CommandOptions.length) := by
  have hchain := chain_of_zip_tail
    (fun (a b : OptionInfo) => CommandOptionCompare a.mnemonic b.mnemonic < 0)
    CommandOptions CommandOptions_consecutive
  exact ⟨hchain, by decide!, fun k e hk =>
    GetCommandOptionInfo_finds CommandOptions (CommandOptionCompare_chain _ hchain) k e hk⟩

/-- The binary search finds `-write`, the last entry of `CommandOptions`, at
the index 571, and `(`, the first entry, at the index 0. -/
theorem CommandOptions_sorted_witness :
    CommandOptions[571]? = some (OptionInfo.mk (cstring "-write") 1) ∧
    GetCommandOptionInfo CommandOptions CommandOptions.length (cstring "-write") =
      some (571, CommandOptions.length) :=
  ⟨by decide!, CommandOptions_sorted.2.2 571 (OptionInfo.mk (cstring "-write") 1) (by decide!)⟩

/-! ## Dashes and underscores inside a name -/

theorem strchr_isSome (s : List ℕ) (c : ℕ) : (strchr s c).isSome = true ↔ c ∈ s := by
  induction s with
  | nil => simp [strchr]
  | cons d s ih =>
    unfold strchr
    by_cases h : d = c
    · rw [if_pos h]; simp [h]
    · rw [if_neg h, ih, List.mem_cons]
      constructor
      · exact Or.inr
      · rintro (h1 | h1)
        · exact absurd h1.symm h
        · exact h1

/-- The token `CopyToken` copies and the rest it leaves make up the string;
the token fits the room and has no white space, sentinel or null. -/
theorem CopyToken_fst (sentinel room : ℕ) (p : List ℕ) :
    (CopyToken sentinel room p).1.length + (CopyToken sentinel room p).2.length = p.length ∧
    (CopyToken sentinel room p).1.length ≤ room ∧
    ∀ c ∈ (CopyToken sentinel room p).1, (isspace c = false ∧ c ≠ sentinel) ∧ c ≠ 0 := by
  induction p generalizing room with
  | nil => cases room <;> simp [CopyToken]
  | cons c p ih =>
    cases room with
    | zero => simp [CopyToken]
    | succ room =>
      unfold CopyToken
      by_cases hc : (isspace c = false ∧ c ≠ sentinel) ∧ c ≠ 0
      · rw [if_pos hc]
        obtain ⟨h1, h2, h3⟩ := ih room
        refine ⟨by simp only [List.length_cons]; omega, by simp only [List.length_cons]; omega,
          ?_⟩
        intro d hd
        rcases List.mem_cons.mp hd with hd | hd
        · rw [hd]; exact hc
        · exact h3 d hd
      · rw [if_neg hc]
        simp

/-- A string without white space, sentinel or null that fits the room is
copied whole. -/
theorem CopyToken_plain (sentinel room : ℕ) (p : List ℕ)
    (hp : ∀ c ∈ p, (isspace c = false ∧ c ≠ sentinel) ∧ c ≠ 0) (hlen : p.length ≤ room) :
    CopyToken sentinel room p = (p, []) := by
  induction p generalizing room with
  | nil => cases room <;> rfl
  | cons c p ih =>
    cases room with
    | zero => simp at hlen
    | succ room =>
      unfold CopyToken
      rw [if_pos (hp c (List.mem_cons_self c p))]
      rw [ih room (fun d hd => hp d (List.mem_cons_of_mem c hd))
        (by simp only [List.length_cons] at hlen; omega)]

theorem SkipSeparators_eq (sentinel : ℕ) (p : List ℕ)
    (h : p.length ≤ (SkipSeparators sentinel p).length) : SkipSeparators sentinel p = p := by
  cases p with
  | nil => rfl
  | cons c p =>
    unfold SkipSeparators at h ⊢
    by_cases hc : (isspace c = true ∨ c = sentinel) ∧ c ≠ 0
    · rw [if_pos hc] at h
      have := SkipSeparators_length sentinel p
      simp only [List.length_cons] at h
      omega
    · rw [if_neg hc]

/-- A string that the tokenizer of `ParseCommandOption` copies whole into
`token` has no white space, sentinel or null, does not begin with `!`, and
has fewer than `MaxTextExtent` characters. -/
theorem NextToken_token (sentinel : ℕ) (t : List ℕ) (h : (NextToken sentinel t).1 = t) :
    (∀ c ∈ t, (isspace c = false ∧ c ≠ sentinel) ∧ c ≠ 0) ∧ t.headD 0 ≠ 33 ∧
      t.length ≤ MaxTextExtent - 1 := by
  unfold NextToken at h
  simp only at h
  have hskip := SkipSeparators_length sentinel t
  by_cases hb : (SkipSeparators sentinel t).headD 0 = 33
  · rw [if_pos hb] at h
    obtain ⟨h1, _, _⟩ := CopyToken_fst sentinel (MaxTextExtent - 1) (SkipSeparators sentinel t).tail
    rw [h] at h1
    have h2 : (SkipSeparators sentinel t).tail.length + 1 = (SkipSeparators sentinel t).length := by
      cases hs : SkipSeparators sentinel t with
      | nil => rw [hs] at hb; simp at hb
      | cons a l => simp
    omega
  · rw [if_neg hb] at h
    obtain ⟨h1, h2, h3⟩ := CopyToken_fst sentinel (MaxTextExtent - 1) (SkipSeparators sentinel t)
    rw [h] at h1 h2 h3
    have hs : SkipSeparators sentinel t = t := SkipSeparators_eq sentinel t (by omega)
    rw [hs] at hb
    exact ⟨h3, hb, h2⟩

/-- A string without white space, sentinel or null that does not begin with
`!` and has fewer than `MaxTextExtent` characters is copied whole into
`token`, and nothing is left of the string. -/
theorem NextToken_of_plain (sentinel : ℕ) (t : List ℕ)
    (hp : ∀ c ∈ t, (isspace c = false ∧ c ≠ sentinel) ∧ c ≠ 0) (hb : t.headD 0 ≠ 33)
    (hl : t.length ≤ MaxTextExtent - 1) : NextToken sentinel t = (t, []) := by
  unfold NextToken
  simp only
  have hs : SkipSeparators sentinel t = t := by
    cases t with
    | nil => rfl
    | cons c p =>
      unfold SkipSeparators
      have hc := hp c (List.mem_cons_self c p)
      have : ¬ ((isspace c = true ∨ c = sentinel) ∧ c ≠ 0) := by
        rintro ⟨h1 | h1, _⟩
        · rw [hc.1.1] at h1; cases h1
        · exact hc.1.2 h1
      rw [if_neg this]
  rw [hs, if_neg hb]
  exact CopyToken_plain sentinel _ t hp hl

/-- The parse of a string that is one token whose lookup finds the entry
`e`. -/
theorem ParseCommandOption_token (option_info : List OptionInfo) (list : Bool)
    (t : List ℕ) (e : OptionInfo)
    (hp : ∀ c ∈ t, (isspace c = false ∧ c ≠ 44) ∧ c ≠ 0) (hpipe : 124 ∉ t)
    (hb : t.headD 0 ≠ 33) (hl : t.length ≤ MaxTextExtent - 1)
    (hmatch : MatchToken option_info t = some e) :
    ParseCommandOption (some option_info) list t = some e.type := by
  unfold ParseCommandOption
  simp only
  have hs : (strchr t 124).isSome = false := by
    cases h : (strchr t 124).isSome
    · rfl
    · exact absurd ((strchr_isSome t 124).mp h) hpipe
  rw [hs]
  simp only [Bool.false_eq_true, if_false]
  unfold ParseTokens
  rw [NextToken_of_plain 44 t hp hb hl]
  simp only [hmatch, if_neg hb, Int_lor_zero, strchr]
  cases list <;> simp

/-- C30: `ParseCommandOption` ignores `-` and `_` inside a name. For every
table and every mnemonic `c :: m` of it without `-` or `_` after its first
character `c`, every token `c :: t` obtained from it by inserting `-` and
`_` after the first character (removing every `-` and `_` from `t` gives
`m`, which therefore has none) that is a token (the tokenizer copies it whole) and is not itself a mnemonic of the
table (no entry is equal to it for `LocaleCompare`) parses to the same value
as the mnemonic, the type of the first entry equal to the mnemonic. -/
theorem ParseCommandOption_ignores_dashes (option_info : List OptionInfo) (list : Bool)
    (e : OptionInfo) (c : ℕ) (m t : List ℕ)
    (he : e ∈ option_info) (hm : e.mnemonic = c :: m)
    (hinsert : (t.filter (fun d => d ≠ 45)).filter (fun d => d ≠ 95) = m)
    (htoken : (NextToken (if (strchr (c :: t) 124).isSome then 124 else 44) (c :: t)).1 =
      c :: t)
    (hnot : ∀ e1 ∈ option_info, LocaleCompare (c :: t) e1.mnemonic ≠ 0) :
    ParseCommandOption (some option_info) list (c :: t) =
      ParseCommandOption (some option_info) list (c :: m) ∧
    ∃ e1 ∈ option_info, LocaleCompare (c :: m) e1.mnemonic = 0 ∧
      ParseCommandOption (some option_info) list (c :: m) = some e1.type := by
  -- the token has no pipe, so the sentinel is the comma
  have hpipe : 124 ∉ c :: t := by
    intro hmem
    have hs : (strchr (c :: t) 124).isSome = true := (strchr_isSome _ _).mpr hmem
    rw [hs] at htoken
    simp only [if_true] at htoken
    exact ((NextToken_token 124 _ htoken).1 124 hmem).1.2 rfl
  have hs : (strchr (c :: t) 124).isSome = false := by
    cases h : (strchr (c :: t) 124).isSome
    · rfl
    · exact absurd ((strchr_isSome _ 124).mp h) hpipe
  rw [hs] at htoken
  simp only [Bool.false_eq_true, if_false] at htoken
  obtain ⟨hp, hb, hl⟩ := NextToken_token 44 _ htoken
  -- the mnemonic is made of characters of the token
  have hsub : ∀ d ∈ c :: m, d ∈ c :: t := by
    intro d hd
    rcases List.mem_cons.mp hd with hd | hd
    · rw [hd]; exact List.mem_cons_self c t
    · rw [← hinsert] at hd
      exact List.mem_cons_of_mem c (List.mem_of_mem_filter (List.mem_of_mem_filter hd))
  have hlen : (c :: m).length ≤ (c :: t).length := by
    simp only [List.length_cons]
    rw [← hinsert]
    have h1 := List.length_filter_le (fun d => decide (d ≠ 95))
      (t.filter (fun d => decide (d ≠ 45)))
    have h2 := List.length_filter_le (fun d => decide (d ≠ 45)) t
    omega
  -- the first lookup of the token fails, and the token has a dash or underscore
  have hfind : FindMnemonic option_info (c :: t) = none := by
    unfold FindMnemonic
    rw [List.find?_eq_none]
    intro e1 he1
    simpa using hnot e1 he1
  have hdash : (strchr (c :: t).tail 45).isSome ∨ (strchr (c :: t).tail 95).isSome := by
    by_contra hcon
    have h45 : 45 ∉ t := fun h => hcon (Or.inl ((strchr_isSome t 45).mpr h))
    have h95 : 95 ∉ t := fun h => hcon (Or.inr ((strchr_isSome t 95).mpr h))
    have h1 : t.filter (fun d => decide (d ≠ 45)) = t := by
      rw [List.filter_eq_self]
      intro d hd
      have : d ≠ 45 := fun h => h45 (h ▸ hd)
      simpa using this
    have h2 : t.filter (fun d => decide (d ≠ 95)) = t := by
      rw [List.filter_eq_self]
      intro d hd
      have : d ≠ 95 := fun h => h95 (h ▸ hd)
      simpa using this
    rw [h1, h2] at hinsert
    have := hnot e he
    rw [hm, hinsert] at this
    exact this (LocaleCompare_self _)
  -- the lookup of the mnemonic finds an entry
  obtain ⟨e1, hfind1⟩ : ∃ e1, FindMnemonic option_info (c :: m) = some e1 := by
    cases hf : FindMnemonic option_info (c :: m) with
    | some e1 => exact ⟨e1, rfl⟩
    | none =>
      unfold FindMnemonic at hf
      rw [List.find?_eq_none] at hf
      have := hf e he
      rw [hm] at this
      simp [LocaleCompare_self] at this
  obtain ⟨he1, hcmp1⟩ := FindMnemonic_some _ _ _ hfind1
  have hmatch_t : MatchToken option_info (c :: t) = some e1 := by
    unfold MatchToken
    rw [hfind]
    simp only
    rw [if_pos hdash]
    simp only [List.tail_cons, List.take_succ_cons, List.take_zero, List.singleton_append,
      hinsert]
    exact hfind1
  have hmatch_m : MatchToken option_info (c :: m) = some e1 := by
    unfold MatchToken
    rw [hfind1]
  have hpm : ∀ d ∈ c :: m, (isspace d = false ∧ d ≠ 44) ∧ d ≠ 0 :=
    fun d hd => hp d (hsub d hd)
  have hpipem : 124 ∉ c :: m := fun h => hpipe (hsub 124 h)
  have hparse_t := ParseCommandOption_token option_info list (c :: t) e1 hp hpipe hb hl hmatch_t
  have hparse_m := ParseCommandOption_token option_info list (c :: m) e1 hpm hpipem hb
    (le_trans hlen hl) hmatch_m
  exact ⟨by rw [hparse_t, hparse_m], e1, he1, hcmp1, hparse_m⟩

/-- The token `Src-Over` parses as the mnemonic `SrcOver` of `ComposeOptions`
does, and `Src_O-ver` too. -/
theorem ParseCommandOption_ignores_dashes_witness :
    ParseCommandOption (some (ComposeOptions operatorIndex)) false (cstring "Src-Over") =
      ParseCommandOption (some (ComposeOptions operatorIndex)) false (cstring "SrcOver") ∧
    ParseCommandOption (some (ComposeOptions operatorIndex)) false (cstring "SrcOver") =
      some (operatorIndex SrcOverCompositeOp) ∧
    ParseCommandOption (some (ComposeOptions operatorIndex)) true (cstring "Src_O-ver") =
      some (operatorIndex SrcOverCompositeOp) := by
  have h1 := ParseCommandOption_ignores_dashes (ComposeOptions operatorIndex) false
    (OptionInfo.mk (cstring "SrcOver") (operatorIndex SrcOverCompositeOp)) 83
    (cstring "rcOver") (cstring "rc-Over") (by decide!) rfl (by decide!) (by decide!)
    (by decide!)
  have h2 := ParseCommandOption_ignores_dashes (ComposeOptions operatorIndex) true
    (OptionInfo.mk (cstring "SrcOver") (operatorIndex SrcOverCompositeOp)) 83
    (cstring "rcOver") (cstring "rc_O-ver") (by decide!) rfl (by decide!) (by decide!)
    (by decide!)
  have h3 : ParseCommandOption (some (ComposeOptions operatorIndex)) false
      (cstring "SrcOver") = some (operatorIndex SrcOverCompositeOp) := by decide!
  have h4 : ParseCommandOption (some (ComposeOptions operatorIndex)) true
      (cstring "SrcOver") = some (operatorIndex SrcOverCompositeOp) := by decide!
  exact ⟨h1.1, h3, h2.1.trans h4⟩

/-! ## OilPaintImage -/

/-- C31 fails on the code for an image with four samples per pixel
(`whiteOverBlack`, width 3, the pixel of column 1 and row 1). The
neighbourhood has five black pixels (bin 0), three white pixels (bin 255) and
one mid-grey pixel (bin 128). The intensities are read at the pointers
`p+u+i`, which advance by samples and not by pixels, so all nine fall on the
white row 0 of the window; `j` ends at the last position, `2*(columns+3)+2`,
and the output pixel is the mid-grey pixel of column 2 and row 2, whose bin
has the count 1. -/
theorem OilPaintImage_bin_divergence :
    (OilPaintImage lumaOilPaint reliableView whiteOverBlack 3).map
        (fun pixels => (List.range 4).map (pixels 1 1)) =
      some [32768, 32768, 32768, OpaqueAlpha] ∧
    (List.range 4).map (whiteOverBlack.pixels 2 2) = [32768, 32768, 32768, OpaqueAlpha] ∧
    OilPaintNeighbourhoodBins lumaOilPaint reliableView whiteOverBlack 3 1 1 =
      [255, 255, 255, 0, 0, 0, 0, 0, 128] ∧
    (OilPaintHistogram lumaOilPaint whiteOverBlack 3
      (OilPaintWindow reliableView whiteOverBlack 3 1) (1 * GetPixelComponents whiteOverBlack)).j
      = 20 ∧
    (OilPaintHistogram lumaOilPaint whiteOverBlack 3
      (OilPaintWindow reliableView whiteOverBlack 3 1)
      (1 * GetPixelComponents whiteOverBlack)).histogram 255 = 9 :=
  ⟨by decide!, by decide!, by decide!, by decide!, by decide!⟩

/-! ## TransparentPaintImageChroma -/

theorem TransparentChromaRow_status (cache : ViewOracle) (image : Image)
    (low high : PixelInfo) (opacity : Quantum) (invert : Bool) (s : EffectState) (y : ℕ)
    (h : (TransparentChromaRow cache image low high opacity invert s y).status = true) :
    s.status = true ∧
    (TransparentChromaRow cache image low high opacity invert s y).pixels =
      Function.update s.pixels y
        (fun x => if x < image.columns then
            TransparentChromaPixel image low high opacity invert (s.pixels y x)
          else s.pixels y x) := by
  unfold TransparentChromaRow at h ⊢
  by_cases hs : s.status = false
  · rw [if_pos hs] at h
    rw [hs] at h
    exact absurd h (by decide)
  · rw [if_neg hs] at h ⊢
    by_cases ha : cache.getAuthenticPixels y = false
    · rw [if_pos ha] at h
      simp at h
    · rw [if_neg ha] at h ⊢
      refine ⟨by simpa using hs, ?_⟩
      rw [EffectSync_status _ _ _ _ h]
      have hrow : (List.range image.columns).foldl
          (fun (q : PixelRow) (x : ℕ) =>
            Function.update q x (TransparentChromaPixel image low high opacity invert (q x)))
          (s.pixels y) =
          (fun x => if x < image.columns then
            TransparentChromaPixel image low high opacity invert (s.pixels y x)
          else s.pixels y x) := by
        funext x
        exact foldl_range_update
          (fun _ q => TransparentChromaPixel image low high opacity invert q)
          image.columns (s.pixels y) x
      rw [hrow]

theorem TransparentChromaRow_succeeds (cache : ViewOracle) (image : Image)
    (low high : PixelInfo) (opacity : Quantum) (invert : Bool) (s : EffectState) (y : ℕ)
    (hc : ViewSucceeds cache) (hs : s.status = true) :
    (TransparentChromaRow cache image low high opacity invert s y).status = true := by
  unfold TransparentChromaRow
  rw [if_neg (by simp [hs]), if_neg (by simp [hc.2.1 y])]
  exact EffectSync_succeeds _ _ _ _ hc

theorem TransparentChromaRow_rows (cache : ViewOracle) (image : Image)
    (low high : PixelInfo) (opacity : Quantum) (invert : Bool) (n : ℕ) (s0 : EffectState)
    (h : ((List.range n).foldl (TransparentChromaRow cache image low high opacity invert)
      s0).status = true) :
    ∀ y, ((List.range n).foldl (TransparentChromaRow cache image low high opacity invert)
      s0).pixels y =
      if y < n then
        (fun x => if x < image.columns then
            TransparentChromaPixel image low high opacity invert (s0.pixels y x)
          else s0.pixels y x)
      else s0.pixels y := by
  induction n with
  | zero => intro y; simp
  | succ n ih =>
    rw [List.range_succ, List.foldl_append] at h ⊢
    simp only [List.foldl_cons, List.foldl_nil] at h ⊢
    obtain ⟨hs, hp⟩ := TransparentChromaRow_status _ _ _ _ _ _ _ _ h
    intro y
    rw [hp]
    by_cases hyn : y = n
    · subst hyn
      rw [Function.update_same, if_pos (Nat.lt_succ_self _), ih hs y, if_neg (Nat.lt_irrefl _)]
    · rw [Function.update_noteq hyn, ih hs y]
      by_cases hlt : y < n
      · rw [if_pos hlt, if_pos (Nat.lt_succ_of_lt hlt)]
      · rw [if_neg hlt, if_neg (by omega)]

/-- C32: `TransparentPaintImageChroma` returns `MagickTrue` when
`SetImageStorageClass` succeeds and no cache access or progress callback
fails; and whenever it returns `MagickTrue`, for every pixel of the image:
its alpha sample is the given opacity when the test (red, green and blue each
between the sample of `low` and the sample of `high`) differs from `invert`,
and is otherwise unchanged (opaque when `image->matte` was false); and its
samples at the other offsets, the colour channels among them, are
unchanged. -/
theorem TransparentPaintImageChroma_alpha (cache : ViewOracle) (setImageStorageClass : Bool)
    (image : Image) (matte : Bool) (low high : PixelInfo) (opacity : Quantum) (invert : Bool)
    (hoff : image.offset PixelChannel.Red ≠ image.offset PixelChannel.Alpha ∧
      image.offset PixelChannel.Green ≠ image.offset PixelChannel.Alpha ∧
      image.offset PixelChannel.Blue ≠ image.offset PixelChannel.Alpha) :
    (setImageStorageClass = true → ViewSucceeds cache →
      (TransparentPaintImageChroma cache setImageStorageClass image matte low high opacity
        invert).1 = true) ∧
    ((TransparentPaintImageChroma cache setImageStorageClass image matte low high opacity
        invert).1 = true →
      ∀ y x, y < image.rows → x < image.columns →
        (TransparentPaintImageChroma cache setImageStorageClass image matte low high opacity
          invert).2 y x (image.offset PixelChannel.Alpha) =
          (if decide ((image.pixels y x (image.offset PixelChannel.Red)).toReal ≥ low.red ∧
                (image.pixels y x (image.offset PixelChannel.Red)).toReal ≤ high.red ∧
                (image.pixels y x (image.offset PixelChannel.Green)).toReal ≥ low.green ∧
                (image.pixels y x (image.offset PixelChannel.Green)).toReal ≤ high.green ∧
                (image.pixels y x (image.offset PixelChannel.Blue)).toReal ≥ low.blue ∧
                (image.pixels y x (image.offset PixelChannel.Blue)).toReal ≤ high.blue) ≠ invert
            then opacity
            else if matte = false then OpaqueAlpha
            else image.pixels y x (image.offset PixelChannel.Alpha)) ∧
        ∀ i, i ≠ image.offset PixelChannel.Alpha →
          (TransparentPaintImageChroma cache setImageStorageClass image matte low high opacity
            invert).2 y x i = image.pixels y x i) := by
  constructor
  · intro hsisc hc
    unfold TransparentPaintImageChroma
    rw [if_neg (by simp [hsisc])]
    exact foldl_status_succeeds _
      (fun s n hs => TransparentChromaRow_succeeds cache image low high opacity invert s n hc hs)
      _ _ rfl
  · intro h y x hy hx
    unfold TransparentPaintImageChroma at h ⊢
    by_cases hsisc : setImageStorageClass = false
    · rw [if_pos hsisc] at h
      simp at h
    · rw [if_neg hsisc] at h ⊢
      simp only at h ⊢
      rw [TransparentChromaRow_rows cache image low high opacity invert image.rows _ h y,
        if_pos hy]
      simp only
      rw [if_pos hx]
      have hmatch : ChromaMatch image low high (TransparentChromaStart image matte y x) =
          decide ((image.pixels y x (image.offset PixelChannel.Red)).toReal ≥ low.red ∧
            (image.pixels y x (image.offset PixelChannel.Red)).toReal ≤ high.red ∧
            (image.pixels y x (image.offset PixelChannel.Green)).toReal ≥ low.green ∧
            (image.pixels y x (image.offset PixelChannel.Green)).toReal ≤ high.green ∧
            (image.pixels y x (image.offset PixelChannel.Blue)).toReal ≥ low.blue ∧
            (image.pixels y x (image.offset PixelChannel.Blue)).toReal ≤ high.blue) := by
        unfold ChromaMatch SetPixelInfo GetPixelRed GetPixelGreen GetPixelBlue
          TransparentChromaStart
        by_cases hm : matte = false
        · rw [if_pos hm]
          simp only [Function.update_noteq hoff.1, Function.update_noteq hoff.2.1,
            Function.update_noteq hoff.2.2]
        · rw [if_neg hm]
      unfold TransparentChromaPixel
      rw [hmatch]
      have hstart : ∀ i, i ≠ image.offset PixelChannel.Alpha →
          TransparentChromaStart image matte y x i = image.pixels y x i := by
        intro i hi
        unfold TransparentChromaStart
        by_cases hm : matte = false
        · rw [if_pos hm]
          exact Function.update_noteq hi _ _
        · rw [if_neg hm]
      have halpha : TransparentChromaStart image matte y x (image.offset PixelChannel.Alpha) =
          (if matte = false then OpaqueAlpha
            else image.pixels y x (image.offset PixelChannel.Alpha)) := by
        unfold TransparentChromaStart
        by_cases hm : matte = false
        · rw [if_pos hm, if_pos hm]
          exact Function.update_same _ _ _
        · rw [if_neg hm, if_neg hm]
      by_cases hc : decide ((image.pixels y x (image.offset PixelChannel.Red)).toReal ≥ low.red ∧
          (image.pixels y x (image.offset PixelChannel.Red)).toReal ≤ high.red ∧
          (image.pixels y x (image.offset PixelChannel.Green)).toReal ≥ low.green ∧
          (image.pixels y x (image.offset PixelChannel.Green)).toReal ≤ high.green ∧
          (image.pixels y x (image.offset PixelChannel.Blue)).toReal ≥ low.blue ∧
          (image.pixels y x (image.offset PixelChannel.Blue)).toReal ≤ high.blue) ≠ invert
      · rw [if_pos hc, if_pos hc]
        refine ⟨?_, fun i hi => ?_⟩
        · unfold SetPixelAlpha
          exact Function.update_same _ _ _
        · unfold SetPixelAlpha
          rw [Function.update_noteq hi]
          exact hstart i hi
      · rw [if_neg hc, if_neg hc]
        exact ⟨halpha, hstart⟩

/-- The image `redOverBlue` (a red pixel above a blue pixel, both opaque) with
the range from (0, 0, 60000) to (0, 0, 65535) and the opacity 0: the blue
pixel becomes transparent, the red pixel keeps its alpha, and the colour
samples of both are unchanged. -/
theorem TransparentPaintImageChroma_alpha_witness :
    (redOverBlue.offset PixelChannel.Red ≠ redOverBlue.offset PixelChannel.Alpha ∧
      redOverBlue.offset PixelChannel.Green ≠ redOverBlue.offset PixelChannel.Alpha ∧
      redOverBlue.offset PixelChannel.Blue ≠ redOverBlue.offset PixelChannel.Alpha) ∧
    (TransparentPaintImageChroma reliableView true redOverBlue true
      { red := 0, green := 0, blue := 60000, black := 0, alpha := 0 }
      { red := 0, green := 0, blue := 65535, black := 0, alpha := 0 } 0 false).1 = true ∧
    (TransparentPaintImageChroma reliableView true redOverBlue true
      { red := 0, green := 0, blue := 60000, black := 0, alpha := 0 }
      { red := 0, green := 0, blue := 65535, black := 0, alpha := 0 } 0 false).2 1 0 3 = 0 ∧
    (TransparentPaintImageChroma reliableView true redOverBlue true
      { red := 0, green := 0, blue := 60000, black := 0, alpha := 0 }
      { red := 0, green := 0, blue := 65535, black := 0, alpha := 0 } 0 false).2 0 0 3 =
        OpaqueAlpha ∧
    ∀ i, i ≠ redOverBlue.offset PixelChannel.Alpha →
      (TransparentPaintImageChroma reliableView true redOverBlue true
        { red := 0, green := 0, blue := 60000, black := 0, alpha := 0 }
        { red := 0, green := 0, blue := 65535, black := 0, alpha := 0 } 0 false).2 1 0 i =
        redOverBlue.pixels 1 0 i :=
  have hoff : redOverBlue.offset PixelChannel.Red ≠ redOverBlue.offset PixelChannel.Alpha ∧
      redOverBlue.offset PixelChannel.Green ≠ redOverBlue.offset PixelChannel.Alpha ∧
      redOverBlue.offset PixelChannel.Blue ≠ redOverBlue.offset PixelChannel.Alpha := by decide
  have h := TransparentPaintImageChroma_alpha reliableView true redOverBlue true
    { red := 0, green := 0, blue := 60000, black := 0, alpha := 0 }
    { red := 0, green := 0, blue := 65535, black := 0, alpha := 0 } 0 false hoff
  ⟨hoff, h.1 rfl reliableView_succeeds, by decide!, by decide!,
    (h.2 (h.1 rfl reliableView_succeeds) 1 0 (by decide) (by decide)).2⟩

/-! ## Row order in CompositeOverImage -/

/-- The composite of a row does not read the pixel store of the destination
image: it is a function of the row handed to it. -/
theorem CompositeOverRowPixels_store (cache : CacheOracle) (image composite_image : Image)
    (clip_to_self : Bool) (x_offset y_offset : ℤ) (y : ℕ) (row : PixelRow)
    (store : ℕ → PixelRow) :
    CompositeOverRowPixels cache { image with pixels := store } composite_image clip_to_self
        x_offset y_offset y row =
      CompositeOverRowPixels cache image composite_image clip_to_self x_offset y_offset y row :=
  rfl

/-- A list of distinct numbers below `n` has at most `n` entries. -/
theorem nodup_length_le (l : List ℕ) (n : ℕ) (hnd : l.Nodup) (hlt : ∀ y ∈ l, y < n) :
    l.length ≤ n := by
  have h1 : l.toFinset ⊆ Finset.range n := by
    intro y hy
    rw [List.mem_toFinset] at hy
    exact Finset.mem_range.mpr (hlt y hy)
  have h2 := Finset.card_le_card h1
  rw [List.toFinset_card_of_nodup hnd, Finset.card_range] at h2
  exact h2

/-- When nothing fails, the state after the rows of `order`, distinct rows of
the image taken in any order: `status` is true and exactly the rows of
`order` are composited, each from its prior contents. -/
theorem CompositeOverImageInOrder_rows (cache : CacheOracle)
    (image composite_image : Image) (clip_to_self : Bool) (x_offset y_offset : ℤ)
    (hnf : NoFailure cache image.rows) (order : List ℕ) (hnd : order.Nodup)
    (hlt : ∀ y ∈ order, y < image.rows) :
    (CompositeOverImageInOrder cache image composite_image clip_to_self x_offset y_offset
      order).status = true ∧
    (CompositeOverImageInOrder cache image composite_image clip_to_self x_offset y_offset
      order).progress ≤ order.length ∧
    ∀ y, (CompositeOverImageInOrder cache image composite_image clip_to_self x_offset y_offset
      order).pixels y =
        if y ∈ order then
          CompositeOverRowPixels cache image composite_image clip_to_self x_offset y_offset y
            (image.pixels y)
        else image.pixels y := by
  induction order using List.reverseRecOn with
  | nil => exact ⟨rfl, le_refl _, fun y => by simp [CompositeOverImageInOrder]⟩
  | append_singleton l a ih =>
    have hnd2 : l.Nodup ∧ a ∉ l := by
      rw [List.nodup_append] at hnd
      refine ⟨hnd.1, fun h => ?_⟩
      exact hnd.2.2 h (List.mem_singleton_self a)
    obtain ⟨h1, h2, h3⟩ := ih hnd2.1 (fun y hy => hlt y (List.mem_append_left _ hy))
    have hlen := nodup_length_le (l ++ [a]) image.rows hnd hlt
    simp only [List.length_append, List.length_singleton] at hlen
    have ha : a < image.rows := hlt a (List.mem_append_right _ (List.mem_singleton_self a))
    have hstep : CompositeOverImageInOrder cache image composite_image clip_to_self x_offset
        y_offset (l ++ [a]) =
        CompositeOverRow cache image composite_image clip_to_self x_offset y_offset
          (CompositeOverImageInOrder cache image composite_image clip_to_self x_offset
            y_offset l) a := by
      unfold CompositeOverImageInOrder
      rw [List.foldl_append]
      rfl
    rw [hstep]
    obtain ⟨r1, r2, r3⟩ := CompositeOverRow_of_succeeds cache image composite_image
      clip_to_self x_offset y_offset _ a h1 (hnf a ha _ (by omega))
    refine ⟨r1, by simp only [List.length_append, List.length_singleton]; omega, fun y => ?_⟩
    by_cases hya : y = a
    · subst hya
      rw [r3, h3 y, if_neg hnd2.2, if_pos (List.mem_append_right _ (List.mem_singleton_self y))]
    · rw [CompositeOverRow_frame _ _ _ _ _ _ _ _ _ hya, h3 y]
      have hmem : y ∈ l ++ [a] ↔ y ∈ l := by
        rw [List.mem_append, List.mem_singleton]
        exact ⟨fun h => h.resolve_right hya, Or.inl⟩
      by_cases hyl : y ∈ l
      · rw [if_pos hyl, if_pos (hmem.mpr hyl)]
      · rw [if_neg hyl, if_neg (fun h => hyl (hmem.mp h))]

/-- C33 fails when the progress monitor cancels, although no acquisition and
no sync fails: the first row taken is composited and committed, the monitor
then clears `status`, and every other row is skipped. With the 4x4 red image
over the 4x4 blue image, the ascending order leaves the row 0 red and the
row 3 blue, the descending order the row 3 red and the row 0 blue. -/
theorem CompositeOverImage_row_order_counterexample :
    (∀ y, cancellingCache.getVirtualPixels y = true ∧
      cancellingCache.getAuthenticPixels y = true ∧
      cancellingCache.syncAuthenticPixels y = true) ∧
    (CompositeOverImageInOrder cancellingCache blue4x4 red4x4 false 0 0
      [0, 1, 2, 3]).pixels 0 0 0 = OpaqueAlpha ∧
    (CompositeOverImageInOrder cancellingCache blue4x4 red4x4 false 0 0
      [3, 2, 1, 0]).pixels 0 0 0 = 0 ∧
    (CompositeOverImageInOrder cancellingCache blue4x4 red4x4 false 0 0
      [0, 1, 2, 3]).pixels 3 0 0 = 0 ∧
    (CompositeOverImageInOrder cancellingCache blue4x4 red4x4 false 0 0
      [3, 2, 1, 0]).pixels 3 0 0 = OpaqueAlpha :=
  ⟨fun _ => ⟨rfl, rfl, rfl⟩, by decide!, by decide!, by decide!, by decide!⟩

/-- C33 (amended): row independence in `CompositeOverImage`. The row a turn
of the loop writes for the destination row `y` is a function of the source
image, the offsets, the clip flag and the prior contents of that row (it does
not read the pixel store of the destination), and the turn leaves every other
row as it was; so when no acquisition or sync fails and the progress monitor
does not cancel, taking the rows of the image in any order gives `MagickTrue`
and the destination image that the ascending order gives. -/
theorem CompositeOverImage_row_order (cache : CacheOracle)
    (image composite_image : Image) (clip_to_self : Bool) (x_offset y_offset : ℤ)
    (hnf : NoFailure cache image.rows) (order : List ℕ)
    (horder : order.Perm (List.range image.rows)) :
    (∀ (s : CompositeState) (y : ℕ), s.status = true → RowSucceeds cache y s.progress →
      (CompositeOverRow cache image composite_image clip_to_self x_offset y_offset s y).pixels y
        = CompositeOverRowPixels cache { image with pixels := fun _ _ _ => 0 } composite_image
            clip_to_self x_offset y_offset y (s.pixels y) ∧
      ∀ y2, y2 ≠ y →
        (CompositeOverRow cache image composite_image clip_to_self x_offset y_offset s
          y).pixels y2 = s.pixels y2) ∧
    (CompositeOverImageInOrder cache image composite_image clip_to_self x_offset y_offset
      order).status = true ∧
    (CompositeOverImageInOrder cache image composite_image clip_to_self x_offset y_offset
      order).pixels =
      (CompositeOverImage cache image composite_image clip_to_self x_offset y_offset).pixels := by
  have hnd : order.Nodup := horder.nodup_iff.mpr (List.nodup_range _)
  have hmem : ∀ y, y ∈ order ↔ y ∈ List.range image.rows := fun y => horder.mem_iff
  have h1 := CompositeOverImageInOrder_rows cache image composite_image clip_to_self x_offset
    y_offset hnf order hnd (fun y hy => List.mem_range.mp ((hmem y).mp hy))
  have h2 := CompositeOverImageInOrder_rows cache image composite_image clip_to_self x_offset
    y_offset hnf (List.range image.rows) (List.nodup_range _)
    (fun y hy => List.mem_range.mp hy)
  refine ⟨fun s y hs hy => ⟨?_, fun y2 h => CompositeOverRow_frame _ _ _ _ _ _ _ _ _ h⟩,
    h1.1, ?_⟩
  · rw [CompositeOverRowPixels_store]
    exact (CompositeOverRow_of_succeeds cache image composite_image clip_to_self x_offset
      y_offset s y hs hy).2.2
  · funext y
    have h3 : (CompositeOverImage cache image composite_image clip_to_self x_offset
        y_offset).pixels y = (CompositeOverImageInOrder cache image composite_image
        clip_to_self x_offset y_offset (List.range image.rows)).pixels y := rfl
    rw [h3, h1.2.2 y, h2.2.2 y]
    by_cases hy : y ∈ order
    · rw [if_pos hy, if_pos ((hmem y).mp hy)]
    · rw [if_neg hy, if_neg (fun h => hy ((hmem y).mpr h))]

/-- The 4x4 red image over the 4x4 blue image with a cache that never fails:
the descending order of the rows gives the image of the ascending order. -/
theorem CompositeOverImage_row_order_witness :
    NoFailure reliableCache blue4x4.rows ∧
    [3, 2, 1, 0].Perm (List.range blue4x4.rows) ∧
    (CompositeOverImageInOrder reliableCache blue4x4 red4x4 false 0 0
      [3, 2, 1, 0]).pixels 3 0 0 = OpaqueAlpha ∧
    (CompositeOverImageInOrder reliableCache blue4x4 red4x4 false 0 0
      [3, 2, 1, 0]).pixels =
      (CompositeOverImage reliableCache blue4x4 red4x4 false 0 0).pixels :=
  ⟨reliableCache_noFailure _, by decide, by decide!,
    (CompositeOverImage_row_order reliableCache blue4x4 red4x4 false 0 0
      (reliableCache_noFailure _) [3, 2, 1, 0] (by decide)).2.2⟩

/-! ## CompositeImage with CopyCompositeOp -/

/-- C35 fails on the code, at the table with the entries `Copy` (type 1) and
`Over` (type 2) and the list `Copy,Over,!Over` in list mode: the `!` is
passed over before the token is copied, the test `*token == '!'` is then
false, and the type of `Over` is set again; the result is 3, where the claim
gives 1, the type of `Copy` with the bits of the type of `Over` removed. With
`|` as the separator the result is the same. -/
theorem ParseCommandOption_negation_divergence :
    ParseCommandOption (some letterOptions) true (cstring "Copy,Over,!Over") = some 3 ∧
    ParseCommandOption (some letterOptions) true (cstring "Copy|Over|!Over") = some 3 ∧
    ParsedTokens true 44 16 (cstring "Copy,Over,!Over") =
      [cstring "Copy", cstring "Over", cstring "Over"] ∧
    ParseCommandOption (some letterOptions) true (cstring "Copy") = some 1 ∧
    Int.land (Int.lor 1 2) (Int.lnot 2) = 1 := by
  decide!

end ImageMagick
